import Mathlib

/-!
# The psychec C parser: a shallow embedding

Definitions come first (the data model, the token cursor, the identifier-role
oracle, the specifier, declarator, initializer and expression parsers), the
theorems follow.

Conventions of the embedding.

* A token index slot (`LexedTokens::IndexType`) is an `Option Nat`; `none` is
  `LexedTokens::invalidIndex()`, which is also what a freshly made node holds.
* A child slot that may be null is an `Option`; a linked list of nodes is a
  `List`, a separated list a `List` of (node, delimiter index) pairs.
* A parsing method `bool Parser::parseX(NodeT*& out)` becomes a function that
  takes the incoming value of `out` and the parser, and gives back the returned
  flag, the outgoing value of `out` and the parser after the call.
* The methods call one another recursively; the recursion is cut by a fuel
  counter (`ParserTable.ofFuel`), one unit per call through the table.
* Code of the repository that is not among the source files is either
  modelled from the specification (said so in the doc comment) or, when the
  specification does not describe it, taken as a parameter (`Externals`).
-/

set_option maxHeartbeats 1000000

namespace PsycheC

/-! ## Syntax kinds -/

/-- The `SyntaxKind` enumeration: the token kinds and the node kinds that the
parser sources name (the enumeration itself is declared outside of them). -/
inductive SyntaxKind
  | UnknownSyntax
  | EndOfFile
  -- identifiers, constants, string literals
  | IdentifierToken
  | IntegerConstantToken
  | FloatingConstantToken
  | CharacterConstantToken
  | CharacterConstant_L_Token
  | CharacterConstant_u_Token
  | CharacterConstant_U_Token
  | StringLiteralToken
  | StringLiteral_L_Token
  | StringLiteral_u8_Token
  | StringLiteral_u_Token
  | StringLiteral_U_Token
  | StringLiteral_R_Token
  | StringLiteral_LR_Token
  | StringLiteral_u8R_Token
  | StringLiteral_uR_Token
  | StringLiteral_UR_Token
  -- punctuators
  | EllipsisToken
  | OpenBraceToken
  | CloseBraceToken
  | OpenBracketToken
  | CloseBracketToken
  | OpenParenToken
  | CloseParenToken
  | SemicolonToken
  | CommaToken
  | DotToken
  | ArrowToken
  | ColonToken
  | QuestionToken
  | PlusPlusToken
  | MinusMinusToken
  | AmpersandToken
  | AsteriskToken
  | PlusToken
  | MinusToken
  | TildeToken
  | ExclamationToken
  | SlashToken
  | PercentToken
  | LessThanLessThanToken
  | GreaterThanGreaterThanToken
  | LessThanToken
  | GreaterThanToken
  | LessThanEqualsToken
  | GreaterThanEqualsToken
  | EqualsEqualsToken
  | ExclamationEqualsToken
  | CaretToken
  | BarToken
  | AmpersandAmpersandToken
  | BarBarToken
  | EqualsToken
  | AsteriskEqualsToken
  | SlashEqualsToken
  | PercentEqualsToken
  | PlusEqualsToken
  | MinusEqualsToken
  | LessThanLessThanEqualsToken
  | GreaterThanGreaterThanEqualsToken
  | AmpersandEqualsToken
  | CaretEqualsToken
  | BarEqualsToken
  -- keywords
  | Keyword_auto
  | Keyword_break
  | Keyword_case
  | Keyword_char
  | Keyword_const
  | Keyword_continue
  | Keyword_default
  | Keyword_do
  | Keyword_double
  | Keyword_else
  | Keyword_enum
  | Keyword_extern
  | Keyword_float
  | Keyword_for
  | Keyword_goto
  | Keyword_if
  | Keyword_inline
  | Keyword_int
  | Keyword_long
  | Keyword_register
  | Keyword_restrict
  | Keyword_return
  | Keyword_short
  | Keyword_signed
  | Keyword_sizeof
  | Keyword_static
  | Keyword_struct
  | Keyword_switch
  | Keyword_typedef
  | Keyword_union
  | Keyword_unsigned
  | Keyword_void
  | Keyword_volatile
  | Keyword_while
  | Keyword__Alignas
  | Keyword__Alignof
  | Keyword__Atomic
  | Keyword__Bool
  | Keyword__Complex
  | Keyword__Generic
  | Keyword__Noreturn
  | Keyword__Static_assert
  | Keyword__Thread_local
  | Keyword_Ext_char16_t
  | Keyword_Ext_char32_t
  | Keyword_Ext_wchar_t
  | Keyword_Ext_false
  | Keyword_Ext_true
  | Keyword_Ext_NULL
  | Keyword_Ext_nullptr
  | Keyword_ExtGNU___asm__
  | Keyword_ExtGNU___attribute__
  | Keyword_ExtGNU___extension__
  | Keyword_ExtGNU___thread
  | Keyword_ExtGNU___typeof__
  | Keyword_ExtPSY__Exists
  | Keyword_ExtPSY__Forall
  | Keyword_ExtPSY__Template
  | Keyword_ExtPSY_omission
  -- specifier kinds
  | TypedefStorageClass
  | ExternStorageClass
  | StaticStorageClass
  | AutoStorageClass
  | RegisterStorageClass
  | ThreadLocalStorageClass
  | ConstQualifier
  | VolatileQualifier
  | RestrictQualifier
  | AtomicQualifier
  | InlineSpecifier
  | NoReturnSpecifier
  | BuiltinTypeSpecifier
  | StructTypeSpecifier
  | UnionTypeSpecifier
  | EnumTypeSpecifier
  | StructDeclaration
  | UnionDeclaration
  | EnumDeclaration
  | AtomicTypeSpecifier
  | AlignmentSpecifier
  | TypedefName
  | ExtGNU_Typeof
  | ExtGNU_AttributeSpecifier
  | ExtGNU_AsmLabel
  | ExtPSY_QuantifiedTypeSpecifier
  | TypeDeclarationAsSpecifier
  -- declarator kinds
  | IdentifierDeclarator
  | PointerDeclarator
  | ParenthesizedDeclarator
  | AbstractDeclarator
  | ArrayDeclarator
  | FunctionDeclarator
  | BitfieldDeclarator
  -- expression kinds
  | IdentifierExpression
  | IntegerConstantExpression
  | FloatingConstantExpression
  | CharacterConstantExpression
  | BooleanConstantExpression
  | NULL_ConstantExpression
  | StringLiteralExpression
  | ParenthesizedExpression
  | GenericSelectionExpression
  | TypedGenericAssociation
  | DefaultGenericAssociation
  | ExtGNU_EnclosedCompoundStatementExpression
  | ElementAccessExpression
  | CallExpression
  | DirectMemberAccessExpression
  | IndirectMemberAccessExpression
  | PostIncrementExpression
  | PostDecrementExpression
  | CompoundLiteralExpression
  | PreIncrementExpression
  | PreDecrementExpression
  | AddressOfExpression
  | PointerIndirectionExpression
  | UnaryPlusExpression
  | UnaryMinusExpression
  | BitwiseNotExpression
  | LogicalNotExpression
  | SizeofExpression
  | AlignofExpression
  | CastExpression
  | MultiplyExpression
  | DivideExpression
  | RemainderExpression
  | AddExpression
  | SubstractExpression
  | LeftShiftExpression
  | RightShiftExpression
  | LessThanExpression
  | LessThanOrEqualExpression
  | GreaterThanExpression
  | GreaterThanOrEqualExpression
  | EqualsExpression
  | NotEqualsExpression
  | BitwiseANDExpression
  | ExclusiveORExpression
  | BitwiseORExpression
  | LogicalANDExpression
  | LogicalORExpression
  | ConditionalExpression
  | BasicAssignmentExpression
  | MultiplyAssignmentExpression
  | DivideAssignmentExpression
  | RemainderAssignmentExpression
  | AddAssignmentExpression
  | SubstractAssignmentExpression
  | LeftShiftAssignmentExpression
  | RightShiftAssignmentExpression
  | AndAssignmentExpression
  | ExclusiveOrAssignmentExpression
  | OrAssignmentExpression
  | SequencingExpression
  | AmbiguousCastOrBinaryExpression
deriving DecidableEq, Repr

open SyntaxKind

/-- A token index slot, `LexedTokens::IndexType`; `none` stands for
`LexedTokens::invalidIndex()`. -/
abbrev IndexType := Option Nat

/-! ## The syntax tree -/

/-- A node built by a sub-parser that is taken as a parameter (see
`Externals`): nothing but its identity is known. -/
structure ExternalNode where
  handle : Nat
deriving DecidableEq, Repr

/-- The two scopes a declarator is validated against that the modelled code
distinguishes, with file scope: `DeclarationScope`. -/
inductive DeclarationScope
  | File
  | Block
  | FunctionPrototype
deriving DecidableEq, Repr

/-- Whether a declarator names something: `DeclaratorVariety`. -/
inductive DeclaratorVariety
  | Named
  | Abstract
deriving DecidableEq, Repr

mutual

/-- The expression nodes, `ExpressionSyntax` and its subclasses, each with the
slots the parser fills. `ExtensionMarked idx e` is the node `e` with its
`extKwTkIdx_` slot set to `idx` (the slot exists on every expression node and
is only ever written for a `__extension__` prefix). -/
inductive ExpressionSyntax
  | IdentifierExpression (identTkIdx_ : IndexType)
  | ConstantExpression (kind : SyntaxKind) (constantTkIdx_ : IndexType)
  | StringLiteralExpression (litTkIdx_ : IndexType) (adjacent_ : Option ExpressionSyntax)
  | ParenthesizedExpression (openParenTkIdx_ : IndexType)
      (expr_ : Option ExpressionSyntax) (closeParenTkIdx_ : IndexType)
  | ExtGNU_EnclosedCompoundStatementExpression (openParenTkIdx_ : IndexType)
      (stmt_ : Option ExternalNode) (closeParenTkIdx_ : IndexType)
  | GenericSelectionExpression (genericKwTkIdx_ : IndexType) (openParenTkIdx_ : IndexType)
      (expr_ : Option ExpressionSyntax) (commaTkIdx_ : IndexType)
      (assocs_ : List (Option GenericAssociationSyntax × IndexType))
      (closeParenTkIdx_ : IndexType)
  | ArraySubscriptExpression (expr_ : Option ExpressionSyntax) (openBracketTkIdx_ : IndexType)
      (arg_ : Option ExpressionSyntax) (closeBracketTkIdx_ : IndexType)
  | CallExpression (expr_ : Option ExpressionSyntax) (openParenTkIdx_ : IndexType)
      (args_ : List (Option ExpressionSyntax × IndexType)) (closeParenTkIdx_ : IndexType)
  | MemberAccessExpression (kind : SyntaxKind) (expr_ : Option ExpressionSyntax)
      (oprtrTkIdx_ : IndexType) (identExpr_ : Option ExpressionSyntax)
  | PostfixUnaryExpression (kind : SyntaxKind) (expr_ : Option ExpressionSyntax)
      (oprtrTkIdx_ : IndexType)
  | CompoundLiteralExpression (openParenTkIdx_ : IndexType) (typeName_ : Option TypeNameSyntax)
      (closeParenTkIdx_ : IndexType) (init_ : Option InitializerSyntax)
  | PrefixUnaryExpression (kind : SyntaxKind) (oprtrTkIdx_ : IndexType)
      (expr_ : Option ExpressionSyntax)
  | TypeTraitExpression (kind : SyntaxKind) (oprtrTkIdx_ : IndexType)
      (tyRef_ : Option ExternalNode)
  | CastExpression (openParenTkIdx_ : IndexType) (typeName_ : Option TypeNameSyntax)
      (closeParenTkIdx_ : IndexType) (expr_ : Option ExpressionSyntax)
  | ConditionalExpression (condExpr_ : Option ExpressionSyntax) (questionTkIdx_ : IndexType)
      (whenTrueExpr_ : Option ExpressionSyntax) (colonTkIdx_ : IndexType)
      (whenFalseExpr_ : Option ExpressionSyntax)
  | BinaryExpression (kind : SyntaxKind) (leftExpr_ : Option ExpressionSyntax)
      (oprtrTkIdx_ : IndexType) (rightExpr_ : Option ExpressionSyntax)
  | AssignmentExpression (kind : SyntaxKind) (leftExpr_ : Option ExpressionSyntax)
      (oprtrTkIdx_ : IndexType) (rightExpr_ : Option ExpressionSyntax)
  | SequencingExpression (leftExpr_ : Option ExpressionSyntax)
      (oprtrTkIdx_ : IndexType) (rightExpr_ : Option ExpressionSyntax)
  | AmbiguousCastOrBinaryExpression (castExpr_ : Option ExpressionSyntax)
      (binExpr_ : Option ExpressionSyntax)
  | ExtensionMarked (extKwTkIdx_ : IndexType) (expr : ExpressionSyntax)

/-- One association of a generic selection: `GenericAssociationSyntax`. Its
`typeName_or_default_` slot holds a type name or, for `default`, an
identifier expression. -/
inductive GenericAssociationSyntax
  | TypedGenericAssociation (typeName_ : Option TypeNameSyntax) (colonTkIdx_ : IndexType)
      (expr_ : Option ExpressionSyntax)
  | DefaultGenericAssociation (default_ : Option ExpressionSyntax) (colonTkIdx_ : IndexType)
      (expr_ : Option ExpressionSyntax)

/-- A type name, `TypeNameSyntax`: a specifier list and a declarator. -/
inductive TypeNameSyntax
  | mk (specs_ : List (Option SpecifierSyntax)) (decltor_ : Option DeclaratorSyntax)

/-- The specifier nodes, `SpecifierSyntax` and its subclasses. The tagged-type,
attribute and asm-label specifiers are built by sub-parsers taken as
parameters and are carried with their kind only. The type declaration of a
`TypeDeclarationAsSpecifier` is built by such a sub-parser as well. -/
inductive SpecifierSyntax
  | StorageClass (kind : SyntaxKind) (specTkIdx_ : IndexType)
  | BuiltinTypeSpecifier (specTkIdx_ : IndexType)
  | TypeQualifier (kind : SyntaxKind) (specTkIdx_ : IndexType)
  | FunctionSpecifier (kind : SyntaxKind) (specTkIdx_ : IndexType)
  | TypedefName (identTkIdx_ : IndexType)
  | AtomicTypeSpecifier (atomicKwTkIdx_ : IndexType) (openParenTkIdx_ : IndexType)
      (typeName_ : Option TypeNameSyntax) (closeParenTkIdx_ : IndexType)
  | AlignmentSpecifier (alignasKwTkIdx_ : IndexType) (tyRef_ : Option ExternalNode)
  | ExtGNU_Typeof (typeofKwTkIdx_ : IndexType) (tyRef_ : Option ExternalNode)
  | ExtPSY_QuantifiedTypeSpecifier (quantifierTkIdx_ : IndexType) (openParenTkIdx_ : IndexType)
      (identTkIdx_ : IndexType) (closeParenTkIdx_ : IndexType)
  | External (kind : SyntaxKind) (node : ExternalNode)
  | TypeDeclarationAsSpecifier (typeDecl_ : Option ExternalNode)

/-- The declarator nodes, `DeclaratorSyntax` and its subclasses. The pointer,
identifier and array-or-function declarators have the slots `equalsTkIdx_`
and `init_` of an initializer. -/
inductive DeclaratorSyntax
  | PointerDeclarator (attrs_ : List (Option SpecifierSyntax)) (asteriskTkIdx_ : IndexType)
      (qualsAndAttrs_ : List (Option SpecifierSyntax)) (innerDecltor_ : Option DeclaratorSyntax)
      (equalsTkIdx_ : IndexType) (init_ : Option InitializerSyntax)
  | IdentifierDeclarator (identTkIdx_ : IndexType) (attrs1_ : List (Option SpecifierSyntax))
      (attrs2_ : List (Option SpecifierSyntax))
      (equalsTkIdx_ : IndexType) (init_ : Option InitializerSyntax)
  | ParenthesizedDeclarator (openParenTkIdx_ : IndexType)
      (innerDecltor_ : Option DeclaratorSyntax) (closeParenTkIdx_ : IndexType)
  | AbstractDeclarator (attrs_ : List (Option SpecifierSyntax))
  | ArrayOrFunctionDeclarator (kind : SyntaxKind) (attrs1_ : List (Option SpecifierSyntax))
      (innerDecltor_ : Option DeclaratorSyntax) (suffix_ : Option DeclaratorSuffixSyntax)
      (attrs2_ : List (Option SpecifierSyntax))
      (equalsTkIdx_ : IndexType) (init_ : Option InitializerSyntax)
  | BitfieldDeclarator (innerDecltor_ : Option DeclaratorSyntax) (colonTkIdx_ : IndexType)
      (expr_ : Option ExpressionSyntax) (attrs_ : List (Option SpecifierSyntax))

/-- The declarator suffixes, `DeclaratorSuffixSyntax`. The parameter
declarations of a parameter suffix are built by a sub-parser taken as a
parameter. -/
inductive DeclaratorSuffixSyntax
  | ParameterSuffix (openParenTkIdx_ : IndexType) (decls_ : Option ExternalNode)
      (ellipsisTkIdx_ : IndexType) (closeParenTkIdx_ : IndexType) (psyOmitTkIdx_ : IndexType)
  | SubscriptSuffix (openBracketTkIdx_ : IndexType)
      (qualsAndAttrs1_ : List (Option SpecifierSyntax)) (staticKwTkIdx_ : IndexType)
      (qualsAndAttrs2_ : List (Option SpecifierSyntax)) (asteriskTkIdx_ : IndexType)
      (expr_ : Option ExpressionSyntax) (closeBracketTkIdx_ : IndexType)

/-- The initializer nodes, `InitializerSyntax` and its subclasses. -/
inductive InitializerSyntax
  | ExpressionInitializer (expr_ : Option ExpressionSyntax)
  | BraceEnclosedInitializer (openBraceTkIdx_ : IndexType)
      (initList_ : List (Option InitializerSyntax × IndexType)) (closeBraceTkIdx_ : IndexType)
  | DesignatedInitializer (desigs_ : List (Option DesignatorSyntax)) (equalsTkIdx_ : IndexType)
      (init_ : Option InitializerSyntax)

/-- The designator nodes, `DesignatorSyntax` and its subclasses. -/
inductive DesignatorSyntax
  | FieldDesignator (dotTkIdx_ : IndexType) (identTkIdx_ : IndexType)
  | ArrayDesignator (openBracketTkIdx_ : IndexType) (expr_ : Option ExpressionSyntax)
      (closeBracketTkIdx_ : IndexType)

end

/-! ## The parser state and the token cursor -/

/-- The language standard of the dialect, `LanguageDialect::Std`. -/
inductive LanguageStd
  | C89
  | C99
  | C11
deriving DecidableEq, Repr

/-- What the parser reads of the tree's options and dialect. -/
structure ParseOptions where
  std : LanguageStd
  isEnabled_ExtGNU_StatementExpressions : Bool
  isEnabled_ExtGNU_CompoundLiterals : Bool
  isEnabled_ExtGNU_DesignatedInitializers : Bool
  isEnabled_ExtGNU_Asm : Bool
  isEnabled_ExtGNU_AttributeSpecifiersLLVM : Bool
deriving DecidableEq, Repr

/-- The comparison `tree_->dialect().std() < LanguageDialect::Std::C99`. -/
def ParseOptions.stdBeforeC99 (o : ParseOptions) : Bool :=
  o.std = LanguageStd.C89

/-- The reports of the diagnostics reporter that the modelled code makes. -/
inductive Diagnostic
  | ExpectedToken (kind : SyntaxKind)
  | ExpectedTokenOfCategoryIdentifier
  | ExpectedTokenOfCategoryConstant
  | ExpectedTokenOfCategoryStringLiteral
  | ExpectedFIRSTofExpression
  | ExpectedFeature (name : String)
  | ExpectedFieldName
  | ExpectedFIRSTofSpecifierQualifier
  | ExpectedFIRSTofDirectDeclarator
  | UnexpectedPointerInArrayDeclarator
  | UnexpectedStaticOrTypeQualifiersInArrayDeclarator
  | ExpectedBraceEnclosedInitializerList
  | ExpectedFOLLOWofDesignatedInitializer
  | ExpectedFieldDesignator
  | ExpectedTypeSpecifier
  | UnexpectedInitializerOfDeclarator
  | ExpectedFOLLOWofDeclarator
  | ExpectedFOLLOWofInitializedDeclarator
  | ExpectedNamedParameterBeforeEllipsis
  | ExpectedFOLLOWofStructOrUnionOrEnum
  | ExpectedFIRSTofEnumerationConstant
  | ExpectedTokenWithin (kinds : List SyntaxKind)
deriving DecidableEq, Repr

/-- The state of a `Parser`: the lexed tokens of the tree (their kinds, which
is all the parser reads of a token), the cursor `curTkIdx_`, the expression
depth counter `depthOfExprs_`, the reports made so far (each with the index of
the token the cursor stood on), the options, and the compile-time constant
`MAX_DEPTH_OF_EXPRS`, whose value is declared outside of the sources and is
therefore a parameter. -/
structure Parser where
  tokens : List SyntaxKind
  curTkIdx_ : Nat
  depthOfExprs_ : Nat
  diagnostics : List (Diagnostic × Nat)
  options : ParseOptions
  MAX_DEPTH_OF_EXPRS : Nat
deriving DecidableEq, Repr

/-- Modelled from the spec: `peek(k)`, the kind of the token at current+k-1,
without advancing; a lookahead past the last token yields end-of-file. -/
def Parser.peek (p : Parser) (LA : Nat) : SyntaxKind :=
  p.tokens.getD (p.curTkIdx_ + LA - 1) EndOfFile

/-- Modelled from the spec: `consume()` returns the current token's index and
advances by one; at end-of-file it returns the invalid index (and stays). -/
def Parser.consume (p : Parser) : IndexType × Parser :=
  if p.peek 1 = EndOfFile then (none, p)
  else (some p.curTkIdx_, { p with curTkIdx_ := p.curTkIdx_ + 1 })

/-- A report of the diagnostics reporter, anchored at the current token. -/
def Parser.report (p : Parser) (d : Diagnostic) : Parser :=
  { p with diagnostics := p.diagnostics ++ [(d, p.curTkIdx_)] }

/-- Modelled from the spec: `match(expected_kind, out_idx)`: if the current
token has the expected kind it is consumed and its index stored; else
"expected kind" is reported, the slot keeps its value and false is returned. -/
def Parser.match_ (p : Parser) (expectedTkK : SyntaxKind) (tkIdx : IndexType) :
    Bool × IndexType × Parser :=
  if p.peek 1 = expectedTkK then
    let r := p.consume
    (true, r.1, r.2)
  else (false, tkIdx, p.report (Diagnostic.ExpectedToken expectedTkK))

/-- Modelled from the spec: a `Backtracker` captures the cursor position on
construction. -/
def Parser.Backtracker (p : Parser) : Nat := p.curTkIdx_

/-- Modelled from the spec: `backtrack()` restores the captured cursor
position (the cursor position only). -/
def Parser.backtrack (p : Parser) (BT : Nat) : Parser :=
  { p with curTkIdx_ := BT }

/-! ## Outcomes of a parsing method -/

/-- How a parsing method can end other than by returning. -/
inductive Fault
  /-- The fuel of the embedding ran out (no behaviour of the code). -/
  | outOfFuel
  /-- The code threw `std::runtime_error("maximum depth of expressions reached")`. -/
  | maximumDepthOfExpressions
  /-- The code called a member through a null pointer. -/
  | nullDereference
deriving DecidableEq, Repr

/-- The outcome of a parsing method: it returned `val` and left the parser
in state `parser`, or it did not return. -/
inductive Res (α : Type)
  | ok (val : α) (parser : Parser)
  | fault (f : Fault)
deriving Repr

/-- A parsing method: a function of the parser state. -/
def ParserM (α : Type) : Type := Parser → Res α

/-- Sequencing of two parsing steps. -/
def ParserM.bind {α β : Type} (m : ParserM α) (k : α → ParserM β) : ParserM β :=
  fun p => match m p with
    | Res.ok a q => k a q
    | Res.fault f => Res.fault f

instance : Monad ParserM where
  pure a := fun p => Res.ok a p
  bind := ParserM.bind

/-- The kind of the token at lookahead `LA`, as a step. -/
def peek (LA : Nat) : ParserM SyntaxKind := fun p => Res.ok (p.peek LA) p

/-- The step `consume()`. -/
def consume : ParserM IndexType := fun p => Res.ok p.consume.1 p.consume.2

/-- A report, as a step. -/
def report (d : Diagnostic) : ParserM Unit := fun p => Res.ok () (p.report d)

/-- The step `match(expectedTkK, &slot)`; gives the flag and the slot. -/
def match_ (expectedTkK : SyntaxKind) (tkIdx : IndexType) : ParserM (Bool × IndexType) :=
  fun p => Res.ok ((p.match_ expectedTkK tkIdx).1, (p.match_ expectedTkK tkIdx).2.1)
    (p.match_ expectedTkK tkIdx).2.2

/-- Construction of a `Backtracker`. -/
def newBacktracker : ParserM Nat := fun p => Res.ok p.Backtracker p

/-- The step `BT.backtrack()`. -/
def backtrack (BT : Nat) : ParserM Unit := fun p => Res.ok () (p.backtrack BT)

/-- The parser options, as a step. -/
def getOptions : ParserM ParseOptions := fun p => Res.ok p.options p

/-- A step that does not return. -/
def fail {α : Type} (f : Fault) : ParserM α := fun _ => Res.fault f

/-! ## The identifier-role oracle -/

/-- The answer of the oracle, `Parser::IdentifierRole`. -/
inductive IdentifierRole
  | AsDeclarator
  | AsTypedefName
deriving DecidableEq, Repr

/-- The loop of `Parser::determineIdentifierRole`: one iteration per unit of
fuel, with the local variables `LA`, `seenType` and `parenCnt` (a C `int`,
which can go below zero on an unmatched closing parenthesis). -/
def determineIdentifierRole_loop (p : Parser) :
    Nat → Nat → Bool → Int → Option IdentifierRole
  | 0, _, _, _ => none
  | fuel + 1, LA, seenType, parenCnt =>
    match p.peek LA with
    | IdentifierToken =>
      if seenType then some IdentifierRole.AsDeclarator
      else if parenCnt = 0 then some IdentifierRole.AsTypedefName
      else determineIdentifierRole_loop p fuel (LA + 1) true parenCnt
    -- type-specifier
    | Keyword_void | Keyword_char | Keyword_short | Keyword_int | Keyword_long
    | Keyword_float | Keyword_double | Keyword_signed | Keyword_unsigned
    | Keyword_Ext_char16_t | Keyword_Ext_char32_t | Keyword_Ext_wchar_t
    | Keyword__Bool | Keyword__Complex | Keyword_struct | Keyword_union | Keyword_enum =>
      if seenType then some IdentifierRole.AsDeclarator
      else determineIdentifierRole_loop p fuel (LA + 1) true parenCnt
    -- storage-class-specifier
    | Keyword_typedef | Keyword_extern | Keyword_static | Keyword_auto | Keyword_register
    | Keyword__Thread_local | Keyword_ExtGNU___thread =>
      determineIdentifierRole_loop p fuel (LA + 1) seenType parenCnt
    -- type-qualifier
    | Keyword_const | Keyword_volatile | Keyword_restrict | Keyword__Atomic =>
      determineIdentifierRole_loop p fuel (LA + 1) seenType parenCnt
    -- function-specifier
    | Keyword_inline | Keyword__Noreturn =>
      determineIdentifierRole_loop p fuel (LA + 1) seenType parenCnt
    -- alignment-specifier
    | Keyword__Alignas =>
      determineIdentifierRole_loop p fuel (LA + 1) seenType parenCnt
    -- attribute-specifier
    | Keyword_ExtGNU___attribute__ =>
      if parenCnt = 0 then some IdentifierRole.AsTypedefName
      else determineIdentifierRole_loop p fuel (LA + 1) seenType parenCnt
    -- pointer-declarator
    | AsteriskToken =>
      determineIdentifierRole_loop p fuel (LA + 1) seenType parenCnt
    | OpenParenToken =>
      determineIdentifierRole_loop p fuel (LA + 1) seenType (parenCnt + 1)
    | CloseParenToken =>
      if parenCnt - 1 = 0 then
        if seenType then some IdentifierRole.AsTypedefName
        else some IdentifierRole.AsDeclarator
      else determineIdentifierRole_loop p fuel (LA + 1) seenType (parenCnt - 1)
    | _ => some IdentifierRole.AsDeclarator

/-- The method `Parser::determineIdentifierRole(bool seenType) const`: the
scan starts with `parenCnt = 0` and `LA = 2`. It reads the parser and changes
nothing. The fuel is the number of tokens plus one; `none` would mean that
the loop had not ended within it. -/
def determineIdentifierRole (p : Parser) (seenType : Bool) : Option IdentifierRole :=
  determineIdentifierRole_loop p (p.tokens.length + 1) 2 seenType 0

/-- The built-in type keywords of the oracle's description: `void`, `char`,
`short`, `int`, `long`, `float`, `double`, `signed`, `unsigned`, `_Bool`,
`_Complex`, `struct`, `union`, `enum`, `char16_t`, `char32_t`, `wchar_t`. -/
def specBuiltinTypeKeywords : List SyntaxKind :=
  [ Keyword_void, Keyword_char, Keyword_short, Keyword_int, Keyword_long, Keyword_float,
    Keyword_double, Keyword_signed, Keyword_unsigned, Keyword__Bool, Keyword__Complex,
    Keyword_struct, Keyword_union, Keyword_enum, Keyword_Ext_char16_t, Keyword_Ext_char32_t,
    Keyword_Ext_wchar_t ]

/-- The tokens the oracle's description skips: the storage-class, type
qualifier, function-specifier and `_Alignas` keywords, and `*`. -/
def specSkippedTokens : List SyntaxKind :=
  [ Keyword_typedef, Keyword_extern, Keyword_static, Keyword_auto, Keyword_register,
    Keyword__Thread_local, Keyword_ExtGNU___thread,
    Keyword_const, Keyword_volatile, Keyword_restrict, Keyword__Atomic,
    Keyword_inline, Keyword__Noreturn, Keyword__Alignas, AsteriskToken ]

/-- The scan of the identifier-role oracle as the specification words it,
over the tokens that follow the candidate identifier, with the type-seen
flag and the parenthesis depth. The end of the tokens is end-of-file. -/
def specIdentifierRoleScan : List SyntaxKind → Bool → Int → IdentifierRole
  | [], _, _ => IdentifierRole.AsDeclarator
  | tk :: rest, typeSeen, depth =>
    if tk = IdentifierToken then
      if typeSeen then IdentifierRole.AsDeclarator
      else if depth = 0 then IdentifierRole.AsTypedefName
      else specIdentifierRoleScan rest true depth
    else if tk ∈ specBuiltinTypeKeywords then
      if typeSeen then IdentifierRole.AsDeclarator
      else specIdentifierRoleScan rest true depth
    else if tk ∈ specSkippedTokens then specIdentifierRoleScan rest typeSeen depth
    else if tk = Keyword_ExtGNU___attribute__ then
      if depth = 0 then IdentifierRole.AsTypedefName
      else specIdentifierRoleScan rest typeSeen depth
    else if tk = OpenParenToken then specIdentifierRoleScan rest typeSeen (depth + 1)
    else if tk = CloseParenToken then
      if depth - 1 = 0 then
        if typeSeen then IdentifierRole.AsTypedefName else IdentifierRole.AsDeclarator
      else specIdentifierRoleScan rest typeSeen (depth - 1)
    else IdentifierRole.AsDeclarator

/-! ## Facts about syntax kinds -/

/-- Modelled from the spec: `SyntaxFacts::isStringLiteralToken`, the string
literal tokens of every encoding prefix (the tokens that
`parsePrimaryExpression` hands to `parseStringLiteral_AtFirst`). -/
def isStringLiteralToken (tkK : SyntaxKind) : Bool :=
  match tkK with
  | StringLiteralToken | StringLiteral_L_Token | StringLiteral_u8_Token
  | StringLiteral_u_Token | StringLiteral_U_Token | StringLiteral_R_Token
  | StringLiteral_LR_Token | StringLiteral_u8R_Token | StringLiteral_uR_Token
  | StringLiteral_UR_Token => true
  | _ => false

/-- Modelled from the spec: `SyntaxFacts::isConstantToken`, the constants
(integer, floating, character of several encodings, boolean, null-pointer
literal), the tokens that `parsePrimaryExpression` hands to
`parseConstant_AtFirst`. -/
def isConstantToken (tkK : SyntaxKind) : Bool :=
  match tkK with
  | IntegerConstantToken | FloatingConstantToken | CharacterConstantToken
  | CharacterConstant_L_Token | CharacterConstant_u_Token | CharacterConstant_U_Token
  | Keyword_Ext_true | Keyword_Ext_false | Keyword_Ext_NULL | Keyword_Ext_nullptr => true
  | _ => false

/-- Modelled from the spec: `SyntaxFacts::NAryExpressionKind`, the kind of the
binary, assignment, conditional or sequencing expression that an operator
token makes (the table is declared outside of the sources; the kinds are
named after the operators). Any other token gives `UnknownSyntax`. -/
def NAryExpressionKind (tkK : SyntaxKind) : SyntaxKind :=
  match tkK with
  | BarBarToken => LogicalORExpression
  | AmpersandAmpersandToken => LogicalANDExpression
  | BarToken => BitwiseORExpression
  | CaretToken => ExclusiveORExpression
  | AmpersandToken => BitwiseANDExpression
  | EqualsEqualsToken => EqualsExpression
  | ExclamationEqualsToken => NotEqualsExpression
  | GreaterThanToken => GreaterThanExpression
  | LessThanToken => LessThanExpression
  | GreaterThanEqualsToken => GreaterThanOrEqualExpression
  | LessThanEqualsToken => LessThanOrEqualExpression
  | LessThanLessThanToken => LeftShiftExpression
  | GreaterThanGreaterThanToken => RightShiftExpression
  | PlusToken => AddExpression
  | MinusToken => SubstractExpression
  | AsteriskToken => MultiplyExpression
  | SlashToken => DivideExpression
  | PercentToken => RemainderExpression
  | QuestionToken => ConditionalExpression
  | EqualsToken => BasicAssignmentExpression
  | AsteriskEqualsToken => MultiplyAssignmentExpression
  | SlashEqualsToken => DivideAssignmentExpression
  | PercentEqualsToken => RemainderAssignmentExpression
  | PlusEqualsToken => AddAssignmentExpression
  | MinusEqualsToken => SubstractAssignmentExpression
  | LessThanLessThanEqualsToken => LeftShiftAssignmentExpression
  | GreaterThanGreaterThanEqualsToken => RightShiftAssignmentExpression
  | AmpersandEqualsToken => AndAssignmentExpression
  | CaretEqualsToken => ExclusiveOrAssignmentExpression
  | BarEqualsToken => OrAssignmentExpression
  | CommaToken => SequencingExpression
  | _ => UnknownSyntax

/-- Modelled from the spec: `SyntaxFacts::isAssignmentExpression`, the kinds
of the eleven assignment expressions. -/
def isAssignmentExpression (exprK : SyntaxKind) : Bool :=
  match exprK with
  | BasicAssignmentExpression | MultiplyAssignmentExpression | DivideAssignmentExpression
  | RemainderAssignmentExpression | AddAssignmentExpression | SubstractAssignmentExpression
  | LeftShiftAssignmentExpression | RightShiftAssignmentExpression | AndAssignmentExpression
  | ExclusiveOrAssignmentExpression | OrAssignmentExpression => true
  | _ => false

/-- Modelled from the spec: `SyntaxFacts::isBinaryExpression`, the kinds of
the binary expressions, multiplicative through logical-OR. -/
def isBinaryExpression (exprK : SyntaxKind) : Bool :=
  match exprK with
  | MultiplyExpression | DivideExpression | RemainderExpression | AddExpression
  | SubstractExpression | LeftShiftExpression | RightShiftExpression | LessThanExpression
  | LessThanOrEqualExpression | GreaterThanExpression | GreaterThanOrEqualExpression
  | EqualsExpression | NotEqualsExpression | BitwiseANDExpression | ExclusiveORExpression
  | BitwiseORExpression | LogicalANDExpression | LogicalORExpression => true
  | _ => false

/-- Modelled from the spec: `SyntaxFacts::isNAryOperatorToken`, the operator
tokens that the n-ary engine parses (the engine "re-climbs for any
higher-precedence continuation"): the binary, conditional and assignment
operators and the comma. -/
def isNAryOperatorToken (tkK : SyntaxKind) : Bool :=
  NAryExpressionKind tkK != UnknownSyntax

/-! ## Precedence of the n-ary operators -/

namespace NAryPrecedence

def Undefined : Nat := 0
def Sequencing : Nat := 1
def Assignment : Nat := 2
def Conditional : Nat := 3
def LogicalOR : Nat := 4
def LogicalAND : Nat := 5
def BitwiseOR : Nat := 6
def BitwiseXOR : Nat := 7
def BitwiseAND : Nat := 8
def Equality : Nat := 9
def Relational : Nat := 10
def Shift : Nat := 11
def Additive : Nat := 12
def Multiplicative : Nat := 13

end NAryPrecedence

/-- The function `precedenceOf(SyntaxKind tkK)`. -/
def precedenceOf (tkK : SyntaxKind) : Nat :=
  match tkK with
  | CommaToken => NAryPrecedence.Sequencing
  | EqualsToken | PlusEqualsToken | MinusEqualsToken | AsteriskEqualsToken
  | SlashEqualsToken | PercentEqualsToken | LessThanLessThanEqualsToken
  | GreaterThanGreaterThanEqualsToken | AmpersandEqualsToken | CaretEqualsToken
  | BarEqualsToken => NAryPrecedence.Assignment
  | QuestionToken => NAryPrecedence.Conditional
  | BarBarToken => NAryPrecedence.LogicalOR
  | AmpersandAmpersandToken => NAryPrecedence.LogicalAND
  | BarToken => NAryPrecedence.BitwiseOR
  | CaretToken => NAryPrecedence.BitwiseXOR
  | AmpersandToken => NAryPrecedence.BitwiseAND
  | EqualsEqualsToken | ExclamationEqualsToken => NAryPrecedence.Equality
  | GreaterThanToken | LessThanToken | LessThanEqualsToken
  | GreaterThanEqualsToken => NAryPrecedence.Relational
  | LessThanLessThanToken | GreaterThanGreaterThanToken => NAryPrecedence.Shift
  | PlusToken | MinusToken => NAryPrecedence.Additive
  | AsteriskToken | SlashToken | PercentToken => NAryPrecedence.Multiplicative
  | _ => NAryPrecedence.Undefined

/-- The function `isRightAssociative(SyntaxKind tkK)`. -/
def isRightAssociative (tkK : SyntaxKind) : Bool :=
  let prec := precedenceOf tkK
  prec == NAryPrecedence.Conditional || prec == NAryPrecedence.Assignment

/-! ## Sub-parsers taken as parameters, and the table of recursive methods -/

/-- What a parsing method of expressions gives back: the returned flag and
the outgoing value of its `ExpressionSyntax*&` parameter. -/
abbrev ExprResult := Bool × Option ExpressionSyntax

/-- A specifier list, `SpecifierListSyntax*` (null is the empty list). -/
abbrev SpecifierList := List (Option SpecifierSyntax)

/-- The sub-parsers that the development takes as parameters: every theorem
holds for all their behaviours. The first four are declared outside of the
sources (the statement parser, the parenthesized type-name-or-expression
parser, the error-recovery scans); the others are in the sources and are
carried here with the nodes they build kept opaque.

* `parseCompoundStatement_AtFirst` gives the flag and the statement;
* `matchOrSkipTo_mismatch` is `matchOrSkipTo` when the current token is not
  the expected one ("advance until the expected kind or a balancing
  delimiter is found, then consume it if present");
* `parseTaggedTypeSpecifier_AtFirst` takes the incoming declaration and the
  two kinds, and gives the flag, the declaration and the specifier;
* `parseParameterDeclarationListAndOrEllipsis` gives the flag and the two
  slots of the parameter suffix that it fills;
* `ignoreDeclarator` is the error-recovery scan of that name, declared outside
  of the sources, with the flag it returns;
* `ignoreDeclarationOrDefinition` is the error-recovery scan of that name,
  declared outside of the sources;
* `ignoreMemberDeclaration` is the error-recovery scan of that name, declared
  outside of the sources;
* `parseParameterDeclaration` gives the flag and the parameter declaration;
* `typeSpecOf` is the slot `typeSpec_` of a type declaration, a node built by
  `parseTaggedTypeSpecifier_AtFirst`: the tagged type specifier that the
  declaration was made for (null when the slot is null). -/
structure Externals where
  parseCompoundStatement_AtFirst : ParserM (Bool × Option ExternalNode)
  parseParenthesizedTypeNameOrExpression : ParserM (Bool × Option ExternalNode)
  skipTo : SyntaxKind → ParserM Unit
  matchOrSkipTo_mismatch : SyntaxKind → IndexType → ParserM (Bool × IndexType)
  parseTaggedTypeSpecifier_AtFirst : Option ExternalNode → SyntaxKind → SyntaxKind →
    ParserM (Bool × Option ExternalNode × Option SpecifierSyntax)
  parseExtGNU_AttributeSpecifier_AtFirst : ParserM (Bool × Option SpecifierSyntax)
  parseExtGNU_AttributeSpecifierList_AtFirst : SpecifierList → ParserM (Bool × SpecifierList)
  parseExtGNU_AsmLabel_AtFirst : ParserM (Bool × Option SpecifierSyntax)
  parseParameterDeclarationListAndOrEllipsis : ParserM (Bool × Option ExternalNode × IndexType)
  ignoreDeclarator : ParserM Bool
  typeSpecOf : ExternalNode → Option ExternalNode
  ignoreDeclarationOrDefinition : ParserM Unit
  parseParameterDeclaration : ParserM (Bool × Option ExternalNode)
  ignoreMemberDeclaration : ParserM Unit

/-- The methods that are called recursively, as they stand with a given
amount of fuel left: a method body calls the others through this table.
`fuel` is also the bound on the iterations of a loop in a method body. -/
structure ParserTable where
  fuel : Nat
  parseExpression : Option ExpressionSyntax → ParserM ExprResult
  parseExpressionWithPrecedenceAssignment : Option ExpressionSyntax → ParserM ExprResult
  parseExpressionWithPrecedenceConditional : Option ExpressionSyntax → ParserM ExprResult
  parseExpressionWithPrecedenceCast : Option ExpressionSyntax → ParserM ExprResult
  parseExpressionWithPrecedenceUnary : Option ExpressionSyntax → ParserM ExprResult
  parseNAryExpression_AtOperator : Option ExpressionSyntax → Nat → ParserM ExprResult
  parseTypeName : Option TypeNameSyntax → ParserM (Bool × Option TypeNameSyntax)
  parseInitializer : Option InitializerSyntax → ParserM (Bool × Option InitializerSyntax)
  parseDeclarator : Option DeclaratorSyntax → DeclarationScope → DeclaratorVariety →
    ParserM (Bool × Option DeclaratorSyntax)
  parseDirectDeclaratorSuffix : Option DeclaratorSyntax → DeclarationScope →
    DeclaratorVariety → SpecifierList → Option DeclaratorSyntax →
    ParserM (Bool × Option DeclaratorSyntax)

/-- Modelled from the spec: `matchOrSkipTo(expected_kind, out_idx)`: as
`match` when the current token has the expected kind; on a mismatch the
recovery scan, which is a parameter. -/
def matchOrSkipTo (ext : Externals) (expectedTkK : SyntaxKind) (tkIdx : IndexType) :
    ParserM (Bool × IndexType) := do
  if (← peek 1) = expectedTkK then
    let idx ← consume
    pure (true, idx)
  else ext.matchOrSkipTo_mismatch expectedTkK tkIdx

/-- The delimiter slot of the last cell of a separated list set to `idx`. -/
def setLastDelim {α : Type} : List (α × IndexType) → IndexType → List (α × IndexType)
  | [], _ => []
  | [(a, _)], idx => [(a, idx)]
  | c :: cs, idx => c :: setLastDelim cs idx

/-- The loop of `parseCommaSeparatedItems`, one iteration per unit of fuel. -/
def parseCommaSeparatedItems_loop {α : Type}
    (parseItem : List (Option α × IndexType) →
      ParserM (Bool × Option α × List (Option α × IndexType))) :
    Nat → List (Option α × IndexType) → ParserM (Bool × List (Option α × IndexType))
  | 0, _ => fail Fault.outOfFuel
  | fuel + 1, nodeList => do
    if (← peek 1) = CommaToken then
      let delimTkIdx_ ← consume
      let nodeList := setLastDelim nodeList delimTkIdx_
      let r ← parseItem nodeList
      if r.1 then parseCommaSeparatedItems_loop parseItem fuel (r.2.2 ++ [(r.2.1, none)])
      else pure (false, r.2.2)
    else pure (true, nodeList)

/-- Modelled from the spec: the template `parseCommaSeparatedItems` (defined
outside of the sources), which builds a separated list: an item, then, while
the current token is a comma, the comma, consumed into the delimiter slot of
the element before it, and another item. The item parser receives the list
built so far (its second parameter in the sources) and gives it back. -/
def parseCommaSeparatedItems {α : Type} (fuel : Nat)
    (parseItem : List (Option α × IndexType) →
      ParserM (Bool × Option α × List (Option α × IndexType)))
    (nodeList : List (Option α × IndexType)) :
    ParserM (Bool × List (Option α × IndexType)) := do
  let r ← parseItem nodeList
  if r.1 then parseCommaSeparatedItems_loop parseItem fuel (r.2.2 ++ [(r.2.1, none)])
  else pure (false, r.2.2)

/-! ## Expressions -/

/-- The kind of an expression node, `kind()`. -/
def ExpressionSyntax.kind : ExpressionSyntax → SyntaxKind
  | .IdentifierExpression _ => SyntaxKind.IdentifierExpression
  | .ConstantExpression k _ => k
  | .StringLiteralExpression _ _ => SyntaxKind.StringLiteralExpression
  | .ParenthesizedExpression _ _ _ => SyntaxKind.ParenthesizedExpression
  | .ExtGNU_EnclosedCompoundStatementExpression _ _ _ =>
    SyntaxKind.ExtGNU_EnclosedCompoundStatementExpression
  | .GenericSelectionExpression _ _ _ _ _ _ => SyntaxKind.GenericSelectionExpression
  | .ArraySubscriptExpression _ _ _ _ => SyntaxKind.ElementAccessExpression
  | .CallExpression _ _ _ _ => SyntaxKind.CallExpression
  | .MemberAccessExpression k _ _ _ => k
  | .PostfixUnaryExpression k _ _ => k
  | .CompoundLiteralExpression _ _ _ _ => SyntaxKind.CompoundLiteralExpression
  | .PrefixUnaryExpression k _ _ => k
  | .TypeTraitExpression k _ _ => k
  | .CastExpression _ _ _ _ => SyntaxKind.CastExpression
  | .ConditionalExpression _ _ _ _ _ => SyntaxKind.ConditionalExpression
  | .BinaryExpression k _ _ _ => k
  | .AssignmentExpression k _ _ _ => k
  | .SequencingExpression _ _ _ => SyntaxKind.SequencingExpression
  | .AmbiguousCastOrBinaryExpression _ _ => SyntaxKind.AmbiguousCastOrBinaryExpression
  | .ExtensionMarked _ e => e.kind

/-- The assignment `expr->extKwTkIdx_ = extKwTkIdx`. -/
def ExpressionSyntax.setExtKwTkIdx (extKwTkIdx : IndexType) : ExpressionSyntax → ExpressionSyntax
  | .ExtensionMarked _ e => .ExtensionMarked extKwTkIdx e
  | e => .ExtensionMarked extKwTkIdx e

/-- The kind of a specifier node, `kind()`. -/
def SpecifierSyntax.kind : SpecifierSyntax → SyntaxKind
  | .StorageClass k _ => k
  | .BuiltinTypeSpecifier _ => SyntaxKind.BuiltinTypeSpecifier
  | .TypeQualifier k _ => k
  | .FunctionSpecifier k _ => k
  | .TypedefName _ => SyntaxKind.TypedefName
  | .AtomicTypeSpecifier _ _ _ _ => SyntaxKind.AtomicTypeSpecifier
  | .AlignmentSpecifier _ _ => SyntaxKind.AlignmentSpecifier
  | .ExtGNU_Typeof _ _ => SyntaxKind.ExtGNU_Typeof
  | .ExtPSY_QuantifiedTypeSpecifier _ _ _ _ => SyntaxKind.ExtPSY_QuantifiedTypeSpecifier
  | .External k _ => k
  | .TypeDeclarationAsSpecifier _ => SyntaxKind.TypeDeclarationAsSpecifier

/-- The kind of a declarator node, `kind()`. -/
def DeclaratorSyntax.kind : DeclaratorSyntax → SyntaxKind
  | .PointerDeclarator _ _ _ _ _ _ => SyntaxKind.PointerDeclarator
  | .IdentifierDeclarator _ _ _ _ _ => SyntaxKind.IdentifierDeclarator
  | .ParenthesizedDeclarator _ _ _ => SyntaxKind.ParenthesizedDeclarator
  | .AbstractDeclarator _ => SyntaxKind.AbstractDeclarator
  | .ArrayOrFunctionDeclarator k _ _ _ _ _ _ => k
  | .BitfieldDeclarator _ _ _ _ => SyntaxKind.BitfieldDeclarator

/-- The method `parseIdentifierExpression_AtFirst`. -/
def parseIdentifierExpression_AtFirst (expr : Option ExpressionSyntax) :
    ParserM (Option ExpressionSyntax) := do
  if (← peek 1) != IdentifierToken then pure expr
  else
    let identTkIdx_ ← consume
    pure (some (ExpressionSyntax.IdentifierExpression identTkIdx_))

/-- The method `parseIdentifierExpression`. -/
def parseIdentifierExpression (expr : Option ExpressionSyntax) : ParserM ExprResult := do
  if (← peek 1) != IdentifierToken then
    report Diagnostic.ExpectedTokenOfCategoryIdentifier
    pure (false, expr)
  else
    let e ← parseIdentifierExpression_AtFirst expr
    pure (true, e)

/-- The method `parseConstant_AtFirst`. -/
def parseConstant_AtFirst (expr : Option ExpressionSyntax) (exprK : SyntaxKind) :
    ParserM (Option ExpressionSyntax) := do
  if !isConstantToken (← peek 1) then pure expr
  else
    let constantTkIdx_ ← consume
    pure (some (ExpressionSyntax.ConstantExpression exprK constantTkIdx_))

/-- The method `parseConstant`. -/
def parseConstant (expr : Option ExpressionSyntax) (exprK : SyntaxKind) :
    ParserM ExprResult := do
  if !isConstantToken (← peek 1) then
    report Diagnostic.ExpectedTokenOfCategoryConstant
    pure (false, expr)
  else
    let e ← parseConstant_AtFirst expr exprK
    pure (true, e)

/-- The do-while loop of `parseStringLiteral_AtFirst`: one node per adjacent
string literal, chained through `adjacent_`; one iteration per unit of fuel. -/
def parseStringLiteral_chain : Nat → ParserM (Option ExpressionSyntax)
  | 0 => fail Fault.outOfFuel
  | fuel + 1 => do
    let litTkIdx_ ← consume
    if isStringLiteralToken (← peek 1) then
      let adjacent_ ← parseStringLiteral_chain fuel
      pure (some (ExpressionSyntax.StringLiteralExpression litTkIdx_ adjacent_))
    else pure (some (ExpressionSyntax.StringLiteralExpression litTkIdx_ none))

/-- The method `parseStringLiteral_AtFirst`. -/
def parseStringLiteral_AtFirst (rec : ParserTable) (expr : Option ExpressionSyntax) :
    ParserM (Option ExpressionSyntax) := do
  if !isStringLiteralToken (← peek 1) then pure expr
  else parseStringLiteral_chain rec.fuel

/-- The method `parseStringLiteral`. -/
def parseStringLiteral (rec : ParserTable) (expr : Option ExpressionSyntax) :
    ParserM ExprResult := do
  if !isStringLiteralToken (← peek 1) then
    report Diagnostic.ExpectedTokenOfCategoryStringLiteral
    pure (false, expr)
  else
    let e ← parseStringLiteral_AtFirst rec expr
    pure (true, e)

/-- The method `parseParenthesizedExpression_AtFirst`. -/
def parseParenthesizedExpression_AtFirst (ext : Externals) (rec : ParserTable)
    (expr : Option ExpressionSyntax) : ParserM ExprResult := do
  if (← peek 1) != OpenParenToken then pure (false, expr)
  else
    let openParenTkIdx_ ← consume
    let r ← rec.parseExpression none
    if r.1 then
      let m ← matchOrSkipTo ext CloseParenToken none
      pure (m.1, some (ExpressionSyntax.ParenthesizedExpression openParenTkIdx_ r.2 m.2))
    else pure (false, some (ExpressionSyntax.ParenthesizedExpression openParenTkIdx_ r.2 none))

/-- The method `parseExtGNU_StatementExpression_AtFirst`. The statement that
the compound-statement parser gives is dereferenced; it is taken to be the
compound statement it parsed. -/
def parseExtGNU_StatementExpression_AtFirst (ext : Externals)
    (expr : Option ExpressionSyntax) : ParserM ExprResult := do
  if !((← peek 1) == OpenParenToken && (← peek 2) == OpenBraceToken) then pure (false, expr)
  else
    if !(← getOptions).isEnabled_ExtGNU_StatementExpressions then
      report (Diagnostic.ExpectedFeature "GNU statement expressions")
    let openParenTkIdx_ ← consume
    let s ← ext.parseCompoundStatement_AtFirst
    match s.2 with
    | none => fail Fault.nullDereference
    | some statement =>
      let m ← matchOrSkipTo ext CloseParenToken none
      pure (m.1, some (ExpressionSyntax.ExtGNU_EnclosedCompoundStatementExpression
        openParenTkIdx_ (some statement) m.2))

/-- The method `parseGenericAssociation` (an item of a separated list: it
receives the list built so far and leaves it as it is). -/
def parseGenericAssociation (rec : ParserTable)
    (assocList : List (Option GenericAssociationSyntax × IndexType)) :
    ParserM (Bool × Option GenericAssociationSyntax ×
      List (Option GenericAssociationSyntax × IndexType)) := do
  match (← peek 1) with
  | Keyword_default =>
    let identTkIdx_ ← consume
    let defExpr := some (ExpressionSyntax.IdentifierExpression identTkIdx_)
    let m ← match_ ColonToken none
    if m.1 then
      let r ← rec.parseExpressionWithPrecedenceAssignment none
      pure (r.1, some (GenericAssociationSyntax.DefaultGenericAssociation defExpr m.2 r.2),
        assocList)
    else
      pure (false, some (GenericAssociationSyntax.DefaultGenericAssociation defExpr m.2 none),
        assocList)
  | _ =>
    let t ← rec.parseTypeName none
    if t.1 then
      let m ← match_ ColonToken none
      if m.1 then
        let r ← rec.parseExpressionWithPrecedenceAssignment none
        pure (r.1, some (GenericAssociationSyntax.TypedGenericAssociation t.2 m.2 r.2),
          assocList)
      else
        pure (false, some (GenericAssociationSyntax.TypedGenericAssociation t.2 m.2 none),
          assocList)
    else pure (false, none, assocList)

/-- The method `parseGenericAssociationList`. -/
def parseGenericAssociationList (rec : ParserTable)
    (assocList : List (Option GenericAssociationSyntax × IndexType)) :
    ParserM (Bool × List (Option GenericAssociationSyntax × IndexType)) :=
  parseCommaSeparatedItems rec.fuel (parseGenericAssociation rec) assocList

/-- The method `parseGenericSelectionExpression_AtFirst`. -/
def parseGenericSelectionExpression_AtFirst (ext : Externals) (rec : ParserTable)
    (expr : Option ExpressionSyntax) : ParserM ExprResult := do
  if (← peek 1) != Keyword__Generic then pure (false, expr)
  else
    let genericKwTkIdx_ ← consume
    let o ← match_ OpenParenToken none
    if o.1 then
      let e ← rec.parseExpressionWithPrecedenceAssignment none
      if e.1 then
        let c ← match_ CommaToken none
        if c.1 then
          let a ← parseGenericAssociationList rec []
          if a.1 then
            let m ← matchOrSkipTo ext CloseParenToken none
            pure (m.1, some (ExpressionSyntax.GenericSelectionExpression
              genericKwTkIdx_ o.2 e.2 c.2 a.2 m.2))
          else pure (false, some (ExpressionSyntax.GenericSelectionExpression
            genericKwTkIdx_ o.2 e.2 c.2 a.2 none))
        else pure (false, some (ExpressionSyntax.GenericSelectionExpression
          genericKwTkIdx_ o.2 e.2 c.2 [] none))
      else pure (false, some (ExpressionSyntax.GenericSelectionExpression
        genericKwTkIdx_ o.2 e.2 none [] none))
    else pure (false, some (ExpressionSyntax.GenericSelectionExpression
      genericKwTkIdx_ o.2 none none [] none))

/-- The method `parsePrimaryExpression`. -/
def parsePrimaryExpression (ext : Externals) (rec : ParserTable)
    (expr : Option ExpressionSyntax) : ParserM ExprResult := do
  match (← peek 1) with
  | IdentifierToken =>
    let e ← parseIdentifierExpression_AtFirst expr
    pure (true, e)
  | IntegerConstantToken =>
    let e ← parseConstant_AtFirst expr IntegerConstantExpression
    pure (true, e)
  | FloatingConstantToken =>
    let e ← parseConstant_AtFirst expr FloatingConstantExpression
    pure (true, e)
  | CharacterConstantToken | CharacterConstant_L_Token | CharacterConstant_u_Token
  | CharacterConstant_U_Token =>
    let e ← parseConstant_AtFirst expr CharacterConstantExpression
    pure (true, e)
  | Keyword_Ext_true | Keyword_Ext_false =>
    let e ← parseConstant_AtFirst expr BooleanConstantExpression
    pure (true, e)
  | Keyword_Ext_NULL | Keyword_Ext_nullptr =>
    let e ← parseConstant_AtFirst expr NULL_ConstantExpression
    pure (true, e)
  | StringLiteralToken | StringLiteral_L_Token | StringLiteral_u8_Token
  | StringLiteral_u_Token | StringLiteral_U_Token | StringLiteral_R_Token
  | StringLiteral_LR_Token | StringLiteral_u8R_Token | StringLiteral_uR_Token
  | StringLiteral_UR_Token =>
    let e ← parseStringLiteral_AtFirst rec expr
    pure (true, e)
  | OpenParenToken =>
    if (← peek 2) = OpenBraceToken then parseExtGNU_StatementExpression_AtFirst ext expr
    else parseParenthesizedExpression_AtFirst ext rec expr
  | Keyword__Generic => parseGenericSelectionExpression_AtFirst ext rec expr
  | _ =>
    report Diagnostic.ExpectedFIRSTofExpression
    pure (false, expr)

/-- The method `parseCallArgument` (an item of a separated list). -/
def parseCallArgument (rec : ParserTable)
    (exprList : List (Option ExpressionSyntax × IndexType)) :
    ParserM (Bool × Option ExpressionSyntax × List (Option ExpressionSyntax × IndexType)) := do
  let r ← rec.parseExpressionWithPrecedenceAssignment none
  pure (r.1, r.2, exprList)

/-- The method `parseCallArguments`. -/
def parseCallArguments (rec : ParserTable)
    (exprList : List (Option ExpressionSyntax × IndexType)) :
    ParserM (Bool × List (Option ExpressionSyntax × IndexType)) :=
  parseCommaSeparatedItems rec.fuel (parseCallArgument rec) exprList

/-- The loop of `parsePostfixExpression_AtFollow`, one iteration per unit of
fuel; each case is `parsePostfixExpression_AtPostfix` with the function that
the sources pass to it: the new node takes the expression so far as its
`expr_` and becomes the expression. -/
def parsePostfixExpression_AtFollow_loop (ext : Externals) (rec : ParserTable) :
    Nat → Option ExpressionSyntax → ParserM ExprResult
  | 0, _ => fail Fault.outOfFuel
  | fuel + 1, expr => do
    match (← peek 1) with
    | OpenBracketToken =>
      let openBracketTkIdx_ ← consume
      let r ← rec.parseExpression none
      if r.1 then
        let m ← matchOrSkipTo ext CloseBracketToken none
        let e := some (ExpressionSyntax.ArraySubscriptExpression expr openBracketTkIdx_ r.2 m.2)
        if m.1 then parsePostfixExpression_AtFollow_loop ext rec fuel e
        else pure (false, e)
      else pure (false,
        some (ExpressionSyntax.ArraySubscriptExpression expr openBracketTkIdx_ r.2 none))
    | OpenParenToken =>
      let openParenTkIdx_ ← consume
      if (← peek 1) = CloseParenToken then
        let closeParenTkIdx_ ← consume
        parsePostfixExpression_AtFollow_loop ext rec fuel
          (some (ExpressionSyntax.CallExpression expr openParenTkIdx_ [] closeParenTkIdx_))
      else
        let a ← parseCallArguments rec []
        if a.1 then
          let m ← matchOrSkipTo ext CloseParenToken none
          let e := some (ExpressionSyntax.CallExpression expr openParenTkIdx_ a.2 m.2)
          if m.1 then parsePostfixExpression_AtFollow_loop ext rec fuel e
          else pure (false, e)
        else pure (false, some (ExpressionSyntax.CallExpression expr openParenTkIdx_ a.2 none))
    | DotToken =>
      let oprtrTkIdx_ ← consume
      if (← peek 1) = IdentifierToken then
        let identExpr ← parseIdentifierExpression_AtFirst none
        parsePostfixExpression_AtFollow_loop ext rec fuel
          (some (ExpressionSyntax.MemberAccessExpression DirectMemberAccessExpression
            expr oprtrTkIdx_ identExpr))
      else
        report Diagnostic.ExpectedFieldName
        pure (false, some (ExpressionSyntax.MemberAccessExpression
          DirectMemberAccessExpression expr oprtrTkIdx_ none))
    | ArrowToken =>
      let oprtrTkIdx_ ← consume
      if (← peek 1) = IdentifierToken then
        let identExpr ← parseIdentifierExpression_AtFirst none
        parsePostfixExpression_AtFollow_loop ext rec fuel
          (some (ExpressionSyntax.MemberAccessExpression IndirectMemberAccessExpression
            expr oprtrTkIdx_ identExpr))
      else
        report Diagnostic.ExpectedFieldName
        pure (false, some (ExpressionSyntax.MemberAccessExpression
          IndirectMemberAccessExpression expr oprtrTkIdx_ none))
    | PlusPlusToken =>
      let oprtrTkIdx_ ← consume
      parsePostfixExpression_AtFollow_loop ext rec fuel
        (some (ExpressionSyntax.PostfixUnaryExpression PostIncrementExpression expr oprtrTkIdx_))
    | MinusMinusToken =>
      let oprtrTkIdx_ ← consume
      parsePostfixExpression_AtFollow_loop ext rec fuel
        (some (ExpressionSyntax.PostfixUnaryExpression PostDecrementExpression expr oprtrTkIdx_))
    | _ => pure (true, expr)

/-- The method `parsePostfixExpression_AtFollow`. -/
def parsePostfixExpression_AtFollow (ext : Externals) (rec : ParserTable)
    (expr : Option ExpressionSyntax) : ParserM ExprResult :=
  parsePostfixExpression_AtFollow_loop ext rec rec.fuel expr

/-- The method `parseCompoundLiteral_AtOpenBrace`. -/
def parseCompoundLiteral_AtOpenBrace (ext : Externals) (rec : ParserTable)
    (expr : Option ExpressionSyntax) (openParenTkIdx : IndexType)
    (typeName : Option TypeNameSyntax) (closeParenTkIdx : IndexType) : ParserM ExprResult := do
  if (← peek 1) != OpenBraceToken then pure (false, expr)
  else
    let o ← getOptions
    if o.stdBeforeC99 && !o.isEnabled_ExtGNU_CompoundLiterals then
      report (Diagnostic.ExpectedFeature "GNU/C99 compound literals")
    let i ← rec.parseInitializer none
    let compLit := some (ExpressionSyntax.CompoundLiteralExpression
      openParenTkIdx typeName closeParenTkIdx i.2)
    if i.1 then parsePostfixExpression_AtFollow ext rec compLit
    else pure (false, compLit)

/-- The method `parseCompoundLiteral_AtOpenParen`. -/
def parseCompoundLiteral_AtOpenParen (ext : Externals) (rec : ParserTable)
    (expr : Option ExpressionSyntax) : ParserM ExprResult := do
  if (← peek 1) != OpenParenToken then pure (false, expr)
  else
    let openParenTkIdx ← consume
    let t ← rec.parseTypeName none
    if t.1 then
      let m ← match_ CloseParenToken none
      if m.1 then
        if (← peek 1) != OpenBraceToken then
          report (Diagnostic.ExpectedToken OpenBraceToken)
          pure (false, expr)
        else parseCompoundLiteral_AtOpenBrace ext rec expr openParenTkIdx t.2 m.2
      else pure (false, expr)
    else pure (false, expr)

/-- The tokens after `(` on which the postfix and cast parsers commit to a
type name: the type qualifiers, `_Alignas`, `typeof`, and the type specifier
keywords (the case labels shared by `parseExpressionWithPrecedencePostfix`
and `parseExpressionWithPrecedenceCast`). -/
def startsTypeNameAfterOpenParen (tkK : SyntaxKind) : Bool :=
  match tkK with
  | Keyword_const | Keyword_volatile | Keyword_restrict | Keyword__Atomic
  | Keyword__Alignas
  | Keyword_ExtGNU___typeof__
  | Keyword_void | Keyword_char | Keyword_short | Keyword_int | Keyword_long
  | Keyword_float | Keyword_double | Keyword_signed | Keyword_unsigned
  | Keyword_Ext_char16_t | Keyword_Ext_char32_t | Keyword_Ext_wchar_t
  | Keyword__Bool | Keyword__Complex | Keyword_struct | Keyword_union | Keyword_enum => true
  | _ => false

/-- The method `parseExpressionWithPrecedencePostfix`. -/
def parseExpressionWithPrecedencePostfix (ext : Externals) (rec : ParserTable)
    (expr : Option ExpressionSyntax) : ParserM ExprResult := do
  let primaryThenFollow : ParserM ExprResult := do
    let r ← parsePrimaryExpression ext rec expr
    if r.1 then parsePostfixExpression_AtFollow ext rec r.2
    else pure (false, r.2)
  if (← peek 1) = OpenParenToken then
    let la2 ← peek 2
    if startsTypeNameAfterOpenParen la2 then parseCompoundLiteral_AtOpenParen ext rec expr
    else if la2 = IdentifierToken then
      let BT ← newBacktracker
      let openParenTkIdx ← consume
      let t ← rec.parseTypeName none
      if t.1 && (← peek 1) == CloseParenToken && (← peek 2) == OpenBraceToken then
        let closeParenTkIdx ← consume
        parseCompoundLiteral_AtOpenBrace ext rec expr openParenTkIdx t.2 closeParenTkIdx
      else
        backtrack BT
        primaryThenFollow
    else primaryThenFollow
  else primaryThenFollow

/-- The method `parseTypeTraitExpression_AtFirst`. -/
def parseTypeTraitExpression_AtFirst (ext : Externals) (expr : Option ExpressionSyntax)
    (exprK : SyntaxKind) : ParserM ExprResult := do
  let tkK ← peek 1
  if !(tkK == Keyword_sizeof || tkK == Keyword__Alignof) then pure (false, expr)
  else
    let oprtrTkIdx_ ← consume
    let r ← ext.parseParenthesizedTypeNameOrExpression
    pure (r.1, some (ExpressionSyntax.TypeTraitExpression exprK oprtrTkIdx_ r.2))

/-- The tokens that `parsePrefixUnaryExpression_AtFirst` asserts. -/
def isPrefixUnaryOperatorToken (tkK : SyntaxKind) : Bool :=
  match tkK with
  | PlusPlusToken | MinusMinusToken | AmpersandToken | AsteriskToken | PlusToken
  | MinusToken | TildeToken | ExclamationToken => true
  | _ => false

/-- The method `parsePrefixUnaryExpression_AtFirst`; `parseOperand` is the
method that parses the operand. -/
def parsePrefixUnaryExpression_AtFirst (expr : Option ExpressionSyntax) (exprK : SyntaxKind)
    (parseOperand : Option ExpressionSyntax → ParserM ExprResult) : ParserM ExprResult := do
  if !isPrefixUnaryOperatorToken (← peek 1) then pure (false, expr)
  else
    let oprtrTkIdx_ ← consume
    let r ← parseOperand none
    pure (r.1, some (ExpressionSyntax.PrefixUnaryExpression exprK oprtrTkIdx_ r.2))

/-- The method `parseExpressionWithPrecedenceUnary`. -/
def parseExpressionWithPrecedenceUnary (ext : Externals) (rec : ParserTable)
    (expr : Option ExpressionSyntax) : ParserM ExprResult := do
  match (← peek 1) with
  | PlusPlusToken =>
    parsePrefixUnaryExpression_AtFirst expr PreIncrementExpression
      rec.parseExpressionWithPrecedenceUnary
  | MinusMinusToken =>
    parsePrefixUnaryExpression_AtFirst expr PreDecrementExpression
      rec.parseExpressionWithPrecedenceUnary
  | AmpersandToken =>
    parsePrefixUnaryExpression_AtFirst expr AddressOfExpression
      rec.parseExpressionWithPrecedenceCast
  | AsteriskToken =>
    parsePrefixUnaryExpression_AtFirst expr PointerIndirectionExpression
      rec.parseExpressionWithPrecedenceCast
  | PlusToken =>
    parsePrefixUnaryExpression_AtFirst expr UnaryPlusExpression
      rec.parseExpressionWithPrecedenceCast
  | MinusToken =>
    parsePrefixUnaryExpression_AtFirst expr UnaryMinusExpression
      rec.parseExpressionWithPrecedenceCast
  | TildeToken =>
    parsePrefixUnaryExpression_AtFirst expr BitwiseNotExpression
      rec.parseExpressionWithPrecedenceCast
  | ExclamationToken =>
    parsePrefixUnaryExpression_AtFirst expr LogicalNotExpression
      rec.parseExpressionWithPrecedenceCast
  | Keyword_sizeof => parseTypeTraitExpression_AtFirst ext expr SizeofExpression
  | Keyword__Alignof => parseTypeTraitExpression_AtFirst ext expr AlignofExpression
  | _ => parseExpressionWithPrecedencePostfix ext rec expr

/-- The method `parseCompoundLiteralOrCastExpression_AtFirst`. -/
def parseCompoundLiteralOrCastExpression_AtFirst (ext : Externals) (rec : ParserTable)
    (expr : Option ExpressionSyntax) : ParserM ExprResult := do
  if (← peek 1) != OpenParenToken then pure (false, expr)
  else
    let openParenTkIdx ← consume
    let t ← rec.parseTypeName none
    if t.1 then
      let m ← match_ CloseParenToken none
      if m.1 then
        if (← peek 1) = OpenBraceToken then
          parseCompoundLiteral_AtOpenBrace ext rec expr openParenTkIdx t.2 m.2
        else
          let r ← rec.parseExpressionWithPrecedenceCast none
          pure (r.1, some (ExpressionSyntax.CastExpression openParenTkIdx t.2 m.2 r.2))
      else pure (false, expr)
    else pure (false, expr)

/-- The downcast `asPrefixUnaryExpression()`: the slots of the node when it
is a prefix unary expression (kind, operator index, operand), null
otherwise. -/
def ExpressionSyntax.asPrefixUnaryExpression :
    ExpressionSyntax → Option (SyntaxKind × IndexType × Option ExpressionSyntax)
  | .PrefixUnaryExpression k i e => some (k, i, e)
  | .ExtensionMarked _ e => e.asPrefixUnaryExpression
  | _ => none

/-- The method `maybeAmbiguateCastExpression`, which reads and writes the
expression only. The sources call `asPrefixUnaryExpression()` on the cast's
operand and then call it again through the pointer they got, before testing
that pointer: on an operand that is not a prefix unary expression the second
call goes through a null pointer. Every other dereference of a slot that is
null is a fault as well. -/
def maybeAmbiguateCastExpression (expr : Option ExpressionSyntax) :
    Except Fault (Option ExpressionSyntax) :=
  match expr with
  | none => Except.error Fault.nullDereference
  | some (ExpressionSyntax.CastExpression openParenTkIdx_ typeName_ closeParenTkIdx_ expr_) =>
    match expr_ with
    | none => Except.error Fault.nullDereference
    | some operand =>
      match operand.asPrefixUnaryExpression with
      | none => Except.error Fault.nullDereference
      | some (prefixK, oprtrTkIdx_, prefixOperand) =>
        if !(prefixK == AddressOfExpression || prefixK == PointerIndirectionExpression
              || prefixK == UnaryPlusExpression || prefixK == UnaryMinusExpression) then
          Except.ok expr
        else
          match typeName_ with
          | none => Except.error Fault.nullDereference
          | some (TypeNameSyntax.mk specs_ decltor_) =>
            match specs_ with
            | [] => Except.ok expr
            | none :: _ => Except.error Fault.nullDereference
            | some value :: next =>
              if !(value.kind == SyntaxKind.TypedefName && next.isEmpty
                    && (match decltor_ with
                        | some d => d.kind == SyntaxKind.AbstractDeclarator
                        | none => false)) then
                Except.ok expr
              else
                match value with
                | SpecifierSyntax.TypedefName identTkIdx_ =>
                  let binExprK :=
                    if prefixK == AddressOfExpression then BitwiseANDExpression
                    else if prefixK == PointerIndirectionExpression then MultiplyExpression
                    else if prefixK == UnaryPlusExpression then AddExpression
                    else SubstractExpression
                  let nameExpr := ExpressionSyntax.IdentifierExpression identTkIdx_
                  let parenExpr := ExpressionSyntax.ParenthesizedExpression
                    openParenTkIdx_ (some nameExpr) closeParenTkIdx_
                  let binExpr := ExpressionSyntax.BinaryExpression binExprK
                    (some parenExpr) oprtrTkIdx_ prefixOperand
                  Except.ok (some (ExpressionSyntax.AmbiguousCastOrBinaryExpression
                    (some (ExpressionSyntax.CastExpression
                      openParenTkIdx_ typeName_ closeParenTkIdx_ expr_))
                    (some binExpr)))
                | _ => Except.error Fault.nullDereference
  | some _ => Except.ok expr

/-- A pure computation that can fault, as a step. -/
def liftExcept {α : Type} (x : Except Fault α) : ParserM α :=
  fun p => match x with
    | Except.ok a => Res.ok a p
    | Except.error f => Res.fault f

/-- The tokens on which `parseExpressionWithPrecedenceCast` goes to
`parseExpressionWithPrecedenceUnary` (its case labels). -/
def startsUnaryExpression (tkK : SyntaxKind) : Bool :=
  match tkK with
  | PlusPlusToken | MinusMinusToken | AmpersandToken | AsteriskToken | PlusToken
  | MinusToken | TildeToken | ExclamationToken | Keyword_sizeof | Keyword__Alignof
  | IdentifierToken | IntegerConstantToken | FloatingConstantToken
  | CharacterConstantToken | CharacterConstant_L_Token | CharacterConstant_u_Token
  | CharacterConstant_U_Token | Keyword_Ext_true | Keyword_Ext_false | Keyword_Ext_NULL
  | Keyword_Ext_nullptr | StringLiteralToken | StringLiteral_L_Token
  | StringLiteral_u8_Token | StringLiteral_u_Token | StringLiteral_U_Token
  | StringLiteral_R_Token | StringLiteral_LR_Token | StringLiteral_u8R_Token
  | StringLiteral_uR_Token | StringLiteral_UR_Token | Keyword__Generic => true
  | _ => false

/-- The method `parseExpressionWithPrecedenceCast`. -/
def parseExpressionWithPrecedenceCast (ext : Externals) (rec : ParserTable)
    (expr : Option ExpressionSyntax) : ParserM ExprResult := do
  let tkK ← peek 1
  if tkK = OpenParenToken then
    let la2 ← peek 2
    if startsTypeNameAfterOpenParen la2 then
      parseCompoundLiteralOrCastExpression_AtFirst ext rec expr
    else if la2 = IdentifierToken then
      let BT ← newBacktracker
      let r ← parseCompoundLiteralOrCastExpression_AtFirst ext rec expr
      if r.1 then
        match r.2 with
        | none => fail Fault.nullDereference
        | some e =>
          if e.kind = SyntaxKind.CastExpression then
            let a ← liftExcept (maybeAmbiguateCastExpression r.2)
            pure (true, a)
          else pure (true, r.2)
      else
        backtrack BT
        parseExpressionWithPrecedenceUnary ext rec r.2
    else parseExpressionWithPrecedenceUnary ext rec expr
  else if startsUnaryExpression tkK then parseExpressionWithPrecedenceUnary ext rec expr
  else if tkK = Keyword_ExtGNU___extension__ then
    let extKwTkIdx ← consume
    let r ← rec.parseExpressionWithPrecedenceCast expr
    if r.1 then
      match r.2 with
      | none => pure (false, r.2)
      | some e => pure (true, some (e.setExtKwTkIdx extKwTkIdx))
    else pure (false, r.2)
  else
    report Diagnostic.ExpectedFIRSTofExpression
    pure (false, expr)

/-- The condition of the inner loop of `parseNAryExpression_AtOperator`,
`(nextPrec > refPrec && SyntaxFacts::isNAryOperatorToken(curTkK)) ||
(nextPrec == refPrec && isRightAssociative(curTkK))`, where `nextPrec` is
the precedence of `curTkK`. -/
def reclimbs (refPrec : Nat) (curTkK : SyntaxKind) : Bool :=
  (decide (precedenceOf curTkK > refPrec) && isNAryOperatorToken curTkK)
    || (precedenceOf curTkK == refPrec && isRightAssociative curTkK)

/-- The inner loop of `parseNAryExpression_AtOperator`, which re-climbs from
the right operand `nextExpr` while the current token is an operator that
binds tighter than the one just consumed (of precedence `refPrec`), or as
tight and right-associative; one iteration per unit of fuel. -/
def parseNAryExpression_AtOperator_inner (rec : ParserTable) (refPrec : Nat) :
    Nat → Option ExpressionSyntax → ParserM ExprResult
  | 0, _ => fail Fault.outOfFuel
  | fuel + 1, nextExpr => do
    let curTkK ← peek 1
    let nextPrec := precedenceOf curTkK
    if reclimbs refPrec curTkK then
      let r ← rec.parseNAryExpression_AtOperator nextExpr nextPrec
      if r.1 then parseNAryExpression_AtOperator_inner rec refPrec fuel r.2
      else pure (false, r.2)
    else pure (true, nextExpr)

/-- The node that an iteration of the n-ary loop makes of the left operand,
the operator and the right operand: the conditional expression begun at a
`?` (given with its middle operand and colon index), else an assignment, a
binary or a sequencing expression by the kind of the operator. -/
def makeNAryNode (condExpr : Option (Option ExpressionSyntax × IndexType)) (exprK : SyntaxKind)
    (baseExpr : Option ExpressionSyntax) (oprtrTkIdx : IndexType)
    (nextExpr : Option ExpressionSyntax) : ExpressionSyntax :=
  match condExpr with
  | some (whenTrueExpr_, colonTkIdx_) =>
    ExpressionSyntax.ConditionalExpression baseExpr oprtrTkIdx whenTrueExpr_ colonTkIdx_ nextExpr
  | none =>
    if isAssignmentExpression exprK then
      ExpressionSyntax.AssignmentExpression exprK baseExpr oprtrTkIdx nextExpr
    else if isBinaryExpression exprK then
      ExpressionSyntax.BinaryExpression exprK baseExpr oprtrTkIdx nextExpr
    else ExpressionSyntax.SequencingExpression baseExpr oprtrTkIdx nextExpr

/-- The part of an iteration of the n-ary loop that follows a `?`: the
middle operand (null when a `:` follows at once, the GNU form) and the
colon; the results of `parseExpression` and of `match` are not tested. -/
def parseConditionalMiddle (rec : ParserTable) :
    ParserM (Option ExpressionSyntax × IndexType) := do
  if (← peek 1) = ColonToken then
    if !(← getOptions).isEnabled_ExtGNU_StatementExpressions then
      report (Diagnostic.ExpectedFeature "GNU conditionals")
    let m ← match_ ColonToken none
    pure (none, m.2)
  else
    let w ← rec.parseExpression none
    let m ← match_ ColonToken none
    pure (w.2, m.2)

/-- The outer loop of `parseNAryExpression_AtOperator`, with the local
`curExprDepth`; one iteration per unit of fuel. -/
def parseNAryExpression_AtOperator_loop (ext : Externals) (rec : ParserTable)
    (cutoffPrecedence : Nat) :
    Nat → Nat → Option ExpressionSyntax → ParserM ExprResult
  | 0, _, _ => fail Fault.outOfFuel
  | fuel + 1, curExprDepth, baseExpr => fun p =>
    if precedenceOf (p.peek 1) ≥ cutoffPrecedence then
      if curExprDepth + 1 > p.MAX_DEPTH_OF_EXPRS then Res.fault Fault.maximumDepthOfExpressions
      else
        let curTkK := p.peek 1
        let exprK := NAryExpressionKind curTkK
        (do
          let oprtrTkIdx ← consume
          let condExpr ←
            if curTkK = QuestionToken then do
              let c ← parseConditionalMiddle rec
              pure (some c)
            else pure none
          let n ← parseExpressionWithPrecedenceCast ext rec none
          if n.1 then
            let i ← parseNAryExpression_AtOperator_inner rec (precedenceOf curTkK) rec.fuel n.2
            if i.1 then
              parseNAryExpression_AtOperator_loop ext rec cutoffPrecedence fuel
                (curExprDepth + 1)
                (some (makeNAryNode condExpr exprK baseExpr oprtrTkIdx i.2))
            else pure (false, baseExpr)
          else pure (false, baseExpr)) p
    else Res.ok (true, baseExpr) p

/-- The method `parseNAryExpression_AtOperator`. -/
def parseNAryExpression_AtOperator (ext : Externals) (rec : ParserTable)
    (baseExpr : Option ExpressionSyntax) (cutoffPrecedence : Nat) : ParserM ExprResult :=
  fun p =>
    parseNAryExpression_AtOperator_loop ext rec cutoffPrecedence rec.fuel p.depthOfExprs_
      baseExpr p

/-- The method `parseNAryExpression`. -/
def parseNAryExpression (ext : Externals) (rec : ParserTable)
    (expr : Option ExpressionSyntax) (cutoffPrecedence : Nat) : ParserM ExprResult := do
  let r ← parseExpressionWithPrecedenceCast ext rec expr
  if r.1 then parseNAryExpression_AtOperator ext rec r.2 cutoffPrecedence
  else pure (false, r.2)

/-- The method `parseExpressionWithPrecedenceMultiplicative`. -/
def parseExpressionWithPrecedenceMultiplicative (ext : Externals) (rec : ParserTable)
    (expr : Option ExpressionSyntax) : ParserM ExprResult :=
  parseNAryExpression ext rec expr NAryPrecedence.Multiplicative

/-- The method `parseExpressionWithPrecedenceAdditive`. -/
def parseExpressionWithPrecedenceAdditive (ext : Externals) (rec : ParserTable)
    (expr : Option ExpressionSyntax) : ParserM ExprResult :=
  parseNAryExpression ext rec expr NAryPrecedence.Additive

/-- The method `parseExpressionWithPrecedenceShift`. -/
def parseExpressionWithPrecedenceShift (ext : Externals) (rec : ParserTable)
    (expr : Option ExpressionSyntax) : ParserM ExprResult :=
  parseNAryExpression ext rec expr NAryPrecedence.Shift

/-- The method `parseExpressionWithPrecedenceRelational`. -/
def parseExpressionWithPrecedenceRelational (ext : Externals) (rec : ParserTable)
    (expr : Option ExpressionSyntax) : ParserM ExprResult :=
  parseNAryExpression ext rec expr NAryPrecedence.Relational

/-- The method `parseExpressionWithPrecedenceEquality`. -/
def parseExpressionWithPrecedenceEquality (ext : Externals) (rec : ParserTable)
    (expr : Option ExpressionSyntax) : ParserM ExprResult :=
  parseNAryExpression ext rec expr NAryPrecedence.Equality

/-- The method `parseExpressionWithPrecedenceBitwiseAND`. -/
def parseExpressionWithPrecedenceBitwiseAND (ext : Externals) (rec : ParserTable)
    (expr : Option ExpressionSyntax) : ParserM ExprResult :=
  parseNAryExpression ext rec expr NAryPrecedence.BitwiseAND

/-- The method `parseExpressionWithPrecedenceBitwiseXOR`. -/
def parseExpressionWithPrecedenceBitwiseXOR (ext : Externals) (rec : ParserTable)
    (expr : Option ExpressionSyntax) : ParserM ExprResult :=
  parseNAryExpression ext rec expr NAryPrecedence.BitwiseXOR

/-- The method `parseExpressionWithPrecedenceBitwiseOR`. -/
def parseExpressionWithPrecedenceBitwiseOR (ext : Externals) (rec : ParserTable)
    (expr : Option ExpressionSyntax) : ParserM ExprResult :=
  parseNAryExpression ext rec expr NAryPrecedence.BitwiseOR

/-- The method `parseExpressionWithPrecedenceLogicalAND`. -/
def parseExpressionWithPrecedenceLogicalAND (ext : Externals) (rec : ParserTable)
    (expr : Option ExpressionSyntax) : ParserM ExprResult :=
  parseNAryExpression ext rec expr NAryPrecedence.LogicalAND

/-- The method `parseExpressionWithPrecedenceLogicalOR`. -/
def parseExpressionWithPrecedenceLogicalOR (ext : Externals) (rec : ParserTable)
    (expr : Option ExpressionSyntax) : ParserM ExprResult :=
  parseNAryExpression ext rec expr NAryPrecedence.LogicalOR

/-- The method `parseExpressionWithPrecedenceConditional`. -/
def parseExpressionWithPrecedenceConditional (ext : Externals) (rec : ParserTable)
    (expr : Option ExpressionSyntax) : ParserM ExprResult :=
  parseNAryExpression ext rec expr NAryPrecedence.Conditional

/-- The method `parseExpressionWithPrecedenceAssignment`. -/
def parseExpressionWithPrecedenceAssignment (ext : Externals) (rec : ParserTable)
    (expr : Option ExpressionSyntax) : ParserM ExprResult :=
  parseNAryExpression ext rec expr NAryPrecedence.Assignment

/-- The method `parseExpressionWithPrecedenceComma`. -/
def parseExpressionWithPrecedenceComma (ext : Externals) (rec : ParserTable)
    (expr : Option ExpressionSyntax) : ParserM ExprResult :=
  parseNAryExpression ext rec expr NAryPrecedence.Sequencing

/-- The method `parseExpression`. Modelled from the spec: the `DepthControl`
object is a stack-scoped counter, `depthOfExprs_` is incremented on entry and
restored when the method returns. -/
def parseExpression (ext : Externals) (rec : ParserTable)
    (expr : Option ExpressionSyntax) : ParserM ExprResult :=
  fun p =>
    match parseExpressionWithPrecedenceComma ext rec expr
        { p with depthOfExprs_ := p.depthOfExprs_ + 1 } with
    | Res.ok r q => Res.ok r { q with depthOfExprs_ := q.depthOfExprs_ - 1 }
    | Res.fault f => Res.fault f

/-! ## Initializers -/

/-- The method `parseExpressionInitializer`. -/
def parseExpressionInitializer (ext : Externals) (rec : ParserTable)
    (init : Option InitializerSyntax) : ParserM (Bool × Option InitializerSyntax) := do
  let r ← parseExpressionWithPrecedenceAssignment ext rec none
  if r.1 then pure (true, some (InitializerSyntax.ExpressionInitializer r.2))
  else pure (false, init)

/-- The method `parseFieldDesignator_AtFirst`. -/
def parseFieldDesignator_AtFirst (desig : Option DesignatorSyntax) :
    ParserM (Bool × Option DesignatorSyntax) := do
  if (← peek 1) != DotToken then pure (false, desig)
  else
    let dotTkIdx_ ← consume
    if (← peek 1) = IdentifierToken then
      let identTkIdx_ ← consume
      pure (true, some (DesignatorSyntax.FieldDesignator dotTkIdx_ identTkIdx_))
    else
      report Diagnostic.ExpectedFieldDesignator
      pure (false, some (DesignatorSyntax.FieldDesignator dotTkIdx_ none))

/-- The method `parseArrayDesignator_AtFirst`. -/
def parseArrayDesignator_AtFirst (ext : Externals) (rec : ParserTable)
    (desig : Option DesignatorSyntax) : ParserM (Bool × Option DesignatorSyntax) := do
  if (← peek 1) != OpenBracketToken then pure (false, desig)
  else
    let openBracketTkIdx_ ← consume
    let r ← parseExpressionWithPrecedenceConditional ext rec none
    if r.1 then
      let m ← matchOrSkipTo ext CloseBracketToken none
      pure (m.1, some (DesignatorSyntax.ArrayDesignator openBracketTkIdx_ r.2 m.2))
    else pure (false, some (DesignatorSyntax.ArrayDesignator openBracketTkIdx_ r.2 none))

/-- The loop of `parseDesignatorList_AtFirst`, one iteration per unit of
fuel; `fieldNext` says which of the two designator parsers `parseDesig`
points to. The sources store each new list cell through `desigs_cur`, which
always points to the head of the list: the cell replaces the list. -/
def parseDesignatorList_loop (ext : Externals) (rec : ParserTable) :
    Nat → Bool → List (Option DesignatorSyntax) →
      ParserM (Bool × List (Option DesignatorSyntax))
  | 0, _, _ => fail Fault.outOfFuel
  | fuel + 1, fieldNext, desigList => do
    let d ← if fieldNext then parseFieldDesignator_AtFirst none
            else parseArrayDesignator_AtFirst ext rec none
    if d.1 then
      match (← peek 1) with
      | DotToken => parseDesignatorList_loop ext rec fuel true [d.2]
      | OpenBracketToken => parseDesignatorList_loop ext rec fuel false [d.2]
      | _ => pure (true, [d.2])
    else pure (false, desigList)

/-- The method `parseDesignatorList_AtFirst`. -/
def parseDesignatorList_AtFirst (ext : Externals) (rec : ParserTable)
    (desigList : List (Option DesignatorSyntax)) (fieldFirst : Bool) :
    ParserM (Bool × List (Option DesignatorSyntax)) := do
  let tkK ← peek 1
  if !(tkK == DotToken || tkK == OpenBracketToken) then pure (false, desigList)
  else parseDesignatorList_loop ext rec rec.fuel fieldFirst desigList

/-- The method `parseDesignatedInitializer_AtFirst`. -/
def parseDesignatedInitializer_AtFirst (ext : Externals) (rec : ParserTable)
    (init : Option InitializerSyntax) (fieldFirst : Bool) :
    ParserM (Bool × Option InitializerSyntax) := do
  let tkK ← peek 1
  if !(tkK == DotToken || tkK == OpenBracketToken) then pure (false, init)
  else
    let o ← getOptions
    if o.stdBeforeC99 && !o.isEnabled_ExtGNU_DesignatedInitializers then
      report (Diagnostic.ExpectedFeature "GNU/C99 designated initializers")
    let d ← parseDesignatorList_AtFirst ext rec [] fieldFirst
    if d.1 then
      if (← peek 1) = EqualsToken then
        let equalsTkIdx_ ← consume
        let i ← rec.parseInitializer none
        pure (i.1, some (InitializerSyntax.DesignatedInitializer d.2 equalsTkIdx_ i.2))
      else
        report Diagnostic.ExpectedFOLLOWofDesignatedInitializer
        let i ← rec.parseInitializer none
        pure (i.1, some (InitializerSyntax.DesignatedInitializer d.2 none i.2))
    else pure (false, init)

/-- The method `parseBraceEnclosedInitializer_AtFirst`; `parseInitializerList`
is given as a parameter, since the list's items are initializers again. -/
def parseBraceEnclosedInitializer_AtFirst (ext : Externals)
    (parseInitializerList : List (Option InitializerSyntax × IndexType) →
      ParserM (Bool × List (Option InitializerSyntax × IndexType)))
    (init : Option InitializerSyntax) : ParserM (Bool × Option InitializerSyntax) := do
  if (← peek 1) != OpenBraceToken then pure (false, init)
  else
    let openBraceTkIdx_ ← consume
    if (← peek 1) = CloseBraceToken then
      report Diagnostic.ExpectedBraceEnclosedInitializerList
      let closeBraceTkIdx_ ← consume
      pure (true, some (InitializerSyntax.BraceEnclosedInitializer
        openBraceTkIdx_ [] closeBraceTkIdx_))
    else
      let l ← parseInitializerList []
      if l.1 then
        let m ← matchOrSkipTo ext CloseBraceToken none
        pure (m.1, some (InitializerSyntax.BraceEnclosedInitializer openBraceTkIdx_ l.2 m.2))
      else
        ext.skipTo CloseBraceToken
        let _ ← consume
        pure (false, some (InitializerSyntax.BraceEnclosedInitializer openBraceTkIdx_ l.2 none))

/-- The method `parseInitializerListItem` (an item of a separated list: it
receives the list built so far, whose head cell it writes on a comma that
precedes the closing brace). A braced item is
`parseBraceEnclosedInitializer_AtFirst`, reached through `parseInitializer`
of the table, which goes to it on an opening brace. -/
def parseInitializerListItem (ext : Externals) (rec : ParserTable)
    (initList : List (Option InitializerSyntax × IndexType)) :
    ParserM (Bool × Option InitializerSyntax ×
      List (Option InitializerSyntax × IndexType)) := do
  match (← peek 1) with
  | CloseBraceToken => pure (true, none, initList)
  | CommaToken =>
    if (← peek 2) = CloseBraceToken then
      match initList with
      | [] => fail Fault.nullDereference
      | (v, _) :: rest =>
        let delimTkIdx_ ← consume
        pure (true, none, (v, delimTkIdx_) :: rest)
    else
      report Diagnostic.ExpectedFIRSTofExpression
      pure (false, none, initList)
  | DotToken =>
    let r ← parseDesignatedInitializer_AtFirst ext rec none true
    pure (r.1, r.2, initList)
  | OpenBracketToken =>
    let r ← parseDesignatedInitializer_AtFirst ext rec none false
    pure (r.1, r.2, initList)
  | OpenBraceToken =>
    let r ← rec.parseInitializer none
    pure (r.1, r.2, initList)
  | _ =>
    let r ← parseExpressionInitializer ext rec none
    pure (r.1, r.2, initList)

/-- The method `parseInitializerList`. -/
def parseInitializerList (ext : Externals) (rec : ParserTable)
    (initList : List (Option InitializerSyntax × IndexType)) :
    ParserM (Bool × List (Option InitializerSyntax × IndexType)) :=
  parseCommaSeparatedItems rec.fuel (parseInitializerListItem ext rec) initList

/-- The method `parseInitializer`. -/
def parseInitializer (ext : Externals) (rec : ParserTable)
    (init : Option InitializerSyntax) : ParserM (Bool × Option InitializerSyntax) := do
  if (← peek 1) = OpenBraceToken then
    parseBraceEnclosedInitializer_AtFirst ext (parseInitializerList ext rec) init
  else parseExpressionInitializer ext rec init

/-! ## Specifiers and type names -/

/-- The method `parseTrivialSpecifier_AtFirst<SpecT>`: a node of class
`SpecT` (given by its constructor) holding the index of the consumed token.
The asserted condition holds at every call in the sources. -/
def parseTrivialSpecifier_AtFirst (mk : IndexType → SpecifierSyntax) :
    ParserM (Option SpecifierSyntax) := do
  let specTkIdx_ ← consume
  pure (some (mk specTkIdx_))

/-- The method `parseTypedefName_AtFirst`. -/
def parseTypedefName_AtFirst (spec : Option SpecifierSyntax) :
    ParserM (Option SpecifierSyntax) := do
  if (← peek 1) != IdentifierToken then pure spec
  else
    let identTkIdx_ ← consume
    pure (some (SpecifierSyntax.TypedefName identTkIdx_))

/-- The method `parseAlignmentSpecifier_AtFirst`. -/
def parseAlignmentSpecifier_AtFirst (ext : Externals) (spec : Option SpecifierSyntax) :
    ParserM (Bool × Option SpecifierSyntax) := do
  if (← peek 1) != Keyword__Alignas then pure (false, spec)
  else
    let alignasKwTkIdx_ ← consume
    let r ← ext.parseParenthesizedTypeNameOrExpression
    pure (r.1, some (SpecifierSyntax.AlignmentSpecifier alignasKwTkIdx_ r.2))

/-- The method `parseExtGNU_Typeof_AtFirst`. -/
def parseExtGNU_Typeof_AtFirst (ext : Externals) (spec : Option SpecifierSyntax) :
    ParserM (Bool × Option SpecifierSyntax) := do
  if (← peek 1) != Keyword_ExtGNU___typeof__ then pure (false, spec)
  else
    let typeofKwTkIdx_ ← consume
    let r ← ext.parseParenthesizedTypeNameOrExpression
    pure (r.1, some (SpecifierSyntax.ExtGNU_Typeof typeofKwTkIdx_ r.2))

/-- The method `parseAtomiceTypeSpecifier_AtFirst`. -/
def parseAtomiceTypeSpecifier_AtFirst (ext : Externals) (rec : ParserTable)
    (spec : Option SpecifierSyntax) : ParserM (Bool × Option SpecifierSyntax) := do
  if (← peek 1) != Keyword__Atomic then pure (false, spec)
  else
    let atomicKwTkIdx_ ← consume
    let o ← match_ OpenParenToken none
    if o.1 then
      let t ← rec.parseTypeName none
      if t.1 then
        let m ← matchOrSkipTo ext CloseParenToken none
        pure (m.1, some (SpecifierSyntax.AtomicTypeSpecifier atomicKwTkIdx_ o.2 t.2 m.2))
      else pure (false, some (SpecifierSyntax.AtomicTypeSpecifier atomicKwTkIdx_ o.2 t.2 none))
    else pure (false, some (SpecifierSyntax.AtomicTypeSpecifier atomicKwTkIdx_ o.2 none none))

/-- The method `parseExtPSY_QuantifiedTypeSpecifier_AtFirst`. -/
def parseExtPSY_QuantifiedTypeSpecifier_AtFirst (spec : Option SpecifierSyntax) :
    ParserM (Bool × Option SpecifierSyntax) := do
  let tkK ← peek 1
  if !(tkK == Keyword_ExtPSY__Exists || tkK == Keyword_ExtPSY__Forall) then pure (false, spec)
  else
    let quantifierTkIdx_ ← consume
    let o ← match_ OpenParenToken none
    if o.1 then
      let i ← match_ IdentifierToken none
      if i.1 then
        let c ← match_ CloseParenToken none
        pure (c.1, some (SpecifierSyntax.ExtPSY_QuantifiedTypeSpecifier
          quantifierTkIdx_ o.2 i.2 c.2))
      else pure (false, some (SpecifierSyntax.ExtPSY_QuantifiedTypeSpecifier
        quantifierTkIdx_ o.2 i.2 none))
    else pure (false, some (SpecifierSyntax.ExtPSY_QuantifiedTypeSpecifier
      quantifierTkIdx_ o.2 none none))

/-- The loop of `parseTypeQualifiersAndAttributes`, one iteration per unit of
fuel; `specList` is the list as it stands, to whose end a cell is appended.
On `__attribute__` the sources hand the head of the list (not its end) to
the attribute-list parser, and on `__asm__` they return false when the label
parser succeeds. -/
def parseTypeQualifiersAndAttributes_loop (ext : Externals) :
    Nat → SpecifierList → ParserM (Bool × SpecifierList)
  | 0, _ => fail Fault.outOfFuel
  | fuel + 1, specList => do
    match (← peek 1) with
    | Keyword_ExtGNU___attribute__ => ext.parseExtGNU_AttributeSpecifierList_AtFirst specList
    | Keyword_ExtGNU___asm__ =>
      let r ← ext.parseExtGNU_AsmLabel_AtFirst
      if r.1 then pure (false, specList)
      else parseTypeQualifiersAndAttributes_loop ext fuel (specList ++ [r.2])
    | Keyword_const =>
      let spec ← parseTrivialSpecifier_AtFirst (SpecifierSyntax.TypeQualifier ConstQualifier)
      parseTypeQualifiersAndAttributes_loop ext fuel (specList ++ [spec])
    | Keyword_volatile =>
      let spec ← parseTrivialSpecifier_AtFirst (SpecifierSyntax.TypeQualifier VolatileQualifier)
      parseTypeQualifiersAndAttributes_loop ext fuel (specList ++ [spec])
    | Keyword_restrict =>
      let spec ← parseTrivialSpecifier_AtFirst (SpecifierSyntax.TypeQualifier RestrictQualifier)
      parseTypeQualifiersAndAttributes_loop ext fuel (specList ++ [spec])
    | Keyword__Atomic =>
      let spec ← parseTrivialSpecifier_AtFirst (SpecifierSyntax.TypeQualifier AtomicQualifier)
      parseTypeQualifiersAndAttributes_loop ext fuel (specList ++ [spec])
    | _ => pure (true, specList)

/-- The method `parseTypeQualifiersAndAttributes`; the list it is given is
the (empty) end of a list or an empty slot. -/
def parseTypeQualifiersAndAttributes (ext : Externals) (rec : ParserTable)
    (specList : SpecifierList) : ParserM (Bool × SpecifierList) :=
  parseTypeQualifiersAndAttributes_loop ext rec.fuel specList

/-- The condition `takeIdentifierAsDecltor && (determineIdentifierRole(seenType)
== IdentifierRole::AsDeclarator)` of the two specifier-list loops; the oracle
is called only when `takeIdentifierAsDecltor` holds. -/
def identifierIsDeclarator (takeIdentifierAsDecltor seenType : Bool) : ParserM Bool :=
  if takeIdentifierAsDecltor then
    fun p => match determineIdentifierRole p seenType with
      | some role => Res.ok (role == IdentifierRole.AsDeclarator) p
      | none => Res.fault Fault.outOfFuel
  else pure false

/-- What the specifier-list parsers give back: the flag, the declaration
(`decl`) and the specifier list. -/
abbrev SpecifiersResult := Bool × Option ExternalNode × SpecifierList

/-- The end of an iteration of the two specifier-list loops: the specifier
is appended; then, if an inline type declaration exists (`decl`), only type
qualifiers and attributes are parsed, onto the end of the list, and the
method returns; otherwise `continue_` runs the next iteration. -/
def appendSpecifier (ext : Externals) (rec : ParserTable) (decl : Option ExternalNode)
    (cells : SpecifierList) (spec : Option SpecifierSyntax)
    (continue_ : SpecifierList → ParserM SpecifiersResult) : ParserM SpecifiersResult := do
  let cells := cells ++ [spec]
  if decl.isSome then
    let q ← parseTypeQualifiersAndAttributes ext rec []
    pure (q.1, decl, cells ++ q.2)
  else continue_ cells

/-- The loop of `parseDeclarationSpecifiers`, one iteration per unit of fuel.
`specList` is the incoming value of the list parameter and `cells` are the
cells this call has appended (the first of them replaces the incoming
value); `seenType` is the local flag. -/
def parseDeclarationSpecifiers_loop (ext : Externals) (rec : ParserTable)
    (takeIdentifierAsDecltor : Bool) (specList : SpecifierList) :
    Nat → Option ExternalNode → SpecifierList → Bool → ParserM SpecifiersResult
  | 0, _, _, _ => fail Fault.outOfFuel
  | fuel + 1, decl, cells, seenType => do
    let out := if cells.isEmpty then specList else cells
    let next := fun (seen : Bool) (d : Option ExternalNode) (spec : Option SpecifierSyntax) =>
      appendSpecifier ext rec d cells spec
        (fun cs => parseDeclarationSpecifiers_loop ext rec takeIdentifierAsDecltor specList
          fuel d cs seen)
    let trivial := fun (seen : Bool) (mk : IndexType → SpecifierSyntax) => do
      let spec ← parseTrivialSpecifier_AtFirst mk
      next seen decl spec
    let tagged := fun (declK specK : SyntaxKind) => do
      let r ← ext.parseTaggedTypeSpecifier_AtFirst decl declK specK
      if r.1 then next true r.2.1 r.2.2 else pure (false, r.2.1, out)
    let sub := fun (r : Bool × Option SpecifierSyntax) =>
      if r.1 then next seenType decl r.2 else pure (false, decl, out)
    match (← peek 1) with
    -- declaration-specifiers -> storage-class-specifier
    | Keyword_typedef => trivial seenType (SpecifierSyntax.StorageClass TypedefStorageClass)
    | Keyword_extern => trivial seenType (SpecifierSyntax.StorageClass ExternStorageClass)
    | Keyword_static => trivial seenType (SpecifierSyntax.StorageClass StaticStorageClass)
    | Keyword_auto => trivial seenType (SpecifierSyntax.StorageClass AutoStorageClass)
    | Keyword_register => trivial seenType (SpecifierSyntax.StorageClass RegisterStorageClass)
    | Keyword__Thread_local | Keyword_ExtGNU___thread =>
      trivial seenType (SpecifierSyntax.StorageClass ThreadLocalStorageClass)
    -- declaration-specifiers -> type-qualifier
    | Keyword_const => trivial seenType (SpecifierSyntax.TypeQualifier ConstQualifier)
    | Keyword_volatile => trivial seenType (SpecifierSyntax.TypeQualifier VolatileQualifier)
    | Keyword_restrict => trivial seenType (SpecifierSyntax.TypeQualifier RestrictQualifier)
    | Keyword__Atomic =>
      if (← peek 2) = OpenParenToken then do
        let r ← parseAtomiceTypeSpecifier_AtFirst ext rec none
        sub r
      else trivial seenType (SpecifierSyntax.TypeQualifier AtomicQualifier)
    -- declaration-specifiers -> function-specifier
    | Keyword_inline => trivial seenType (SpecifierSyntax.FunctionSpecifier InlineSpecifier)
    | Keyword__Noreturn =>
      trivial seenType (SpecifierSyntax.FunctionSpecifier NoReturnSpecifier)
    -- declaration-specifiers -> type-specifier -> "builtins"
    | Keyword_void | Keyword_char | Keyword_short | Keyword_int | Keyword_long
    | Keyword_float | Keyword_double | Keyword_signed | Keyword_unsigned
    | Keyword_Ext_char16_t | Keyword_Ext_char32_t | Keyword_Ext_wchar_t
    | Keyword__Bool | Keyword__Complex =>
      trivial true SpecifierSyntax.BuiltinTypeSpecifier
    | Keyword_struct => tagged StructDeclaration StructTypeSpecifier
    | Keyword_union => tagged UnionDeclaration UnionTypeSpecifier
    | Keyword_enum => tagged EnumDeclaration EnumTypeSpecifier
    -- declaration-specifiers -> type-specifier -> typedef-name
    | IdentifierToken =>
      if seenType then pure (true, decl, out)
      else
        let asDecltor ← identifierIsDeclarator takeIdentifierAsDecltor seenType
        if asDecltor then pure (true, decl, out)
        else
          let spec ← parseTypedefName_AtFirst none
          next true decl spec
    | Keyword__Alignas => do
      let r ← parseAlignmentSpecifier_AtFirst ext none
      sub r
    | Keyword_ExtGNU___attribute__ => do
      let r ← ext.parseExtGNU_AttributeSpecifier_AtFirst
      sub r
    | Keyword_ExtGNU___typeof__ => do
      let r ← parseExtGNU_Typeof_AtFirst ext none
      sub r
    | Keyword_ExtPSY__Forall | Keyword_ExtPSY__Exists => do
      let r ← parseExtPSY_QuantifiedTypeSpecifier_AtFirst none
      sub r
    | _ => pure (true, decl, out)

/-- The method `parseDeclarationSpecifiers`. -/
def parseDeclarationSpecifiers (ext : Externals) (rec : ParserTable)
    (decl : Option ExternalNode) (specList : SpecifierList) (takeIdentifierAsDecltor : Bool) :
    ParserM SpecifiersResult :=
  parseDeclarationSpecifiers_loop ext rec takeIdentifierAsDecltor specList rec.fuel decl []
    false

/-- The loop of `parseSpecifierQualifierList`, one iteration per unit of
fuel, with the same variables as `parseDeclarationSpecifiers_loop`. -/
def parseSpecifierQualifierList_loop (ext : Externals) (rec : ParserTable)
    (takeIdentifierAsDecltor : Bool) (specList : SpecifierList) :
    Nat → Option ExternalNode → SpecifierList → Bool → ParserM SpecifiersResult
  | 0, _, _, _ => fail Fault.outOfFuel
  | fuel + 1, decl, cells, seenType => do
    let out := if cells.isEmpty then specList else cells
    let next := fun (seen : Bool) (d : Option ExternalNode) (spec : Option SpecifierSyntax) =>
      appendSpecifier ext rec d cells spec
        (fun cs => parseSpecifierQualifierList_loop ext rec takeIdentifierAsDecltor specList
          fuel d cs seen)
    let trivial := fun (seen : Bool) (mk : IndexType → SpecifierSyntax) => do
      let spec ← parseTrivialSpecifier_AtFirst mk
      next seen decl spec
    let tagged := fun (declK specK : SyntaxKind) => do
      let r ← ext.parseTaggedTypeSpecifier_AtFirst decl declK specK
      if r.1 then next true r.2.1 r.2.2 else pure (false, r.2.1, out)
    let sub := fun (r : Bool × Option SpecifierSyntax) =>
      if r.1 then next seenType decl r.2 else pure (false, decl, out)
    match (← peek 1) with
    -- declaration-specifiers -> type-qualifier
    | Keyword_const => trivial seenType (SpecifierSyntax.TypeQualifier ConstQualifier)
    | Keyword_volatile => trivial seenType (SpecifierSyntax.TypeQualifier VolatileQualifier)
    | Keyword_restrict => trivial seenType (SpecifierSyntax.TypeQualifier RestrictQualifier)
    | Keyword__Atomic =>
      if (← peek 2) = OpenParenToken then do
        let r ← parseAtomiceTypeSpecifier_AtFirst ext rec none
        sub r
      else trivial seenType (SpecifierSyntax.TypeQualifier AtomicQualifier)
    -- declaration-specifiers -> type-specifier -> "builtins"
    | Keyword_void | Keyword_char | Keyword_short | Keyword_int | Keyword_long
    | Keyword_float | Keyword_double | Keyword_signed | Keyword_unsigned
    | Keyword_Ext_char16_t | Keyword_Ext_char32_t | Keyword_Ext_wchar_t
    | Keyword__Bool | Keyword__Complex =>
      trivial true SpecifierSyntax.BuiltinTypeSpecifier
    | Keyword_struct => tagged StructDeclaration StructTypeSpecifier
    | Keyword_union => tagged UnionDeclaration UnionTypeSpecifier
    | Keyword_enum => tagged EnumDeclaration EnumTypeSpecifier
    -- declaration-specifiers -> type-specifier -> typedef-name
    | IdentifierToken =>
      if seenType then pure (true, decl, out)
      else
        let asDecltor ← identifierIsDeclarator takeIdentifierAsDecltor seenType
        if asDecltor then pure (true, decl, out)
        else
          let spec ← parseTypedefName_AtFirst none
          next true decl spec
    | Keyword__Alignas => do
      let r ← parseAlignmentSpecifier_AtFirst ext none
      sub r
    | Keyword_ExtGNU___attribute__ => do
      let r ← ext.parseExtGNU_AttributeSpecifier_AtFirst
      sub r
    | Keyword_ExtGNU___typeof__ => do
      let r ← parseExtGNU_Typeof_AtFirst ext none
      sub r
    | _ =>
      if cells.isEmpty then do
        report Diagnostic.ExpectedFIRSTofSpecifierQualifier
        pure (false, decl, out)
      else pure (true, decl, out)

/-- The method `parseSpecifierQualifierList`. -/
def parseSpecifierQualifierList (ext : Externals) (rec : ParserTable)
    (decl : Option ExternalNode) (specList : SpecifierList) (takeIdentifierAsDecltor : Bool) :
    ParserM SpecifiersResult :=
  parseSpecifierQualifierList_loop ext rec takeIdentifierAsDecltor specList rec.fuel decl []
    false

/-! ## Declarators -/

/-- The part of `parseDirectDeclarator` and `parseDirectDeclaratorSuffix`
that parses what may follow a declarator into its second attribute slot: an
asm label and then attribute specifiers, or attribute specifiers. It gives
back the flag (false is the `return false` of the sources) and the slot. -/
def parseTrailingAsmLabelAndAttributes (ext : Externals) :
    ParserM (Bool × SpecifierList) := do
  match (← peek 1) with
  | Keyword_ExtGNU___asm__ =>
    let a ← ext.parseExtGNU_AsmLabel_AtFirst
    if a.1 then
      if (← peek 1) != Keyword_ExtGNU___attribute__ then pure (true, [a.2])
      else
        let l ← ext.parseExtGNU_AttributeSpecifierList_AtFirst []
        pure (l.1, [a.2] ++ l.2)
    else pure (false, [])
  | Keyword_ExtGNU___attribute__ => ext.parseExtGNU_AttributeSpecifierList_AtFirst []
  | _ => pure (true, [])

/-- The lambda `validateContext` of `parseDirectDeclaratorSuffix`. -/
def validateContext (ext : Externals) (declScope : DeclarationScope) (d : Diagnostic) :
    ParserM Bool := do
  if declScope != DeclarationScope.FunctionPrototype then
    report d
    ext.skipTo CloseBracketToken
    pure false
  else pure true

/-- The lambda `checkDialect` of `parseDirectDeclaratorSuffix`. -/
def checkDialect : ParserM Unit := do
  if (← getOptions).stdBeforeC99 then
    report (Diagnostic.ExpectedFeature
      "C99 array declarators with `*', `static', and type-qualifiers within function parameters")

/-- The slots of a subscript suffix that the part between the brackets
fills: `qualsAndAttrs1_`, `staticKwTkIdx_`, `qualsAndAttrs2_`,
`asteriskTkIdx_`, `expr_`. -/
structure SubscriptSlots where
  qualsAndAttrs1_ : SpecifierList
  staticKwTkIdx_ : IndexType
  qualsAndAttrs2_ : SpecifierList
  asteriskTkIdx_ : IndexType
  expr_ : Option ExpressionSyntax

/-- The default case of the subscript switch in `parseDirectDeclaratorSuffix`:
an assignment expression; on failure the sources skip to the closing bracket
and return false. -/
def parseSubscriptExpression (ext : Externals) (rec : ParserTable) (s : SubscriptSlots) :
    ParserM (Bool × SubscriptSlots) := do
  let r ← rec.parseExpressionWithPrecedenceAssignment none
  if r.1 then pure (true, { s with expr_ := r.2 })
  else
    ext.skipTo CloseBracketToken
    pure (false, { s with expr_ := r.2 })

/-- The case `Keyword_static` of the subscript switch (with its fall-through
into the default case). -/
def parseSubscriptStatic (ext : Externals) (rec : ParserTable) (declScope : DeclarationScope)
    (s : SubscriptSlots) : ParserM (Bool × SubscriptSlots) := do
  checkDialect
  let v ← validateContext ext declScope
    Diagnostic.UnexpectedStaticOrTypeQualifiersInArrayDeclarator
  if v then
    let staticKwTkIdx_ ← consume
    let s := { s with staticKwTkIdx_ := staticKwTkIdx_ }
    let tkK ← peek 1
    if tkK == Keyword_const || tkK == Keyword_volatile || tkK == Keyword_restrict
        || tkK == Keyword_ExtGNU___attribute__ then
      let q ← parseTypeQualifiersAndAttributes ext rec []
      if q.1 then parseSubscriptExpression ext rec { s with qualsAndAttrs2_ := q.2 }
      else
        ext.skipTo CloseBracketToken
        pure (false, { s with qualsAndAttrs2_ := q.2 })
    else parseSubscriptExpression ext rec s
  else
    ext.skipTo CloseBracketToken
    pure (false, s)

/-- The switch between the brackets of a subscript suffix in
`parseDirectDeclaratorSuffix`; false is its `return false`. -/
def parseSubscriptSlots (ext : Externals) (rec : ParserTable) (declScope : DeclarationScope) :
    ParserM (Bool × SubscriptSlots) := do
  let s : SubscriptSlots := ⟨[], none, [], none, none⟩
  match (← peek 1) with
  | CloseBracketToken => pure (true, s)
  | AsteriskToken =>
    checkDialect
    let v ← validateContext ext declScope Diagnostic.UnexpectedPointerInArrayDeclarator
    if v then
      let asteriskTkIdx_ ← consume
      pure (true, { s with asteriskTkIdx_ := asteriskTkIdx_ })
    else
      ext.skipTo CloseBracketToken
      pure (false, s)
  | Keyword_const | Keyword_volatile | Keyword_restrict | Keyword__Atomic
  | Keyword_ExtGNU___attribute__ =>
    checkDialect
    let v ← validateContext ext declScope
      Diagnostic.UnexpectedStaticOrTypeQualifiersInArrayDeclarator
    if v then
      let q ← parseTypeQualifiersAndAttributes ext rec []
      let s := { s with qualsAndAttrs1_ := q.2 }
      if q.1 then
        let tkK ← peek 1
        if tkK = AsteriskToken then
          let asteriskTkIdx_ ← consume
          pure (true, { s with asteriskTkIdx_ := asteriskTkIdx_ })
        else if tkK != Keyword_static then parseSubscriptExpression ext rec s
        else parseSubscriptStatic ext rec declScope s
      else
        ext.skipTo CloseBracketToken
        pure (false, s)
    else
      ext.skipTo CloseBracketToken
      pure (false, s)
  | Keyword_static => parseSubscriptStatic ext rec declScope s
  | _ => parseSubscriptExpression ext rec s

/-- The method `parseDirectDeclaratorSuffix`. -/
def parseDirectDeclaratorSuffix (ext : Externals) (rec : ParserTable)
    (decltor : Option DeclaratorSyntax) (declScope : DeclarationScope)
    (decltorVariety : DeclaratorVariety) (attrList : SpecifierList)
    (innerDecltor : Option DeclaratorSyntax) : ParserM (Bool × Option DeclaratorSyntax) := do
  let finish := fun (kind : SyntaxKind) (suffix_ : DeclaratorSuffixSyntax) => do
    let a ← parseTrailingAsmLabelAndAttributes ext
    let arrOrFuncDecltor := some (DeclaratorSyntax.ArrayOrFunctionDeclarator
      kind attrList innerDecltor (some suffix_) a.2 none none)
    if a.1 then
      let tkK ← peek 1
      if tkK == OpenParenToken || tkK == OpenBracketToken then
        rec.parseDirectDeclaratorSuffix arrOrFuncDecltor declScope decltorVariety []
          arrOrFuncDecltor
      else pure (true, arrOrFuncDecltor)
    else pure (false, arrOrFuncDecltor)
  match (← peek 1) with
  | OpenParenToken =>
    let openParenTkIdx_ ← consume
    let l ← ext.parseParameterDeclarationListAndOrEllipsis
    if l.1 then
      let m ← match_ CloseParenToken none
      if m.1 then
        let psyOmitTkIdx_ ← if (← peek 1) = Keyword_ExtPSY_omission then consume else pure none
        finish FunctionDeclarator
          (DeclaratorSuffixSyntax.ParameterSuffix openParenTkIdx_ l.2.1 l.2.2 m.2 psyOmitTkIdx_)
      else pure (false, decltor)
    else pure (false, decltor)
  | OpenBracketToken =>
    let openBracketTkIdx_ ← consume
    let s ← parseSubscriptSlots ext rec declScope
    if s.1 then
      let m ← matchOrSkipTo ext CloseBracketToken none
      if m.1 then
        finish ArrayDeclarator
          (DeclaratorSuffixSyntax.SubscriptSuffix openBracketTkIdx_ s.2.qualsAndAttrs1_
            s.2.staticKwTkIdx_ s.2.qualsAndAttrs2_ s.2.asteriskTkIdx_ s.2.expr_ m.2)
      else pure (false, decltor)
    else pure (false, decltor)
  | _ => pure (true, decltor)

/-- The assignment to `identDecltor->attrs2_` made after the suffixes of an
identifier declarator have been parsed: the identifier declarator is by then
the innermost declarator of the chain of array and function declarators. -/
def DeclaratorSyntax.setIdentifierAttrs2 (attrs2 : SpecifierList) :
    DeclaratorSyntax → DeclaratorSyntax
  | .IdentifierDeclarator i a1 _ e n => .IdentifierDeclarator i a1 attrs2 e n
  | .ArrayOrFunctionDeclarator k a1 (some inner) s a2 e n =>
    .ArrayOrFunctionDeclarator k a1 (some (inner.setIdentifierAttrs2 attrs2)) s a2 e n
  | d => d

/-- The end of `parseDirectDeclarator`: a bit-field after the declarator, at
block scope, for a named declarator. -/
def parseBitfieldAfterDeclarator (ext : Externals) (rec : ParserTable)
    (decltor : Option DeclaratorSyntax) (declScope : DeclarationScope)
    (decltorVariety : DeclaratorVariety) : ParserM (Bool × Option DeclaratorSyntax) := do
  if (← peek 1) == ColonToken && decltorVariety == DeclaratorVariety.Named
      && declScope == DeclarationScope.Block then
    let colonTkIdx_ ← consume
    let r ← rec.parseExpressionWithPrecedenceConditional none
    if r.1 then
      if (← peek 1) = Keyword_ExtGNU___attribute__ then
        let l ← ext.parseExtGNU_AttributeSpecifierList_AtFirst []
        pure (true, some (DeclaratorSyntax.BitfieldDeclarator decltor colonTkIdx_ r.2 l.2))
      else pure (true, some (DeclaratorSyntax.BitfieldDeclarator decltor colonTkIdx_ r.2 []))
    else pure (false, some (DeclaratorSyntax.BitfieldDeclarator decltor colonTkIdx_ r.2 []))
  else pure (true, decltor)

/-- The method `parseDirectDeclarator`. -/
def parseDirectDeclarator (ext : Externals) (rec : ParserTable)
    (decltor : Option DeclaratorSyntax) (declScope : DeclarationScope)
    (decltorVariety : DeclaratorVariety) (attrList : SpecifierList) :
    ParserM (Bool × Option DeclaratorSyntax) := do
  let thenBitfield := fun (r : Bool × Option DeclaratorSyntax) =>
    if r.1 then parseBitfieldAfterDeclarator ext rec r.2 declScope decltorVariety
    else pure (false, r.2)
  let abstractDefault : ParserM (Bool × Option DeclaratorSyntax) := do
    if decltorVariety = DeclaratorVariety.Abstract then
      thenBitfield (true, some (DeclaratorSyntax.AbstractDeclarator attrList))
    else
      report Diagnostic.ExpectedFIRSTofDirectDeclarator
      pure (false, decltor)
  match (← peek 1) with
  | IdentifierToken =>
    if decltorVariety = DeclaratorVariety.Abstract then pure (false, decltor)
    else
      let identTkIdx_ ← consume
      let identDecltor := some (DeclaratorSyntax.IdentifierDeclarator identTkIdx_ attrList []
        none none)
      let s ← parseDirectDeclaratorSuffix ext rec identDecltor declScope decltorVariety
        attrList identDecltor
      if s.1 then
        let a ← parseTrailingAsmLabelAndAttributes ext
        thenBitfield (a.1, s.2.map (DeclaratorSyntax.setIdentifierAttrs2 a.2))
      else pure (false, s.2)
  | OpenParenToken =>
    if decltorVariety = DeclaratorVariety.Abstract then
      if (← peek 2) = CloseParenToken then
        let s ← parseDirectDeclaratorSuffix ext rec decltor declScope decltorVariety
          attrList none
        thenBitfield s
      else
        let BT ← newBacktracker
        let openParenTkIdx ← consume
        let i ← rec.parseDeclarator none DeclarationScope.FunctionPrototype
          DeclaratorVariety.Abstract
        if !i.1 || (← peek 1) != CloseParenToken then
          backtrack BT
          let absDecltor := some (DeclaratorSyntax.AbstractDeclarator attrList)
          let s ← parseDirectDeclaratorSuffix ext rec absDecltor declScope decltorVariety
            attrList absDecltor
          thenBitfield s
        else
          let closeParenTkIdx_ ← consume
          let parenDecltor := some (DeclaratorSyntax.ParenthesizedDeclarator
            openParenTkIdx i.2 closeParenTkIdx_)
          let s ← parseDirectDeclaratorSuffix ext rec parenDecltor declScope decltorVariety
            attrList parenDecltor
          thenBitfield s
    else
      let openParenTkIdx_ ← consume
      let i ← rec.parseDeclarator none declScope decltorVariety
      if i.1 then
        let m ← match_ CloseParenToken none
        if m.1 then
          let parenDecltor := some (DeclaratorSyntax.ParenthesizedDeclarator
            openParenTkIdx_ i.2 m.2)
          let s ← parseDirectDeclaratorSuffix ext rec decltor declScope decltorVariety
            attrList parenDecltor
          if s.1 then
            thenBitfield (true, if s.2.isNone then parenDecltor else s.2)
          else pure (false, s.2)
        else pure (false, decltor)
      else pure (false, decltor)
  | OpenBracketToken =>
    if decltorVariety = DeclaratorVariety.Abstract then
      let s ← parseDirectDeclaratorSuffix ext rec decltor declScope decltorVariety
        attrList none
      thenBitfield s
    else
      report Diagnostic.ExpectedFIRSTofDirectDeclarator
      pure (false, decltor)
  | ColonToken =>
    if decltorVariety == DeclaratorVariety.Named && declScope == DeclarationScope.Block then
      let colonTkIdx_ ← consume
      let r ← rec.parseExpressionWithPrecedenceConditional none
      thenBitfield
        (r.1, some (DeclaratorSyntax.BitfieldDeclarator none colonTkIdx_ r.2 []))
    else abstractDefault
  | _ => abstractDefault

/-- The method `parseDeclarator(decltor, declScope, decltorVariety)`. -/
def parseDeclarator (ext : Externals) (rec : ParserTable)
    (decltor : Option DeclaratorSyntax) (declScope : DeclarationScope)
    (decltorVariety : DeclaratorVariety) : ParserM (Bool × Option DeclaratorSyntax) := do
  let attrList ←
    if (← peek 1) = Keyword_ExtGNU___attribute__ then do
      let l ← ext.parseExtGNU_AttributeSpecifierList_AtFirst []
      pure l.2
    else pure []
  if (← peek 1) = AsteriskToken then
    let asteriskTkIdx_ ← consume
    let q ← parseTypeQualifiersAndAttributes ext rec []
    if q.1 then
      let i ← rec.parseDeclarator none declScope decltorVariety
      pure (i.1, some (DeclaratorSyntax.PointerDeclarator attrList asteriskTkIdx_ q.2 i.2
        none none))
    else pure (false, some (DeclaratorSyntax.PointerDeclarator attrList asteriskTkIdx_ q.2 none
      none none))
  else parseDirectDeclarator ext rec decltor declScope decltorVariety attrList

/-- The method `parseAbstractDeclarator`. -/
def parseAbstractDeclarator (ext : Externals) (rec : ParserTable)
    (decltor : Option DeclaratorSyntax) : ParserM (Bool × Option DeclaratorSyntax) :=
  parseDeclarator ext rec decltor DeclarationScope.FunctionPrototype DeclaratorVariety.Abstract

/-- Modelled from the spec: `parseTypeName`, whose body is outside of the
sources. A type name is a specifier-qualifier list followed by an abstract
declarator, and an identifier at its start is taken as a typedef-name
(`( T ) * y` is read as a cast to `T`): the list is parsed without the
identifier-role oracle. On a failure of the list the parameter keeps its
value. -/
def parseTypeName (ext : Externals) (rec : ParserTable) (typeName : Option TypeNameSyntax) :
    ParserM (Bool × Option TypeNameSyntax) := do
  let s ← parseSpecifierQualifierList ext rec none [] false
  if s.1 then
    let d ← parseAbstractDeclarator ext rec none
    pure (d.1, some (TypeNameSyntax.mk s.2.2 d.2))
  else pure (false, typeName)

/-! ## The table of the recursive methods, by fuel -/

/-- The table with no fuel left: every method is out of fuel. -/
def ParserTable.empty : ParserTable where
  fuel := 0
  parseExpression := fun _ => fail Fault.outOfFuel
  parseExpressionWithPrecedenceAssignment := fun _ => fail Fault.outOfFuel
  parseExpressionWithPrecedenceConditional := fun _ => fail Fault.outOfFuel
  parseExpressionWithPrecedenceCast := fun _ => fail Fault.outOfFuel
  parseExpressionWithPrecedenceUnary := fun _ => fail Fault.outOfFuel
  parseNAryExpression_AtOperator := fun _ _ => fail Fault.outOfFuel
  parseTypeName := fun _ => fail Fault.outOfFuel
  parseInitializer := fun _ => fail Fault.outOfFuel
  parseDeclarator := fun _ _ _ => fail Fault.outOfFuel
  parseDirectDeclaratorSuffix := fun _ _ _ _ _ => fail Fault.outOfFuel

/-- The table of the recursive methods with `fuel` units of fuel: each
method is its body, run with the table that has one unit less. -/
def ParserTable.ofFuel (ext : Externals) : Nat → ParserTable
  | 0 => ParserTable.empty
  | fuel + 1 =>
    let rec_ := ParserTable.ofFuel ext fuel
    { fuel := fuel + 1
      parseExpression := PsycheC.parseExpression ext rec_
      parseExpressionWithPrecedenceAssignment := PsycheC.parseExpressionWithPrecedenceAssignment ext rec_
      parseExpressionWithPrecedenceConditional :=
        PsycheC.parseExpressionWithPrecedenceConditional ext rec_
      parseExpressionWithPrecedenceCast := PsycheC.parseExpressionWithPrecedenceCast ext rec_
      parseExpressionWithPrecedenceUnary := PsycheC.parseExpressionWithPrecedenceUnary ext rec_
      parseNAryExpression_AtOperator := PsycheC.parseNAryExpression_AtOperator ext rec_
      parseTypeName := PsycheC.parseTypeName ext rec_
      parseInitializer := PsycheC.parseInitializer ext rec_
      parseDeclarator := PsycheC.parseDeclarator ext rec_
      parseDirectDeclaratorSuffix := PsycheC.parseDirectDeclaratorSuffix ext rec_ }

/-! ## Declarations -/

/-- The declaration nodes that the modelled methods build or complete.
`TypeDeclaration typeDecl idx` is the type declaration `typeDecl`, a node built
by `parseTaggedTypeSpecifier_AtFirst`, with `idx` in its slot `semicolonTkIdx_`
(null as long as the slot has not been written). `ExtensionMarked idx d` is
the node `d` with its `extKwTkIdx_` slot set to `idx` (the slot exists on every
declaration node and is only ever written for a `__extension__` prefix). -/
inductive DeclarationSyntax
  | IncompleteDeclaration (specs_ : SpecifierList) (semicolonTkIdx_ : IndexType)
  | TypeDeclaration (typeDecl : ExternalNode) (semicolonTkIdx_ : IndexType)
  | VariableAndOrFunctionDeclaration (specs_ : SpecifierList)
      (decltors_ : List (Option DeclaratorSyntax × IndexType)) (semicolonTkIdx_ : IndexType)
  | FunctionDefinition (specs_ : SpecifierList) (decltor_ : Option DeclaratorSyntax)
      (body_ : Option ExternalNode)
  | StaticAssertDeclaration (staticAssertKwTkIdx_ : IndexType) (openParenTkIdx_ : IndexType)
      (expr_ : Option ExpressionSyntax) (commaTkIdx_ : IndexType)
      (strLit_ : Option ExpressionSyntax) (closeParenTkIdx_ : IndexType)
      (semicolonTkIdx_ : IndexType)
  | ExtGNU_AsmStatementDeclaration (asmTkIdx_ : IndexType) (openParenTkIdx_ : IndexType)
      (strLit_ : Option ExpressionSyntax) (closeParenTkIdx_ : IndexType)
  | ExtPSY_TemplateDeclaration (templateTkIdx_ : IndexType) (decl_ : Option DeclarationSyntax)
  | FieldDeclaration (specs_ : SpecifierList)
      (decltors_ : List (Option DeclaratorSyntax × IndexType)) (semicolonTkIdx_ : IndexType)
  | EnumMemberDeclaration (identTkIdx_ : IndexType) (attrs_ : SpecifierList)
      (equalsTkIdx_ : IndexType) (expr_ : Option ExpressionSyntax) (commaTkIdx_ : IndexType)
  | ExtensionMarked (extKwTkIdx_ : IndexType) (decl : DeclarationSyntax)

/-- What a parsing method of declarations gives back: the returned flag and
the outgoing value of its `DeclarationSyntax*&` parameter. -/
abbrev DeclResult := Bool × Option DeclarationSyntax

/-- The method `parseIncompleteDeclaration_AtFirst`. -/
def parseIncompleteDeclaration_AtFirst (decl : Option DeclarationSyntax)
    (specList : SpecifierList) : ParserM (Option DeclarationSyntax) := do
  if (← peek 1) != SemicolonToken then pure decl
  else
    let semicolonTkIdx_ ← consume
    pure (some (DeclarationSyntax.IncompleteDeclaration specList semicolonTkIdx_))

/-- The downcast `asTaggedTypeSpecifier()`: the node when the specifier is a
tagged type specifier (a specifier of kind `StructTypeSpecifier`,
`UnionTypeSpecifier` or `EnumTypeSpecifier`, built by
`parseTaggedTypeSpecifier_AtFirst`), null otherwise. -/
def SpecifierSyntax.asTaggedTypeSpecifier : SpecifierSyntax → Option ExternalNode
  | .External k node =>
    if k == StructTypeSpecifier || k == UnionTypeSpecifier || k == EnumTypeSpecifier then
      some node
    else none
  | _ => none

/-- The loop of `parseDeclaration` over the specifier list, which puts
`tyDeclSpec` in the place of the first tagged type specifier that is the
`typeSpec_` of the type declaration (a comparison of pointers: the node of
the specifier is the node in the slot). The value of a cell is dereferenced. -/
def replaceTaggedTypeSpecifier (typeSpec_ : Option ExternalNode)
    (tyDeclSpec : SpecifierSyntax) : SpecifierList → Except Fault SpecifierList
  | [] => Except.ok []
  | none :: _ => Except.error Fault.nullDereference
  | some value :: next =>
    if value.asTaggedTypeSpecifier.isSome && value.asTaggedTypeSpecifier == typeSpec_ then
      Except.ok (some tyDeclSpec :: next)
    else
      match replaceTaggedTypeSpecifier typeSpec_ tyDeclSpec next with
      | Except.ok rest => Except.ok (some value :: rest)
      | Except.error f => Except.error f

/-- The method `parseDeclaration`; `parseSpecifiers` and
`parse_AtFollowOfSpecifiers` are its two parameters of that name. The
declaration that the specifier parser leaves is a type declaration (the
sources cast it to one). -/
def parseDeclaration (ext : Externals)
    (parseSpecifiers : Option ExternalNode → SpecifierList → Bool → ParserM SpecifiersResult)
    (parse_AtFollowOfSpecifiers : Option DeclarationSyntax → SpecifierList → ParserM DeclResult)
    (decl : Option ExternalNode) (declScope : DeclarationScope) : ParserM DeclResult := do
  let s ← parseSpecifiers decl [] (declScope != DeclarationScope.Block)
  if !s.1 then
    pure (false, s.2.1.map (fun tyDecl => DeclarationSyntax.TypeDeclaration tyDecl none))
  else if (← peek 1) = SemicolonToken then
    match s.2.1 with
    | some tyDecl =>
      let semicolonTkIdx_ ← consume
      pure (true, some (DeclarationSyntax.TypeDeclaration tyDecl semicolonTkIdx_))
    | none =>
      let d ← parseIncompleteDeclaration_AtFirst none s.2.2
      pure (true, d)
  else
    let specList ←
      match s.2.1 with
      | some tyDecl =>
        let tyDeclSpec := SpecifierSyntax.TypeDeclarationAsSpecifier (some tyDecl)
        if s.2.2.isEmpty then pure [some tyDeclSpec]
        else liftExcept (replaceTaggedTypeSpecifier (ext.typeSpecOf tyDecl) tyDeclSpec s.2.2)
      | none => pure s.2.2
    if specList.isEmpty then
      if declScope = DeclarationScope.File then report Diagnostic.ExpectedTypeSpecifier
      else if declScope = DeclarationScope.Block then
        report Diagnostic.ExpectedFIRSTofSpecifierQualifier
    parse_AtFollowOfSpecifiers none specList

/-- Modelled from the spec: `SyntaxUtilities::strippedDeclarator` (defined
outside of the sources), the declarator without the parentheses around it,
its "outermost non-parenthesized shape"; null when a parenthesized declarator
has no inner declarator. -/
def DeclaratorSyntax.stripped : DeclaratorSyntax → Option DeclaratorSyntax
  | .ParenthesizedDeclarator _ (some inner) _ => inner.stripped
  | .ParenthesizedDeclarator _ none _ => none
  | d => some d

/-- Modelled from the spec: `strippedDeclarator` of a pointer that may be null. -/
def strippedDeclarator : Option DeclaratorSyntax → Option DeclaratorSyntax
  | some d => d.stripped
  | none => none

/-- What `SyntaxUtilities::innerDeclarator` gives: the declarator it was
given, or the value of a slot `innerDecltor_`. -/
inductive InnerDeclarator
  | itself
  | slot (innerDecltor_ : Option DeclaratorSyntax)

/-- Modelled from the spec: `SyntaxUtilities::innerDeclarator` (defined outside
of the sources), the declarator that a declarator wraps, which "each suffix
records" in its slot `innerDecltor_`, as pointer, parenthesized and bit-field
declarators do; a declarator that wraps none (an identifier or abstract
declarator) gives itself, which is how the loop that calls it ends. -/
def innerDeclarator : DeclaratorSyntax → InnerDeclarator
  | .PointerDeclarator _ _ _ inner _ _ => InnerDeclarator.slot inner
  | .ParenthesizedDeclarator _ inner _ => InnerDeclarator.slot inner
  | .ArrayOrFunctionDeclarator _ _ inner _ _ _ _ => InnerDeclarator.slot inner
  | .BitfieldDeclarator inner _ _ _ => InnerDeclarator.slot inner
  | .IdentifierDeclarator _ _ _ _ _ => InnerDeclarator.itself
  | .AbstractDeclarator _ => InnerDeclarator.itself

/-- The number of declarators from a declarator down its slots `innerDecltor_`. -/
def DeclaratorSyntax.depth : DeclaratorSyntax → Nat
  | .PointerDeclarator _ _ _ (some inner) _ _ => inner.depth + 1
  | .ParenthesizedDeclarator _ (some inner) _ => inner.depth + 1
  | .ArrayOrFunctionDeclarator _ _ (some inner) _ _ _ _ => inner.depth + 1
  | .BitfieldDeclarator (some inner) _ _ _ => inner.depth + 1
  | _ => 1

/-- The loop of `parseDeclarationOrFunctionDefinition_AtFollowOfSpecifiers`
that goes from a declarator inwards, `while (outerDecltor)`, with its
variables `prevDecltor` and `outerDecltor`; it gives their values after the
loop. One iteration per unit of fuel (null: the fuel ran out). -/
def innermostDeclarator_loop :
    Nat → Option DeclaratorSyntax → Option DeclaratorSyntax →
      Option (Option DeclaratorSyntax × Option DeclaratorSyntax)
  | 0, _, _ => none
  | _ + 1, prevDecltor, none => some (prevDecltor, none)
  | fuel + 1, prevDecltor, some outerDecltor =>
    match innerDeclarator outerDecltor with
    | InnerDeclarator.itself => some (prevDecltor, some outerDecltor)
    | InnerDeclarator.slot innerDecltor =>
      innermostDeclarator_loop fuel (some outerDecltor) (strippedDeclarator innerDecltor)

/-- The test of `parseDeclarationOrFunctionDefinition_AtFollowOfSpecifiers`
at `{`, for the first declarator: the loop inwards, which each iteration
takes one declarator further in and so ends within the depth of the
declarator, and then `prevDecltor && prevDecltor->kind() == FunctionDeclarator
&& outerDecltor->kind() == IdentifierDeclarator`. -/
def declaresFunctionOfIdentifier (decltor : Option DeclaratorSyntax) : Except Fault Bool :=
  let fuel := match decltor with
    | some d => d.depth + 1
    | none => 1
  match innermostDeclarator_loop fuel none (strippedDeclarator decltor) with
  | none => Except.error Fault.outOfFuel
  | some (none, _) => Except.ok false
  | some (some prevDecltor, outerDecltor) =>
    if prevDecltor.kind = SyntaxKind.FunctionDeclarator then
      match outerDecltor with
      | none => Except.error Fault.nullDereference
      | some o => Except.ok (o.kind == SyntaxKind.IdentifierDeclarator)
    else Except.ok false

/-- The switch of `parseDeclarationOrFunctionDefinition_AtFollowOfSpecifiers`
at `=`, on the kind of the stripped declarator: whether the declarator takes
an initializer (an identifier, pointer or array declarator, or a function
declarator whose inner declarator, stripped, is a pointer declarator). The
stripped declarators are dereferenced. -/
def takesInitializer (decltor : Option DeclaratorSyntax) : Except Fault Bool :=
  match strippedDeclarator decltor with
  | none => Except.error Fault.nullDereference
  | some stripDecltor =>
    if stripDecltor.kind = SyntaxKind.IdentifierDeclarator then Except.ok true
    else if stripDecltor.kind = SyntaxKind.PointerDeclarator then Except.ok true
    else if stripDecltor.kind = SyntaxKind.ArrayDeclarator then Except.ok true
    else if stripDecltor.kind = SyntaxKind.FunctionDeclarator then
      match stripDecltor with
      | .ArrayOrFunctionDeclarator _ _ (some innerDecltor_) _ _ _ _ =>
        match innerDecltor_.stripped with
        | none => Except.error Fault.nullDereference
        | some stripInnerDecltor =>
          Except.ok (stripInnerDecltor.kind == SyntaxKind.PointerDeclarator)
      | _ => Except.ok false
    else Except.ok false

/-- The slots `equalsTkIdx_` and `init_` of a declarator written. -/
def DeclaratorSyntax.setInitializer (equalsTkIdx_ : IndexType)
    (init_ : Option InitializerSyntax) : DeclaratorSyntax → DeclaratorSyntax
  | .IdentifierDeclarator i a1 a2 _ _ => .IdentifierDeclarator i a1 a2 equalsTkIdx_ init_
  | .PointerDeclarator a i q inner _ _ => .PointerDeclarator a i q inner equalsTkIdx_ init_
  | .ArrayOrFunctionDeclarator k a1 inner s a2 _ _ =>
    .ArrayOrFunctionDeclarator k a1 inner s a2 equalsTkIdx_ init_
  | d => d

/-- The declarator after the slots `equalsTkIdx_` and `init_` of its stripped
declarator have been written (the sources write them through the pointer
that `strippedDeclarator` gave). -/
def DeclaratorSyntax.setStrippedInitializer (equalsTkIdx_ : IndexType)
    (init_ : Option InitializerSyntax) : DeclaratorSyntax → DeclaratorSyntax
  | .ParenthesizedDeclarator o (some inner) c =>
    .ParenthesizedDeclarator o (some (inner.setStrippedInitializer equalsTkIdx_ init_)) c
  | d => d.setInitializer equalsTkIdx_ init_

/-- The switch of `parseDeclarationOrFunctionDefinition_AtFollowOfSpecifiers`
on the token behind a declarator and its initializer. `decltorList` holds
the cells linked before, to which the cell of the declarator is appended
(`decltorList_cur` points behind them, and to the head of the list when there
are none); `init` says whether an initializer was parsed; `continue_` runs
the next iteration of the loop. -/
def parseFollowOfDeclarator (ext : Externals) (specList : SpecifierList)
    (decl : Option DeclarationSyntax) (decltorList : List (Option DeclaratorSyntax × IndexType))
    (continue_ : List (Option DeclaratorSyntax × IndexType) → ParserM DeclResult)
    (decltor : Option DeclaratorSyntax) (init : Bool) : ParserM DeclResult := do
  let tkK ← peek 1
  if tkK = CommaToken then
    let delimTkIdx_ ← consume
    continue_ (decltorList ++ [(decltor, delimTkIdx_)])
  else if tkK = SemicolonToken then
    let semicolonTkIdx_ ← consume
    pure (true, some (DeclarationSyntax.VariableAndOrFunctionDeclaration specList
      (decltorList ++ [(decltor, none)]) semicolonTkIdx_))
  else
    let isDefinition ←
      if tkK = OpenBraceToken ∧ decltorList.isEmpty = true then
        liftExcept (declaresFunctionOfIdentifier decltor)
      else pure false
    if isDefinition then
      let b ← ext.parseCompoundStatement_AtFirst
      pure (true, some (DeclarationSyntax.FunctionDefinition specList decltor b.2))
    else
      if init then report Diagnostic.ExpectedFOLLOWofInitializedDeclarator
      else report Diagnostic.ExpectedFOLLOWofDeclarator
      pure (false, decl)

/-- The loop of `parseDeclarationOrFunctionDefinition_AtFollowOfSpecifiers`,
one iteration per unit of fuel; `decltorList` holds the cells linked so far. -/
def parseDeclarationOrFunctionDefinition_AtFollowOfSpecifiers_loop (ext : Externals)
    (rec : ParserTable) (specList : SpecifierList) :
    Nat → Option DeclarationSyntax → List (Option DeclaratorSyntax × IndexType) →
      ParserM DeclResult
  | 0, _, _ => fail Fault.outOfFuel
  | fuel + 1, decl, decltorList => do
    let r ← parseDeclarator ext rec none DeclarationScope.File DeclaratorVariety.Named
    if !r.1 then pure (false, decl)
    else
      let follow := parseFollowOfDeclarator ext specList decl decltorList
        (parseDeclarationOrFunctionDefinition_AtFollowOfSpecifiers_loop ext rec specList fuel
          decl)
      if (← peek 1) = EqualsToken then
        let takes ← liftExcept (takesInitializer r.2)
        if takes then
          let equalsTkIdx_ ← consume
          let i ← parseInitializer ext rec none
          if i.1 then
            follow (r.2.map (DeclaratorSyntax.setStrippedInitializer equalsTkIdx_ i.2)) true
          else pure (false, decl)
        else
          report Diagnostic.UnexpectedInitializerOfDeclarator
          let g ← ext.ignoreDeclarator
          pure (g, decl)
      else follow r.2 false

/-- The method `parseDeclarationOrFunctionDefinition_AtFollowOfSpecifiers`. -/
def parseDeclarationOrFunctionDefinition_AtFollowOfSpecifiers (ext : Externals)
    (rec : ParserTable) (decl : Option DeclarationSyntax) (specList : SpecifierList) :
    ParserM DeclResult :=
  parseDeclarationOrFunctionDefinition_AtFollowOfSpecifiers_loop ext rec specList rec.fuel
    decl []

/-- The method `parseDeclarationOrFunctionDefinition`. -/
def parseDeclarationOrFunctionDefinition (ext : Externals) (rec : ParserTable)
    (decl : Option ExternalNode) : ParserM DeclResult :=
  parseDeclaration ext (parseDeclarationSpecifiers ext rec)
    (parseDeclarationOrFunctionDefinition_AtFollowOfSpecifiers ext rec) decl
    DeclarationScope.File

/-! ## Infix sequences and operator trees (for stating what the n-ary engine builds) -/

/-- The parser moved forward over `n` tokens. -/
def Parser.advance (p : Parser) (n : Nat) : Parser :=
  { p with curTkIdx_ := p.curTkIdx_ + n }

/-- The tokens from the cursor on. -/
def Parser.rest (p : Parser) : List SyntaxKind :=
  p.tokens.drop p.curTkIdx_

/-- A token that is an operand by itself: an identifier, a constant or a
string literal. -/
def isSingleTokenOperand (tkK : SyntaxKind) : Bool :=
  tkK == IdentifierToken || isConstantToken tkK || isStringLiteralToken tkK

/-- A binary, assignment or comma operator token: a token with a defined
precedence other than `?`. -/
def isInfixOperatorToken (tkK : SyntaxKind) : Bool :=
  precedenceOf tkK != NAryPrecedence.Undefined && tkK != QuestionToken

/-- The tokens on which `parsePostfixExpression_AtFollow` goes on. -/
def isPostfixStart (tkK : SyntaxKind) : Bool :=
  match tkK with
  | OpenBracketToken | OpenParenToken | DotToken | ArrowToken | PlusPlusToken
  | MinusMinusToken => true
  | _ => false

/-- A token that continues the operand before it: it starts a postfix operator,
or it is a string literal (which is joined to a string literal before it). -/
def continuesOperand (tkK : SyntaxKind) : Bool :=
  isPostfixStart tkK || isStringLiteralToken tkK

/-- A token at which an infix sequence ends: it is no operator of the n-ary
engine (its precedence is undefined) and it does not continue the operand
before it. -/
def endsInfixSequence (tkK : SyntaxKind) : Bool :=
  precedenceOf tkK == NAryPrecedence.Undefined && !continuesOperand tkK

/-- The node that `parsePrimaryExpression` makes of a single operand token
standing at index `tkIdx`. -/
def operandNode (tkK : SyntaxKind) (tkIdx : Nat) : ExpressionSyntax :=
  match tkK with
  | IntegerConstantToken =>
    ExpressionSyntax.ConstantExpression IntegerConstantExpression (some tkIdx)
  | FloatingConstantToken =>
    ExpressionSyntax.ConstantExpression FloatingConstantExpression (some tkIdx)
  | CharacterConstantToken | CharacterConstant_L_Token | CharacterConstant_u_Token
  | CharacterConstant_U_Token =>
    ExpressionSyntax.ConstantExpression CharacterConstantExpression (some tkIdx)
  | Keyword_Ext_true | Keyword_Ext_false =>
    ExpressionSyntax.ConstantExpression BooleanConstantExpression (some tkIdx)
  | Keyword_Ext_NULL | Keyword_Ext_nullptr =>
    ExpressionSyntax.ConstantExpression NULL_ConstantExpression (some tkIdx)
  | StringLiteralToken | StringLiteral_L_Token | StringLiteral_u8_Token
  | StringLiteral_u_Token | StringLiteral_U_Token | StringLiteral_R_Token
  | StringLiteral_LR_Token | StringLiteral_u8R_Token | StringLiteral_uR_Token
  | StringLiteral_UR_Token =>
    ExpressionSyntax.StringLiteralExpression (some tkIdx) none
  | _ => ExpressionSyntax.IdentifierExpression (some tkIdx)

/-- An operator followed by its right-hand operand, each with the index of
its token: one step of an infix sequence after the first operand. -/
structure InfixItem where
  oprtrTkK : SyntaxKind
  oprtrTkIdx : Nat
  operandTkK : SyntaxKind
  operandTkIdx : Nat
deriving DecidableEq, Repr

/-- The infix items of the tokens `op1 e1 op2 e2 ...` (given as pairs) when
the first of them stands at index `idx`. -/
def infixItemsAt : Nat → List (SyntaxKind × SyntaxKind) → List InfixItem
  | _, [] => []
  | idx, (op, e) :: rest => ⟨op, idx, e, idx + 1⟩ :: infixItemsAt (idx + 2) rest

/-- The tokens `op1 e1 op2 e2 ...` of a list of pairs. -/
def infixTokens : List (SyntaxKind × SyntaxKind) → List SyntaxKind
  | [] => []
  | (op, e) :: rest => op :: e :: infixTokens rest

/-- A tree of infix operators over single-token operands, every token with
its index. A leaf can also be an expression that is given (an operand that
was parsed before the n-ary engine started). -/
inductive OperatorTree
  | operand (tkK : SyntaxKind) (tkIdx : Nat)
  | given (expr : ExpressionSyntax)
  | operator (tkK : SyntaxKind) (tkIdx : Nat) (left : OperatorTree) (right : OperatorTree)

/-- The expression nodes of an operator tree: an operand is the node that
`parsePrimaryExpression` makes of it, an operator the assignment, binary or
sequencing node that the n-ary engine makes (`makeNAryNode`), with the index
of the operator token in its operator slot. -/
def OperatorTree.toExpression : OperatorTree → ExpressionSyntax
  | .operand tkK tkIdx => operandNode tkK tkIdx
  | .given expr => expr
  | .operator tkK tkIdx left right =>
    makeNAryNode none (NAryExpressionKind tkK) (some left.toExpression) (some tkIdx)
      (some right.toExpression)

/-- The tokens of an operator tree from left to right, with their indices. -/
def OperatorTree.tokens : OperatorTree → List (SyntaxKind × Nat)
  | .operand tkK tkIdx => [(tkK, tkIdx)]
  | .given _ => []
  | .operator tkK tkIdx left right => left.tokens ++ (tkK, tkIdx) :: right.tokens

/-- The operator token at the root of an operator tree, if it is no operand. -/
def OperatorTree.rootOperator : OperatorTree → Option SyntaxKind
  | .operand _ _ => none
  | .given _ => none
  | .operator tkK _ _ _ => some tkK

/-- An operator at the root of the left operand of `op` binds tighter than `op`:
its precedence is higher, or the same at a level that is left-to-right. -/
def bindsTighterOnLeft (op : SyntaxKind) (inner : SyntaxKind) : Bool :=
  decide (precedenceOf op < precedenceOf inner)
    || (precedenceOf inner == precedenceOf op && !isRightAssociative op)

/-- An operator at the root of the right operand of `op` binds tighter than
`op`: its precedence is higher, or the same at a level that is right-to-left. -/
def bindsTighterOnRight (op : SyntaxKind) (inner : SyntaxKind) : Bool :=
  decide (precedenceOf op < precedenceOf inner)
    || (precedenceOf inner == precedenceOf op && isRightAssociative op)

/-- The shape of the tree in which an operator of higher precedence binds
tighter than a neighbouring operator of lower precedence, and operators of
one level nest by their associativity: at every operator, the operator at the
root of either operand (if that operand is no single token) binds tighter. -/
def OperatorTree.precedenceShaped : OperatorTree → Bool
  | .operand _ _ => true
  | .given _ => true
  | .operator tkK _ left right =>
    left.precedenceShaped && right.precedenceShaped
      && (match left.rootOperator with
          | some o => bindsTighterOnLeft tkK o
          | none => true)
      && (match right.rootOperator with
          | some o => bindsTighterOnRight tkK o
          | none => true)

/-- The tokens of a list of infix items, with their indices. -/
def itemTokens : List InfixItem → List (SyntaxKind × Nat)
  | [] => []
  | it :: rest =>
    (it.oprtrTkK, it.oprtrTkIdx) :: (it.operandTkK, it.operandTkIdx) :: itemTokens rest

/-- The items of an infix sequence are well formed: every operator is a
binary, assignment or comma operator token and every operand a single
operand token. -/
def InfixOps (L : List InfixItem) : Prop :=
  ∀ it ∈ L, isInfixOperatorToken it.oprtrTkK = true ∧ isSingleTokenOperand it.operandTkK = true

/-- The tree in which every given leaf is replaced by the tree `new`. -/
def OperatorTree.replaceGiven : OperatorTree → OperatorTree → OperatorTree
  | .operand tkK tkIdx, _ => .operand tkK tkIdx
  | .given _, new => new
  | .operator tkK tkIdx left right, new =>
    .operator tkK tkIdx (left.replaceGiven new) (right.replaceGiven new)

/-- The tree `((e0 op1 e1) op2 e2) ... opn en`. -/
def leftNested : OperatorTree → List InfixItem → OperatorTree
  | base, [] => base
  | base, it :: rest =>
    leftNested (.operator it.oprtrTkK it.oprtrTkIdx base
      (.operand it.operandTkK it.operandTkIdx)) rest

/-- The tree `e0 op1 (e1 op2 (... opn en))`. -/
def rightNested : OperatorTree → List InfixItem → OperatorTree
  | base, [] => base
  | base, it :: rest =>
    .operator it.oprtrTkK it.oprtrTkIdx base
      (rightNested (.operand it.operandTkK it.operandTkIdx) rest)

mutual

/-- The outer loop of the n-ary engine on an infix sequence, as a function of
the operator tree so far (`base`), the cutoff and the items left: the tree it
builds and the items it leaves. One call per unit of fuel. -/
def climbOuter : Nat → OperatorTree → Nat → List InfixItem →
    Option (OperatorTree × List InfixItem)
  | 0, _, _, _ => none
  | _ + 1, base, _, [] => some (base, [])
  | fuel + 1, base, cutoff, it :: rest =>
    if precedenceOf it.oprtrTkK ≥ cutoff then
      match climbInner fuel (precedenceOf it.oprtrTkK)
          (.operand it.operandTkK it.operandTkIdx) rest with
      | some (next, rest') =>
        climbOuter fuel (.operator it.oprtrTkK it.oprtrTkIdx base next) cutoff rest'
      | none => none
    else some (base, it :: rest)

/-- The inner loop of the n-ary engine on an infix sequence: the right
operand so far (`next`), the precedence of the operator just consumed, and
the items left. -/
def climbInner : Nat → Nat → OperatorTree → List InfixItem →
    Option (OperatorTree × List InfixItem)
  | 0, _, _, _ => none
  | _ + 1, _, next, [] => some (next, [])
  | fuel + 1, refPrec, next, it :: rest =>
    if reclimbs refPrec it.oprtrTkK then
      match climbOuter fuel next (precedenceOf it.oprtrTkK) (it :: rest) with
      | some (next', rest') => climbInner fuel refPrec next' rest'
      | none => none
    else some (next, it :: rest)

end

/-! ## Auxiliary notions for the proofs -/

/-- Sequencing on an outcome. -/
def Res.andThen {α β : Type} (r : Res α) (k : α → Parser → Res β) : Res β :=
  match r with
  | Res.ok a q => k a q
  | Res.fault f => Res.fault f

/-- What the inner loop needs of its operand so far. -/
def PreInner (next : OperatorTree) (L : List InfixItem) : Prop :=
  ∀ it R o, L = it :: R → next.rootOperator = some o →
    precedenceOf it.oprtrTkK < precedenceOf o

/-- What the outer loop needs of its tree so far. -/
def PreOuter (base : OperatorTree) (cutoff : Nat) (L : List InfixItem) : Prop :=
  ∀ it R o, L = it :: R → cutoff ≤ precedenceOf it.oprtrTkK → base.rootOperator = some o →
    bindsTighterOnLeft it.oprtrTkK o = true

/-- What the outer loop gives. -/
def PostOuter (base : OperatorTree) (cutoff : Nat) (L : List InfixItem)
    (T : OperatorTree) (R : List InfixItem) : Prop :=
  ∃ L1, L = L1 ++ R ∧ T.tokens = base.tokens ++ itemTokens L1
    ∧ (∀ it R', R = it :: R' → precedenceOf it.oprtrTkK < cutoff)
    ∧ (L1 = [] → T = base)
    ∧ (L1 ≠ [] → ∃ o, T.rootOperator = some o ∧ cutoff ≤ precedenceOf o)
    ∧ (base.precedenceShaped = true → PreOuter base cutoff L → T.precedenceShaped = true)

/-- What the inner loop gives. -/
def PostInner (next : OperatorTree) (refPrec : Nat) (L : List InfixItem)
    (T : OperatorTree) (R : List InfixItem) : Prop :=
  ∃ L1, L = L1 ++ R ∧ T.tokens = next.tokens ++ itemTokens L1
    ∧ (∀ it R', R = it :: R' → reclimbs refPrec it.oprtrTkK = false)
    ∧ (L1 = [] → T = next)
    ∧ (L1 ≠ [] → ∃ o, T.rootOperator = some o ∧ refPrec ≤ precedenceOf o
          ∧ (precedenceOf o = refPrec → isRightAssociative o = true))
    ∧ (next.precedenceShaped = true → PreInner next L → T.precedenceShaped = true)

/-- The parser stands before the tokens of the items `L`, followed by `tail`, and the items
carry the indices of their tokens. -/
def AtItems (p : Parser) (L : List InfixItem) (tail : List SyntaxKind) : Prop :=
  ∃ pairs, L = infixItemsAt p.curTkIdx_ pairs ∧ p.rest = infixTokens pairs ++ tail

/-- Sub-parsers that fail at once, without consuming a token: the externals of the
concrete examples, whose inputs never reach them. -/
def Externals.failing : Externals where
  parseCompoundStatement_AtFirst := pure (false, none)
  parseParenthesizedTypeNameOrExpression := pure (false, none)
  skipTo := fun _ => pure ()
  matchOrSkipTo_mismatch := fun _ tkIdx => pure (false, tkIdx)
  parseTaggedTypeSpecifier_AtFirst := fun decl _ _ => pure (false, decl, none)
  parseExtGNU_AttributeSpecifier_AtFirst := pure (false, none)
  parseExtGNU_AttributeSpecifierList_AtFirst := fun specList => pure (false, specList)
  parseExtGNU_AsmLabel_AtFirst := pure (false, none)
  parseParameterDeclarationListAndOrEllipsis := pure (false, none, none)
  ignoreDeclarator := pure false
  typeSpecOf := fun _ => none
  ignoreDeclarationOrDefinition := pure ()
  parseParameterDeclaration := pure (false, none)
  ignoreMemberDeclaration := pure ()

/-- The externals of the examples with tagged types, function declarators and function
bodies. They are as `Externals.failing`, except that
`parseParameterDeclarationListAndOrEllipsis` returns true on `)` and leaves the suffix
as it is (its `case CloseParenToken: break;`), `parseTaggedTypeSpecifier_AtFirst` parses a
tagged type without a name and without members, `struct { }`, into a type declaration and
its specifier, both named by the index of the keyword, and
`parseCompoundStatement_AtFirst` parses the empty compound statement `{ }`, named by the
index of its brace. -/
def Externals.ofExamples : Externals :=
  { Externals.failing with
    parseParameterDeclarationListAndOrEllipsis := fun p =>
      if p.peek 1 = CloseParenToken then Res.ok (true, none, none) p
      else Res.ok (false, none, none) p
    parseTaggedTypeSpecifier_AtFirst := fun decl _ specK p =>
      if p.peek 2 = OpenBraceToken ∧ p.peek 3 = CloseBraceToken then
        Res.ok (true, some ⟨p.curTkIdx_⟩, some (SpecifierSyntax.External specK ⟨p.curTkIdx_⟩))
          (p.advance 3)
      else Res.ok (false, decl, none) p
    parseCompoundStatement_AtFirst := fun p =>
      if p.peek 1 = OpenBraceToken ∧ p.peek 2 = CloseBraceToken then
        Res.ok (true, some ⟨p.curTkIdx_⟩) (p.advance 2)
      else Res.ok (false, none) p
    typeSpecOf := fun tyDecl => some tyDecl }

/-- A parser at the start of `tokens`, in C11 with the GNU extensions enabled, no
diagnostics yet, and room for expressions of depth 256. -/
def Parser.start (tokens : List SyntaxKind) : Parser :=
  { tokens := tokens, curTkIdx_ := 0, depthOfExprs_ := 0, diagnostics := [],
    options := ⟨LanguageStd.C11, true, true, true, true, true⟩, MAX_DEPTH_OF_EXPRS := 256 }

/-- The cast expression of `( T ) * y` with the tokens at the indices 0 to 4. -/
def exampleCastOfIndirection : ExpressionSyntax :=
  .CastExpression (some 0)
    (some (TypeNameSyntax.mk [some (SpecifierSyntax.TypedefName (some 1))]
      (some (DeclaratorSyntax.AbstractDeclarator []))))
    (some 2)
    (some (.PrefixUnaryExpression PointerIndirectionExpression (some 3)
      (some (.IdentifierExpression (some 4)))))

/-- The multiplication of `( T )` by `y` with the tokens at the indices 0 to 4. -/
def exampleMultiplyByParenthesized : ExpressionSyntax :=
  .BinaryExpression MultiplyExpression
    (some (.ParenthesizedExpression (some 0) (some (.IdentifierExpression (some 1))) (some 2)))
    (some 3) (some (.IdentifierExpression (some 4)))

/-- The parser before the initializer of a compound literal: the feature
diagnostic is reported before C99 without the GNU extension. -/
def Parser.atCompoundLiteralBrace (p : Parser) : Parser :=
  if p.options.stdBeforeC99 && !p.options.isEnabled_ExtGNU_CompoundLiterals then
    p.report (Diagnostic.ExpectedFeature "GNU/C99 compound literals")
  else p

/-- The tokens `( int ) { 1 } ++`. -/
def exampleCompoundLiteralTokens : List SyntaxKind :=
  [OpenParenToken, Keyword_int, CloseParenToken, OpenBraceToken, IntegerConstantToken,
    CloseBraceToken, PlusPlusToken]

/-- The compound literal `( int ) { 1 }` with the tokens at the indices 0 to 5. -/
def exampleCompoundLiteral : ExpressionSyntax :=
  .CompoundLiteralExpression (some 0)
    (some (TypeNameSyntax.mk [some (SpecifierSyntax.BuiltinTypeSpecifier (some 1))]
      (some (DeclaratorSyntax.AbstractDeclarator []))))
    (some 2)
    (some (InitializerSyntax.BraceEnclosedInitializer (some 3)
      [(some (InitializerSyntax.ExpressionInitializer
          (some (.ConstantExpression IntegerConstantExpression (some 4)))), none)]
      (some 5)))

/-- A cell of a specifier list that holds a typedef-name specifier. -/
def isTypedefNameCell (s : Option SpecifierSyntax) : Bool :=
  match s with
  | some (SpecifierSyntax.TypedefName _) => true
  | _ => false

/-- The number of typedef-name specifiers of a specifier list. -/
def typedefNameCount (l : SpecifierList) : Nat := l.countP isTypedefNameCell

/-- The sub-parsers taken as parameters give no typedef-name specifier: the tagged type
specifier, attribute and asm-label parsers give specifiers of their own kinds, and the
attribute-list parser adds attribute specifiers only. -/
def Externals.GivesNoTypedefName (ext : Externals) : Prop :=
  (∀ decl declK specK p r q, ext.parseTaggedTypeSpecifier_AtFirst decl declK specK p = Res.ok r q →
      isTypedefNameCell r.2.2 = false)
    ∧ (∀ p r q, ext.parseExtGNU_AttributeSpecifier_AtFirst p = Res.ok r q →
      isTypedefNameCell r.2 = false)
    ∧ (∀ l p r q, ext.parseExtGNU_AttributeSpecifierList_AtFirst l p = Res.ok r q →
      typedefNameCount r.2 ≤ typedefNameCount l)
    ∧ (∀ p r q, ext.parseExtGNU_AsmLabel_AtFirst p = Res.ok r q →
      isTypedefNameCell r.2 = false)

/-- The kind of the prefix unary expression of the operators `&`, `*`, `+` and `-`, as
`parseExpressionWithPrecedenceUnary` gives it. -/
def prefixKindOfAmbiguityOperator (tkK : SyntaxKind) : SyntaxKind :=
  match tkK with
  | AmpersandToken => AddressOfExpression
  | AsteriskToken => PointerIndirectionExpression
  | PlusToken => UnaryPlusExpression
  | _ => UnaryMinusExpression

/-- The parenthesized identifier expression `( T )` with `(` at index `idx`. -/
def parenthesizedIdentifier (idx : Nat) : ExpressionSyntax :=
  .ParenthesizedExpression (some idx) (some (.IdentifierExpression (some (idx + 1))))
    (some (idx + 2))

/-- The cast expression `( T ) op y`, with `(` at index `idx`, of the prefix expression
`op y` to the typedef name `T`. -/
def castOfPrefixExpression (idx : Nat) (op y : SyntaxKind) : ExpressionSyntax :=
  .CastExpression (some idx)
    (some (TypeNameSyntax.mk [some (SpecifierSyntax.TypedefName (some (idx + 1)))]
      (some (DeclaratorSyntax.AbstractDeclarator []))))
    (some (idx + 2))
    (some (.PrefixUnaryExpression (prefixKindOfAmbiguityOperator op) (some (idx + 3))
      (some (operandNode y (idx + 4)))))

/-- The operator tree of the binary reading of `( T ) op y`: the operator `op` over the
parenthesized identifier and the operand `y`. -/
def binaryOfParenthesized (idx : Nat) (op y : SyntaxKind) : OperatorTree :=
  .operator op (idx + 3) (.given (parenthesizedIdentifier idx)) (.operand y (idx + 4))

/-- The ambiguity node of `( T ) op y` with `(` at index `idx`. -/
def castOrBinaryAmbiguity (idx : Nat) (op y : SyntaxKind) : ExpressionSyntax :=
  .AmbiguousCastOrBinaryExpression (some (castOfPrefixExpression idx op y))
    (some (binaryOfParenthesized idx op y).toExpression)

/-- The binary reading of an expression that starts with a parenthesized identifier:
the n-ary engine with its first operand parsed by `parseExpressionWithPrecedenceUnary`,
which is the path that `parseExpressionWithPrecedenceCast` takes (after backtracking)
when the cast reading fails, and on which `( T )` is a parenthesized expression. -/
def parseNAryExpression_parenthesizedFirst (ext : Externals) (rec : ParserTable)
    (expr : Option ExpressionSyntax) (cutoffPrecedence : Nat) : ParserM ExprResult := do
  let r ← parseExpressionWithPrecedenceUnary ext rec expr
  if r.1 then parseNAryExpression_AtOperator ext rec r.2 cutoffPrecedence
  else pure (false, r.2)

/-- The tokens `a op a op ... op a` with `n` operators `op`. -/
def operatorChain (op : SyntaxKind) (n : Nat) : List SyntaxKind :=
  IdentifierToken :: infixTokens (List.replicate n (op, IdentifierToken))

/-- A parser at the start of `tokens`, as `Parser.start`, with the maximum depth of
expressions `maxDepth`. -/
def Parser.startWithMaxDepth (maxDepth : Nat) (tokens : List SyntaxKind) : Parser :=
  { Parser.start tokens with MAX_DEPTH_OF_EXPRS := maxDepth }

/-- The cast expression that the speculative parse of `( x ) ;` leaves in the parameter
when it fails at `;`: the cast to the typedef name `x`, without an operand. -/
def exampleFailedCast : ExpressionSyntax :=
  .CastExpression (some 0)
    (some (TypeNameSyntax.mk [some (SpecifierSyntax.TypedefName (some 1))]
      (some (DeclaratorSyntax.AbstractDeclarator []))))
    (some 2) none

/-- A suffix as `parseDirectDeclaratorSuffix` has parsed it: the kind of the declarator
made for it, the suffix node, and what followed it into the slot `attrs2_`. -/
structure ParsedSuffix where
  kind : SyntaxKind
  suffix_ : DeclaratorSuffixSyntax
  attrs2_ : SpecifierList

/-- The kind goes with the suffix: `FunctionDeclarator` with a parameter suffix,
`ArrayDeclarator` with a subscript suffix. -/
def ParsedSuffix.kindMatchesSuffix (s : ParsedSuffix) : Bool :=
  match s.suffix_ with
  | .ParameterSuffix _ _ _ _ _ => s.kind == FunctionDeclarator
  | .SubscriptSuffix _ _ _ _ _ _ _ => s.kind == ArrayDeclarator

/-- The optional token `Keyword_ExtPSY_omission` behind a parameter suffix: its index and
the state behind it, or null and the state as it is. -/
def Parser.consumeOmission (p : Parser) : IndexType × Parser :=
  if p.peek 1 = Keyword_ExtPSY_omission then p.consume else (none, p)

/-- The suffixes `s1 ... sk` stand one after the other from the state `p` to the state
`q`: each is an opening parenthesis, a parameter list that
`parseParameterDeclarationListAndOrEllipsis` parses, and the closing parenthesis, or an
opening bracket, what `parseSubscriptSlots` parses, and the closing bracket; each may be
followed by an asm label and attributes; behind the last there is no `(` and no `[`. The
first number is the fuel of the table that the parts of the first suffix are parsed
with (each further suffix has one unit less). -/
inductive SuffixesParsed (ext : Externals) (declScope : DeclarationScope) :
    Nat → Parser → List ParsedSuffix → Parser → Prop
  | done (fuel : Nat) (p : Parser) (h1 : p.peek 1 ≠ OpenParenToken)
      (h2 : p.peek 1 ≠ OpenBracketToken) : SuffixesParsed ext declScope fuel p [] p
  | parameters (fuel : Nat) (p q1 q3 q : Parser) (decls_ : Option ExternalNode)
      (ellipsisTkIdx_ : IndexType) (attrs2_ : SpecifierList) (rest : List ParsedSuffix)
      (hopen : p.peek 1 = OpenParenToken)
      (hlist : ext.parseParameterDeclarationListAndOrEllipsis (p.advance 1)
        = Res.ok (true, decls_, ellipsisTkIdx_) q1)
      (hclose : q1.peek 1 = CloseParenToken)
      (hattrs : parseTrailingAsmLabelAndAttributes ext (q1.advance 1).consumeOmission.2
        = Res.ok (true, attrs2_) q3)
      (hrest : SuffixesParsed ext declScope fuel q3 rest q) :
      SuffixesParsed ext declScope (fuel + 1) p
        (⟨FunctionDeclarator,
          DeclaratorSuffixSyntax.ParameterSuffix (some p.curTkIdx_) decls_ ellipsisTkIdx_
            (some q1.curTkIdx_) (q1.advance 1).consumeOmission.1, attrs2_⟩ :: rest) q
  | subscript (fuel : Nat) (p q1 q2 q3 q : Parser) (s : SubscriptSlots)
      (closeBracketTkIdx_ : IndexType) (attrs2_ : SpecifierList) (rest : List ParsedSuffix)
      (hopen : p.peek 1 = OpenBracketToken)
      (hslots : parseSubscriptSlots ext (ParserTable.ofFuel ext (fuel + 1)) declScope
        (p.advance 1) = Res.ok (true, s) q1)
      (hclose : matchOrSkipTo ext CloseBracketToken none q1
        = Res.ok (true, closeBracketTkIdx_) q2)
      (hattrs : parseTrailingAsmLabelAndAttributes ext q2 = Res.ok (true, attrs2_) q3)
      (hrest : SuffixesParsed ext declScope fuel q3 rest q) :
      SuffixesParsed ext declScope (fuel + 1) p
        (⟨ArrayDeclarator,
          DeclaratorSuffixSyntax.SubscriptSuffix (some p.curTkIdx_) s.qualsAndAttrs1_
            s.staticKwTkIdx_ s.qualsAndAttrs2_ s.asteriskTkIdx_ s.expr_ closeBracketTkIdx_,
          attrs2_⟩ :: rest) q

/-- The chain of array and function declarators over the declarator `inner` for the
suffixes `s1 ... sk`: the declarator of `s1` has `inner` as its inner declarator and
`attrs1` in its first attribute slot, and the declarator of each further suffix has the
declarator of the suffix before it as its inner declarator. -/
def suffixChain (inner : Option DeclaratorSyntax) (attrs1 : SpecifierList) :
    List ParsedSuffix → Option DeclaratorSyntax
  | [] => inner
  | s :: rest =>
    suffixChain (some (DeclaratorSyntax.ArrayOrFunctionDeclarator s.kind attrs1 inner
      (some s.suffix_) s.attrs2_ none none)) [] rest

/-- The kinds and suffixes of the `n` outermost array or function declarators of a
declarator, from the outermost inwards, and the inner declarator of the last of them;
null when there are fewer than `n`. -/
def unwrapSuffixes : Nat → Option DeclaratorSyntax →
    Option (List (SyntaxKind × Option DeclaratorSuffixSyntax) × Option DeclaratorSyntax)
  | 0, d => some ([], d)
  | n + 1, some (.ArrayOrFunctionDeclarator k _ inner s _ _ _) =>
    match unwrapSuffixes n inner with
    | some (l, h) => some ((k, s) :: l, h)
    | none => none
  | _ + 1, _ => none

/-- The tokens `a [ 1 ] [ 2 ] ;`. -/
def exampleArrayDeclaratorTokens : List SyntaxKind :=
  [IdentifierToken, OpenBracketToken, IntegerConstantToken, CloseBracketToken,
    OpenBracketToken, IntegerConstantToken, CloseBracketToken, SemicolonToken]

/-- The identifier declarator of `a` in `a [ 1 ] [ 2 ]`. -/
def exampleArrayHead : DeclaratorSyntax :=
  .IdentifierDeclarator (some 0) [] [] none none

/-- The subscript suffix `[ c ]` with `[` at the index `idx`, `c` an integer constant. -/
def exampleSubscript (idx : Nat) : DeclaratorSuffixSyntax :=
  .SubscriptSuffix (some idx) [] none [] none
    (some (.ConstantExpression IntegerConstantExpression (some (idx + 1)))) (some (idx + 2))

/-- The tokens `. a [ 2 ] . b = 1 }`: a designated initializer with three designators,
before the closing brace of the initializer list it stands in. -/
def exampleDesignatedInitializerTokens : List SyntaxKind :=
  [DotToken, IdentifierToken, OpenBracketToken, IntegerConstantToken, CloseBracketToken,
    DotToken, IdentifierToken, EqualsToken, IntegerConstantToken, CloseBraceToken]

/-- The state in which `parseDesignatedInitializer_AtFirst` parses the designator list:
the incoming state, after the report of the feature when the standard is before C99 and
the GNU designated initializers are not enabled. -/
def Parser.afterDesignatedInitializerFeature (p : Parser) : Parser :=
  if p.options.stdBeforeC99 && !p.options.isEnabled_ExtGNU_DesignatedInitializers then
    p.report (Diagnostic.ExpectedFeature "GNU/C99 designated initializers")
  else p

/-- A specifier is the tagged type specifier with the node `node`. -/
def SpecifierSyntax.isTaggedTypeSpecifierOf (node : ExternalNode) (s : SpecifierSyntax) : Bool :=
  s.asTaggedTypeSpecifier == some node

/-- Declarators separated by commas and terminated by `;` stand from the state `p` to the
state `q`, which is on the `;`: `parseDeclarator` parses each of them, the current token
behind each but the last is a comma, behind the last it is `;`. The list gives, for each
declarator, the cell that belongs to it: the declarator with the index of the comma
behind it, and the last declarator with a null index. -/
inductive DeclaratorsParsed (ext : Externals) (rec : ParserTable) :
    Parser → List (Option DeclaratorSyntax × IndexType) → Parser → Prop
  | last (p q : Parser) (d : Option DeclaratorSyntax)
      (hd : parseDeclarator ext rec none DeclarationScope.File DeclaratorVariety.Named p
        = Res.ok (true, d) q)
      (hsemicolon : q.peek 1 = SemicolonToken) : DeclaratorsParsed ext rec p [(d, none)] q
  | more (p q1 q : Parser) (d : Option DeclaratorSyntax)
      (rest : List (Option DeclaratorSyntax × IndexType))
      (hd : parseDeclarator ext rec none DeclarationScope.File DeclaratorVariety.Named p
        = Res.ok (true, d) q1)
      (hcomma : q1.peek 1 = CommaToken)
      (hrest : DeclaratorsParsed ext rec (q1.advance 1) rest q) :
      DeclaratorsParsed ext rec p ((d, some q1.curTkIdx_) :: rest) q

/-- The kind of the declarator directly around the innermost declarator of a declarator,
parentheses aside, and the kind of that innermost declarator (an identifier or abstract
declarator). `prev` is the kind around the declarator itself, null when there is none.
Null when a slot `innerDecltor_` on the way inwards is null. -/
def DeclaratorSyntax.wrapperAndInnermost :
    Option SyntaxKind → DeclaratorSyntax → Option (Option SyntaxKind × SyntaxKind)
  | prev, .ParenthesizedDeclarator _ (some inner) _ => inner.wrapperAndInnermost prev
  | _, .PointerDeclarator _ _ _ (some inner) _ _ =>
    inner.wrapperAndInnermost (some SyntaxKind.PointerDeclarator)
  | _, .ArrayOrFunctionDeclarator k _ (some inner) _ _ _ _ => inner.wrapperAndInnermost (some k)
  | _, .BitfieldDeclarator (some inner) _ _ _ =>
    inner.wrapperAndInnermost (some SyntaxKind.BitfieldDeclarator)
  | prev, .IdentifierDeclarator _ _ _ _ _ => some (prev, SyntaxKind.IdentifierDeclarator)
  | prev, .AbstractDeclarator _ => some (prev, SyntaxKind.AbstractDeclarator)
  | _, _ => none

/-- The innermost declarator of a declarator is an identifier declarator and the
declarator directly around it, parentheses aside, is a function declarator: the
declarator declares a function. -/
def DeclaratorSyntax.isFunctionOfIdentifier (d : DeclaratorSyntax) : Bool :=
  d.wrapperAndInnermost none
    == some (some SyntaxKind.FunctionDeclarator, SyntaxKind.IdentifierDeclarator)

/-- The slots `equalsTkIdx_` and `init_` of a declarator that has them. -/
def DeclaratorSyntax.initializerSlots :
    DeclaratorSyntax → Option (IndexType × Option InitializerSyntax)
  | .IdentifierDeclarator _ _ _ e n => some (e, n)
  | .PointerDeclarator _ _ _ _ e n => some (e, n)
  | .ArrayOrFunctionDeclarator _ _ _ _ _ e n => some (e, n)
  | _ => none

/-- The declaration `int * f ( ) { }`. -/
def exampleFunctionReturningPointerTokens : List SyntaxKind :=
  [Keyword_int, AsteriskToken, IdentifierToken, OpenParenToken, CloseParenToken,
    OpenBraceToken, CloseBraceToken]

/-- The declaration `int * f ( ) = 1 ;`. -/
def exampleInitializedFunctionTokens : List SyntaxKind :=
  [Keyword_int, AsteriskToken, IdentifierToken, OpenParenToken, CloseParenToken,
    EqualsToken, IntegerConstantToken, SemicolonToken]

/-- The method `parseStaticAssertDeclaration_AtFirst`. -/
def parseStaticAssertDeclaration_AtFirst (ext : Externals) (rec : ParserTable)
    (decl : Option DeclarationSyntax) : ParserM DeclResult := do
  if (← peek 1) != Keyword__Static_assert then pure (false, decl)
  else
    let staticAssertKwTkIdx_ ← consume
    let failed := fun (assertDecl : DeclarationSyntax) => (do
      ext.skipTo ColonToken
      pure (false, some assertDecl) : ParserM DeclResult)
    let o ← match_ OpenParenToken none
    if o.1 then
      let e ← parseExpressionWithPrecedenceConditional ext rec none
      if e.1 then
        let c ← match_ CommaToken none
        if c.1 then
          let s ← parseStringLiteral rec none
          if s.1 then
            let cp ← match_ CloseParenToken none
            if cp.1 then
              let sc ← match_ SemicolonToken none
              if sc.1 then
                pure (true, some (DeclarationSyntax.StaticAssertDeclaration
                  staticAssertKwTkIdx_ o.2 e.2 c.2 s.2 cp.2 sc.2))
              else failed (DeclarationSyntax.StaticAssertDeclaration
                staticAssertKwTkIdx_ o.2 e.2 c.2 s.2 cp.2 sc.2)
            else failed (DeclarationSyntax.StaticAssertDeclaration
              staticAssertKwTkIdx_ o.2 e.2 c.2 s.2 cp.2 none)
          else failed (DeclarationSyntax.StaticAssertDeclaration
            staticAssertKwTkIdx_ o.2 e.2 c.2 s.2 none none)
        else failed (DeclarationSyntax.StaticAssertDeclaration
          staticAssertKwTkIdx_ o.2 e.2 c.2 none none none)
      else failed (DeclarationSyntax.StaticAssertDeclaration
        staticAssertKwTkIdx_ o.2 e.2 none none none none)
    else failed (DeclarationSyntax.StaticAssertDeclaration
      staticAssertKwTkIdx_ o.2 none none none none none)

/-- The part of `parseExtGNU_AsmStatementDeclaration_AtFirst` that makes the node, from
`makeNode<ExtGNU_AsmStatementDeclarationSyntax>()` on. -/
def parseExtGNU_AsmStatementDeclaration_AtFirst_node (ext : Externals) (rec : ParserTable) :
    ParserM DeclResult := do
  let asmTkIdx_ ← consume
  let failed := fun (asmDecl : DeclarationSyntax) => (do
    ext.skipTo CloseParenToken
    pure (false, some asmDecl) : ParserM DeclResult)
  let o ← match_ OpenParenToken none
  if o.1 then
    let s ← parseStringLiteral rec none
    if s.1 then
      let cp ← match_ CloseParenToken none
      if cp.1 then
        pure (true, some (DeclarationSyntax.ExtGNU_AsmStatementDeclaration
          asmTkIdx_ o.2 s.2 cp.2))
      else failed (DeclarationSyntax.ExtGNU_AsmStatementDeclaration asmTkIdx_ o.2 s.2 cp.2)
    else failed (DeclarationSyntax.ExtGNU_AsmStatementDeclaration asmTkIdx_ o.2 s.2 none)
  else failed (DeclarationSyntax.ExtGNU_AsmStatementDeclaration asmTkIdx_ o.2 none none)

/-- The method `parseExtGNU_AsmStatementDeclaration_AtFirst`. -/
def parseExtGNU_AsmStatementDeclaration_AtFirst (ext : Externals) (rec : ParserTable)
    (decl : Option DeclarationSyntax) : ParserM DeclResult := do
  if (← peek 1) != Keyword_ExtGNU___asm__ then pure (false, decl)
  else
    if !(← getOptions).isEnabled_ExtGNU_Asm then
      report (Diagnostic.ExpectedFeature "GNU assembly in C")
    parseExtGNU_AsmStatementDeclaration_AtFirst_node ext rec

/-- The method `parseExtPSY_TemplateDeclaration_AtFirst`; the slot `decl_` of the new
node is null when `parseDeclarationOrFunctionDefinition` is called on it. -/
def parseExtPSY_TemplateDeclaration_AtFirst (ext : Externals) (rec : ParserTable)
    (decl : Option DeclarationSyntax) : ParserM DeclResult := do
  if (← peek 1) != Keyword_ExtPSY__Template then pure (false, decl)
  else
    let templateTkIdx_ ← consume
    let r ← parseDeclarationOrFunctionDefinition ext rec none
    pure (r.1, some (DeclarationSyntax.ExtPSY_TemplateDeclaration templateTkIdx_ r.2))

/-- The method `parseExternalDeclaration`. Its parameter `decl` is null on entry at
each call in the sources (`parseTranslationUnit` declares it so), and so it is here. -/
def parseExternalDeclaration (ext : Externals) (rec : ParserTable) : ParserM DeclResult := do
  match (← peek 1) with
  | SemicolonToken =>
    let d ← parseIncompleteDeclaration_AtFirst none []
    pure (true, d)
  | Keyword__Static_assert => parseStaticAssertDeclaration_AtFirst ext rec none
  | Keyword_ExtGNU___asm__ => parseExtGNU_AsmStatementDeclaration_AtFirst ext rec none
  | Keyword_ExtPSY__Template =>
    let r ← parseExtPSY_TemplateDeclaration_AtFirst ext rec none
    pure (true, r.2)
  | _ => parseDeclarationOrFunctionDefinition ext rec none

/-- The loop of `parseTranslationUnit`, one iteration per unit of fuel; `decls` is the
declaration list as it stands, to whose end a cell is appended. In the case of
`__extension__` a `break` leaves the `switch`, so that the cell is appended also when
`parseExternalDeclaration` returns false and when the asserted `decl` is null (the
assertion is taken to do its `break` then). -/
def parseTranslationUnit_loop (ext : Externals) (rec : ParserTable) :
    Nat → List (Option DeclarationSyntax) → ParserM (List (Option DeclarationSyntax))
  | 0, _ => fail Fault.outOfFuel
  | fuel + 1, decls => do
    match (← peek 1) with
    | EndOfFile => pure decls
    | Keyword_ExtGNU___extension__ =>
      let extKwTkIdx ← consume
      let r ← parseExternalDeclaration ext rec
      if !r.1 then parseTranslationUnit_loop ext rec fuel (decls ++ [r.2])
      else
        match r.2 with
        | none => parseTranslationUnit_loop ext rec fuel (decls ++ [none])
        | some d =>
          parseTranslationUnit_loop ext rec fuel
            (decls ++ [some (DeclarationSyntax.ExtensionMarked extKwTkIdx d)])
    | _ =>
      let r ← parseExternalDeclaration ext rec
      if r.1 then parseTranslationUnit_loop ext rec fuel (decls ++ [r.2])
      else
        ext.ignoreDeclarationOrDefinition
        parseTranslationUnit_loop ext rec fuel decls

/-- The method `parseTranslationUnit`: the declaration list `unit->decls_` that it
builds, from an empty list. -/
def parseTranslationUnit (ext : Externals) (rec : ParserTable) :
    ParserM (List (Option DeclarationSyntax)) :=
  parseTranslationUnit_loop ext rec rec.fuel []

/-- A parameter declaration list, `ParameterDeclarationListSyntax*` (null is the empty
list): the parameter declarations, which `parseParameterDeclaration` builds, each with
the slot `delimTkIdx_` of its cell. -/
abbrev ParameterDeclarationList := List (Option ExternalNode × IndexType)

/-- The loop of `parseParameterDeclarationList`, one iteration per unit of fuel;
`cells` is the list as it stands, whose last cell is the one `paramList_cur` points to
before the comma. -/
def parseParameterDeclarationList_loop (ext : Externals) :
    Nat → ParameterDeclarationList → ParserM (Bool × ParameterDeclarationList)
  | 0, _ => fail Fault.outOfFuel
  | fuel + 1, cells => do
    if (← peek 1) = CommaToken then
      let delimTkIdx_ ← consume
      let cells := setLastDelim cells delimTkIdx_
      if (← peek 1) = EllipsisToken then pure (true, cells)
      else
        let r ← ext.parseParameterDeclaration
        if r.1 then parseParameterDeclarationList_loop ext fuel (cells ++ [(r.2, none)])
        else pure (false, cells ++ [(r.2, none)])
    else pure (true, cells)

/-- The method `parseParameterDeclarationList`. -/
def parseParameterDeclarationList (ext : Externals) (rec : ParserTable)
    (paramList : ParameterDeclarationList) : ParserM (Bool × ParameterDeclarationList) := do
  let r ← ext.parseParameterDeclaration
  if !r.1 then pure (false, paramList)
  else parseParameterDeclarationList_loop ext rec.fuel [(r.2, none)]

/-- The write `paramDecltorSfx->decls_->delimTkIdx_ = ...` of
`parseParameterDeclarationListAndOrEllipsis`, into the first cell of the list. -/
def setFirstDelim (delimTkIdx_ : IndexType) :
    ParameterDeclarationList → Except Fault ParameterDeclarationList
  | [] => Except.error Fault.nullDereference
  | (value, _) :: next => Except.ok ((value, delimTkIdx_) :: next)

/-- The method `parseParameterDeclarationListAndOrEllipsis`, on the slots `decls_` and
`ellipsisTkIdx_` of the parameter suffix it is given; it gives back the flag and the two
slots. (The declarator methods above take this method as a parameter, with the
parameter declarations kept opaque.) -/
def parseParameterDeclarationListAndOrEllipsis (ext : Externals) (rec : ParserTable)
    (decls_ : ParameterDeclarationList) (ellipsisTkIdx_ : IndexType) :
    ParserM (Bool × ParameterDeclarationList × IndexType) := do
  let tkK ← peek 1
  if tkK = CloseParenToken then pure (true, decls_, ellipsisTkIdx_)
  else if tkK = EllipsisToken then
    if decls_.isEmpty then report Diagnostic.ExpectedNamedParameterBeforeEllipsis
    let e ← consume
    pure (true, decls_, e)
  else
    let l ← parseParameterDeclarationList ext rec decls_
    if !l.1 then pure (false, l.2, ellipsisTkIdx_)
    else
      let tkK ← peek 1
      if tkK = CommaToken then
        let delimTkIdx_ ← consume
        let decls ← liftExcept (setFirstDelim delimTkIdx_ l.2)
        let m ← match_ EllipsisToken ellipsisTkIdx_
        pure (true, decls, m.2)
      else if tkK = EllipsisToken then
        let e ← consume
        pure (true, l.2, e)
      else pure (true, l.2, ellipsisTkIdx_)

/-- What an iteration of the loop of `Parser::determineIdentifierRole` does on the
token it peeked, with the locals `seenType` and `parenCnt`: it returns a role, or it
goes on to the next token (`++LA; continue;`) with the new values of the locals. -/
def determineIdentifierRole_step (tkK : SyntaxKind) (seenType : Bool) (parenCnt : Int) :
    IdentifierRole ⊕ (Bool × Int) :=
  match tkK with
  | IdentifierToken =>
    if seenType then Sum.inl IdentifierRole.AsDeclarator
    else if parenCnt = 0 then Sum.inl IdentifierRole.AsTypedefName
    else Sum.inr (true, parenCnt)
  -- type-specifier
  | Keyword_void | Keyword_char | Keyword_short | Keyword_int | Keyword_long
  | Keyword_float | Keyword_double | Keyword_signed | Keyword_unsigned
  | Keyword_Ext_char16_t | Keyword_Ext_char32_t | Keyword_Ext_wchar_t
  | Keyword__Bool | Keyword__Complex | Keyword_struct | Keyword_union | Keyword_enum =>
    if seenType then Sum.inl IdentifierRole.AsDeclarator
    else Sum.inr (true, parenCnt)
  -- storage-class-specifier
  | Keyword_typedef | Keyword_extern | Keyword_static | Keyword_auto | Keyword_register
  | Keyword__Thread_local | Keyword_ExtGNU___thread => Sum.inr (seenType, parenCnt)
  -- type-qualifier
  | Keyword_const | Keyword_volatile | Keyword_restrict | Keyword__Atomic =>
    Sum.inr (seenType, parenCnt)
  -- function-specifier
  | Keyword_inline | Keyword__Noreturn => Sum.inr (seenType, parenCnt)
  -- alignment-specifier
  | Keyword__Alignas => Sum.inr (seenType, parenCnt)
  -- attribute-specifier
  | Keyword_ExtGNU___attribute__ =>
    if parenCnt = 0 then Sum.inl IdentifierRole.AsTypedefName
    else Sum.inr (seenType, parenCnt)
  -- pointer-declarator
  | AsteriskToken => Sum.inr (seenType, parenCnt)
  | OpenParenToken => Sum.inr (seenType, parenCnt + 1)
  | CloseParenToken =>
    if parenCnt - 1 = 0 then
      if seenType then Sum.inl IdentifierRole.AsTypedefName
      else Sum.inl IdentifierRole.AsDeclarator
    else Sum.inr (seenType, parenCnt - 1)
  | _ => Sum.inl IdentifierRole.AsDeclarator

/-- The loop of `Parser::determineIdentifierRole` as an action on the parser, to state
what the call does to the parser: each iteration calls `peek(LA)`, which is the only
member of the parser that the method uses, and does the `switch` on the token. -/
def determineIdentifierRole_run_loop : Nat → Nat → Bool → Int → ParserM IdentifierRole
  | 0, _, _, _ => fail Fault.outOfFuel
  | fuel + 1, LA, seenType, parenCnt => do
    let tkK ← peek LA
    match determineIdentifierRole_step tkK seenType parenCnt with
    | Sum.inl role => pure role
    | Sum.inr (seenType, parenCnt) =>
      determineIdentifierRole_run_loop fuel (LA + 1) seenType parenCnt

/-- The method `Parser::determineIdentifierRole(bool seenType) const` as an action on
the parser, with the fuel of `determineIdentifierRole`. -/
def determineIdentifierRole_run (seenType : Bool) : ParserM IdentifierRole :=
  fun p => determineIdentifierRole_run_loop (p.tokens.length + 1) 2 seenType 0 p

/-- The parameter declarations of a parameter list parse one after the other: from the
state `p`, `parseParameterDeclaration` succeeds on each, a comma that is not followed by
`...` stands behind each but the last, and `r` is the state behind the last. The list
holds the parameter declarations in source order, each with the index of its comma. -/
inductive ParametersParsed (ext : Externals) :
    Parser → ParameterDeclarationList → Parser → Prop
  | last (p q : Parser) (d : Option ExternalNode) :
    ext.parseParameterDeclaration p = Res.ok (true, d) q →
    ParametersParsed ext p [(d, none)] q
  | more (p q r : Parser) (d : Option ExternalNode) (cells : ParameterDeclarationList) :
    ext.parseParameterDeclaration p = Res.ok (true, d) q →
    q.peek 1 = CommaToken → q.peek 2 ≠ EllipsisToken →
    ParametersParsed ext (q.advance 1) cells r →
    ParametersParsed ext p ((d, some q.curTkIdx_) :: cells) r

/-- The externals of the examples with parameters: as `Externals.failing`, except that
`parseParameterDeclaration` parses a parameter of the form `int a` into a parameter
declaration named by the index of its first token. -/
def Externals.ofParameterExamples : Externals :=
  { Externals.failing with
    parseParameterDeclaration := fun p =>
      if p.peek 1 = Keyword_int ∧ p.peek 2 = IdentifierToken then
        Res.ok (true, some ⟨p.curTkIdx_⟩) (p.advance 2)
      else Res.ok (false, none) p }

/-- The parser after the check of the extension flag that the n-ary loop makes at an
elided middle operand (`? :`): `ExpectedFeature` is reported when the flag
`isEnabled_ExtGNU_StatementExpressions`, which is the one the sources read there, is
off. -/
def Parser.afterElidedOperandFeature (p : Parser) : Parser :=
  if p.options.isEnabled_ExtGNU_StatementExpressions then p
  else p.report (Diagnostic.ExpectedFeature "GNU conditionals")

/-- What `parseAtomiceTypeSpecifier_AtFirst` does from the state `p` whose current token
is `_Atomic` and whose next token is `(`: both tokens are consumed, the type name is
parsed, and the closing parenthesis is matched by `matchOrSkipTo`; the node is an atomic
type specifier that holds the indices of the keyword and of the `(`, the type name, and
the index of the `)`. -/
def atomicTypeSpecifierAt (ext : Externals) (rec : ParserTable) (p : Parser) :
    Res (Bool × Option SpecifierSyntax) :=
  (rec.parseTypeName none (p.advance 2)).andThen (fun t s =>
    if t.1 = true then
      (matchOrSkipTo ext CloseParenToken none s).andThen (fun m u =>
        Res.ok (m.1, some (SpecifierSyntax.AtomicTypeSpecifier (some p.curTkIdx_)
          (some (p.curTkIdx_ + 1)) t.2 m.2)) u)
    else
      Res.ok (false, some (SpecifierSyntax.AtomicTypeSpecifier (some p.curTkIdx_)
        (some (p.curTkIdx_ + 1)) t.2 none)) s)

/-- The parser after the check of the extension flag that
`parseExtGNU_AsmStatementDeclaration_AtFirst` makes: `ExpectedFeature` is reported when
GNU assembly is disabled. -/
def Parser.afterAsmFeature (p : Parser) : Parser :=
  if p.options.isEnabled_ExtGNU_Asm then p
  else p.report (Diagnostic.ExpectedFeature "GNU assembly in C")

/-- The first tokens on which `parseExternalDeclaration` does not call
`parseDeclarationOrFunctionDefinition`. -/
def startsOtherExternalDeclaration (tkK : SyntaxKind) : Bool :=
  tkK == SemicolonToken || tkK == Keyword__Static_assert || tkK == Keyword_ExtGNU___asm__
    || tkK == Keyword_ExtPSY__Template

/-- The tokens of `_Static_assert ( 1 , "s" ) ;`. -/
def exampleStaticAssertTokens : List SyntaxKind :=
  [Keyword__Static_assert, OpenParenToken, IntegerConstantToken, CommaToken,
    StringLiteralToken, CloseParenToken, SemicolonToken]

/-- The tokens of `__asm__ ( "s" )`. -/
def exampleAsmStatementTokens : List SyntaxKind :=
  [Keyword_ExtGNU___asm__, OpenParenToken, StringLiteralToken, CloseParenToken]

/-- The translation unit `__extension__ int x`, whose declaration lacks its `;`. -/
def exampleExtensionTokens : List SyntaxKind :=
  [Keyword_ExtGNU___extension__, Keyword_int, IdentifierToken]

/-- The specifier of a cell is of one of the given kinds (a null cell is of none). -/
def hasKindIn (kinds : List SyntaxKind) (c : Option SpecifierSyntax) : Bool :=
  match c with
  | some s => kinds.contains s.kind
  | none => false

/-- The kinds of the specifiers that `parseTypeQualifiersAndAttributes` appends: the type
qualifiers, the attribute specifier, and the asm label. -/
def qualifierAndAttributeKinds : List SyntaxKind :=
  [ConstQualifier, VolatileQualifier, RestrictQualifier, AtomicQualifier,
    ExtGNU_AttributeSpecifier, ExtGNU_AsmLabel]

/-- The kinds of the specifiers that `parseSpecifierQualifierList` appends: the type
specifiers (built-in, tagged, typedef-name, atomic, `typeof`), the type qualifiers, the
alignment specifier, the attribute specifier, and the asm label. -/
def specifierQualifierKinds : List SyntaxKind :=
  [BuiltinTypeSpecifier, StructTypeSpecifier, UnionTypeSpecifier, EnumTypeSpecifier,
    SyntaxKind.TypedefName, SyntaxKind.AtomicTypeSpecifier, SyntaxKind.ExtGNU_Typeof,
    SyntaxKind.AlignmentSpecifier] ++ qualifierAndAttributeKinds

/-- The sub-parsers taken as parameters give specifiers of their own kinds, as the
sources of each do: `parseTaggedTypeSpecifier_AtFirst`, when it returns true, a specifier
of the kind it is given; `parseExtGNU_AttributeSpecifier_AtFirst`, when it returns true,
an attribute specifier; `parseExtGNU_AsmLabel_AtFirst`, called at `__asm__` (where its
assertion holds and it makes its node before anything else), an asm label; and the cells
that `parseExtGNU_AttributeSpecifierList_AtFirst` leaves are cells of the list it was
given or attribute specifiers. -/
def Externals.GivesOwnKinds (ext : Externals) : Prop :=
  (∀ decl declK specK p r q,
      ext.parseTaggedTypeSpecifier_AtFirst decl declK specK p = Res.ok r q →
      r.1 = true → hasKindIn [specK] r.2.2 = true)
    ∧ (∀ p r q, ext.parseExtGNU_AttributeSpecifier_AtFirst p = Res.ok r q →
      r.1 = true → hasKindIn [ExtGNU_AttributeSpecifier] r.2 = true)
    ∧ (∀ l p r q, ext.parseExtGNU_AttributeSpecifierList_AtFirst l p = Res.ok r q →
      ∀ c ∈ r.2, c ∈ l ∨ hasKindIn [ExtGNU_AttributeSpecifier] c = true)
    ∧ (∀ p r q, p.peek 1 = Keyword_ExtGNU___asm__ →
      ext.parseExtGNU_AsmLabel_AtFirst p = Res.ok r q →
      hasKindIn [ExtGNU_AsmLabel] r.2 = true)

/-- The tokens at which the loop of `parseTypeQualifiersAndAttributes` goes on (its
case labels). -/
def continuesQualifiersAndAttributes (tkK : SyntaxKind) : Bool :=
  tkK == Keyword_ExtGNU___attribute__ || tkK == Keyword_ExtGNU___asm__
    || tkK == Keyword_const || tkK == Keyword_volatile || tkK == Keyword_restrict
    || tkK == Keyword__Atomic

/-- The kinds of declaration and of specifier that the two specifier-list loops give to
`parseTaggedTypeSpecifier_AtFirst` at the keywords `struct`, `union` and `enum`. -/
def taggedKindsOf (tkK : SyntaxKind) : Option (SyntaxKind × SyntaxKind) :=
  if tkK = Keyword_struct then some (StructDeclaration, StructTypeSpecifier)
  else if tkK = Keyword_union then some (UnionDeclaration, UnionTypeSpecifier)
  else if tkK = Keyword_enum then some (EnumDeclaration, EnumTypeSpecifier)
  else none

/-- The first tokens of a specifier or qualifier for `parseSpecifierQualifierList` (the
case labels of its `switch`). -/
def startsSpecifierQualifier (tkK : SyntaxKind) : Bool :=
  match tkK with
  | Keyword_const | Keyword_volatile | Keyword_restrict | Keyword__Atomic
  | Keyword_void | Keyword_char | Keyword_short | Keyword_int | Keyword_long
  | Keyword_float | Keyword_double | Keyword_signed | Keyword_unsigned
  | Keyword_Ext_char16_t | Keyword_Ext_char32_t | Keyword_Ext_wchar_t
  | Keyword__Bool | Keyword__Complex
  | Keyword_struct | Keyword_union | Keyword_enum
  | IdentifierToken
  | Keyword__Alignas | Keyword_ExtGNU___attribute__ | Keyword_ExtGNU___typeof__ => true
  | _ => false

/-- The storage-class keywords and the function-specifier keywords. -/
def storageClassAndFunctionSpecifierKeywords : List SyntaxKind :=
  [Keyword_typedef, Keyword_extern, Keyword_static, Keyword_auto, Keyword_register,
    Keyword__Thread_local, Keyword_ExtGNU___thread, Keyword_inline, Keyword__Noreturn]

/-- The declarator of `* ... * x` with `k` asterisks, the first of them at the index
`idx`: `k` pointer declarators, one in the other, around the identifier declarator of
`x`; for no asterisk, the identifier declarator alone. -/
def pointerDeclaratorChain (idx : Nat) : Nat → DeclaratorSyntax
  | 0 => DeclaratorSyntax.IdentifierDeclarator (some idx) [] [] none none
  | k + 1 =>
    DeclaratorSyntax.PointerDeclarator [] (some idx) []
      (some (pointerDeclaratorChain (idx + 1) k)) none none

/-- One level of nesting of an expression: an opening parenthesis, or the base operand of
a subscript with the opening bracket behind it. -/
inductive Nesting
  | parenthesis
  | subscript (base : SyntaxKind)
deriving DecidableEq, Repr

/-- The tokens that open the levels of nesting, the outermost first. -/
def nestingTokens : List Nesting → List SyntaxKind
  | [] => []
  | Nesting.parenthesis :: ns => OpenParenToken :: nestingTokens ns
  | Nesting.subscript base :: ns => base :: OpenBracketToken :: nestingTokens ns

/-- The levels of nesting around the operand token `e` that the expression parser descends
through by a parenthesized expression or a subscript: every base of a subscript is an
operand by itself, and behind no opening parenthesis stands an identifier (on which the
parser would first try a cast to a type of that name). -/
def nestingDescends : List Nesting → SyntaxKind → Bool
  | [], _ => true
  | Nesting.parenthesis :: ns, e =>
    ((nestingTokens ns ++ [e]).head?.getD EndOfFile != IdentifierToken) && nestingDescends ns e
  | Nesting.subscript base :: ns, e => isSingleTokenOperand base && nestingDescends ns e

/-- The expression of the tokens `- ... - a` with `k` tokens `-`, the first token at the
index `idx`: unary minus expressions, one in the other, around the identifier. -/
def prefixChain (idx : Nat) : Nat → ExpressionSyntax
  | 0 => ExpressionSyntax.IdentifierExpression (some idx)
  | k + 1 =>
    ExpressionSyntax.PrefixUnaryExpression UnaryMinusExpression (some idx)
      (some (prefixChain (idx + 1) k))

/-- The expression of the tokens `( ... ( 1 ) ... )` with `k` pairs of parentheses, the
first token at the index `idx`: parenthesized expressions, one in the other, around the
integer constant. -/
def parenthesizedChain (idx : Nat) : Nat → ExpressionSyntax
  | 0 => ExpressionSyntax.ConstantExpression IntegerConstantExpression (some idx)
  | k + 1 =>
    ExpressionSyntax.ParenthesizedExpression (some idx)
      (some (parenthesizedChain (idx + 1) k)) (some (idx + 2 * k + 2))

/-- The tokens `- ... - a` with `k` tokens `-`. -/
def prefixChainTokens (k : Nat) : List SyntaxKind :=
  List.replicate k MinusToken ++ [IdentifierToken]

/-- The tokens `( ... ( 1 ) ... )` with `k` pairs of parentheses. -/
def parenthesizedChainTokens (k : Nat) : List SyntaxKind :=
  List.replicate k OpenParenToken ++ IntegerConstantToken :: List.replicate k CloseParenToken

/-! ## Attributes, asm labels and tagged types, as the sources have them -/

/-- The node `ExtGNU_AsmLabelSyntax` with its slots. -/
structure ExtGNU_AsmLabelSyntax where
  asmKwTkIdx_ : IndexType
  openParenTkIdx_ : IndexType
  strLit_ : Option ExpressionSyntax
  closeParenTkIdx_ : IndexType

/-- The node `ExtGNU_AttributeSyntax` with its slots. -/
structure ExtGNU_AttributeSyntax where
  kwOrIdentTkIdx_ : IndexType
  openParenTkIdx_ : IndexType
  exprs_ : List (Option ExpressionSyntax × IndexType)
  closeParenTkIdx_ : IndexType

/-- The node `ExtGNU_AttributeSpecifierSyntax` with its slots. -/
structure ExtGNU_AttributeSpecifierSyntax where
  attrKwTkIdx_ : IndexType
  openOuterParenTkIdx_ : IndexType
  openInnerParenTkIdx_ : IndexType
  attrs_ : List (Option ExtGNU_AttributeSyntax × IndexType)
  closeInnerParenTkIdx_ : IndexType
  closeOuterParenTkIdx_ : IndexType

/-- The node `TaggedTypeSpecifierSyntax` with its slots; `decls_` is the member list. -/
structure TaggedTypeSpecifierSyntax where
  kind : SyntaxKind
  taggedKwTkIdx_ : IndexType
  attrs1_ : SpecifierList
  identTkIdx_ : IndexType
  openBraceTkIdx_ : IndexType
  decls_ : List (Option DeclarationSyntax)
  closeBraceTkIdx_ : IndexType
  attrs2_ : SpecifierList

/-- The method `parseExtGNU_AsmLabel_AtFirst`: the flag and the node it leaves in its
parameter (the node is made before anything is matched). -/
def parseExtGNU_AsmLabel_AtFirst (rec : ParserTable) :
    ParserM (Bool × Option ExtGNU_AsmLabelSyntax) := do
  if (← peek 1) != Keyword_ExtGNU___asm__ then pure (false, none)
  else
    let asmKwTkIdx_ ← consume
    let o ← match_ OpenParenToken none
    if o.1 then
      let s ← parseStringLiteral rec none
      if s.1 then
        let c ← match_ CloseParenToken none
        pure (c.1, some ⟨asmKwTkIdx_, o.2, s.2, c.2⟩)
      else pure (false, some ⟨asmKwTkIdx_, o.2, s.2, none⟩)
    else pure (false, some ⟨asmKwTkIdx_, o.2, none, none⟩)

/-- The method `parseExtGNU_AttributeArguments`. -/
def parseExtGNU_AttributeArguments (rec : ParserTable)
    (exprList : List (Option ExpressionSyntax × IndexType)) :
    ParserM (Bool × List (Option ExpressionSyntax × IndexType)) :=
  parseCallArguments rec exprList

/-- The version behind `=` in an argument of the attribute `availability`, in
`parseExtGNU_AttributeArgumentsLLVM`: a string literal, or a constant (made a floating
constant expression) behind which an integer constant, the "patch" component of the
version, is consumed and discarded. -/
def parseAvailabilityVersion (rec : ParserTable) : ParserM ExprResult := do
  if (← peek 1) = StringLiteralToken then
    let s ← parseStringLiteral_AtFirst rec none
    pure (true, s)
  else
    let c ← parseConstant none FloatingConstantExpression
    if c.1 then
      if (← peek 1) = IntegerConstantToken then
        let _ ← consume
        pure (true, c.2)
      else pure (true, c.2)
    else pure (false, c.2)

/-- The loop of `parseExtGNU_AttributeArgumentsLLVM`, one iteration per unit of fuel;
`exprList` holds the cells made so far. -/
def parseExtGNU_AttributeArgumentsLLVM_loop (ext : Externals) (rec : ParserTable) :
    Nat → List (Option ExpressionSyntax × IndexType) →
      ParserM (Bool × List (Option ExpressionSyntax × IndexType))
  | 0, _ => fail Fault.outOfFuel
  | fuel + 1, exprList => do
    if (← peek 1) = CommaToken then
      let delimTkIdx_ ← consume
      let exprList := setLastDelim exprList delimTkIdx_
      let e ← parsePrimaryExpression ext rec none
      if e.1 then
        if (← peek 1) = EqualsToken then
          let equalsTkIdx_ ← consume
          let v ← parseAvailabilityVersion rec
          if v.1 then
            parseExtGNU_AttributeArgumentsLLVM_loop ext rec fuel
              (exprList ++ [(some (ExpressionSyntax.BinaryExpression BasicAssignmentExpression
                e.2 equalsTkIdx_ v.2), none)])
          else pure (false, exprList)
        else parseExtGNU_AttributeArgumentsLLVM_loop ext rec fuel (exprList ++ [(e.2, none)])
      else pure (false, exprList)
    else pure (true, exprList)

/-- The method `parseExtGNU_AttributeArgumentsLLVM`. -/
def parseExtGNU_AttributeArgumentsLLVM (ext : Externals) (rec : ParserTable) :
    ParserM (Bool × List (Option ExpressionSyntax × IndexType)) := do
  if !(← getOptions).isEnabled_ExtGNU_AttributeSpecifiersLLVM then
    report (Diagnostic.ExpectedFeature "GNU attributes of LLVM")
  let platName ← parsePrimaryExpression ext rec none
  if platName.1 then
    parseExtGNU_AttributeArgumentsLLVM_loop ext rec rec.fuel [(platName.2, none)]
  else pure (false, [])

/-- The method `parseExtGNU_Attribute`. The spelling of a token is not a part of the
parser state: `isAvailability` tells whether the token at an index is the identifier
`availability`. -/
def parseExtGNU_Attribute (ext : Externals) (rec : ParserTable)
    (isAvailability : IndexType → Bool) : ParserM (Bool × Option ExtGNU_AttributeSyntax) := do
  let tkK ← peek 1
  if tkK = IdentifierToken ∨ tkK = Keyword_const then
    let kwOrIdentTkIdx_ ← consume
    if (← peek 1) != OpenParenToken then pure (true, some ⟨kwOrIdentTkIdx_, none, [], none⟩)
    else
      let openParenTkIdx_ ← consume
      let a ←
        if isAvailability kwOrIdentTkIdx_ then parseExtGNU_AttributeArgumentsLLVM ext rec
        else parseExtGNU_AttributeArguments rec []
      if a.1 then
        let m ← matchOrSkipTo ext CloseParenToken none
        pure (m.1, some ⟨kwOrIdentTkIdx_, openParenTkIdx_, a.2, m.2⟩)
      else pure (false, some ⟨kwOrIdentTkIdx_, openParenTkIdx_, a.2, none⟩)
  else if tkK = CommaToken ∨ tkK = CloseParenToken then
    pure (true, some ⟨none, none, [], none⟩)
  else
    report (Diagnostic.ExpectedTokenWithin
      [IdentifierToken, Keyword_const, CommaToken, CloseParenToken])
    pure (false, none)

/-- The loop of `parseExtGNU_AttributeList`, one iteration per unit of fuel; `attrList`
holds the cells made so far. -/
def parseExtGNU_AttributeList_loop (ext : Externals) (rec : ParserTable)
    (isAvailability : IndexType → Bool) :
    Nat → List (Option ExtGNU_AttributeSyntax × IndexType) →
      ParserM (Bool × List (Option ExtGNU_AttributeSyntax × IndexType))
  | 0, _ => fail Fault.outOfFuel
  | fuel + 1, attrList => do
    let a ← parseExtGNU_Attribute ext rec isAvailability
    if a.1 then
      let attrList := attrList ++ [(a.2, none)]
      let tkK ← peek 1
      if tkK = CommaToken then
        let delimTkIdx_ ← consume
        parseExtGNU_AttributeList_loop ext rec isAvailability fuel
          (setLastDelim attrList delimTkIdx_)
      else if tkK = CloseParenToken then pure (true, attrList)
      else
        report (Diagnostic.ExpectedTokenWithin [CommaToken, CloseParenToken])
        pure (false, attrList)
    else pure (false, attrList)

/-- The method `parseExtGNU_AttributeList`. -/
def parseExtGNU_AttributeList (ext : Externals) (rec : ParserTable)
    (isAvailability : IndexType → Bool) :
    ParserM (Bool × List (Option ExtGNU_AttributeSyntax × IndexType)) :=
  parseExtGNU_AttributeList_loop ext rec isAvailability rec.fuel []

/-- The method `parseExtGNU_AttributeSpecifier_AtFirst`: the flag and the node it leaves
in its parameter. -/
def parseExtGNU_AttributeSpecifier_AtFirst (ext : Externals) (rec : ParserTable)
    (isAvailability : IndexType → Bool) :
    ParserM (Bool × Option ExtGNU_AttributeSpecifierSyntax) := do
  if (← peek 1) != Keyword_ExtGNU___attribute__ then pure (false, none)
  else
    let attrKwTkIdx_ ← consume
    let o1 ← match_ OpenParenToken none
    if o1.1 then
      let o2 ← match_ OpenParenToken none
      if o2.1 then
        let l ← parseExtGNU_AttributeList ext rec isAvailability
        if l.1 then
          let c1 ← match_ CloseParenToken none
          if c1.1 then
            let c2 ← match_ CloseParenToken none
            if c2.1 then pure (true, some ⟨attrKwTkIdx_, o1.2, o2.2, l.2, c1.2, c2.2⟩)
            else
              ext.skipTo CloseParenToken
              pure (false, some ⟨attrKwTkIdx_, o1.2, o2.2, l.2, c1.2, c2.2⟩)
          else
            ext.skipTo CloseParenToken
            pure (false, some ⟨attrKwTkIdx_, o1.2, o2.2, l.2, c1.2, none⟩)
        else
          ext.skipTo CloseParenToken
          pure (false, some ⟨attrKwTkIdx_, o1.2, o2.2, l.2, none, none⟩)
      else
        ext.skipTo CloseParenToken
        pure (false, some ⟨attrKwTkIdx_, o1.2, o2.2, [], none, none⟩)
    else
      ext.skipTo CloseParenToken
      pure (false, some ⟨attrKwTkIdx_, o1.2, none, [], none, none⟩)

/-- The do-while loop of `parseExtGNU_AttributeSpecifierList_AtFirst`, one iteration per
unit of fuel. The method writes its cells through `specList_cur`, which starts at the
parameter `specList` itself: the first cell written replaces what the parameter held.
`written` holds the cells written so far; as long as none is written the parameter holds
what it held at the call. -/
def parseExtGNU_AttributeSpecifierList_AtFirst_loop (ext : Externals)
    (specList : SpecifierList) : Nat → SpecifierList → ParserM (Bool × SpecifierList)
  | 0, _ => fail Fault.outOfFuel
  | fuel + 1, written => do
    let r ← ext.parseExtGNU_AttributeSpecifier_AtFirst
    if r.1 then
      let written := written ++ [r.2]
      if (← peek 1) = Keyword_ExtGNU___attribute__ then
        parseExtGNU_AttributeSpecifierList_AtFirst_loop ext specList fuel written
      else pure (true, written)
    else pure (false, if written.isEmpty then specList else written)

/-- The method `parseExtGNU_AttributeSpecifierList_AtFirst(specList)`: the flag and what
its parameter holds when it returns. The specifier of each cell is what
`parseExtGNU_AttributeSpecifier_AtFirst` gives. -/
def parseExtGNU_AttributeSpecifierList_AtFirst (ext : Externals) (rec : ParserTable)
    (specList : SpecifierList) : ParserM (Bool × SpecifierList) := do
  if (← peek 1) != Keyword_ExtGNU___attribute__ then pure (false, specList)
  else parseExtGNU_AttributeSpecifierList_AtFirst_loop ext specList rec.fuel []

/-- The method `parseEnumerator`. -/
def parseEnumerator (ext : Externals) (rec : ParserTable) : ParserM DeclResult := do
  if (← peek 1) = IdentifierToken then
    let identTkIdx_ ← consume
    let attrs_ ←
      if (← peek 1) = Keyword_ExtGNU___attribute__ then do
        let l ← ext.parseExtGNU_AttributeSpecifierList_AtFirst []
        pure l.2
      else pure []
    let tkK ← peek 1
    if tkK = EqualsToken then
      let equalsTkIdx_ ← consume
      let e ← rec.parseExpressionWithPrecedenceConditional none
      if e.1 then
        if (← peek 1) != CommaToken then
          pure (true, some (DeclarationSyntax.EnumMemberDeclaration identTkIdx_ attrs_
            equalsTkIdx_ e.2 none))
        else
          let commaTkIdx_ ← consume
          pure (true, some (DeclarationSyntax.EnumMemberDeclaration identTkIdx_ attrs_
            equalsTkIdx_ e.2 commaTkIdx_))
      else
        pure (false, some (DeclarationSyntax.EnumMemberDeclaration identTkIdx_ attrs_
          equalsTkIdx_ e.2 none))
    else if tkK = CommaToken then
      let commaTkIdx_ ← consume
      pure (true, some (DeclarationSyntax.EnumMemberDeclaration identTkIdx_ attrs_ none none
        commaTkIdx_))
    else
      pure (true, some (DeclarationSyntax.EnumMemberDeclaration identTkIdx_ attrs_ none none
        none))
  else
    report Diagnostic.ExpectedFIRSTofEnumerationConstant
    pure (false, none)

/-- The loop of `parseStructDeclaration_AtFollowOfSpecifierQualifierList`, one iteration
per unit of fuel; `pre` holds the cells of the declarator list made so far. -/
def parseStructDeclaration_AtFollowOfSpecifierQualifierList_loop (ext : Externals)
    (rec : ParserTable) (specList : SpecifierList) (decl : Option DeclarationSyntax) :
    Nat → List (Option DeclaratorSyntax × IndexType) → ParserM DeclResult
  | 0, _ => fail Fault.outOfFuel
  | fuel + 1, pre => do
    let d ← parseDeclarator ext rec none DeclarationScope.Block DeclaratorVariety.Named
    if d.1 then
      let tkK ← peek 1
      if tkK = CommaToken then
        let delimTkIdx_ ← consume
        parseStructDeclaration_AtFollowOfSpecifierQualifierList_loop ext rec specList decl fuel
          (pre ++ [(d.2, delimTkIdx_)])
      else if tkK = SemicolonToken then
        let semicolonTkIdx_ ← consume
        pure (true, some (DeclarationSyntax.FieldDeclaration specList (pre ++ [(d.2, none)])
          semicolonTkIdx_))
      else
        report Diagnostic.ExpectedFOLLOWofDeclarator
        pure (false, decl)
    else pure (false, decl)

/-- The method `parseStructDeclaration_AtFollowOfSpecifierQualifierList`. -/
def parseStructDeclaration_AtFollowOfSpecifierQualifierList (ext : Externals)
    (rec : ParserTable) (decl : Option DeclarationSyntax) (specList : SpecifierList) :
    ParserM DeclResult :=
  parseStructDeclaration_AtFollowOfSpecifierQualifierList_loop ext rec specList decl
    rec.fuel []

/-- The method `parseStructDeclaration`; its parameter is null at its call. The macro
`PSYCHE_ASSERT(decl, return false, ...)` is taken to return false on a null
declaration. -/
def parseStructDeclaration (ext : Externals) (rec : ParserTable) : ParserM DeclResult := do
  let tkK ← peek 1
  if tkK = Keyword__Static_assert then parseStaticAssertDeclaration_AtFirst ext rec none
  else if tkK = Keyword_ExtGNU___extension__ then
    let extKwTkIdx ← consume
    let r ← parseDeclaration ext (parseSpecifierQualifierList ext rec)
      (parseStructDeclaration_AtFollowOfSpecifierQualifierList ext rec) none
      DeclarationScope.Block
    if r.1 then
      match r.2 with
      | none => pure (false, none)
      | some d => pure (true, some (DeclarationSyntax.ExtensionMarked extKwTkIdx d))
    else pure (false, r.2)
  else
    parseDeclaration ext (parseSpecifierQualifierList ext rec)
      (parseStructDeclaration_AtFollowOfSpecifierQualifierList ext rec) none
      DeclarationScope.Block

/-- The member loop of `parseTaggedTypeSpecifier_AtFirst` (with what follows the label
`MembersParsed`), one iteration per unit of fuel. When `parseMember` fails,
`ignoreMemberDeclaration` is called and, unless the current token is end-of-file, the
`break` leaves the `switch`: the cell of the member is appended as for a member that was
parsed. -/
def parseTaggedTypeSpecifier_members (ext : Externals) (parseMember : ParserM DeclResult) :
    Nat → TaggedTypeSpecifierSyntax → ParserM (Bool × TaggedTypeSpecifierSyntax)
  | 0, _ => fail Fault.outOfFuel
  | fuel + 1, tySpec => do
    if (← peek 1) = CloseBraceToken then
      let closeBraceTkIdx_ ← consume
      let tySpec := { tySpec with closeBraceTkIdx_ := closeBraceTkIdx_ }
      if (← peek 1) = Keyword_ExtGNU___attribute__ then
        let l ← ext.parseExtGNU_AttributeSpecifierList_AtFirst tySpec.attrs2_
        pure (true, { tySpec with attrs2_ := l.2 })
      else pure (true, tySpec)
    else
      let m ← parseMember
      if m.1 then
        parseTaggedTypeSpecifier_members ext parseMember fuel
          { tySpec with decls_ := tySpec.decls_ ++ [m.2] }
      else
        ext.ignoreMemberDeclaration
        if (← peek 1) = EndOfFile then pure (false, tySpec)
        else
          parseTaggedTypeSpecifier_members ext parseMember fuel
            { tySpec with decls_ := tySpec.decls_ ++ [m.2] }

/-- The method `parseTaggedTypeSpecifier_AtFirst(decl, spec, declK, specK, parseMember)`:
the flag, the kind of the type declaration that it made and left in `decl` (its slot
`typeSpec_` is the specifier; null when `decl` keeps the value it had), and the specifier
that it left in `spec`. -/
def parseTaggedTypeSpecifier_AtFirst (ext : Externals) (rec : ParserTable)
    (declK specK : SyntaxKind) (parseMember : ParserM DeclResult) :
    ParserM (Bool × Option SyntaxKind × Option TaggedTypeSpecifierSyntax) := do
  let tkK ← peek 1
  if tkK = Keyword_struct ∨ tkK = Keyword_union ∨ tkK = Keyword_enum then
    let taggedKwTkIdx_ ← consume
    let attrs1_ ←
      if (← peek 1) = Keyword_ExtGNU___attribute__ then do
        let l ← ext.parseExtGNU_AttributeSpecifierList_AtFirst []
        pure l.2
      else pure []
    let tySpec : TaggedTypeSpecifierSyntax :=
      ⟨specK, taggedKwTkIdx_, attrs1_, none, none, [], none, []⟩
    let members := fun (tySpec : TaggedTypeSpecifierSyntax) => do
      let r ← parseTaggedTypeSpecifier_members ext parseMember rec.fuel tySpec
      pure (r.1, some declK, some r.2)
    let tkK ← peek 1
    if tkK = OpenBraceToken then
      let openBraceTkIdx_ ← consume
      members { tySpec with openBraceTkIdx_ := openBraceTkIdx_ }
    else if tkK = IdentifierToken then
      let identTkIdx_ ← consume
      if (← peek 1) != OpenBraceToken then
        pure (true, none, some { tySpec with identTkIdx_ := identTkIdx_ })
      else
        let openBraceTkIdx_ ← consume
        members { tySpec with identTkIdx_ := identTkIdx_, openBraceTkIdx_ := openBraceTkIdx_ }
    else
      report Diagnostic.ExpectedFOLLOWofStructOrUnionOrEnum
      pure (false, none, some tySpec)
  else pure (false, none, none)

/-- The externals of the examples with attributes and asm labels: as
`Externals.failing`, except that `parseExtGNU_AsmLabel_AtFirst` and
`parseExtGNU_AttributeSpecifier_AtFirst` are the methods of the sources (no attribute is
named `availability`), each node carried as the opaque specifier of its kind named by the
index of its keyword, and that `parseExtGNU_AttributeSpecifierList_AtFirst` is the method
of the sources over them. -/
def Externals.ofSourceAttributes (fuel : Nat) : Externals :=
  let specifiers : Externals :=
    { Externals.failing with
      parseExtGNU_AsmLabel_AtFirst := fun p =>
        (PsycheC.parseExtGNU_AsmLabel_AtFirst (ParserTable.ofFuel Externals.failing fuel) p).andThen
          (fun r s => Res.ok (r.1, r.2.map (fun _ =>
            SpecifierSyntax.External ExtGNU_AsmLabel ⟨p.curTkIdx_⟩)) s)
      parseExtGNU_AttributeSpecifier_AtFirst := fun p =>
        (PsycheC.parseExtGNU_AttributeSpecifier_AtFirst Externals.failing
          (ParserTable.ofFuel Externals.failing fuel) (fun _ => false) p).andThen
          (fun r s => Res.ok (r.1, r.2.map (fun _ =>
            SpecifierSyntax.External ExtGNU_AttributeSpecifier ⟨p.curTkIdx_⟩)) s) }
  { specifiers with
    parseExtGNU_AttributeSpecifierList_AtFirst := fun specList =>
      PsycheC.parseExtGNU_AttributeSpecifierList_AtFirst specifiers
        (ParserTable.ofFuel Externals.failing fuel) specList }

/-- The externals of the examples with tagged types: as `Externals.ofSourceAttributes`,
except that `parseTaggedTypeSpecifier_AtFirst` is the method of the sources, called with
`parseEnumerator` for `enum` and `parseStructDeclaration` otherwise (over the externals
without it, so that a member holds no tagged type with a body of its own); the type
declaration and the specifier are carried as opaque nodes named by the index of the
keyword. -/
def Externals.ofSourceTaggedTypes (fuel : Nat) : Externals :=
  { Externals.ofSourceAttributes fuel with
    parseTaggedTypeSpecifier_AtFirst := fun decl declK specK p =>
      (PsycheC.parseTaggedTypeSpecifier_AtFirst (Externals.ofSourceAttributes fuel)
        (ParserTable.ofFuel (Externals.ofSourceAttributes fuel) fuel) declK specK
        (if specK = EnumTypeSpecifier then
          parseEnumerator (Externals.ofSourceAttributes fuel)
            (ParserTable.ofFuel (Externals.ofSourceAttributes fuel) fuel)
        else
          parseStructDeclaration (Externals.ofSourceAttributes fuel)
            (ParserTable.ofFuel (Externals.ofSourceAttributes fuel) fuel)) p).andThen
        (fun r s => Res.ok (r.1,
          (match r.2.1 with
            | some _ => some ⟨p.curTkIdx_⟩
            | none => decl),
          r.2.2.map (fun _ => SpecifierSyntax.External specK ⟨p.curTkIdx_⟩)) s)
    typeSpecOf := fun tyDecl => some tyDecl }

/-- The externals of the examples with specifiers: as `Externals.ofSourceTaggedTypes`,
where the tagged type, attribute and asm-label parsers are the methods of the sources,
except that `parseParenthesizedTypeNameOrExpression` (a method outside the sources) parses
`( int )` into a node named by the index of the parenthesis. -/
def Externals.ofSourceSpecifiers (fuel : Nat) : Externals :=
  { Externals.ofSourceTaggedTypes fuel with
    parseParenthesizedTypeNameOrExpression := fun p =>
      if p.peek 1 = OpenParenToken ∧ p.peek 2 = Keyword_int ∧ p.peek 3 = CloseParenToken then
        Res.ok (true, some ⟨p.curTkIdx_⟩) (p.advance 3)
      else Res.ok (false, none) p }

/-! ## Chains, traces and examples for stating what the parsers build -/

/-- The chain of `n` string literal expressions for adjacent string literal tokens, the
first of them at the index `idx`: each node holds the index of its token and, in its
`adjacent_` slot, the chain of the tokens behind it; the empty chain is the null slot. -/
def stringLiteralChain (idx : Nat) : Nat → Option ExpressionSyntax
  | 0 => none
  | n + 1 =>
    some (ExpressionSyntax.StringLiteralExpression (some idx) (stringLiteralChain (idx + 1) n))

/-- The token indices of the nodes of a chain of string literal expressions, from its
head along the `adjacent_` slots (at most `fuel` nodes). -/
def adjacentIndices : Nat → Option ExpressionSyntax → List IndexType
  | fuel + 1, some (ExpressionSyntax.StringLiteralExpression litTkIdx_ adjacent_) =>
    litTkIdx_ :: adjacentIndices fuel adjacent_
  | _, _ => []

/-- The loop of `Parser::determineIdentifierRole` with a record of its calls of
`peek(LA)`: the lookahead positions in the order of the calls, and the answer (`none`
when the fuel ends before the loop does). -/
def determineIdentifierRole_trace (p : Parser) :
    Nat → Nat → Bool → Int → List Nat × Option IdentifierRole
  | 0, _, _, _ => ([], none)
  | fuel + 1, LA, seenType, parenCnt =>
    match determineIdentifierRole_step (p.peek LA) seenType parenCnt with
    | Sum.inl role => ([LA], some role)
    | Sum.inr (seenType, parenCnt) =>
      let r := determineIdentifierRole_trace p fuel (LA + 1) seenType parenCnt
      (LA :: r.1, r.2)

/-- The tokens `_Template int x`: a template declaration whose declaration lacks its
`;`. -/
def exampleTemplateTokens : List SyntaxKind :=
  [Keyword_ExtPSY__Template, Keyword_int, IdentifierToken]

/-! ## The recovery scan of member declarations, and examples -/

/-- Modelled from the spec: the recovery scan `ignoreMemberDeclaration` (defined outside
of the sources), which "skips to the next member or the closing brace": it consumes
tokens up to and with a `;`, and stops before a `}` and at end-of-file. One token per
unit of fuel. -/
def ignoreMemberDeclaration : Nat → ParserM Unit
  | 0 => fail Fault.outOfFuel
  | fuel + 1 => do
    let tkK ← peek 1
    if tkK = EndOfFile ∨ tkK = CloseBraceToken then pure ()
    else if tkK = SemicolonToken then
      let _ ← consume
      pure ()
    else
      let _ ← consume
      ignoreMemberDeclaration fuel

/-- The externals of the examples with members that fail: as
`Externals.ofSourceAttributes`, with the recovery scan `ignoreMemberDeclaration` as it is
modelled. -/
def Externals.ofSourceMembers (fuel : Nat) : Externals :=
  { Externals.ofSourceAttributes fuel with
    ignoreMemberDeclaration := PsycheC.ignoreMemberDeclaration fuel }

/-- The tokens of `enum { 1 , A }`. -/
def enumWithConstantTokens : List SyntaxKind :=
  [Keyword_enum, OpenBraceToken, IntegerConstantToken, CommaToken, IdentifierToken,
    CloseBraceToken]

/-- The tokens of `enum { A = , B }`. -/
def enumWithoutValueTokens : List SyntaxKind :=
  [Keyword_enum, OpenBraceToken, IdentifierToken, EqualsToken, CommaToken, IdentifierToken,
    CloseBraceToken]

/-- The tokens of `static struct S { int a ; } ;`. -/
def staticStructTokens : List SyntaxKind :=
  [ Keyword_static, Keyword_struct, IdentifierToken, OpenBraceToken, Keyword_int,
    IdentifierToken, SemicolonToken, CloseBraceToken, SemicolonToken]

/-- The tokens of `__attribute__ ( ( availability ( macosx , introduced = 10.12 1 ) ) )`,
the version being a floating constant with an integer constant, its "patch" component,
behind it. -/
def availabilityTokens : List SyntaxKind :=
  [Keyword_ExtGNU___attribute__, OpenParenToken, OpenParenToken, IdentifierToken,
    OpenParenToken, IdentifierToken, CommaToken, IdentifierToken, EqualsToken,
    FloatingConstantToken, IntegerConstantToken, CloseParenToken, CloseParenToken,
    CloseParenToken]

/-- The tokens of `static struct { } x ;`. -/
def staticStructVariableTokens : List SyntaxKind :=
  [Keyword_static, Keyword_struct, OpenBraceToken, CloseBraceToken, IdentifierToken,
    SemicolonToken]

/-- What `parseDeclaration` does to a cell of the specifier list before it hands the list
on: the cell is kept, or, being the tagged type specifier of the type declaration, it is
replaced by the specifier `tyDeclSpec` that holds the type declaration. -/
def keptOrLifted (typeSpec_ : Option ExternalNode) (tyDeclSpec : SpecifierSyntax)
    (before after : Option SpecifierSyntax) : Prop :=
  after = before
    ∨ (after = some tyDeclSpec
      ∧ ∃ value, before = some value ∧ value.asTaggedTypeSpecifier.isSome = true
        ∧ value.asTaggedTypeSpecifier = typeSpec_)

/-- The parser behind the lambda `checkDialect` of `parseDirectDeclaratorSuffix`: the
feature diagnostic is reported before C99. -/
def Parser.afterCheckDialect (p : Parser) : Parser :=
  if p.options.stdBeforeC99 then
    p.report (Diagnostic.ExpectedFeature
      "C99 array declarators with `*', `static', and type-qualifiers within function parameters")
  else p

/-- The tokens `*`, `static` and the type qualifiers, at which a subscript suffix is
checked against the scope of the declaration. -/
def isAsteriskStaticOrQualifier (tkK : SyntaxKind) : Bool :=
  tkK == AsteriskToken || tkK == Keyword_static || tkK == Keyword_const
    || tkK == Keyword_volatile || tkK == Keyword_restrict || tkK == Keyword__Atomic

/-- The diagnostic that `validateContext` is given at a token behind `[`. -/
def unexpectedInArrayDeclarator (tkK : SyntaxKind) : Diagnostic :=
  if tkK = AsteriskToken then Diagnostic.UnexpectedPointerInArrayDeclarator
  else Diagnostic.UnexpectedStaticOrTypeQualifiersInArrayDeclarator

/-- The tokens of the declarator `a [ const __attribute__ ( ( x ) ) 1 ]`. -/
def qualifiedAttributedArrayTokens : List SyntaxKind :=
  [IdentifierToken, OpenBracketToken, Keyword_const, Keyword_ExtGNU___attribute__,
    OpenParenToken, OpenParenToken, IdentifierToken, CloseParenToken, CloseParenToken,
    IntegerConstantToken, CloseBracketToken]

/-! ## The cast ambiguity on a store of nodes -/

/-- A node of an expression in a store of nodes, in which a slot for a node holds the
address of the node (null is `none`): the classes of nodes that
`maybeAmbiguateCastExpression` reads and makes, and `Other` for a node of any other
class, with its kind and its slots for nodes. The type name of a cast is carried as it
is. -/
inductive ExprCell
  | CastExpression (openParenTkIdx_ : IndexType) (typeName_ : Option TypeNameSyntax)
      (closeParenTkIdx_ : IndexType) (expr_ : Option Nat)
  | PrefixUnaryExpression (kind : SyntaxKind) (oprtrTkIdx_ : IndexType) (expr_ : Option Nat)
  | IdentifierExpression (identTkIdx_ : IndexType)
  | ParenthesizedExpression (openParenTkIdx_ : IndexType) (expr_ : Option Nat)
      (closeParenTkIdx_ : IndexType)
  | BinaryExpression (kind : SyntaxKind) (leftExpr_ : Option Nat) (oprtrTkIdx_ : IndexType)
      (rightExpr_ : Option Nat)
  | AmbiguousCastOrBinaryExpression (castExpr_ : Option Nat) (binExpr_ : Option Nat)
  | Other (kind : SyntaxKind) (slots : List (Option Nat))

/-- The nodes made so far, each at its address, which is its position: `makeNode` puts a
node at the end. -/
abbrev NodeStore := List ExprCell

/-- The addresses in the slots of a node. -/
def ExprCell.children : ExprCell → List Nat
  | .CastExpression _ _ _ expr_ => expr_.toList
  | .PrefixUnaryExpression _ _ expr_ => expr_.toList
  | .IdentifierExpression _ => []
  | .ParenthesizedExpression _ expr_ _ => expr_.toList
  | .BinaryExpression _ leftExpr_ _ rightExpr_ => leftExpr_.toList ++ rightExpr_.toList
  | .AmbiguousCastOrBinaryExpression castExpr_ binExpr_ => castExpr_.toList ++ binExpr_.toList
  | .Other _ slots => slots.filterMap id

/-- The node at the second address is reachable from the node at the first: it is that
node, or it is reachable from a node in a slot of it. -/
inductive Reaches (store : NodeStore) : Nat → Nat → Prop
  | refl (a : Nat) : Reaches store a a
  | step {a b c : Nat} {cell : ExprCell} (hcell : store[a]? = some cell)
      (hb : b ∈ cell.children) (hr : Reaches store b c) : Reaches store a c

/-- Every address in a slot of a node of the store is the address of a node of the
store. -/
def NodeStore.Closed (store : NodeStore) : Prop :=
  ∀ cell ∈ store, ∀ b ∈ cell.children, b < store.length

/-- The method `maybeAmbiguateCastExpression` on a store of nodes: the store and the
value of `expr` when it returns. The four nodes that it makes are put at the end of the
store, in the order of the calls of `makeNode`; the slot `rightExpr_` of the binary
expression is given the value of the slot `expr_` of the prefix expression, an address.
A dereference of a null pointer is a fault. -/
def maybeAmbiguateCastExpression_nodes (store : NodeStore) (expr : Option Nat) :
    Except Fault (NodeStore × Option Nat) :=
  match expr with
  | none => Except.error Fault.nullDereference
  | some castExpr =>
    match store[castExpr]? with
    | none => Except.error Fault.nullDereference
    | some (ExprCell.CastExpression openParenTkIdx_ typeName_ closeParenTkIdx_ expr_) =>
      match expr_ with
      | none => Except.error Fault.nullDereference
      | some prefixExpr =>
        match store[prefixExpr]? with
        | some (ExprCell.PrefixUnaryExpression prefixK oprtrTkIdx_ prefixOperand) =>
          if !(prefixK == AddressOfExpression || prefixK == PointerIndirectionExpression
                || prefixK == UnaryPlusExpression || prefixK == UnaryMinusExpression) then
            Except.ok (store, expr)
          else
            match typeName_ with
            | none => Except.error Fault.nullDereference
            | some (TypeNameSyntax.mk specs_ decltor_) =>
              match specs_ with
              | [] => Except.ok (store, expr)
              | none :: _ => Except.error Fault.nullDereference
              | some value :: next =>
                if !(value.kind == SyntaxKind.TypedefName && next.isEmpty
                      && (match decltor_ with
                          | some d => d.kind == SyntaxKind.AbstractDeclarator
                          | none => false)) then
                  Except.ok (store, expr)
                else
                  match value with
                  | SpecifierSyntax.TypedefName identTkIdx_ =>
                    let binExprK :=
                      if prefixK == AddressOfExpression then BitwiseANDExpression
                      else if prefixK == PointerIndirectionExpression then MultiplyExpression
                      else if prefixK == UnaryPlusExpression then AddExpression
                      else SubstractExpression
                    let nameExpr := store.length
                    let parenExpr := store.length + 1
                    let binExpr := store.length + 2
                    let ambiExpr := store.length + 3
                    Except.ok
                      (store ++
                        [ExprCell.IdentifierExpression identTkIdx_,
                          ExprCell.ParenthesizedExpression openParenTkIdx_ (some nameExpr)
                            closeParenTkIdx_,
                          ExprCell.BinaryExpression binExprK (some parenExpr) oprtrTkIdx_
                            prefixOperand,
                          ExprCell.AmbiguousCastOrBinaryExpression (some castExpr)
                            (some binExpr)],
                        some ambiExpr)
                  | _ => Except.error Fault.nullDereference
        | _ => Except.error Fault.nullDereference
    | some _ => Except.ok (store, expr)

/-- The expression whose root is the node at an address of the store, read through at most
`fuel` nodes in depth; a node of a class that `ExprCell` does not tell apart is not
read. -/
def expressionAt (store : NodeStore) : Nat → Option Nat → Option ExpressionSyntax
  | 0, _ => none
  | _ + 1, none => none
  | fuel + 1, some a =>
    match store[a]? with
    | some (.CastExpression o t c e) =>
      some (ExpressionSyntax.CastExpression o t c (expressionAt store fuel e))
    | some (.PrefixUnaryExpression k i e) =>
      some (ExpressionSyntax.PrefixUnaryExpression k i (expressionAt store fuel e))
    | some (.IdentifierExpression i) => some (ExpressionSyntax.IdentifierExpression i)
    | some (.ParenthesizedExpression o e c) =>
      some (ExpressionSyntax.ParenthesizedExpression o (expressionAt store fuel e) c)
    | some (.BinaryExpression k l i r) =>
      some (ExpressionSyntax.BinaryExpression k (expressionAt store fuel l) i
        (expressionAt store fuel r))
    | some (.AmbiguousCastOrBinaryExpression c b) =>
      some (ExpressionSyntax.AmbiguousCastOrBinaryExpression (expressionAt store fuel c)
        (expressionAt store fuel b))
    | some (.Other _ _) => none
    | none => none

/-- The store of the cast `( T ) * y`, the tokens at the indices 0 to 4: the operand `y`
at address 0, the prefix expression `* y` at 1, the cast at 2. -/
def castExampleStore : NodeStore :=
  [ExprCell.IdentifierExpression (some 4),
    ExprCell.PrefixUnaryExpression PointerIndirectionExpression (some 3) (some 0),
    ExprCell.CastExpression (some 0)
      (some (TypeNameSyntax.mk [some (SpecifierSyntax.TypedefName (some 1))]
        (some (DeclaratorSyntax.AbstractDeclarator []))))
      (some 2) (some 1)]

/-- The store of `( T ) * y` behind `maybeAmbiguateCastExpression`: the identifier `T` at
address 3, the parenthesized expression at 4, the binary expression at 5 and the
ambiguity node at 6. -/
def ambiguityExampleStore : NodeStore :=
  castExampleStore ++
    [ExprCell.IdentifierExpression (some 1),
      ExprCell.ParenthesizedExpression (some 0) (some 3) (some 2),
      ExprCell.BinaryExpression MultiplyExpression (some 4) (some 3) (some 0),
      ExprCell.AmbiguousCastOrBinaryExpression (some 2) (some 5)]

/-! ## The n-ary engine with the log of the operators it consumes -/

/-- What an iteration of the loop of `parseNAryExpression_AtOperator` puts around its
left operand: the middle operand and the colon of a conditional (or none), the kind of
the node, the index of the operator, and the right operand. -/
structure NAryFrame where
  condExpr : Option (Option ExpressionSyntax × IndexType)
  exprK : SyntaxKind
  oprtrTkIdx : IndexType
  nextExpr : Option ExpressionSyntax

/-- The expression that the iterations `frames` of the n-ary loop build over the left
operand `base`, the first iteration innermost: the tree whose leftmost leaf is `base`.
Putting another expression in the place of `base` is `plugFrames` of the same frames
over that expression. -/
def plugFrames : List NAryFrame → Option ExpressionSyntax → Option ExpressionSyntax
  | [], base => base
  | f :: fs, base =>
    plugFrames fs (some (makeNAryNode f.condExpr f.exprK base f.oprtrTkIdx f.nextExpr))

/-- The cast expression `( T ) op y`, with `(` at index `idx`, of the prefix expression
of `op` and the operand `y` to the typedef name `T`. -/
def castOfPrefixOperand (idx : Nat) (op : SyntaxKind) (y : Option ExpressionSyntax) :
    ExpressionSyntax :=
  .CastExpression (some idx)
    (some (TypeNameSyntax.mk [some (SpecifierSyntax.TypedefName (some (idx + 1)))]
      (some (DeclaratorSyntax.AbstractDeclarator []))))
    (some (idx + 2))
    (some (.PrefixUnaryExpression (prefixKindOfAmbiguityOperator op) (some (idx + 3)) y))

/-- The binary reading of `( T ) op y`, with `(` at index `idx`: the binary expression
of the operator `op` over the parenthesized identifier `( T )` and the operand `y`. -/
def binaryOfParenthesizedOperand (idx : Nat) (op : SyntaxKind)
    (y : Option ExpressionSyntax) : ExpressionSyntax :=
  .BinaryExpression (NAryExpressionKind op) (some (parenthesizedIdentifier idx))
    (some (idx + 3)) y

/-- The ambiguity node of `( T ) op y` with `(` at index `idx`: the cast and the binary
reading. -/
def castOrBinaryAmbiguityOfOperand (idx : Nat) (op : SyntaxKind)
    (y : Option ExpressionSyntax) : ExpressionSyntax :=
  .AmbiguousCastOrBinaryExpression (some (castOfPrefixOperand idx op y))
    (some (binaryOfParenthesizedOperand idx op y))

/-- The tokens of `( x ) * - y + z`. -/
def exampleCastOrProductOfNegationTokens : List SyntaxKind :=
  [OpenParenToken, IdentifierToken, CloseParenToken, AsteriskToken, MinusToken,
    IdentifierToken, PlusToken, IdentifierToken]

/-! # Theorems -/

/-! ## The identifier-role oracle: claim C1 -/

theorem peek_eq_head_drop (p : Parser) (LA : Nat) :
    p.peek LA = ((p.tokens.drop (p.curTkIdx_ + LA - 1)).head?).getD EndOfFile := by
  unfold Parser.peek
  rw [List.getD_eq_getElem?_getD, List.head?_drop]

theorem determineIdentifierRole_loop_eq (p : Parser) :
    ∀ (fuel LA : Nat) (seenType : Bool) (parenCnt : Int), 1 ≤ LA →
      (p.tokens.drop (p.curTkIdx_ + LA - 1)).length < fuel →
      determineIdentifierRole_loop p fuel LA seenType parenCnt
        = some (specIdentifierRoleScan (p.tokens.drop (p.curTkIdx_ + LA - 1)) seenType parenCnt) := by
  intro fuel
  induction fuel with
  | zero => intro LA s c _ h; exact absurd h (Nat.not_lt_zero _)
  | succ n ih =>
    intro LA s c hLA hlen
    have hpk := peek_eq_head_drop p LA
    rcases hrest : p.tokens.drop (p.curTkIdx_ + LA - 1) with _ | ⟨tk, rest⟩
    · rw [hrest] at hpk
      simp at hpk
      simp [determineIdentifierRole_loop, hpk, specIdentifierRoleScan]
    · rw [hrest] at hpk hlen
      simp at hpk hlen
      have hnext : p.tokens.drop (p.curTkIdx_ + (LA + 1) - 1) = rest := by
        have : p.curTkIdx_ + (LA + 1) - 1 = (p.curTkIdx_ + LA - 1) + 1 := by omega
        rw [this, ← List.drop_drop, hrest]
        rfl
      have step : ∀ (s2 : Bool) (c2 : Int),
          determineIdentifierRole_loop p n (LA + 1) s2 c2
            = some (specIdentifierRoleScan rest s2 c2) := by
        intro s2 c2
        have := ih (LA + 1) s2 c2 (by omega) (by rw [hnext]; omega)
        rw [hnext] at this
        exact this
      unfold determineIdentifierRole_loop
      rw [hpk]
      cases tk <;>
        simp [specIdentifierRoleScan, specBuiltinTypeKeywords, specSkippedTokens, step] <;>
        split_ifs <;> rfl

/-- C1: for every token stream, cursor position and initial value of the
seenType flag, `determineIdentifierRole` ends and returns exactly the result
of the scan the specification describes, run over the tokens after the
candidate identifier (from LA(2) on) with parenthesis depth 0. -/
theorem C1_determineIdentifierRole_is_spec_scan (p : Parser) (seenType : Bool) :
    determineIdentifierRole p seenType
      = some (specIdentifierRoleScan (p.tokens.drop (p.curTkIdx_ + 1)) seenType 0) := by
  have h := determineIdentifierRole_loop_eq p (p.tokens.length + 1) 2 seenType 0 (by omega)
    (by rw [List.length_drop]; omega)
  simpa [determineIdentifierRole] using h

/-! ## The monad and the token cursor -/

@[simp] theorem Res.andThen_ok {α β : Type} (a : α) (q : Parser) (k : α → Parser → Res β) :
    (Res.ok a q).andThen k = k a q := rfl
@[simp] theorem Res.andThen_fault {α β : Type} (f : Fault) (k : α → Parser → Res β) :
    (Res.fault f : Res α).andThen k = Res.fault f := rfl

@[simp] theorem run_pure {α : Type} (a : α) (p : Parser) : (pure a : ParserM α) p = Res.ok a p := rfl
@[simp] theorem run_bind {α β : Type} (m : ParserM α) (k : α → ParserM β) (p : Parser) :
    (m >>= k) p = (m p).andThen k := by
  show ParserM.bind m k p = _
  unfold ParserM.bind
  cases m p <;> rfl
@[simp] theorem run_peek (LA : Nat) (p : Parser) : peek LA p = Res.ok (p.peek LA) p := rfl
@[simp] theorem run_consume (p : Parser) : consume p = Res.ok p.consume.1 p.consume.2 := rfl
@[simp] theorem run_report (d : Diagnostic) (p : Parser) : report d p = Res.ok () (p.report d) := rfl
@[simp] theorem run_getOptions (p : Parser) : getOptions p = Res.ok p.options p := rfl

theorem rest_eq_cons_peek {p : Parser} {tk : SyntaxKind} {r : List SyntaxKind}
    (h : p.rest = tk :: r) : p.peek 1 = tk := by
  unfold Parser.peek
  unfold Parser.rest at h
  rw [List.getD_eq_getElem?_getD]
  have : p.tokens[p.curTkIdx_ + 1 - 1]? = (p.tokens.drop p.curTkIdx_).head? := by
    rw [List.head?_drop]; simp
  rw [this, h]; rfl

theorem rest_eq_cons_peek2 {p : Parser} {tk : SyntaxKind} {r : List SyntaxKind}
    (h : p.rest = tk :: r) : p.peek 2 = r.head?.getD EndOfFile := by
  unfold Parser.peek
  unfold Parser.rest at h
  rw [List.getD_eq_getElem?_getD]
  have : p.tokens[p.curTkIdx_ + 2 - 1]? = ((p.tokens.drop p.curTkIdx_).drop 1).head? := by
    rw [List.drop_drop, List.head?_drop]; simp [Nat.add_comm]
  rw [this, h]; simp

theorem advance_rest {p : Parser} {tk : SyntaxKind} {r : List SyntaxKind}
    (h : p.rest = tk :: r) : (p.advance 1).rest = r := by
  unfold Parser.rest Parser.advance at *
  simp only
  rw [← List.drop_drop, h]; rfl

theorem consume_of_rest {p : Parser} {tk : SyntaxKind} {r : List SyntaxKind}
    (h : p.rest = tk :: r) (hne : tk ≠ EndOfFile) :
    p.consume = (some p.curTkIdx_, p.advance 1) := by
  unfold Parser.consume
  rw [rest_eq_cons_peek h]
  simp [hne, Parser.advance]

theorem postfix_AtFollow_loop_stop (ext : Externals) (rec : ParserTable) (n : Nat)
    (expr : Option ExpressionSyntax) (p : Parser) (h : isPostfixStart (p.peek 1) = false) :
    parsePostfixExpression_AtFollow_loop ext rec (n + 1) expr p = Res.ok (true, expr) p := by
  unfold parsePostfixExpression_AtFollow_loop
  simp only [run_bind, run_peek, Res.andThen_ok]
  cases hq : p.peek 1 <;> simp_all [isPostfixStart]

theorem postfix_AtFollow_stop (ext : Externals) (rec : ParserTable) (hfuel : 1 ≤ rec.fuel)
    (expr : Option ExpressionSyntax) (p : Parser) (h : isPostfixStart (p.peek 1) = false) :
    parsePostfixExpression_AtFollow ext rec expr p = Res.ok (true, expr) p := by
  obtain ⟨n, hn⟩ : ∃ n, rec.fuel = n + 1 := ⟨rec.fuel - 1, by omega⟩
  unfold parsePostfixExpression_AtFollow
  rw [hn]
  exact postfix_AtFollow_loop_stop ext rec n expr p h

theorem peek_of_rest (p : Parser) : p.peek 1 = p.rest.head?.getD EndOfFile := by
  unfold Parser.peek Parser.rest
  rw [List.getD_eq_getElem?_getD, List.head?_drop]; simp

theorem singleTokenOperand_cases {tk : SyntaxKind} (h : isSingleTokenOperand tk = true) :
    tk ∈ [IdentifierToken, IntegerConstantToken, FloatingConstantToken,
      CharacterConstantToken, CharacterConstant_L_Token, CharacterConstant_u_Token,
      CharacterConstant_U_Token, Keyword_Ext_true, Keyword_Ext_false, Keyword_Ext_NULL,
      Keyword_Ext_nullptr, StringLiteralToken, StringLiteral_L_Token, StringLiteral_u8_Token,
      StringLiteral_u_Token, StringLiteral_U_Token, StringLiteral_R_Token,
      StringLiteral_LR_Token, StringLiteral_u8R_Token, StringLiteral_uR_Token,
      StringLiteral_UR_Token] := by
  cases tk <;> first | (exact absurd h (by decide)) | decide

theorem continuesOperand_false {tk : SyntaxKind} (h : continuesOperand tk = false) :
    isPostfixStart tk = false ∧ isStringLiteralToken tk = false := by
  simpa [continuesOperand] using h

theorem consume_of_peek {p : Parser} (h : p.peek 1 ≠ EndOfFile) :
    p.consume = (some p.curTkIdx_, p.advance 1) := by
  simp [Parser.consume, h, Parser.advance]

theorem singleTokenOperand_startsUnary {tk : SyntaxKind} (h : isSingleTokenOperand tk = true) :
    startsUnaryExpression tk = true ∧ tk ≠ OpenParenToken
      ∧ tk ≠ Keyword_ExtGNU___extension__ := by
  cases tk <;> first | (exact absurd h (by decide)) | decide

theorem unary_singleTokenOperand (ext : Externals) (rec : ParserTable)
    (expr : Option ExpressionSyntax) (p : Parser) (tk : SyntaxKind)
    (hpk : p.peek 1 = tk) (htk : isSingleTokenOperand tk = true) :
    parseExpressionWithPrecedenceUnary ext rec expr p
      = parseExpressionWithPrecedencePostfix ext rec expr p := by
  unfold parseExpressionWithPrecedenceUnary
  simp only [run_bind, run_peek, Res.andThen_ok, hpk]
  split <;> first | rfl | (exfalso; revert htk; decide)

theorem stringLiteral_chain_single (fuel : Nat) (p : Parser)
    (hne : p.peek 1 ≠ EndOfFile)
    (hstr : isStringLiteralToken ((p.advance 1).peek 1) = false) :
    parseStringLiteral_chain (fuel + 1) p
      = Res.ok (some (ExpressionSyntax.StringLiteralExpression (some p.curTkIdx_) none))
          (p.advance 1) := by
  have hcons := consume_of_peek hne
  rw [parseStringLiteral_chain]
  simp only [run_bind, run_peek, run_consume, run_pure, Res.andThen_ok, hcons, hstr,
    Bool.false_eq_true, if_false]

theorem primary_singleTokenOperand (ext : Externals) (rec : ParserTable) (hfuel : 1 ≤ rec.fuel)
    (expr : Option ExpressionSyntax) (p : Parser) (tk : SyntaxKind)
    (hpk : p.peek 1 = tk) (htk : isSingleTokenOperand tk = true)
    (hstr : isStringLiteralToken ((p.advance 1).peek 1) = false) :
    parsePrimaryExpression ext rec expr p
      = Res.ok (true, some (operandNode tk p.curTkIdx_)) (p.advance 1) := by
  have hne : p.peek 1 ≠ EndOfFile := by
    rw [hpk]; intro hc; rw [hc] at htk; exact absurd htk (by decide)
  have hcons := consume_of_peek hne
  obtain ⟨n, hn⟩ : ∃ n, rec.fuel = n + 1 := ⟨rec.fuel - 1, by omega⟩
  have hchain := stringLiteral_chain_single n p hne hstr
  unfold parsePrimaryExpression
  simp only [run_bind, run_peek, Res.andThen_ok, hpk]
  split <;> first
    | (exfalso; revert htk; decide)
    | (simp only [parseIdentifierExpression_AtFirst, parseConstant_AtFirst, isConstantToken,
        run_bind, run_peek, run_consume, run_pure, Res.andThen_ok, hpk, hcons,
        bne_self_eq_false, Bool.false_eq_true, if_false, Bool.not_true, operandNode]; done)
    | (simp only [parseStringLiteral_AtFirst, isStringLiteralToken, run_bind, run_peek,
        run_pure, Res.andThen_ok, hpk, hn, hchain, Bool.not_true, Bool.false_eq_true,
        if_false, operandNode]; done)
    | (exfalso
       have hmem := singleTokenOperand_cases htk
       simp only [List.mem_cons, List.mem_singleton, List.not_mem_nil, or_false] at hmem
       rcases hmem with e | e | e | e | e | e | e | e | e | e | e | e | e | e | e | e | e | e | e | e | e <;>
         contradiction)

theorem cast_singleTokenOperand (ext : Externals) (rec : ParserTable) (hfuel : 1 ≤ rec.fuel)
    (expr : Option ExpressionSyntax) (p : Parser) (tk : SyntaxKind) (r : List SyntaxKind)
    (h : p.rest = tk :: r) (htk : isSingleTokenOperand tk = true)
    (hnext : continuesOperand (r.head?.getD EndOfFile) = false) :
    parseExpressionWithPrecedenceCast ext rec expr p
      = Res.ok (true, some (operandNode tk p.curTkIdx_)) (p.advance 1) := by
  have hpk := rest_eq_cons_peek h
  obtain ⟨hs, hparen, hext⟩ := singleTokenOperand_startsUnary htk
  have hpk' : (p.advance 1).peek 1 = r.head?.getD EndOfFile := by
    rw [peek_of_rest, advance_rest h]
  obtain ⟨hnextPostfix, hnextString⟩ := continuesOperand_false hnext
  have hfollow := postfix_AtFollow_stop ext rec hfuel
    (some (operandNode tk p.curTkIdx_)) (p.advance 1) (by rw [hpk']; exact hnextPostfix)
  have hcast : parseExpressionWithPrecedenceCast ext rec expr p
      = parseExpressionWithPrecedenceUnary ext rec expr p := by
    unfold parseExpressionWithPrecedenceCast
    simp only [run_bind, run_peek, Res.andThen_ok, hpk, hparen, if_false, hs, if_true]
  have hpost : parseExpressionWithPrecedencePostfix ext rec expr p
      = Res.ok (true, some (operandNode tk p.curTkIdx_)) (p.advance 1) := by
    unfold parseExpressionWithPrecedencePostfix
    simp only [run_bind, run_peek, Res.andThen_ok, hpk, hparen, if_false,
      primary_singleTokenOperand ext rec hfuel expr p tk hpk htk
        (by rw [hpk']; exact hnextString), if_true, hfollow]
  rw [hcast, unary_singleTokenOperand ext rec expr p tk hpk htk, hpost]

/-! ## The n-ary engine on infix sequences, abstractly -/

theorem infixOperator_precedence_pos (tk : SyntaxKind) (h : isInfixOperatorToken tk = true) :
    1 ≤ precedenceOf tk := by
  simp [isInfixOperatorToken, NAryPrecedence.Undefined] at h
  omega

theorem infixOperator_isNAryOperatorToken (tk : SyntaxKind)
    (h : isInfixOperatorToken tk = true) : isNAryOperatorToken tk = true := by
  cases tk <;> first | rfl | (exfalso; revert h; decide)

theorem isRightAssociative_congr (a b : SyntaxKind) (h : precedenceOf a = precedenceOf b) :
    isRightAssociative a = isRightAssociative b := by
  simp [isRightAssociative, h]

theorem itemTokens_append (A B : List InfixItem) :
    itemTokens (A ++ B) = itemTokens A ++ itemTokens B := by
  induction A with
  | nil => rfl
  | cons a A ih => simp [itemTokens, ih]

theorem InfixOps_cons {it : InfixItem} {L : List InfixItem} (h : InfixOps (it :: L)) :
    isInfixOperatorToken it.oprtrTkK = true ∧ InfixOps L :=
  ⟨(h it (List.mem_cons_self _ _)).1, fun x hx => h x (List.mem_cons_of_mem _ hx)⟩

theorem InfixOps_suffix {A B : List InfixItem} (h : InfixOps (A ++ B)) : InfixOps B :=
  fun x hx => h x (List.mem_append_right _ hx)

theorem climb_spec (f : Nat) :
    (∀ base c L, InfixOps L → 2 * L.length + 1 ≤ f →
      ∃ T R, climbOuter f base c L = some (T, R) ∧ PostOuter base c L T R)
    ∧ (∀ next ref L, InfixOps L → 2 * L.length + 2 ≤ f →
      ∃ T R, climbInner f ref next L = some (T, R) ∧ PostInner next ref L T R) := by
  induction f with
  | zero =>
    constructor
    · intro _ _ L _ h; omega
    · intro _ _ L _ h; omega
  | succ f ih =>
    obtain ⟨ihO, ihI⟩ := ih
    constructor
    · intro base c L hL hf
      cases L with
      | nil =>
        refine ⟨base, [], by simp [climbOuter], [], rfl, by simp [itemTokens], ?_, ?_, ?_, ?_⟩
        · intro it R' h; cases h
        · intro _; rfl
        · intro h; exact absurd rfl h
        · intro h _; exact h
      | cons it rest =>
        obtain ⟨hop, hrest⟩ := InfixOps_cons hL
        by_cases hc : c ≤ precedenceOf it.oprtrTkK
        · simp only [List.length_cons] at hf
          obtain ⟨next, R1, hI, L1a, hL1a, htokI, hstopI, hnilI, hrootI, hshapeI⟩ :=
            ihI (.operand it.operandTkK it.operandTkIdx) (precedenceOf it.oprtrTkK) rest hrest
              (by omega)
          have hR1 : InfixOps R1 := InfixOps_suffix (hL1a ▸ hrest)
          have hlen : R1.length ≤ rest.length := by
            rw [hL1a]; simp
          obtain ⟨T, R, hO, L1b, hL1b, htokO, hstopO, hnilO, hrootO, hshapeO⟩ :=
            ihO (.operator it.oprtrTkK it.oprtrTkIdx base next) c R1 hR1 (by omega)
          refine ⟨T, R, ?_, it :: (L1a ++ L1b), ?_, ?_, hstopO, ?_, ?_, ?_⟩
          · simp [climbOuter, hc, hI, hO]
          · simp [hL1a, hL1b]
          · rw [htokO]
            simp [OperatorTree.tokens, htokI, itemTokens, itemTokens_append]
          · intro h; cases h
          · intro _
            by_cases hb : L1b = []
            · rw [hnilO hb]; exact ⟨it.oprtrTkK, rfl, hc⟩
            · exact hrootO hb
          · intro hbase hpre
            apply hshapeO
            · have hnext : next.precedenceShaped = true :=
                hshapeI rfl (by intro _ _ o _ ho; cases ho)
              have hleft : (match base.rootOperator with
                  | some o => bindsTighterOnLeft it.oprtrTkK o
                  | none => true) = true := by
                cases hb : base.rootOperator with
                | none => rfl
                | some o => exact hpre it rest o rfl hc hb
              have hright : (match next.rootOperator with
                  | some o => bindsTighterOnRight it.oprtrTkK o
                  | none => true) = true := by
                cases hn : next.rootOperator with
                | none => rfl
                | some o =>
                  have hne : L1a ≠ [] := by
                    intro h0
                    rw [hnilI h0] at hn
                    cases hn
                  obtain ⟨o', ho', hge, hra⟩ := hrootI hne
                  rw [hn] at ho'
                  cases ho'
                  simp only [bindsTighterOnRight, Bool.or_eq_true, decide_eq_true_eq,
                    Bool.and_eq_true, beq_iff_eq]
                  rcases Nat.lt_or_ge (precedenceOf it.oprtrTkK) (precedenceOf o) with h1 | h1
                  · exact Or.inl h1
                  · have : precedenceOf o = precedenceOf it.oprtrTkK := by omega
                    exact Or.inr ⟨this, by rw [← isRightAssociative_congr o _ this]; exact hra this⟩
              simp only [OperatorTree.precedenceShaped, hbase, hnext, Bool.and_eq_true, true_and]
              exact ⟨hleft, hright⟩
            · intro h R' o hR hch ho
              cases ho
              have hs := hstopI h R' hR
              have hh : isInfixOperatorToken h.oprtrTkK = true :=
                (hR1 h (by rw [hR]; exact List.mem_cons_self _ _)).1
              have hn := infixOperator_isNAryOperatorToken _ hh
              simp only [reclimbs, hn, Bool.and_true, Bool.or_eq_false_iff, decide_eq_false_iff_not,
                Bool.and_eq_false_iff, beq_eq_false_iff_ne] at hs
              simp only [bindsTighterOnLeft, Bool.or_eq_true, decide_eq_true_eq,
                    Bool.and_eq_true, beq_iff_eq, Bool.not_eq_true']
              rcases Nat.lt_or_ge (precedenceOf h.oprtrTkK) (precedenceOf it.oprtrTkK) with h1 | h1
              · exact Or.inl h1
              · have he : precedenceOf h.oprtrTkK = precedenceOf it.oprtrTkK := by omega
                refine Or.inr ⟨he.symm, ?_⟩
                rcases hs.2 with h2 | h2
                · exact absurd he h2
                · simpa using h2
        · refine ⟨base, it :: rest, by simp [climbOuter, hc], [], rfl, by simp [itemTokens],
            ?_, ?_, ?_, ?_⟩
          · intro it' R' h; cases h; omega
          · intro _; rfl
          · intro h; exact absurd rfl h
          · intro h _; exact h
    · intro next ref L hL hf
      cases L with
      | nil =>
        refine ⟨next, [], by simp [climbInner], [], rfl, by simp [itemTokens], ?_, ?_, ?_, ?_⟩
        · intro it R' h; cases h
        · intro _; rfl
        · intro h; exact absurd rfl h
        · intro h _; exact h
      | cons it rest =>
        obtain ⟨hop, hrest⟩ := InfixOps_cons hL
        by_cases hc : reclimbs ref it.oprtrTkK = true
        · simp only [List.length_cons] at hf
          obtain ⟨next', R1, hO, L1a, hL1a, htokO, hstopO, hnilO, hrootO, hshapeO⟩ :=
            ihO next (precedenceOf it.oprtrTkK) (it :: rest) hL (by simp only [List.length_cons]; omega)
          have hne : L1a ≠ [] := by
            intro h0
            rw [h0] at hL1a
            have := hstopO it rest hL1a.symm
            omega
          have hR1 : InfixOps R1 := InfixOps_suffix (hL1a ▸ hL)
          have hlen : R1.length + 1 ≤ (it :: rest).length := by
            rw [hL1a]
            cases L1a with
            | nil => exact absurd rfl hne
            | cons a A => simp
          simp only [List.length_cons] at hlen
          obtain ⟨T, R, hI, L1b, hL1b, htokI, hstopI, hnilI, hrootI, hshapeI⟩ :=
            ihI next' ref R1 hR1 (by omega)
          obtain ⟨o', ho', hge'⟩ := hrootO hne
          have hpreI : PreInner next' R1 := by
            intro h R' o hR ho
            rw [ho'] at ho; cases ho
            have := hstopO h R' hR
            omega
          refine ⟨T, R, ?_, L1a ++ L1b, ?_, ?_, hstopI, ?_, ?_, ?_⟩
          · simp [climbInner, hc, hO, hI]
          · rw [hL1a, hL1b]; simp
          · rw [htokI, htokO]; simp [itemTokens_append]
          · intro h
            simp at h
            exact absurd h.1 hne
          · intro _
            by_cases hb : L1b = []
            · rw [hnilI hb]
              refine ⟨o', ho', ?_, ?_⟩
              · simp only [reclimbs, Bool.or_eq_true, Bool.and_eq_true, decide_eq_true_eq,
                  beq_iff_eq] at hc
                rcases hc with h1 | h1 <;> omega
              · intro he
                simp only [reclimbs, Bool.or_eq_true, Bool.and_eq_true, decide_eq_true_eq,
                  beq_iff_eq] at hc
                rcases hc with h1 | h1
                · omega
                · rw [isRightAssociative_congr o' it.oprtrTkK (by omega)]; exact h1.2
            · exact hrootI hb
          · intro hnext hpre
            apply hshapeI _ hpreI
            apply hshapeO hnext
            intro h R' o hR _ ho
            have := hpre h R' o hR ho
            simp [bindsTighterOnLeft, this]
        · simp only [Bool.not_eq_true] at hc
          refine ⟨next, it :: rest, by simp [climbInner, hc], [], rfl, by simp [itemTokens],
            ?_, ?_, ?_, ?_⟩
          · intro it' R' h; cases h; exact hc
          · intro _; rfl
          · intro h; exact absurd rfl h
          · intro h _; exact h

/-! ## The n-ary engine follows the abstract loops -/

@[simp] theorem advance_curTkIdx (p : Parser) (n : Nat) :
    (p.advance n).curTkIdx_ = p.curTkIdx_ + n := rfl
@[simp] theorem advance_depthOfExprs (p : Parser) (n : Nat) :
    (p.advance n).depthOfExprs_ = p.depthOfExprs_ := rfl
@[simp] theorem advance_MAX_DEPTH_OF_EXPRS (p : Parser) (n : Nat) :
    (p.advance n).MAX_DEPTH_OF_EXPRS = p.MAX_DEPTH_OF_EXPRS := rfl
@[simp] theorem advance_advance (p : Parser) (a b : Nat) :
    (p.advance a).advance b = p.advance (a + b) := by
  simp [Parser.advance, Nat.add_assoc]
@[simp] theorem advance_zero (p : Parser) : p.advance 0 = p := rfl

theorem ofFuel_fuel (ext : Externals) (k : Nat) : (ParserTable.ofFuel ext k).fuel = k := by
  cases k <;> rfl

theorem ofFuel_succ_AtOperator (ext : Externals) (k : Nat) :
    (ParserTable.ofFuel ext (k + 1)).parseNAryExpression_AtOperator
      = parseNAryExpression_AtOperator ext (ParserTable.ofFuel ext k) := rfl

theorem infixOperator_not_continuesOperand (tk : SyntaxKind)
    (h : isInfixOperatorToken tk = true) : continuesOperand tk = false := by
  cases tk <;> first | rfl | (exfalso; revert h; decide)

theorem endsInfixSequence_not_continuesOperand (tk : SyntaxKind)
    (h : endsInfixSequence tk = true) : continuesOperand tk = false := by
  simp only [endsInfixSequence, Bool.and_eq_true, Bool.not_eq_true'] at h
  exact h.2

theorem endsInfixSequence_precedence (tk : SyntaxKind) (h : endsInfixSequence tk = true) :
    precedenceOf tk = 0 := by
  simp [endsInfixSequence, NAryPrecedence.Undefined] at h
  exact h.1

theorem advance_rest_two {p : Parser} {a b : SyntaxKind} {r : List SyntaxKind}
    (h : p.rest = a :: b :: r) : (p.advance 2).rest = r := by
  have h1 := advance_rest h
  have h2 := advance_rest h1
  simpa using h2

theorem AtItems_nil {p : Parser} {tail : List SyntaxKind} (h : AtItems p [] tail) :
    p.rest = tail := by
  obtain ⟨pairs, h1, h2⟩ := h
  cases pairs with
  | nil => simpa [infixTokens] using h2
  | cons a A => obtain ⟨op, e⟩ := a; simp [infixItemsAt] at h1

theorem AtItems_cons {p : Parser} {it : InfixItem} {R : List InfixItem} {tail : List SyntaxKind}
    (h : AtItems p (it :: R) tail) :
    (∃ r, p.rest = it.oprtrTkK :: it.operandTkK :: r ∧ (p.advance 2).rest = r)
      ∧ it.oprtrTkIdx = p.curTkIdx_ ∧ it.operandTkIdx = p.curTkIdx_ + 1
      ∧ AtItems (p.advance 2) R tail := by
  obtain ⟨pairs, h1, h2⟩ := h
  cases pairs with
  | nil => simp [infixItemsAt] at h1
  | cons a A =>
    obtain ⟨op, e⟩ := a
    simp only [infixItemsAt, List.cons.injEq] at h1
    obtain ⟨hit, hR⟩ := h1
    subst hit
    simp only [infixTokens, List.cons_append] at h2
    exact ⟨⟨_, h2, advance_rest_two h2⟩, rfl, rfl, A, hR, advance_rest_two h2⟩

theorem AtItems_peek {p : Parser} {L : List InfixItem} {tail : List SyntaxKind}
    (h : AtItems p L tail) (hL : InfixOps L)
    (htail : endsInfixSequence (tail.head?.getD EndOfFile) = true) :
    continuesOperand (p.peek 1) = false
      ∧ (L = [] → precedenceOf (p.peek 1) = 0)
      ∧ (∀ it R, L = it :: R → p.peek 1 = it.oprtrTkK) := by
  cases L with
  | nil =>
    have := AtItems_nil h
    rw [peek_of_rest, this]
    exact ⟨endsInfixSequence_not_continuesOperand _ htail,
      (fun _ => endsInfixSequence_precedence _ htail), (fun _ _ h => by cases h)⟩
  | cons it R =>
    obtain ⟨⟨r, hr, _⟩, _⟩ := AtItems_cons h
    have hpk := rest_eq_cons_peek hr
    rw [hpk]
    refine ⟨infixOperator_not_continuesOperand _ (hL it (List.mem_cons_self _ _)).1,
      (fun h => by cases h), (fun it' R' h => by cases h; rfl)⟩

theorem nary_inner_stop (rec : ParserTable) (refPrec n : Nat) (next : Option ExpressionSyntax)
    (p : Parser) (h : reclimbs refPrec (p.peek 1) = false) :
    parseNAryExpression_AtOperator_inner rec refPrec (n + 1) next p = Res.ok (true, next) p := by
  simp [parseNAryExpression_AtOperator_inner, h]

theorem nary_inner_step (rec : ParserTable) (refPrec n : Nat) (next : Option ExpressionSyntax)
    (p : Parser) (h : reclimbs refPrec (p.peek 1) = true) :
    parseNAryExpression_AtOperator_inner rec refPrec (n + 1) next p
      = (rec.parseNAryExpression_AtOperator next (precedenceOf (p.peek 1)) p).andThen
          (fun r q => if r.1 = true then parseNAryExpression_AtOperator_inner rec refPrec n r.2 q
            else Res.ok (false, r.2) q) := by
  simp only [parseNAryExpression_AtOperator_inner, run_bind, run_peek, Res.andThen_ok, h,
    if_true]
  congr 1
  funext r q
  split <;> rfl

theorem nary_loop_stop (ext : Externals) (rec : ParserTable) (c n d : Nat)
    (base : Option ExpressionSyntax) (p : Parser) (h : precedenceOf (p.peek 1) < c) :
    parseNAryExpression_AtOperator_loop ext rec c (n + 1) d base p = Res.ok (true, base) p := by
  simp [parseNAryExpression_AtOperator_loop, Nat.not_le.mpr h]

theorem nary_loop_step (ext : Externals) (rec : ParserTable) (hfuel : 1 ≤ rec.fuel)
    (c n d : Nat) (base : Option ExpressionSyntax) (p : Parser) (op e : SyntaxKind)
    (r : List SyntaxKind) (h : p.rest = op :: e :: r) (hop : isInfixOperatorToken op = true)
    (he : isSingleTokenOperand e = true) (hr : continuesOperand (r.head?.getD EndOfFile) = false)
    (hc : c ≤ precedenceOf op) (hd : d + 1 ≤ p.MAX_DEPTH_OF_EXPRS) :
    parseNAryExpression_AtOperator_loop ext rec c (n + 1) d base p
      = (parseNAryExpression_AtOperator_inner rec (precedenceOf op) rec.fuel
            (some (operandNode e (p.curTkIdx_ + 1))) (p.advance 2)).andThen
          (fun i q => if i.1 = true then
              parseNAryExpression_AtOperator_loop ext rec c n (d + 1)
                (some (makeNAryNode none (NAryExpressionKind op) base (some p.curTkIdx_) i.2)) q
            else Res.ok (false, base) q) := by
  have hpk := rest_eq_cons_peek h
  have hq : op ≠ QuestionToken := by
    intro hc; rw [hc] at hop; exact absurd hop (by decide)
  have hne : op ≠ EndOfFile := by
    intro hc; rw [hc] at hop; exact absurd hop (by decide)
  have hcons := consume_of_rest h hne
  have hcast := cast_singleTokenOperand ext rec hfuel none (p.advance 1) e r (advance_rest h) he hr
  simp only [parseNAryExpression_AtOperator_loop, hpk, ge_iff_le, hc, if_true,
    Nat.not_lt.mpr hd, if_false, run_bind, run_consume, hcons, Res.andThen_ok, hq, run_pure,
    hcast, advance_advance, advance_curTkIdx]
  congr 1
  funext i q
  split <;> rfl

theorem nary_simulation (ext : Externals) (tail : List SyntaxKind)
    (htail : endsInfixSequence (tail.head?.getD EndOfFile) = true) (f : Nat) :
    (∀ k n base c L T R p d, f ≤ k → f ≤ n → 1 ≤ c → InfixOps L → AtItems p L tail →
      d + L.length ≤ p.MAX_DEPTH_OF_EXPRS → p.depthOfExprs_ + L.length ≤ p.MAX_DEPTH_OF_EXPRS →
      climbOuter f base c L = some (T, R) →
      R.length ≤ L.length ∧ InfixOps R
        ∧ AtItems (p.advance (2 * (L.length - R.length))) R tail
        ∧ parseNAryExpression_AtOperator_loop ext (ParserTable.ofFuel ext k) c n d
            (some base.toExpression) p
          = Res.ok (true, some T.toExpression) (p.advance (2 * (L.length - R.length))))
    ∧ (∀ k n next ref L T R p, f ≤ k → f ≤ n → 1 ≤ ref → InfixOps L → AtItems p L tail →
      p.depthOfExprs_ + L.length ≤ p.MAX_DEPTH_OF_EXPRS →
      climbInner f ref next L = some (T, R) →
      R.length ≤ L.length ∧ InfixOps R
        ∧ AtItems (p.advance (2 * (L.length - R.length))) R tail
        ∧ parseNAryExpression_AtOperator_inner (ParserTable.ofFuel ext k) ref n
            (some next.toExpression) p
          = Res.ok (true, some T.toExpression) (p.advance (2 * (L.length - R.length)))) := by
  induction f with
  | zero =>
    constructor
    · intro k n base c L T R p d _ _ _ _ _ _ _ h
      simp [climbOuter] at h
    · intro k n next ref L T R p _ _ _ _ _ _ h
      simp [climbInner] at h
  | succ f ih =>
    obtain ⟨ihO, ihI⟩ := ih
    constructor
    · intro k n base c L T R p d hk hn hc hL hat hd hdp h
      obtain ⟨n', rfl⟩ : ∃ n', n = n' + 1 := ⟨n - 1, by omega⟩
      have hpeek := AtItems_peek hat hL htail
      cases L with
      | nil =>
        simp only [climbOuter, Option.some.injEq, Prod.mk.injEq] at h
        obtain ⟨rfl, rfl⟩ := h
        have h0 := hpeek.2.1 rfl
        refine ⟨Nat.le_refl _, hL, by simpa using hat, ?_⟩
        simpa using nary_loop_stop ext _ c n' d _ p (by omega)
      | cons it rest =>
        by_cases hcp : c ≤ precedenceOf it.oprtrTkK
        · simp only [climbOuter, ge_iff_le, hcp, if_true] at h
          cases hI : climbInner f (precedenceOf it.oprtrTkK)
              (.operand it.operandTkK it.operandTkIdx) rest with
          | none => rw [hI] at h; cases h
          | some res =>
            obtain ⟨next, R1⟩ := res
            rw [hI] at h
            simp only at h
            obtain ⟨hop, hrest⟩ := InfixOps_cons hL
            have hit := hL it (List.mem_cons_self _ _)
            obtain ⟨⟨r, hr, hr2⟩, hi1, hi2, hat2⟩ := AtItems_cons hat
            have hpeek2 := AtItems_peek hat2 hrest htail
            simp only [List.length_cons] at hd hdp
            obtain ⟨hlen1, hR1, hat3, hrun1⟩ := ihI k k
              (.operand it.operandTkK it.operandTkIdx) (precedenceOf it.oprtrTkK) rest next R1
              (p.advance 2) (by omega) (by omega) (infixOperator_precedence_pos _ hop) hrest hat2
              (by simp; omega) hI
            obtain ⟨hlen2, hR, hat4, hrun2⟩ := ihO k n'
              (.operator it.oprtrTkK it.oprtrTkIdx base next) c R1 T R
              ((p.advance 2).advance (2 * (rest.length - R1.length))) (d + 1)
              (by omega) (by omega) hc hR1 hat3 (by simp; omega) (by simp; omega) h
            have hadv : (2 + 2 * (rest.length - R1.length) + 2 * (R1.length - R.length))
                = 2 * ((it :: rest).length - R.length) := by
              simp only [List.length_cons]; omega
            simp only [advance_advance, hadv] at hat4 hrun2
            refine ⟨by simp only [List.length_cons]; omega, hR, hat4, ?_⟩
            rw [nary_loop_step ext _ (by rw [ofFuel_fuel]; omega) c n' d _ p it.oprtrTkK
              it.operandTkK r hr hop hit.2
              (by rw [← hr2, ← peek_of_rest]; exact hpeek2.1) hcp (by omega)]
            rw [ofFuel_fuel]
            simp only [OperatorTree.toExpression, hi2] at hrun1
            rw [hrun1]
            simp only [Res.andThen_ok, if_true]
            simp only [OperatorTree.toExpression, hi1, advance_advance] at hrun2
            simp only [advance_advance]
            exact hrun2
        · simp only [climbOuter, ge_iff_le, hcp, if_false, Option.some.injEq,
            Prod.mk.injEq] at h
          obtain ⟨rfl, rfl⟩ := h
          have hpk := hpeek.2.2 it rest rfl
          refine ⟨Nat.le_refl _, hL, by simpa using hat, ?_⟩
          simpa using nary_loop_stop ext _ c n' d _ p (by rw [hpk]; omega)
    · intro k n next ref L T R p hk hn href hL hat hdp h
      obtain ⟨n', rfl⟩ : ∃ n', n = n' + 1 := ⟨n - 1, by omega⟩
      obtain ⟨k', rfl⟩ : ∃ k', k = k' + 1 := ⟨k - 1, by omega⟩
      have hpeek := AtItems_peek hat hL htail
      cases L with
      | nil =>
        simp only [climbInner, Option.some.injEq, Prod.mk.injEq] at h
        obtain ⟨rfl, rfl⟩ := h
        have h0 := hpeek.2.1 rfl
        refine ⟨Nat.le_refl _, hL, by simpa using hat, ?_⟩
        have hstop : reclimbs ref (p.peek 1) = false := by
          simp only [reclimbs, h0, Bool.or_eq_false_iff, Bool.and_eq_false_iff,
            decide_eq_false_iff_not, beq_eq_false_iff_ne]
          exact ⟨Or.inl (by omega), Or.inl (by omega)⟩
        simpa using nary_inner_stop _ ref n' _ p hstop
      | cons it rest =>
        have hpk := hpeek.2.2 it rest rfl
        by_cases hcp : reclimbs ref it.oprtrTkK = true
        · simp only [climbInner, hcp, if_true] at h
          cases hO : climbOuter f next (precedenceOf it.oprtrTkK) (it :: rest) with
          | none => rw [hO] at h; cases h
          | some res =>
            obtain ⟨next', R1⟩ := res
            rw [hO] at h
            simp only at h
            obtain ⟨hop, hrest⟩ := InfixOps_cons hL
            obtain ⟨hlen1, hR1, hat3, hrun1⟩ := ihO k' k' next (precedenceOf it.oprtrTkK)
              (it :: rest) next' R1 p p.depthOfExprs_ (by omega) (by omega)
              (infixOperator_precedence_pos _ hop) hL hat hdp hdp hO
            obtain ⟨hlen2, hR, hat4, hrun2⟩ := ihI (k' + 1) n' next' ref R1 T R
              (p.advance (2 * ((it :: rest).length - R1.length)))
              (by omega) (by omega) href hR1 hat3
              (by simp only [List.length_cons, advance_depthOfExprs,
                    advance_MAX_DEPTH_OF_EXPRS] at hdp hlen1 ⊢; omega) h
            have hadv : (2 * ((it :: rest).length - R1.length) + 2 * (R1.length - R.length))
                = 2 * ((it :: rest).length - R.length) := by
              simp only [List.length_cons] at hlen1 ⊢; omega
            simp only [advance_advance, hadv] at hat4 hrun2
            refine ⟨by simp only [List.length_cons] at hlen1 ⊢; omega, hR, hat4, ?_⟩
            rw [nary_inner_step _ ref n' _ p (by rw [hpk]; exact hcp), ofFuel_succ_AtOperator]
            unfold parseNAryExpression_AtOperator
            rw [ofFuel_fuel, hpk, hrun1]
            simp only [Res.andThen_ok, if_true]
            exact hrun2
        · simp only [Bool.not_eq_true] at hcp
          simp only [climbInner, hcp, Bool.false_eq_true, if_false, Option.some.injEq,
            Prod.mk.injEq] at h
          obtain ⟨rfl, rfl⟩ := h
          refine ⟨Nat.le_refl _, hL, by simpa using hat, ?_⟩
          simpa using nary_inner_stop _ ref n' _ p (by rw [hpk]; exact hcp)

/-! ## Precedence: claim C3 -/

theorem infixItemsAt_length (idx : Nat) (pairs : List (SyntaxKind × SyntaxKind)) :
    (infixItemsAt idx pairs).length = pairs.length := by
  induction pairs generalizing idx with
  | nil => rfl
  | cons a A ih => obtain ⟨op, e⟩ := a; simp [infixItemsAt, ih]

theorem InfixOps_infixItemsAt (idx : Nat) (pairs : List (SyntaxKind × SyntaxKind))
    (h : ∀ x ∈ pairs, isInfixOperatorToken x.1 = true ∧ isSingleTokenOperand x.2 = true) :
    InfixOps (infixItemsAt idx pairs) := by
  induction pairs generalizing idx with
  | nil => intro it hit; simp [infixItemsAt] at hit
  | cons a A ih =>
    obtain ⟨op, e⟩ := a
    intro it hit
    simp only [infixItemsAt, List.mem_cons] at hit
    rcases hit with rfl | hit
    · exact h (op, e) (List.mem_cons_self _ _)
    · exact ih (idx + 2) (fun x hx => h x (List.mem_cons_of_mem _ hx)) it hit

/-- The n-ary engine on an infix sequence, from the first operand on: it gives the tree of
the abstract loops and stands behind the sequence. -/
theorem parseNAryExpression_infix (ext : Externals) (fuel : Nat) (p : Parser)
    (expr : Option ExpressionSyntax) (cutoff : Nat) (e0 : SyntaxKind)
    (pairs : List (SyntaxKind × SyntaxKind)) (tail : List SyntaxKind)
    (hrest : p.rest = e0 :: (infixTokens pairs ++ tail))
    (he0 : isSingleTokenOperand e0 = true)
    (hops : ∀ x ∈ pairs, isInfixOperatorToken x.1 = true ∧ isSingleTokenOperand x.2 = true)
    (htail : endsInfixSequence (tail.head?.getD EndOfFile) = true)
    (hdepth : p.depthOfExprs_ + pairs.length ≤ p.MAX_DEPTH_OF_EXPRS)
    (hfuel : 2 * pairs.length + 1 ≤ fuel) (hcut : 1 ≤ cutoff)
    (T : OperatorTree) (R : List InfixItem)
    (hclimb : climbOuter (2 * pairs.length + 1) (.operand e0 p.curTkIdx_) cutoff
      (infixItemsAt (p.curTkIdx_ + 1) pairs) = some (T, R)) :
    parseNAryExpression ext (ParserTable.ofFuel ext fuel) expr cutoff p
      = Res.ok (true, some T.toExpression) (p.advance (1 + 2 * (pairs.length - R.length))) := by
  have hL := InfixOps_infixItemsAt (p.curTkIdx_ + 1) pairs hops
  have hat : AtItems (p.advance 1) (infixItemsAt (p.curTkIdx_ + 1) pairs) tail :=
    ⟨pairs, rfl, advance_rest hrest⟩
  have hpk := (AtItems_peek hat hL htail).1
  rw [peek_of_rest, advance_rest hrest] at hpk
  have hcast := cast_singleTokenOperand ext (ParserTable.ofFuel ext fuel)
    (by rw [ofFuel_fuel]; omega) expr p e0 _ hrest he0 hpk
  have hsim := (nary_simulation ext tail htail (2 * pairs.length + 1)).1 fuel fuel
    (.operand e0 p.curTkIdx_) cutoff (infixItemsAt (p.curTkIdx_ + 1) pairs) T R (p.advance 1)
    p.depthOfExprs_ hfuel hfuel hcut hL hat
    (by rw [infixItemsAt_length]; exact hdepth) (by rw [infixItemsAt_length]; exact hdepth)
    hclimb
  obtain ⟨_, _, _, hrun⟩ := hsim
  simp only [infixItemsAt_length, advance_advance, OperatorTree.toExpression] at hrun
  simp only [parseNAryExpression, run_bind, hcast, Res.andThen_ok, if_true,
    parseNAryExpression_AtOperator, ofFuel_fuel, advance_depthOfExprs]
  exact hrun

theorem itemTokens_infixItemsAt_length (L : List InfixItem) :
    (itemTokens L).length = 2 * L.length := by
  induction L with
  | nil => rfl
  | cons a A ih => simp [itemTokens, ih]; omega

/-- C3, as amended: for every alternating sequence `e0 op1 e1 ... opn en` of single-token
operands (identifiers, constants, string literals) and binary, assignment or comma
operator tokens (no `?`) that is within the depth budget of the expression guard
(`depthOfExprs_` plus the number of operators is at most `MAX_DEPTH_OF_EXPRS`) and is
followed by a token that is no operator and does not continue the last operand,
`parseNAryExpression` with the sequencing cutoff succeeds (given fuel for the recursion),
stands behind the whole sequence, and its result is the expression of an operator tree
whose tokens, from left to right, are the tokens of the sequence, each operator slot
holding the index of its operator token, and in which every operator at the root of an
operand binds tighter than the operator above it. For three operands `a op1 b op2 c` the
tree is `op1(a, op2(b, c))` when `op2` has the higher precedence and `op2(op1(a, b), c)`
when `op1` has. -/
theorem C3_parseNAryExpression_precedence_shaped (ext : Externals) (fuel : Nat) (p : Parser)
    (expr : Option ExpressionSyntax) (e0 : SyntaxKind)
    (pairs : List (SyntaxKind × SyntaxKind)) (tail : List SyntaxKind)
    (hrest : p.rest = e0 :: (infixTokens pairs ++ tail))
    (he0 : isSingleTokenOperand e0 = true)
    (hops : ∀ x ∈ pairs, isInfixOperatorToken x.1 = true ∧ isSingleTokenOperand x.2 = true)
    (htail : endsInfixSequence (tail.head?.getD EndOfFile) = true)
    (hdepth : p.depthOfExprs_ + pairs.length ≤ p.MAX_DEPTH_OF_EXPRS)
    (hfuel : 2 * pairs.length + 1 ≤ fuel) :
    ∃ T : OperatorTree,
      parseNAryExpression ext (ParserTable.ofFuel ext fuel) expr NAryPrecedence.Sequencing p
          = Res.ok (true, some T.toExpression) (p.advance (2 * pairs.length + 1))
        ∧ T.tokens = (e0, p.curTkIdx_) :: itemTokens (infixItemsAt (p.curTkIdx_ + 1) pairs)
        ∧ T.precedenceShaped = true
        ∧ (∀ op1 b op2 c, pairs = [(op1, b), (op2, c)] →
            (precedenceOf op1 < precedenceOf op2 →
              T = .operator op1 (p.curTkIdx_ + 1) (.operand e0 p.curTkIdx_)
                    (.operator op2 (p.curTkIdx_ + 3) (.operand b (p.curTkIdx_ + 2))
                      (.operand c (p.curTkIdx_ + 4))))
            ∧ (precedenceOf op2 < precedenceOf op1 →
              T = .operator op2 (p.curTkIdx_ + 3)
                    (.operator op1 (p.curTkIdx_ + 1) (.operand e0 p.curTkIdx_)
                      (.operand b (p.curTkIdx_ + 2)))
                    (.operand c (p.curTkIdx_ + 4)))) := by
  have hL := InfixOps_infixItemsAt (p.curTkIdx_ + 1) pairs hops
  obtain ⟨T, R, hclimb, L1, hL1, htok, hstop, _, _, hshape⟩ :=
    (climb_spec (2 * pairs.length + 1)).1 (.operand e0 p.curTkIdx_) NAryPrecedence.Sequencing
      (infixItemsAt (p.curTkIdx_ + 1) pairs) hL (by rw [infixItemsAt_length])
  have hR : R = [] := by
    cases R with
    | nil => rfl
    | cons it R' =>
      have h1 := hstop it R' rfl
      have h2 := infixOperator_precedence_pos _
        (hL it (by rw [hL1]; exact List.mem_append_right _ (List.mem_cons_self _ _))).1
      simp only [NAryPrecedence.Sequencing] at h1
      omega
  subst hR
  simp only [List.append_nil] at hL1
  subst hL1
  refine ⟨T, ?_, ?_, ?_, ?_⟩
  · have := parseNAryExpression_infix ext fuel p expr NAryPrecedence.Sequencing e0 pairs tail
      hrest he0 hops htail hdepth hfuel (by decide) T [] hclimb
    simpa [Nat.add_comm] using this
  · simpa [OperatorTree.tokens] using htok
  · exact hshape rfl (by intro _ _ o _ _ ho; cases ho)
  · intro op1 b op2 c hp
    subst hp
    have h1 := (hops (op1, b) (by simp)).1
    have h2 := (hops (op2, c) (by simp)).1
    have p1 := infixOperator_precedence_pos _ h1
    have p2 := infixOperator_precedence_pos _ h2
    have n2 := infixOperator_isNAryOperatorToken _ h2
    constructor
    · intro hlt
      have hr : reclimbs (precedenceOf op1) op2 = true := by
        simp [reclimbs, hlt, n2]
      simp [infixItemsAt, climbOuter, climbInner, NAryPrecedence.Sequencing, p1, hr] at hclimb
      exact hclimb.symm
    · intro hlt
      have hr : reclimbs (precedenceOf op1) op2 = false := by
        simp only [reclimbs, Bool.or_eq_false_iff, Bool.and_eq_false_iff,
          decide_eq_false_iff_not, beq_eq_false_iff_ne]
        exact ⟨Or.inl (by omega), Or.inl (by omega)⟩
      simp [infixItemsAt, climbOuter, climbInner, NAryPrecedence.Sequencing, p1, p2, hr]
        at hclimb
      exact hclimb.symm

/-- An instance of C3: `a + b * c`, followed by `;`. -/
theorem C3_parseNAryExpression_precedence_shaped_witness :
    ∃ T : OperatorTree,
      parseNAryExpression Externals.failing (ParserTable.ofFuel Externals.failing 5) none
          NAryPrecedence.Sequencing
          (Parser.start [IdentifierToken, PlusToken, IdentifierToken, AsteriskToken,
            IdentifierToken, SemicolonToken])
          = Res.ok (true, some T.toExpression)
              ((Parser.start [IdentifierToken, PlusToken, IdentifierToken, AsteriskToken,
                IdentifierToken, SemicolonToken]).advance 5)
        ∧ T.tokens = [(IdentifierToken, 0), (PlusToken, 1), (IdentifierToken, 2),
            (AsteriskToken, 3), (IdentifierToken, 4)]
        ∧ T.precedenceShaped = true
        ∧ T = .operator PlusToken 1 (.operand IdentifierToken 0)
                (.operator AsteriskToken 3 (.operand IdentifierToken 2)
                  (.operand IdentifierToken 4)) := by
  obtain ⟨T, h1, h2, h3, h4⟩ := C3_parseNAryExpression_precedence_shaped Externals.failing 5
    (Parser.start [IdentifierToken, PlusToken, IdentifierToken, AsteriskToken,
      IdentifierToken, SemicolonToken]) none IdentifierToken
    [(PlusToken, IdentifierToken), (AsteriskToken, IdentifierToken)] [SemicolonToken]
    rfl (by decide) (by decide) (by decide) (by decide) (by decide)
  exact ⟨T, h1, h2, h3, (h4 PlusToken IdentifierToken AsteriskToken IdentifierToken rfl).1
    (by decide)⟩

/-! ## Associativity: claim C4 -/

theorem climbOuter_leftChain (q : Nat) (L : List InfixItem) :
    ∀ (base : OperatorTree) (c f : Nat),
      (∀ it ∈ L, precedenceOf it.oprtrTkK = q ∧ isRightAssociative it.oprtrTkK = false) →
      c ≤ q → 2 * L.length + 1 ≤ f →
      climbOuter f base c L = some (leftNested base L, []) := by
  induction L with
  | nil =>
    intro base c f _ _ hf
    obtain ⟨f', rfl⟩ : ∃ f', f = f' + 1 := ⟨f - 1, by omega⟩
    simp [climbOuter, leftNested]
  | cons it rest ih =>
    intro base c f hL hc hf
    simp only [List.length_cons] at hf
    obtain ⟨f', rfl⟩ : ∃ f', f = f' + 2 := ⟨f - 2, by omega⟩
    have hit := hL it (List.mem_cons_self _ _)
    have hinner : climbInner (f' + 1) (precedenceOf it.oprtrTkK)
        (.operand it.operandTkK it.operandTkIdx) rest
          = some (.operand it.operandTkK it.operandTkIdx, rest) := by
      cases rest with
      | nil => simp [climbInner]
      | cons h r =>
        have hh := hL h (List.mem_cons_of_mem _ (List.mem_cons_self _ _))
        have : reclimbs (precedenceOf it.oprtrTkK) h.oprtrTkK = false := by
          simp [reclimbs, hit.1, hh.1, hh.2]
        simp [climbInner, this]
    have := ih (.operator it.oprtrTkK it.oprtrTkIdx base
      (.operand it.operandTkK it.operandTkIdx)) c (f' + 1)
      (fun x hx => hL x (List.mem_cons_of_mem _ hx)) hc (by omega)
    rw [hit.1] at hinner
    simp [climbOuter, hit.1, hc, hinner, this, leftNested]

theorem climbOuter_rightChain (q : Nat) (L : List InfixItem) :
    ∀ (base : OperatorTree) (c f : Nat),
      (∀ it ∈ L, precedenceOf it.oprtrTkK = q ∧ isRightAssociative it.oprtrTkK = true) →
      c ≤ q → 2 * L.length + 1 ≤ f →
      climbOuter f base c L = some (rightNested base L, []) := by
  induction L with
  | nil =>
    intro base c f _ _ hf
    obtain ⟨f', rfl⟩ : ∃ f', f = f' + 1 := ⟨f - 1, by omega⟩
    simp [climbOuter, rightNested]
  | cons it rest ih =>
    intro base c f hL hc hf
    simp only [List.length_cons] at hf
    obtain ⟨f', rfl⟩ : ∃ f', f = f' + 3 := ⟨f - 3, by omega⟩
    have hit := hL it (List.mem_cons_self _ _)
    have hinner : climbInner (f' + 2) (precedenceOf it.oprtrTkK)
        (.operand it.operandTkK it.operandTkIdx) rest
          = some (rightNested (.operand it.operandTkK it.operandTkIdx) rest, []) := by
      cases rest with
      | nil => simp [climbInner, rightNested]
      | cons h r =>
        have hh := hL h (List.mem_cons_of_mem _ (List.mem_cons_self _ _))
        have hre : reclimbs (precedenceOf it.oprtrTkK) h.oprtrTkK = true := by
          simp [reclimbs, hit.1, hh.1, hh.2]
        have := ih (.operand it.operandTkK it.operandTkIdx) (precedenceOf h.oprtrTkK) (f' + 1)
          (fun x hx => hL x (List.mem_cons_of_mem _ hx)) (by rw [hh.1]) (by omega)
        simp [climbInner, hre, this]
    rw [hit.1] at hinner
    simp [climbOuter, hit.1, hc, hinner, rightNested]

theorem leftNested_tokens (L : List InfixItem) :
    ∀ base : OperatorTree, (leftNested base L).tokens = base.tokens ++ itemTokens L := by
  induction L with
  | nil => intro base; simp [leftNested, itemTokens]
  | cons it rest ih => intro base; simp [leftNested, ih, OperatorTree.tokens, itemTokens]

theorem rightNested_tokens (L : List InfixItem) :
    ∀ base : OperatorTree, (rightNested base L).tokens = base.tokens ++ itemTokens L := by
  induction L with
  | nil => intro base; simp [rightNested, itemTokens]
  | cons it rest ih => intro base; simp [rightNested, ih, OperatorTree.tokens, itemTokens]

theorem infixItemsAt_mem (idx : Nat) (pairs : List (SyntaxKind × SyntaxKind)) (it : InfixItem)
    (h : it ∈ infixItemsAt idx pairs) : (it.oprtrTkK, it.operandTkK) ∈ pairs := by
  induction pairs generalizing idx with
  | nil => simp [infixItemsAt] at h
  | cons a A ih =>
    obtain ⟨op, e⟩ := a
    simp only [infixItemsAt, List.mem_cons] at h
    rcases h with rfl | h
    · exact List.mem_cons_self _ _
    · exact List.mem_cons_of_mem _ (ih (idx + 2) h)

theorem AtItems_end {tail : List SyntaxKind} (L : List InfixItem) :
    ∀ p : Parser, AtItems p L tail → AtItems (p.advance (2 * L.length)) [] tail := by
  induction L with
  | nil => intro p h; simpa using h
  | cons it rest ih =>
    intro p h
    have h2 := ih (p.advance 2) (AtItems_cons h).2.2.2
    rw [advance_advance] at h2
    have e : 2 * (it :: rest).length = 2 + 2 * rest.length := by
      simp only [List.length_cons]; omega
    rw [e]
    exact h2

theorem nary_rightChain (ext : Externals) (tail : List SyntaxKind)
    (htail : endsInfixSequence (tail.head?.getD EndOfFile) = true) (q : Nat) :
    ∀ (L : List InfixItem) (k n c : Nat) (base : OperatorTree) (p : Parser),
      L.length + 1 ≤ k → L.length + 1 ≤ n → 1 ≤ c → c ≤ q →
      (∀ it ∈ L, precedenceOf it.oprtrTkK = q ∧ isRightAssociative it.oprtrTkK = true) →
      InfixOps L → AtItems p L tail →
      (L ≠ [] → p.depthOfExprs_ < p.MAX_DEPTH_OF_EXPRS) →
      parseNAryExpression_AtOperator_loop ext (ParserTable.ofFuel ext k) c n p.depthOfExprs_
          (some base.toExpression) p
        = Res.ok (true, some (rightNested base L).toExpression) (p.advance (2 * L.length)) := by
  intro L
  induction L with
  | nil =>
    intro k n c base p _ hn hc _ _ hL hat _
    obtain ⟨n', rfl⟩ : ∃ n', n = n' + 1 := ⟨n - 1, by omega⟩
    have h0 := (AtItems_peek hat hL htail).2.1 rfl
    simpa [rightNested] using
      nary_loop_stop ext _ c n' p.depthOfExprs_ (some base.toExpression) p (by omega)
  | cons it rest ih =>
    intro k n c base p hk hn hc hcq hq hL hat hmax
    simp only [List.length_cons] at hk hn
    obtain ⟨n', rfl⟩ : ∃ n', n = n' + 2 := ⟨n - 2, by omega⟩
    obtain ⟨k', rfl⟩ : ∃ k', k = k' + 2 := ⟨k - 2, by omega⟩
    have hit := hq it (List.mem_cons_self _ _)
    obtain ⟨hop, hrest⟩ := InfixOps_cons hL
    obtain ⟨⟨r, hr, hr2⟩, hi1, hi2, hat2⟩ := AtItems_cons hat
    have hpeek2 := AtItems_peek hat2 hrest htail
    have hmax' := hmax (by simp)
    have hpos := infixOperator_precedence_pos _ hop
    have hend := AtItems_end rest (p.advance 2) hat2
    have hend0 := (AtItems_peek hend (fun x hx => by cases hx) htail).2.1 rfl
    have hstop : reclimbs (precedenceOf it.oprtrTkK)
        (((p.advance 2).advance (2 * rest.length)).peek 1) = false := by
      simp only [reclimbs, hend0, Bool.or_eq_false_iff, Bool.and_eq_false_iff,
        decide_eq_false_iff_not, beq_eq_false_iff_ne]
      exact ⟨Or.inl (by omega), Or.inl (by omega)⟩
    have hadv : (p.advance 2).advance (2 * rest.length)
        = p.advance (2 * (it :: rest).length) := by
      rw [advance_advance]; congr 1; simp only [List.length_cons]; omega
    rw [nary_loop_step ext _ (by rw [ofFuel_fuel]; omega) c (n' + 1) p.depthOfExprs_
      (some base.toExpression) p
      it.oprtrTkK it.operandTkK r hr hop (hL it (List.mem_cons_self _ _)).2
      (by rw [← hr2, ← peek_of_rest]; exact hpeek2.1) (by rw [hit.1]; exact hcq) (by omega)]
    rw [ofFuel_fuel]
    have hinner : parseNAryExpression_AtOperator_inner (ParserTable.ofFuel ext (k' + 2))
        (precedenceOf it.oprtrTkK) (k' + 2)
        (some (operandNode it.operandTkK (p.curTkIdx_ + 1))) (p.advance 2)
          = Res.ok (true, some (rightNested (.operand it.operandTkK it.operandTkIdx)
              rest).toExpression) ((p.advance 2).advance (2 * rest.length)) := by
      cases rest with
      | nil =>
        rw [nary_inner_stop _ _ (k' + 1) _ _ (by simpa using hstop)]
        simp [rightNested, OperatorTree.toExpression, hi2]
      | cons h rest' =>
        have hpk2 := hpeek2.2.2 h rest' rfl
        have hh := hq h (List.mem_cons_of_mem _ (List.mem_cons_self _ _))
        have hre : reclimbs (precedenceOf it.oprtrTkK) ((p.advance 2).peek 1) = true := by
          rw [hpk2]
          simp [reclimbs, hit.1, hh.1, hh.2]
        have hrec := ih (k' + 1) (k' + 1) q (.operand it.operandTkK it.operandTkIdx)
          (p.advance 2) (by simp only [List.length_cons] at hk ⊢; omega)
          (by simp only [List.length_cons] at hk ⊢; omega)
          (by rw [← hit.1]; exact hpos) (Nat.le_refl _)
          (fun x hx => hq x (List.mem_cons_of_mem _ hx)) hrest hat2
          (fun _ => by simpa using hmax')
        rw [nary_inner_step _ _ (k' + 1) _ _ hre, ofFuel_succ_AtOperator, hpk2, hh.1]
        simp only [parseNAryExpression_AtOperator, ofFuel_fuel]
        simp only [OperatorTree.toExpression, hi2] at hrec
        rw [hrec]
        simp only [Res.andThen_ok, if_true]
        rw [nary_inner_stop _ _ _ _ _ hstop]
        simp [rightNested, OperatorTree.toExpression, hi2]
    rw [hinner]
    simp only [Res.andThen_ok, if_true]
    rw [hadv] at hend0 ⊢
    rw [nary_loop_stop ext _ c n' _ _ _ (by omega)]
    simp [rightNested, OperatorTree.toExpression, hi1]

/-- C4, as amended: for single-token operands `e0 .. en` and operators `op1 .. opn` of one
precedence level `q` (no `?`), at a cutoff up to that level, `parseNAryExpression`
succeeds (given fuel), stands behind the sequence, and builds the left-nested tree
`((e0 op1 e1) op2 e2) ... opn en` when the level is neither conditional nor assignment
and the operators are within the depth budget of the expression guard (`depthOfExprs_`
plus their number is at most `MAX_DEPTH_OF_EXPRS`), and the right-nested tree
`e0 op1 (e1 op2 (... opn en))` when the level is assignment and the parser is below the
maximum depth, whatever the number of operators; the tokens of either tree, from left to
right, are the tokens of the sequence, every operator with the index of its own token,
which the node has in its operator slot. `isRightAssociative` is true exactly for `?` and
the eleven assignment operator tokens. -/
theorem C4_parseNAryExpression_associativity (ext : Externals) (fuel : Nat) (p : Parser)
    (expr : Option ExpressionSyntax) (cutoff q : Nat) (e0 : SyntaxKind)
    (pairs : List (SyntaxKind × SyntaxKind)) (tail : List SyntaxKind)
    (hrest : p.rest = e0 :: (infixTokens pairs ++ tail))
    (he0 : isSingleTokenOperand e0 = true)
    (hops : ∀ x ∈ pairs, isInfixOperatorToken x.1 = true ∧ isSingleTokenOperand x.2 = true)
    (htail : endsInfixSequence (tail.head?.getD EndOfFile) = true)
    (hfuel : 2 * pairs.length + 1 ≤ fuel)
    (hlevel : ∀ x ∈ pairs, precedenceOf x.1 = q)
    (hcut : 1 ≤ cutoff) (hcq : cutoff ≤ q) :
    (q ≠ NAryPrecedence.Conditional → q ≠ NAryPrecedence.Assignment →
        p.depthOfExprs_ + pairs.length ≤ p.MAX_DEPTH_OF_EXPRS →
        parseNAryExpression ext (ParserTable.ofFuel ext fuel) expr cutoff p
          = Res.ok (true, some (leftNested (.operand e0 p.curTkIdx_)
              (infixItemsAt (p.curTkIdx_ + 1) pairs)).toExpression)
              (p.advance (2 * pairs.length + 1)))
      ∧ (q = NAryPrecedence.Assignment →
        (pairs ≠ [] → p.depthOfExprs_ < p.MAX_DEPTH_OF_EXPRS) →
        parseNAryExpression ext (ParserTable.ofFuel ext fuel) expr cutoff p
          = Res.ok (true, some (rightNested (.operand e0 p.curTkIdx_)
              (infixItemsAt (p.curTkIdx_ + 1) pairs)).toExpression)
              (p.advance (2 * pairs.length + 1)))
      ∧ (leftNested (.operand e0 p.curTkIdx_) (infixItemsAt (p.curTkIdx_ + 1) pairs)).tokens
          = (e0, p.curTkIdx_) :: itemTokens (infixItemsAt (p.curTkIdx_ + 1) pairs)
      ∧ (rightNested (.operand e0 p.curTkIdx_) (infixItemsAt (p.curTkIdx_ + 1) pairs)).tokens
          = (e0, p.curTkIdx_) :: itemTokens (infixItemsAt (p.curTkIdx_ + 1) pairs)
      ∧ (∀ tkK, isRightAssociative tkK = true ↔
          tkK ∈ [QuestionToken, EqualsToken, PlusEqualsToken, MinusEqualsToken,
            AsteriskEqualsToken, SlashEqualsToken, PercentEqualsToken,
            LessThanLessThanEqualsToken, GreaterThanGreaterThanEqualsToken,
            AmpersandEqualsToken, CaretEqualsToken, BarEqualsToken]) := by
  have hL := InfixOps_infixItemsAt (p.curTkIdx_ + 1) pairs hops
  have hat : AtItems (p.advance 1) (infixItemsAt (p.curTkIdx_ + 1) pairs) tail :=
    ⟨pairs, rfl, advance_rest hrest⟩
  refine ⟨?_, ?_, ?_, ?_, ?_⟩
  · intro h1 h2 hdepth
    have hadv : 1 + 2 * (pairs.length - ([] : List InfixItem).length)
        = 2 * pairs.length + 1 := by
      simp; omega
    rw [← hadv]
    apply parseNAryExpression_infix ext fuel p expr cutoff e0 pairs tail hrest he0 hops htail
      hdepth hfuel hcut
    apply climbOuter_leftChain q _ _ _ _ _ hcq (by rw [infixItemsAt_length])
    intro it hit
    have hq := hlevel _ (infixItemsAt_mem _ _ _ hit)
    simp only at hq
    refine ⟨hq, ?_⟩
    simp only [isRightAssociative, hq, Bool.or_eq_false_iff, beq_eq_false_iff_ne]
    exact ⟨h1, h2⟩
  · intro h1 hdepth
    have hpk := (AtItems_peek hat hL htail).1
    rw [peek_of_rest, advance_rest hrest] at hpk
    have hcast := cast_singleTokenOperand ext (ParserTable.ofFuel ext fuel)
      (by rw [ofFuel_fuel]; omega) expr p e0 _ hrest he0 hpk
    have hrun := nary_rightChain ext tail htail q (infixItemsAt (p.curTkIdx_ + 1) pairs)
      fuel fuel cutoff (.operand e0 p.curTkIdx_) (p.advance 1)
      (by rw [infixItemsAt_length]; omega) (by rw [infixItemsAt_length]; omega) hcut hcq
      (by
        intro it hit
        have hq := hlevel _ (infixItemsAt_mem _ _ _ hit)
        simp only at hq
        refine ⟨hq, ?_⟩
        simp [isRightAssociative, hq, h1])
      hL hat
      (by
        intro hne
        apply hdepth
        intro hp
        rw [hp] at hne
        exact hne rfl)
    simp only [infixItemsAt_length, advance_advance, OperatorTree.toExpression,
      advance_depthOfExprs] at hrun
    simp only [parseNAryExpression, run_bind, hcast, Res.andThen_ok, if_true,
      parseNAryExpression_AtOperator, ofFuel_fuel, advance_depthOfExprs]
    rw [hrun]
    congr 2
    omega
  · rw [leftNested_tokens]; rfl
  · rw [rightNested_tokens]; rfl
  · intro tkK
    cases tkK <;> decide

/-- An instance of C4: `a - b + c`, with `-` and `+` of the additive level, is
`(a - b) + c`. -/
theorem C4_parseNAryExpression_associativity_witness :
    parseNAryExpression Externals.failing (ParserTable.ofFuel Externals.failing 5) none
        NAryPrecedence.Sequencing
        (Parser.start [IdentifierToken, MinusToken, IdentifierToken, PlusToken,
          IdentifierToken])
      = Res.ok (true, some (leftNested (.operand IdentifierToken 0)
          [⟨MinusToken, 1, IdentifierToken, 2⟩, ⟨PlusToken, 3, IdentifierToken, 4⟩]).toExpression)
          ((Parser.start [IdentifierToken, MinusToken, IdentifierToken, PlusToken,
            IdentifierToken]).advance 5) :=
  (C4_parseNAryExpression_associativity Externals.failing 5
    (Parser.start [IdentifierToken, MinusToken, IdentifierToken, PlusToken, IdentifierToken])
    none NAryPrecedence.Sequencing NAryPrecedence.Additive IdentifierToken
    [(MinusToken, IdentifierToken), (PlusToken, IdentifierToken)] []
    rfl (by decide) (by decide) (by decide) (by decide) (by decide) (by decide)
    (by decide)).1 (by decide) (by decide) (by decide)

/-! ## Precedence levels: claim C5 -/

/-- C5: `precedenceOf` puts the operator tokens on thirteen levels, strictly decreasing
from multiplicative down to sequencing, which is above 0: `*`, `/`, `%`, then `+`, `-`,
then `<<`, `>>`, then `<`, `>`, `<=`, `>=`, then `==`, `!=`, then `&`, `^`, `|`, `&&`,
`||`, `?`, the eleven assignment operators, and `,`; the tokens of one level have the same
precedence; every other token has precedence 0 (Undefined), which is below every cutoff
from sequencing on. -/
theorem C5_precedenceOf_levels :
    (∀ tkK ∈ [AsteriskToken, SlashToken, PercentToken],
        precedenceOf tkK = NAryPrecedence.Multiplicative)
      ∧ (∀ tkK ∈ [PlusToken, MinusToken], precedenceOf tkK = NAryPrecedence.Additive)
      ∧ (∀ tkK ∈ [LessThanLessThanToken, GreaterThanGreaterThanToken],
          precedenceOf tkK = NAryPrecedence.Shift)
      ∧ (∀ tkK ∈ [LessThanToken, GreaterThanToken, LessThanEqualsToken, GreaterThanEqualsToken],
          precedenceOf tkK = NAryPrecedence.Relational)
      ∧ (∀ tkK ∈ [EqualsEqualsToken, ExclamationEqualsToken],
          precedenceOf tkK = NAryPrecedence.Equality)
      ∧ precedenceOf AmpersandToken = NAryPrecedence.BitwiseAND
      ∧ precedenceOf CaretToken = NAryPrecedence.BitwiseXOR
      ∧ precedenceOf BarToken = NAryPrecedence.BitwiseOR
      ∧ precedenceOf AmpersandAmpersandToken = NAryPrecedence.LogicalAND
      ∧ precedenceOf BarBarToken = NAryPrecedence.LogicalOR
      ∧ precedenceOf QuestionToken = NAryPrecedence.Conditional
      ∧ (∀ tkK ∈ [EqualsToken, PlusEqualsToken, MinusEqualsToken, AsteriskEqualsToken,
            SlashEqualsToken, PercentEqualsToken, LessThanLessThanEqualsToken,
            GreaterThanGreaterThanEqualsToken, AmpersandEqualsToken, CaretEqualsToken,
            BarEqualsToken],
          precedenceOf tkK = NAryPrecedence.Assignment)
      ∧ precedenceOf CommaToken = NAryPrecedence.Sequencing
      ∧ (NAryPrecedence.Multiplicative > NAryPrecedence.Additive
          ∧ NAryPrecedence.Additive > NAryPrecedence.Shift
          ∧ NAryPrecedence.Shift > NAryPrecedence.Relational
          ∧ NAryPrecedence.Relational > NAryPrecedence.Equality
          ∧ NAryPrecedence.Equality > NAryPrecedence.BitwiseAND
          ∧ NAryPrecedence.BitwiseAND > NAryPrecedence.BitwiseXOR
          ∧ NAryPrecedence.BitwiseXOR > NAryPrecedence.BitwiseOR
          ∧ NAryPrecedence.BitwiseOR > NAryPrecedence.LogicalAND
          ∧ NAryPrecedence.LogicalAND > NAryPrecedence.LogicalOR
          ∧ NAryPrecedence.LogicalOR > NAryPrecedence.Conditional
          ∧ NAryPrecedence.Conditional > NAryPrecedence.Assignment
          ∧ NAryPrecedence.Assignment > NAryPrecedence.Sequencing
          ∧ NAryPrecedence.Sequencing > 0)
      ∧ (∀ tkK, tkK ∉ [AsteriskToken, SlashToken, PercentToken, PlusToken, MinusToken,
            LessThanLessThanToken, GreaterThanGreaterThanToken, LessThanToken,
            GreaterThanToken, LessThanEqualsToken, GreaterThanEqualsToken, EqualsEqualsToken,
            ExclamationEqualsToken, AmpersandToken, CaretToken, BarToken,
            AmpersandAmpersandToken, BarBarToken, QuestionToken, EqualsToken,
            PlusEqualsToken, MinusEqualsToken, AsteriskEqualsToken, SlashEqualsToken,
            PercentEqualsToken, LessThanLessThanEqualsToken,
            GreaterThanGreaterThanEqualsToken, AmpersandEqualsToken, CaretEqualsToken,
            BarEqualsToken, CommaToken] →
          precedenceOf tkK = 0
            ∧ ∀ cutoff, NAryPrecedence.Sequencing ≤ cutoff → ¬ (precedenceOf tkK ≥ cutoff)) := by
  refine ⟨by decide, by decide, by decide, by decide, by decide, rfl, rfl, rfl, rfl, rfl, rfl,
    by decide, rfl, by decide, ?_⟩
  intro tkK h
  have h0 : precedenceOf tkK = 0 := by
    cases tkK <;> first | rfl | (exfalso; revert h; decide)
  refine ⟨h0, ?_⟩
  intro cutoff hc
  rw [h0]
  simp only [NAryPrecedence.Sequencing] at hc
  omega

/-! ## The shape of the ambiguity node: claim C7 -/

/-- C7: when `maybeAmbiguateCastExpression` turns a cast `( T ) op e` into an ambiguity
node, the cast alternative of that node is the original cast expression (with its type name
and the prefix expression `op e` as operand) and the binary alternative is a binary
expression of kind BitwiseAND for `&`, Multiply for `*`, Add for `+`, Subtract for `-`,
whose left operand is a parenthesized expression, with the cast's open- and close-paren
indices, around an identifier expression with the index of the identifier of `T`, whose
operator slot has the index of the prefix operator, and whose right operand is `e`. -/
theorem C7_maybeAmbiguateCastExpression_node
    (openParenTkIdx_ closeParenTkIdx_ : IndexType) (typeName_ : Option TypeNameSyntax)
    (expr_ castExpr_ binExpr_ : Option ExpressionSyntax)
    (h : maybeAmbiguateCastExpression
        (some (.CastExpression openParenTkIdx_ typeName_ closeParenTkIdx_ expr_))
      = Except.ok (some (.AmbiguousCastOrBinaryExpression castExpr_ binExpr_))) :
    castExpr_ = some (.CastExpression openParenTkIdx_ typeName_ closeParenTkIdx_ expr_)
      ∧ ∃ operand prefixK oprtrTkIdx_ e identTkIdx_ decltor binExprK,
          expr_ = some operand
          ∧ operand.asPrefixUnaryExpression = some (prefixK, oprtrTkIdx_, e)
          ∧ typeName_ = some (TypeNameSyntax.mk [some (SpecifierSyntax.TypedefName identTkIdx_)]
              (some decltor))
          ∧ decltor.kind = SyntaxKind.AbstractDeclarator
          ∧ binExpr_ = some (.BinaryExpression binExprK
              (some (.ParenthesizedExpression openParenTkIdx_
                (some (.IdentifierExpression identTkIdx_)) closeParenTkIdx_))
              oprtrTkIdx_ e)
          ∧ ((prefixK = AddressOfExpression ∧ binExprK = BitwiseANDExpression)
            ∨ (prefixK = PointerIndirectionExpression ∧ binExprK = MultiplyExpression)
            ∨ (prefixK = UnaryPlusExpression ∧ binExprK = AddExpression)
            ∨ (prefixK = UnaryMinusExpression ∧ binExprK = SubstractExpression)) := by
  unfold maybeAmbiguateCastExpression at h
  simp only at h
  cases expr_ with
  | none => simp at h
  | some operand =>
    simp only at h
    cases hp : operand.asPrefixUnaryExpression with
    | none => rw [hp] at h; simp at h
    | some pre =>
      obtain ⟨prefixK, oprtrTkIdx_, e⟩ := pre
      rw [hp] at h
      simp only at h
      split at h
      · simp at h
      · rename_i hk
        cases typeName_ with
        | none => simp at h
        | some tn =>
          obtain ⟨specs_, decltor_⟩ := tn
          simp only at h
          cases specs_ with
          | nil => simp at h
          | cons v next =>
            cases v with
            | none => simp at h
            | some value =>
              simp only at h
              split at h
              · simp at h
              · rename_i hs
                simp only [Bool.not_eq_true, Bool.not_eq_false', Bool.and_eq_true,
                  beq_iff_eq, List.isEmpty_iff] at hs
                obtain ⟨⟨_, hnext⟩, hd⟩ := hs
                subst hnext
                cases decltor_ with
                | none => simp at hd
                | some d =>
                  simp only [beq_iff_eq] at hd
                  simp only [Bool.not_eq_true, Bool.not_eq_false', Bool.or_eq_true,
                    beq_iff_eq] at hk
                  cases value <;> simp only [Except.ok.injEq, Option.some.injEq,
                    ExpressionSyntax.AmbiguousCastOrBinaryExpression.injEq, reduceCtorEq] at h
                  obtain ⟨h1, h2⟩ := h
                  refine ⟨h1.symm, operand, prefixK, oprtrTkIdx_, e, _, d, _, rfl, hp, rfl, hd,
                    h2.symm, ?_⟩
                  rcases hk with ((hk | hk) | hk) | hk <;> subst hk <;> simp

/-- An instance of C7: for `( T ) * y` the parser gives the ambiguity node of the cast of
`*y` to `T` and of the multiplication of `(T)` by `y`. -/
theorem C7_maybeAmbiguateCastExpression_node_witness :
    parseExpressionWithPrecedenceCast Externals.failing (ParserTable.ofFuel Externals.failing 4)
        none (Parser.start [OpenParenToken, IdentifierToken, CloseParenToken, AsteriskToken,
          IdentifierToken])
      = Res.ok (true, some (.AmbiguousCastOrBinaryExpression
          (some exampleCastOfIndirection) (some exampleMultiplyByParenthesized)))
        ((Parser.start [OpenParenToken, IdentifierToken, CloseParenToken, AsteriskToken,
          IdentifierToken]).advance 5)
    ∧ (some exampleCastOfIndirection
        = some (.CastExpression (some 0)
            (some (TypeNameSyntax.mk [some (SpecifierSyntax.TypedefName (some 1))]
              (some (DeclaratorSyntax.AbstractDeclarator []))))
            (some 2)
            (some (.PrefixUnaryExpression PointerIndirectionExpression (some 3)
              (some (.IdentifierExpression (some 4))))))
      ∧ ∃ operand prefixK oprtrTkIdx_ e identTkIdx_ decltor binExprK,
          some (ExpressionSyntax.PrefixUnaryExpression PointerIndirectionExpression (some 3)
              (some (.IdentifierExpression (some 4)))) = some operand
          ∧ operand.asPrefixUnaryExpression = some (prefixK, oprtrTkIdx_, e)
          ∧ some (TypeNameSyntax.mk [some (SpecifierSyntax.TypedefName (some 1))]
              (some (DeclaratorSyntax.AbstractDeclarator [])))
            = some (TypeNameSyntax.mk [some (SpecifierSyntax.TypedefName identTkIdx_)]
              (some decltor))
          ∧ decltor.kind = SyntaxKind.AbstractDeclarator
          ∧ some exampleMultiplyByParenthesized = some (.BinaryExpression binExprK
              (some (.ParenthesizedExpression (some 0)
                (some (.IdentifierExpression identTkIdx_)) (some 2)))
              oprtrTkIdx_ e)
          ∧ ((prefixK = AddressOfExpression ∧ binExprK = BitwiseANDExpression)
            ∨ (prefixK = PointerIndirectionExpression ∧ binExprK = MultiplyExpression)
            ∨ (prefixK = UnaryPlusExpression ∧ binExprK = AddExpression)
            ∨ (prefixK = UnaryMinusExpression ∧ binExprK = SubstractExpression))) :=
  ⟨rfl,
    C7_maybeAmbiguateCastExpression_node (some 0) (some 2)
      (some (TypeNameSyntax.mk [some (SpecifierSyntax.TypedefName (some 1))]
        (some (DeclaratorSyntax.AbstractDeclarator []))))
      (some (.PrefixUnaryExpression PointerIndirectionExpression (some 3)
        (some (.IdentifierExpression (some 4)))))
      (some exampleCastOfIndirection) (some exampleMultiplyByParenthesized) rfl⟩

/-! ## The cutoff: claim C6 -/

theorem bind_ok_inv {α β : Type} {m : ParserM α} {k : α → ParserM β} {p q : Parser} {b : β}
    (h : (m >>= k) p = Res.ok b q) : ∃ a p', m p = Res.ok a p' ∧ k a p' = Res.ok b q := by
  rw [run_bind] at h
  cases hm : m p with
  | ok a p' => rw [hm] at h; exact ⟨a, p', rfl, h⟩
  | fault f => rw [hm] at h; cases h

/-- C8, the divergence: on a cast whose operand is no prefix unary expression,
`maybeAmbiguateCastExpression` calls `asPrefixUnaryExpression()` through the null pointer
that the first downcast gave, where the claim has the result returned unchanged; so
`parseExpressionWithPrecedenceCast` on `( T ) y` ends in that fault and returns no
expression. -/
theorem C8_non_prefix_operand_null_dereference :
    (∀ (openParenTkIdx_ closeParenTkIdx_ : IndexType) (typeName_ : Option TypeNameSyntax)
        (operand : ExpressionSyntax), operand.asPrefixUnaryExpression = none →
        maybeAmbiguateCastExpression
            (some (.CastExpression openParenTkIdx_ typeName_ closeParenTkIdx_ (some operand)))
          = Except.error Fault.nullDereference)
      ∧ parseCompoundLiteralOrCastExpression_AtFirst Externals.failing
          (ParserTable.ofFuel Externals.failing 4) none
          (Parser.start [OpenParenToken, IdentifierToken, CloseParenToken, IdentifierToken])
        = Res.ok (true, some (.CastExpression (some 0)
            (some (TypeNameSyntax.mk [some (SpecifierSyntax.TypedefName (some 1))]
              (some (DeclaratorSyntax.AbstractDeclarator []))))
            (some 2) (some (.IdentifierExpression (some 3)))))
          ((Parser.start [OpenParenToken, IdentifierToken, CloseParenToken,
            IdentifierToken]).advance 4)
      ∧ parseExpressionWithPrecedenceCast Externals.failing
          (ParserTable.ofFuel Externals.failing 4) none
          (Parser.start [OpenParenToken, IdentifierToken, CloseParenToken, IdentifierToken])
        = Res.fault Fault.nullDereference := by
  refine ⟨?_, rfl, rfl⟩
  intro o c tn operand h
  simp [maybeAmbiguateCastExpression, h]

/-! ## Committing to a type name: claim C10 -/

@[simp] theorem run_match_ (expectedTkK : SyntaxKind) (tkIdx : IndexType) (p : Parser) :
    match_ expectedTkK tkIdx p
      = Res.ok ((p.match_ expectedTkK tkIdx).1, (p.match_ expectedTkK tkIdx).2.1)
          (p.match_ expectedTkK tkIdx).2.2 := rfl

theorem match_of_peek {p : Parser} {tkK : SyntaxKind} (tkIdx : IndexType)
    (h : p.peek 1 = tkK) (hne : tkK ≠ EndOfFile) :
    p.match_ tkK tkIdx = (true, some p.curTkIdx_, p.advance 1) := by
  have := consume_of_peek (p := p) (by rw [h]; exact hne)
  simp [Parser.match_, h, this]

theorem match_of_peek_ne {p : Parser} {tkK : SyntaxKind} (tkIdx : IndexType)
    (h : p.peek 1 ≠ tkK) :
    p.match_ tkK tkIdx = (false, tkIdx, p.report (Diagnostic.ExpectedToken tkK)) := by
  simp [Parser.match_, h]

theorem compoundLiteral_AtOpenBrace_eq (ext : Externals) (rec : ParserTable)
    (expr : Option ExpressionSyntax) (o c : IndexType) (tn : Option TypeNameSyntax)
    (p : Parser) (h : p.peek 1 = OpenBraceToken) :
    parseCompoundLiteral_AtOpenBrace ext rec expr o tn c p
      = (rec.parseInitializer none p.atCompoundLiteralBrace).andThen fun i q =>
          if i.1 = true then
            parsePostfixExpression_AtFollow ext rec
              (some (.CompoundLiteralExpression o tn c i.2)) q
          else Res.ok (false, some (.CompoundLiteralExpression o tn c i.2)) q := by
  unfold parseCompoundLiteral_AtOpenBrace Parser.atCompoundLiteralBrace
  simp only [run_bind, run_peek, Res.andThen_ok, h, bne_self_eq_false, Bool.false_eq_true,
    if_false, run_getOptions]
  split
  · simp only [run_bind, run_report, Res.andThen_ok]
    congr 1
    funext i q
    split <;> rfl
  · simp only [run_bind, run_pure, Res.andThen_ok]
    congr 1
    funext i q
    split <;> rfl

theorem compoundLiteralOrCast_eq (ext : Externals) (rec : ParserTable)
    (expr : Option ExpressionSyntax) (p : Parser) (h : p.peek 1 = OpenParenToken) :
    parseCompoundLiteralOrCastExpression_AtFirst ext rec expr p
      = (rec.parseTypeName none (p.advance 1)).andThen fun t p2 =>
          if t.1 = true then
            if p2.peek 1 = CloseParenToken then
              if (p2.advance 1).peek 1 = OpenBraceToken then
                parseCompoundLiteral_AtOpenBrace ext rec expr (some p.curTkIdx_) t.2
                  (some p2.curTkIdx_) (p2.advance 1)
              else
                (rec.parseExpressionWithPrecedenceCast none (p2.advance 1)).andThen fun r q =>
                  Res.ok (r.1, some (.CastExpression (some p.curTkIdx_) t.2
                    (some p2.curTkIdx_) r.2)) q
            else Res.ok (false, expr) (p2.report (Diagnostic.ExpectedToken CloseParenToken))
          else Res.ok (false, expr) p2 := by
  have hc := consume_of_peek (p := p) (by rw [h]; decide)
  unfold parseCompoundLiteralOrCastExpression_AtFirst
  simp only [run_bind, run_peek, Res.andThen_ok, h, bne_self_eq_false, Bool.false_eq_true,
    if_false, run_consume, hc]
  congr 1
  funext t p2
  split
  · by_cases hm : p2.peek 1 = CloseParenToken
    · simp only [run_bind, run_match_, match_of_peek none hm (by decide), Res.andThen_ok,
        if_true, run_peek, hm]
      split
      · rfl
      · simp only [run_bind]
        rfl
    · simp only [run_bind, run_match_, match_of_peek_ne none hm, Res.andThen_ok,
        Bool.false_eq_true, if_false, run_pure, hm]
  · rfl

/-- C10, the counterexample: on `( int ) { 1 } ++`, where `(` is followed by a type
specifier keyword and the token after `)` is `{`, the result of
`parseExpressionWithPrecedenceCast` is no compound literal expression: it is the postfix
increment of the compound literal. -/
theorem C10_counterexample_postfix_after_compound_literal :
    (Parser.start exampleCompoundLiteralTokens).peek 1 = OpenParenToken
      ∧ startsTypeNameAfterOpenParen ((Parser.start exampleCompoundLiteralTokens).peek 2) = true
      ∧ (Parser.start exampleCompoundLiteralTokens).peek 4 = OpenBraceToken
      ∧ parseExpressionWithPrecedenceCast Externals.failing
          (ParserTable.ofFuel Externals.failing 6) none
          (Parser.start exampleCompoundLiteralTokens)
        = Res.ok (true, some (.PostfixUnaryExpression PostIncrementExpression
            (some exampleCompoundLiteral) (some 6)))
          ((Parser.start exampleCompoundLiteralTokens).advance 7)
      ∧ (ExpressionSyntax.PostfixUnaryExpression PostIncrementExpression
            (some exampleCompoundLiteral) (some 6)).kind ≠ SyntaxKind.CompoundLiteralExpression :=
  ⟨rfl, rfl, rfl, rfl, by decide⟩

/-- C10, as amended: when `(` is followed by a type specifier keyword, a type qualifier,
`_Alignas` or `typeof`, `parseExpressionWithPrecedenceCast` is
`parseCompoundLiteralOrCastExpression_AtFirst`, with no backtracking: after `(` it parses
a type name; if that fails, or if the next token is no `)`, it returns failure (with the
incoming expression); if the token after `)` is `{`, then once the initializer is parsed
the result is what `parsePostfixExpression_AtFollow` makes of the compound literal
expression with the two paren indices, the type name and the initializer, which is that
compound literal itself when no postfix operator follows; otherwise the result is the cast
expression with the two paren indices and the type name, whose operand is the result of a
nested `parseExpressionWithPrecedenceCast`, whose success flag is returned. -/
theorem C10_cast_commits_to_type_name (ext : Externals) (rec : ParserTable)
    (expr : Option ExpressionSyntax) (p : Parser)
    (h1 : p.peek 1 = OpenParenToken)
    (h2 : startsTypeNameAfterOpenParen (p.peek 2) = true) :
    parseExpressionWithPrecedenceCast ext rec expr p
        = parseCompoundLiteralOrCastExpression_AtFirst ext rec expr p
      ∧ (∀ f, rec.parseTypeName none (p.advance 1) = Res.fault f →
          parseExpressionWithPrecedenceCast ext rec expr p = Res.fault f)
      ∧ ∀ t p2, rec.parseTypeName none (p.advance 1) = Res.ok t p2 →
        (t.1 = false →
          parseExpressionWithPrecedenceCast ext rec expr p = Res.ok (false, expr) p2)
        ∧ (t.1 = true → p2.peek 1 ≠ CloseParenToken →
          parseExpressionWithPrecedenceCast ext rec expr p
            = Res.ok (false, expr) (p2.report (Diagnostic.ExpectedToken CloseParenToken)))
        ∧ (t.1 = true → p2.peek 1 = CloseParenToken →
            (p2.advance 1).peek 1 ≠ OpenBraceToken →
          parseExpressionWithPrecedenceCast ext rec expr p
            = (rec.parseExpressionWithPrecedenceCast none (p2.advance 1)).andThen fun r q =>
                Res.ok (r.1, some (.CastExpression (some p.curTkIdx_) t.2
                  (some p2.curTkIdx_) r.2)) q)
        ∧ (t.1 = true → p2.peek 1 = CloseParenToken →
            (p2.advance 1).peek 1 = OpenBraceToken →
          ∀ i q, rec.parseInitializer none (p2.advance 1).atCompoundLiteralBrace = Res.ok i q →
            (i.1 = false →
              parseExpressionWithPrecedenceCast ext rec expr p
                = Res.ok (false, some (.CompoundLiteralExpression (some p.curTkIdx_) t.2
                    (some p2.curTkIdx_) i.2)) q)
            ∧ (i.1 = true →
              parseExpressionWithPrecedenceCast ext rec expr p
                = parsePostfixExpression_AtFollow ext rec
                    (some (.CompoundLiteralExpression (some p.curTkIdx_) t.2
                      (some p2.curTkIdx_) i.2)) q)
            ∧ (i.1 = true → 1 ≤ rec.fuel → isPostfixStart (q.peek 1) = false →
              parseExpressionWithPrecedenceCast ext rec expr p
                = Res.ok (true, some (.CompoundLiteralExpression (some p.curTkIdx_) t.2
                    (some p2.curTkIdx_) i.2)) q)) := by
  have hcommit : parseExpressionWithPrecedenceCast ext rec expr p
      = parseCompoundLiteralOrCastExpression_AtFirst ext rec expr p := by
    unfold parseExpressionWithPrecedenceCast
    simp only [run_bind, run_peek, Res.andThen_ok, h1, if_true, h2]
  have heq := compoundLiteralOrCast_eq ext rec expr p h1
  refine ⟨hcommit, ?_, ?_⟩
  · intro f hf
    rw [hcommit, heq, hf]
    rfl
  · intro t p2 ht
    rw [hcommit, heq, ht]
    simp only [Res.andThen_ok]
    refine ⟨?_, ?_, ?_, ?_⟩
    · intro h; simp [h]
    · intro h hm; simp [h, hm]
    · intro h hm hb; simp [h, hm, hb]
    · intro h hm hb i q hi
      simp only [h, hm, hb, if_true]
      rw [compoundLiteral_AtOpenBrace_eq ext rec expr _ _ _ _ hb, hi]
      simp only [Res.andThen_ok]
      refine ⟨?_, ?_, ?_⟩
      · intro h'; simp [h']
      · intro h'; simp [h']
      · intro h' hfuel hq
        simp only [h', if_true]
        exact postfix_AtFollow_stop ext rec hfuel _ q hq

/-- An instance of C10: `( int ) x` is the cast of `x` to `int`. -/
theorem C10_cast_commits_to_type_name_witness :
    parseExpressionWithPrecedenceCast Externals.failing
        (ParserTable.ofFuel Externals.failing 4) none
        (Parser.start [OpenParenToken, Keyword_int, CloseParenToken, IdentifierToken])
      = parseCompoundLiteralOrCastExpression_AtFirst Externals.failing
        (ParserTable.ofFuel Externals.failing 4) none
        (Parser.start [OpenParenToken, Keyword_int, CloseParenToken, IdentifierToken])
    ∧ parseExpressionWithPrecedenceCast Externals.failing
        (ParserTable.ofFuel Externals.failing 4) none
        (Parser.start [OpenParenToken, Keyword_int, CloseParenToken, IdentifierToken])
      = Res.ok (true, some (.CastExpression (some 0)
          (some (TypeNameSyntax.mk [some (SpecifierSyntax.BuiltinTypeSpecifier (some 1))]
            (some (DeclaratorSyntax.AbstractDeclarator []))))
          (some 2) (some (.IdentifierExpression (some 3)))))
        ((Parser.start [OpenParenToken, Keyword_int, CloseParenToken,
          IdentifierToken]).advance 4) :=
  ⟨(C10_cast_commits_to_type_name Externals.failing (ParserTable.ofFuel Externals.failing 4)
      none (Parser.start [OpenParenToken, Keyword_int, CloseParenToken, IdentifierToken])
      rfl rfl).1, rfl⟩

/-! ## The identifier rule of the specifier lists: claim C2 -/

theorem identifierIsDeclarator_false (seenType : Bool) (p : Parser) :
    identifierIsDeclarator false seenType p = Res.ok false p := rfl

theorem identifierIsDeclarator_true (seenType : Bool) (p : Parser) (role : IdentifierRole)
    (h : determineIdentifierRole p seenType = some role) :
    identifierIsDeclarator true seenType p = Res.ok (role == IdentifierRole.AsDeclarator) p := by
  simp [identifierIsDeclarator, h]

theorem typedefName_AtFirst_identifier (spec : Option SpecifierSyntax) (p : Parser)
    (h : p.peek 1 = IdentifierToken) :
    parseTypedefName_AtFirst spec p
      = Res.ok (some (SpecifierSyntax.TypedefName (some p.curTkIdx_))) (p.advance 1) := by
  have hc := consume_of_peek (p := p) (by rw [h]; decide)
  simp [parseTypedefName_AtFirst, h, hc]

theorem declarationSpecifiers_identifier_step (ext : Externals) (rec : ParserTable)
    (take : Bool) (specList : SpecifierList) (fuel : Nat) (decl : Option ExternalNode)
    (cells : SpecifierList) (seenType : Bool) (p : Parser) (h : p.peek 1 = IdentifierToken) :
    parseDeclarationSpecifiers_loop ext rec take specList (fuel + 1) decl cells seenType p
      = if seenType = true then
          Res.ok (true, decl, if cells.isEmpty = true then specList else cells) p
        else (identifierIsDeclarator take seenType p).andThen fun asDecltor p' =>
          if asDecltor = true then
            Res.ok (true, decl, if cells.isEmpty = true then specList else cells) p'
          else (parseTypedefName_AtFirst none p').andThen fun spec p'' =>
            appendSpecifier ext rec decl cells spec
              (fun cs => parseDeclarationSpecifiers_loop ext rec take specList fuel decl cs true)
              p'' := by
  rw [parseDeclarationSpecifiers_loop]
  simp only [run_bind, run_peek, Res.andThen_ok, h]
  split
  · rfl
  · rw [run_bind]
    congr 1
    funext asDecltor p'
    split
    · rfl
    · rw [run_bind]

theorem specifierQualifierList_identifier_step (ext : Externals) (rec : ParserTable)
    (take : Bool) (specList : SpecifierList) (fuel : Nat) (decl : Option ExternalNode)
    (cells : SpecifierList) (seenType : Bool) (p : Parser) (h : p.peek 1 = IdentifierToken) :
    parseSpecifierQualifierList_loop ext rec take specList (fuel + 1) decl cells seenType p
      = if seenType = true then
          Res.ok (true, decl, if cells.isEmpty = true then specList else cells) p
        else (identifierIsDeclarator take seenType p).andThen fun asDecltor p' =>
          if asDecltor = true then
            Res.ok (true, decl, if cells.isEmpty = true then specList else cells) p'
          else (parseTypedefName_AtFirst none p').andThen fun spec p'' =>
            appendSpecifier ext rec decl cells spec
              (fun cs => parseSpecifierQualifierList_loop ext rec take specList fuel decl cs true)
              p'' := by
  rw [parseSpecifierQualifierList_loop]
  simp only [run_bind, run_peek, Res.andThen_ok, h]
  split
  · rfl
  · rw [run_bind]
    congr 1
    funext asDecltor p'
    split
    · rfl
    · rw [run_bind]

theorem typedefNameCount_append (a b : SpecifierList) :
    typedefNameCount (a ++ b) = typedefNameCount a + typedefNameCount b := by
  simp [typedefNameCount]

theorem typedefNameCount_single (s : Option SpecifierSyntax) :
    typedefNameCount [s] = if isTypedefNameCell s = true then 1 else 0 := by
  simp [typedefNameCount, List.countP_cons]

theorem isTypedefNameCell_alignment (ext : Externals) (p : Parser)
    (r : Bool × Option SpecifierSyntax) (q : Parser)
    (h : parseAlignmentSpecifier_AtFirst ext none p = Res.ok r q) :
    isTypedefNameCell r.2 = false := by
  unfold parseAlignmentSpecifier_AtFirst at h
  obtain ⟨tk, p1, h1, h⟩ := bind_ok_inv h
  split at h
  · cases h; rfl
  · obtain ⟨i, p2, _, h⟩ := bind_ok_inv h
    obtain ⟨j, p3, _, h⟩ := bind_ok_inv h
    cases h; rfl

theorem isTypedefNameCell_typeof (ext : Externals) (p : Parser)
    (r : Bool × Option SpecifierSyntax) (q : Parser)
    (h : parseExtGNU_Typeof_AtFirst ext none p = Res.ok r q) :
    isTypedefNameCell r.2 = false := by
  unfold parseExtGNU_Typeof_AtFirst at h
  obtain ⟨tk, p1, h1, h⟩ := bind_ok_inv h
  split at h
  · cases h; rfl
  · obtain ⟨i, p2, _, h⟩ := bind_ok_inv h
    obtain ⟨j, p3, _, h⟩ := bind_ok_inv h
    cases h; rfl

theorem isTypedefNameCell_atomic (ext : Externals) (rec : ParserTable) (p : Parser)
    (r : Bool × Option SpecifierSyntax) (q : Parser)
    (h : parseAtomiceTypeSpecifier_AtFirst ext rec none p = Res.ok r q) :
    isTypedefNameCell r.2 = false := by
  unfold parseAtomiceTypeSpecifier_AtFirst at h
  obtain ⟨tk, p1, h1, h⟩ := bind_ok_inv h
  split at h
  · cases h; rfl
  · obtain ⟨i, p2, _, h⟩ := bind_ok_inv h
    obtain ⟨o, p3, _, h⟩ := bind_ok_inv h
    split at h
    · obtain ⟨t, p4, _, h⟩ := bind_ok_inv h
      split at h
      · obtain ⟨m, p5, _, h⟩ := bind_ok_inv h
        cases h; rfl
      · cases h; rfl
    · cases h; rfl

theorem isTypedefNameCell_quantified (p : Parser)
    (r : Bool × Option SpecifierSyntax) (q : Parser)
    (h : parseExtPSY_QuantifiedTypeSpecifier_AtFirst none p = Res.ok r q) :
    isTypedefNameCell r.2 = false := by
  unfold parseExtPSY_QuantifiedTypeSpecifier_AtFirst at h
  obtain ⟨tk, p1, h1, h⟩ := bind_ok_inv h
  split at h
  · cases h; rfl
  · obtain ⟨i, p2, _, h⟩ := bind_ok_inv h
    obtain ⟨o, p3, _, h⟩ := bind_ok_inv h
    split at h
    · obtain ⟨t, p4, _, h⟩ := bind_ok_inv h
      split at h
      · obtain ⟨m, p5, _, h⟩ := bind_ok_inv h
        cases h; rfl
      · cases h; rfl
    · cases h; rfl

theorem typeQualifiersAndAttributes_loop_count (ext : Externals)
    (hext : ext.GivesNoTypedefName) :
    ∀ (n : Nat) (l : SpecifierList) (p : Parser) (r : Bool × SpecifierList) (q : Parser),
      parseTypeQualifiersAndAttributes_loop ext n l p = Res.ok r q →
      typedefNameCount r.2 ≤ typedefNameCount l := by
  intro n
  induction n with
  | zero => intro l p r q h; cases h
  | succ n ih =>
    intro l p r q h
    have htriv : ∀ (mk : IndexType → SpecifierSyntax),
        (parseTrivialSpecifier_AtFirst mk >>= fun spec =>
          parseTypeQualifiersAndAttributes_loop ext n (l ++ [spec])) p = Res.ok r q →
        (∀ i, isTypedefNameCell (some (mk i)) = false) →
        typedefNameCount r.2 ≤ typedefNameCount l := by
      intro mk h hmk
      obtain ⟨spec, p1, hs, h⟩ := bind_ok_inv h
      unfold parseTrivialSpecifier_AtFirst at hs
      obtain ⟨i, p2, _, hs⟩ := bind_ok_inv hs
      cases hs
      have := ih _ _ _ _ h
      rw [typedefNameCount_append, typedefNameCount_single, hmk i] at this
      simpa using this
    rw [parseTypeQualifiersAndAttributes_loop] at h
    rw [run_bind] at h
    simp only [run_peek, Res.andThen_ok] at h
    generalize p.peek 1 = tk at h
    split at h
    · exact hext.2.2.1 _ _ _ _ h
    · obtain ⟨a, p1, ha, h⟩ := bind_ok_inv h
      split at h
      · cases h; exact Nat.le_refl _
      · have := ih _ _ _ _ h
        rw [typedefNameCount_append, typedefNameCount_single, hext.2.2.2 _ _ _ ha] at this
        simpa using this
    · exact htriv _ h (fun _ => rfl)
    · exact htriv _ h (fun _ => rfl)
    · exact htriv _ h (fun _ => rfl)
    · exact htriv _ h (fun _ => rfl)
    · cases h; exact Nat.le_refl _

theorem appendSpecifier_count (ext : Externals) (rec : ParserTable)
    (hext : ext.GivesNoTypedefName)
    (L : Option ExternalNode → SpecifierList → Bool → ParserM SpecifiersResult)
    (ih : ∀ d cs s p r q, L d cs s p = Res.ok r q → typedefNameCount cs ≤ 1 →
      (s = false → typedefNameCount cs = 0) → typedefNameCount r.2.2 ≤ 1)
    (d : Option ExternalNode) (cells : SpecifierList) (spec : Option SpecifierSyntax)
    (s : Bool) (p : Parser) (r : SpecifiersResult) (q : Parser)
    (h : appendSpecifier ext rec d cells spec (fun cs => L d cs s) p = Res.ok r q)
    (h1 : typedefNameCount (cells ++ [spec]) ≤ 1)
    (h0 : s = false → typedefNameCount (cells ++ [spec]) = 0) :
    typedefNameCount r.2.2 ≤ 1 := by
  unfold appendSpecifier at h
  simp only at h
  split at h
  · obtain ⟨a, p1, ha, h⟩ := bind_ok_inv h
    cases h
    have := typeQualifiersAndAttributes_loop_count ext hext _ _ _ _ _ ha
    simp only [typedefNameCount_append] at this h1 ⊢
    simp only [typedefNameCount, List.countP_nil] at this
    simp only [typedefNameCount] at h1 ⊢
    omega
  · exact ih _ _ _ _ _ _ h h1 h0

theorem trivialSpecifier_count (ext : Externals) (rec : ParserTable)
    (hext : ext.GivesNoTypedefName)
    (L : Option ExternalNode → SpecifierList → Bool → ParserM SpecifiersResult)
    (ih : ∀ d cs s p r q, L d cs s p = Res.ok r q → typedefNameCount cs ≤ 1 →
      (s = false → typedefNameCount cs = 0) → typedefNameCount r.2.2 ≤ 1)
    (mk : IndexType → SpecifierSyntax)
    (d : Option ExternalNode) (cells : SpecifierList)
    (s : Bool) (p : Parser) (r : SpecifiersResult) (q : Parser)
    (h : (parseTrivialSpecifier_AtFirst mk >>= fun spec =>
          appendSpecifier ext rec d cells spec (fun cs => L d cs s)) p = Res.ok r q)
    (hmk : ∀ i, isTypedefNameCell (some (mk i)) = false)
    (h1 : typedefNameCount cells ≤ 1)
    (h0 : s = false → typedefNameCount cells = 0) :
    typedefNameCount r.2.2 ≤ 1 := by
  obtain ⟨spec, p1, hs, h⟩ := bind_ok_inv h
  unfold parseTrivialSpecifier_AtFirst at hs
  obtain ⟨i, p2, _, hs⟩ := bind_ok_inv hs
  cases hs
  have hc : typedefNameCount (cells ++ [some (mk i)]) = typedefNameCount cells := by
    rw [typedefNameCount_append, typedefNameCount_single, hmk i]; simp
  exact appendSpecifier_count ext rec hext L ih d cells _ s _ r q h (by rw [hc]; exact h1)
    (by rw [hc]; exact h0)

theorem subSpecifier_count (ext : Externals) (rec : ParserTable)
    (hext : ext.GivesNoTypedefName)
    (L : Option ExternalNode → SpecifierList → Bool → ParserM SpecifiersResult)
    (ih : ∀ d cs s p r q, L d cs s p = Res.ok r q → typedefNameCount cs ≤ 1 →
      (s = false → typedefNameCount cs = 0) → typedefNameCount r.2.2 ≤ 1)
    (m : ParserM (Bool × Option SpecifierSyntax))
    (d : Option ExternalNode) (cells out : SpecifierList)
    (s : Bool) (p : Parser) (r : SpecifiersResult) (q : Parser)
    (h : (m >>= fun r0 =>
          if r0.1 = true then appendSpecifier ext rec d cells r0.2 (fun cs => L d cs s)
          else pure (false, d, out)) p = Res.ok r q)
    (hm : ∀ p r q, m p = Res.ok r q → isTypedefNameCell r.2 = false)
    (hout : typedefNameCount out ≤ 1)
    (h1 : typedefNameCount cells ≤ 1)
    (h0 : s = false → typedefNameCount cells = 0) :
    typedefNameCount r.2.2 ≤ 1 := by
  obtain ⟨r0, p1, hs, h⟩ := bind_ok_inv h
  have hc : typedefNameCount (cells ++ [r0.2]) = typedefNameCount cells := by
    rw [typedefNameCount_append, typedefNameCount_single, hm _ _ _ hs]; simp
  split at h
  · exact appendSpecifier_count ext rec hext L ih d cells _ s _ r q h (by rw [hc]; exact h1)
      (by rw [hc]; exact h0)
  · cases h; exact hout

theorem taggedSpecifier_count (ext : Externals) (rec : ParserTable)
    (hext : ext.GivesNoTypedefName)
    (L : Option ExternalNode → SpecifierList → Bool → ParserM SpecifiersResult)
    (ih : ∀ d cs s p r q, L d cs s p = Res.ok r q → typedefNameCount cs ≤ 1 →
      (s = false → typedefNameCount cs = 0) → typedefNameCount r.2.2 ≤ 1)
    (declK specK : SyntaxKind)
    (d : Option ExternalNode) (cells out : SpecifierList)
    (p : Parser) (r : SpecifiersResult) (q : Parser)
    (h : (ext.parseTaggedTypeSpecifier_AtFirst d declK specK >>= fun r0 =>
          if r0.1 = true then
            appendSpecifier ext rec r0.2.1 cells r0.2.2 (fun cs => L r0.2.1 cs true)
          else pure (false, r0.2.1, out)) p = Res.ok r q)
    (hout : typedefNameCount out ≤ 1)
    (h1 : typedefNameCount cells ≤ 1) :
    typedefNameCount r.2.2 ≤ 1 := by
  obtain ⟨r0, p1, hs, h⟩ := bind_ok_inv h
  have hc : typedefNameCount (cells ++ [r0.2.2]) = typedefNameCount cells := by
    rw [typedefNameCount_append, typedefNameCount_single, hext.1 _ _ _ _ _ _ hs]; simp
  split at h
  · exact appendSpecifier_count ext rec hext L ih r0.2.1 cells _ true _ r q h
      (by rw [hc]; exact h1) (by intro h; cases h)
  · cases h; exact hout

theorem declarationSpecifiers_loop_count (ext : Externals) (rec : ParserTable) (take : Bool)
    (specList : SpecifierList)
    (hext : ext.GivesNoTypedefName) (hspec : typedefNameCount specList ≤ 1) :
    ∀ (n : Nat) (decl : Option ExternalNode) (cells : SpecifierList) (seenType : Bool)
      (p : Parser) (r : SpecifiersResult) (q : Parser),
      parseDeclarationSpecifiers_loop ext rec take specList n decl cells seenType p = Res.ok r q →
      typedefNameCount cells ≤ 1 → (seenType = false → typedefNameCount cells = 0) →
      typedefNameCount r.2.2 ≤ 1 := by
  intro n
  induction n with
  | zero => intro decl cells seenType p r q h; cases h
  | succ n ih =>
    intro decl cells seenType p r q h h1 h0
    have hout : typedefNameCount (if cells.isEmpty = true then specList else cells) ≤ 1 := by
      split
      · exact hspec
      · exact h1
    have ht : ∀ b : Bool, b = true → b = false → typedefNameCount cells = 0 := by
      intro b hb hb'; rw [hb] at hb'; cases hb'
    rw [parseDeclarationSpecifiers_loop] at h
    rw [run_bind] at h
    simp only [run_peek, Res.andThen_ok] at h
    generalize p.peek 1 = tk at h
    split at h
    all_goals first
      | exact trivialSpecifier_count ext rec hext _ ih _ decl cells _ p r q h (fun _ => rfl) h1 h0
      | exact trivialSpecifier_count ext rec hext _ ih _ decl cells true p r q h (fun _ => rfl) h1
          (ht true rfl)
      | exact taggedSpecifier_count ext rec hext _ ih _ _ decl cells _ p r q h hout h1
      | exact subSpecifier_count ext rec hext _ ih _ decl cells _ _ p r q h
          (isTypedefNameCell_alignment ext) hout h1 h0
      | exact subSpecifier_count ext rec hext _ ih _ decl cells _ _ p r q h
          (isTypedefNameCell_typeof ext) hout h1 h0
      | exact subSpecifier_count ext rec hext _ ih _ decl cells _ _ p r q h
          (isTypedefNameCell_quantified) hout h1 h0
      | exact subSpecifier_count ext rec hext _ ih _ decl cells _ _ p r q h
          hext.2.1 hout h1 h0
      | (cases h; exact hout)
      | skip
    · obtain ⟨la, p1, _, h⟩ := bind_ok_inv h
      split at h
      · exact subSpecifier_count ext rec hext _ ih _ decl cells _ _ _ r q h
          (isTypedefNameCell_atomic ext rec) hout h1 h0
      · exact trivialSpecifier_count ext rec hext _ ih _ decl cells _ _ r q h (fun _ => rfl) h1 h0
    · split at h
      · cases h; exact hout
      · rename_i hseen
        obtain ⟨a, p1, _, h⟩ := bind_ok_inv h
        split at h
        · cases h; exact hout
        · obtain ⟨spec, p2, _, h⟩ := bind_ok_inv h
          have hs0 : typedefNameCount cells = 0 := h0 (by simpa using hseen)
          exact appendSpecifier_count ext rec hext _ ih decl cells spec true _ r q h
            (by rw [typedefNameCount_append, typedefNameCount_single, hs0]; split <;> simp)
            (by intro hb; cases hb)

theorem specifierQualifierList_loop_count (ext : Externals) (rec : ParserTable) (take : Bool)
    (specList : SpecifierList)
    (hext : ext.GivesNoTypedefName) (hspec : typedefNameCount specList ≤ 1) :
    ∀ (n : Nat) (decl : Option ExternalNode) (cells : SpecifierList) (seenType : Bool)
      (p : Parser) (r : SpecifiersResult) (q : Parser),
      parseSpecifierQualifierList_loop ext rec take specList n decl cells seenType p = Res.ok r q →
      typedefNameCount cells ≤ 1 → (seenType = false → typedefNameCount cells = 0) →
      typedefNameCount r.2.2 ≤ 1 := by
  intro n
  induction n with
  | zero => intro decl cells seenType p r q h; cases h
  | succ n ih =>
    intro decl cells seenType p r q h h1 h0
    have hout : typedefNameCount (if cells.isEmpty = true then specList else cells) ≤ 1 := by
      split
      · exact hspec
      · exact h1
    have ht : ∀ b : Bool, b = true → b = false → typedefNameCount cells = 0 := by
      intro b hb hb'; rw [hb] at hb'; cases hb'
    rw [parseSpecifierQualifierList_loop] at h
    rw [run_bind] at h
    simp only [run_peek, Res.andThen_ok] at h
    generalize p.peek 1 = tk at h
    split at h
    all_goals first
      | exact trivialSpecifier_count ext rec hext _ ih _ decl cells _ p r q h (fun _ => rfl) h1 h0
      | exact trivialSpecifier_count ext rec hext _ ih _ decl cells true p r q h (fun _ => rfl) h1
          (ht true rfl)
      | exact taggedSpecifier_count ext rec hext _ ih _ _ decl cells _ p r q h hout h1
      | exact subSpecifier_count ext rec hext _ ih _ decl cells _ _ p r q h
          (isTypedefNameCell_alignment ext) hout h1 h0
      | exact subSpecifier_count ext rec hext _ ih _ decl cells _ _ p r q h
          (isTypedefNameCell_typeof ext) hout h1 h0
      | exact subSpecifier_count ext rec hext _ ih _ decl cells _ _ p r q h
          (isTypedefNameCell_quantified) hout h1 h0
      | exact subSpecifier_count ext rec hext _ ih _ decl cells _ _ p r q h
          hext.2.1 hout h1 h0
      | skip
    · obtain ⟨la, p1, _, h⟩ := bind_ok_inv h
      split at h
      · exact subSpecifier_count ext rec hext _ ih _ decl cells _ _ _ r q h
          (isTypedefNameCell_atomic ext rec) hout h1 h0
      · exact trivialSpecifier_count ext rec hext _ ih _ decl cells _ _ r q h (fun _ => rfl) h1 h0
    · split at h
      · cases h; exact hout
      · rename_i hseen
        obtain ⟨a, p1, _, h⟩ := bind_ok_inv h
        split at h
        · cases h; exact hout
        · obtain ⟨spec, p2, _, h⟩ := bind_ok_inv h
          have hs0 : typedefNameCount cells = 0 := h0 (by simpa using hseen)
          exact appendSpecifier_count ext rec hext _ ih decl cells spec true _ r q h
            (by rw [typedefNameCount_append, typedefNameCount_single, hs0]; split <;> simp)
            (by intro hb; cases hb)
    · split at h
      · obtain ⟨u, p1, _, h⟩ := bind_ok_inv h
        cases h
        exact hspec
      · cases h
        exact h1

theorem Externals.failing_givesNoTypedefName : Externals.failing.GivesNoTypedefName := by
  refine ⟨?_, ?_, ?_, ?_⟩
  · intro decl dk sk p r q h; cases h; rfl
  · intro p r q h; cases h; rfl
  · intro l p r q h; cases h; exact Nat.le_refl _
  · intro p r q h; cases h; rfl

/-- C2, the counterexample: on `x ;` the identifier-role oracle answers declarator for
`x`, and yet `parseDeclarationSpecifiers` and `parseSpecifierQualifierList`, called with
`takeIdentifierAsDecltor` false and no type specifier seen, consume `x` as a typedef-name
specifier: with that flag false the oracle is not consulted. -/
theorem C2_counterexample_oracle_not_consulted :
    (Parser.start [IdentifierToken, SemicolonToken]).peek 1 = IdentifierToken
      ∧ determineIdentifierRole (Parser.start [IdentifierToken, SemicolonToken]) false
          = some IdentifierRole.AsDeclarator
      ∧ parseDeclarationSpecifiers Externals.failing (ParserTable.ofFuel Externals.failing 3)
          none [] false (Parser.start [IdentifierToken, SemicolonToken])
        = Res.ok (true, none, [some (SpecifierSyntax.TypedefName (some 0))])
            ((Parser.start [IdentifierToken, SemicolonToken]).advance 1)
      ∧ parseSpecifierQualifierList Externals.failing (ParserTable.ofFuel Externals.failing 3)
          none [] false (Parser.start [IdentifierToken, SemicolonToken])
        = Res.ok (true, none, [some (SpecifierSyntax.TypedefName (some 0))])
            ((Parser.start [IdentifierToken, SemicolonToken]).advance 1) :=
  ⟨rfl, rfl, rfl, rfl⟩

/-- C2, as amended: in `parseDeclarationSpecifiers` and in `parseSpecifierQualifierList`,
whenever the current token is an identifier: if a type specifier has been seen, the
routine returns success without consuming it; otherwise, if `takeIdentifierAsDecltor` is
set and the identifier-role oracle answers declarator, the routine returns success
without consuming it; in every other case (the flag is not set, or the oracle answers
typedef-name) the identifier is consumed as a typedef-name specifier that is appended to
the list, and the loop goes on with `seenType` true. So, the sub-parsers taken as
parameters giving no typedef-name specifier, a list that either routine returns has at
most one typedef-name specifier. -/
theorem C2_identifier_rule (ext : Externals) (rec : ParserTable) (take : Bool) :
    (∀ (specList : SpecifierList) (fuel : Nat) (decl : Option ExternalNode)
        (cells : SpecifierList) (seenType : Bool) (p : Parser),
        p.peek 1 = IdentifierToken →
        (seenType = true →
          parseDeclarationSpecifiers_loop ext rec take specList (fuel + 1) decl cells seenType p
              = Res.ok (true, decl, if cells.isEmpty = true then specList else cells) p
            ∧ parseSpecifierQualifierList_loop ext rec take specList (fuel + 1) decl cells
                seenType p
              = Res.ok (true, decl, if cells.isEmpty = true then specList else cells) p)
        ∧ (seenType = false → take = true →
            determineIdentifierRole p false = some IdentifierRole.AsDeclarator →
          parseDeclarationSpecifiers_loop ext rec take specList (fuel + 1) decl cells seenType p
              = Res.ok (true, decl, if cells.isEmpty = true then specList else cells) p
            ∧ parseSpecifierQualifierList_loop ext rec take specList (fuel + 1) decl cells
                seenType p
              = Res.ok (true, decl, if cells.isEmpty = true then specList else cells) p)
        ∧ (seenType = false →
            (take = false
              ∨ determineIdentifierRole p false = some IdentifierRole.AsTypedefName) →
          parseDeclarationSpecifiers_loop ext rec take specList (fuel + 1) decl cells seenType p
              = appendSpecifier ext rec decl cells
                  (some (SpecifierSyntax.TypedefName (some p.curTkIdx_)))
                  (fun cs => parseDeclarationSpecifiers_loop ext rec take specList fuel decl
                    cs true)
                  (p.advance 1)
            ∧ parseSpecifierQualifierList_loop ext rec take specList (fuel + 1) decl cells
                seenType p
              = appendSpecifier ext rec decl cells
                  (some (SpecifierSyntax.TypedefName (some p.curTkIdx_)))
                  (fun cs => parseSpecifierQualifierList_loop ext rec take specList fuel decl
                    cs true)
                  (p.advance 1))
        ∧ (∀ (cont : SpecifierList → ParserM SpecifiersResult) (spec : Option SpecifierSyntax)
            (q : Parser),
            appendSpecifier ext rec none cells spec cont q = cont (cells ++ [spec]) q))
      ∧ (ext.GivesNoTypedefName →
          ∀ (decl : Option ExternalNode) (p : Parser) (r : SpecifiersResult) (q : Parser),
            (parseDeclarationSpecifiers ext rec decl [] take p = Res.ok r q →
              typedefNameCount r.2.2 ≤ 1)
            ∧ (parseSpecifierQualifierList ext rec decl [] take p = Res.ok r q →
              typedefNameCount r.2.2 ≤ 1)) := by
  constructor
  · intro specList fuel decl cells seenType p h
    have hD := declarationSpecifiers_identifier_step ext rec take specList fuel decl cells
      seenType p h
    have hS := specifierQualifierList_identifier_step ext rec take specList fuel decl cells
      seenType p h
    have hT := typedefName_AtFirst_identifier none p h
    refine ⟨?_, ?_, ?_, ?_⟩
    · intro hs
      rw [hD, hS]
      simp [hs]
    · intro hs ht hrole
      rw [hD, hS, hs, ht, identifierIsDeclarator_true false p _ hrole]
      simp
    · intro hs hcase
      rw [hD, hS, hs]
      rcases hcase with ht | hrole
      · rw [ht, identifierIsDeclarator_false]
        simp [hT]
      · cases take
        · rw [identifierIsDeclarator_false]
          simp [hT]
        · rw [identifierIsDeclarator_true false p _ hrole]
          simp [hT]
    · intro cont spec q
      simp [appendSpecifier]
  · intro hext decl p r q
    constructor
    · intro h
      exact declarationSpecifiers_loop_count ext rec take [] hext (by simp [typedefNameCount])
        rec.fuel decl [] false p r q h (by simp [typedefNameCount])
        (by intro _; simp [typedefNameCount])
    · intro h
      exact specifierQualifierList_loop_count ext rec take [] hext (by simp [typedefNameCount])
        rec.fuel decl [] false p r q h (by simp [typedefNameCount])
        (by intro _; simp [typedefNameCount])

/-- An instance of C2: on `T x ;`, with `takeIdentifierAsDecltor` set, `T` is consumed
as a typedef-name specifier (the oracle answers typedef-name) and `x` is left for the
declarator. -/
theorem C2_identifier_rule_witness :
    determineIdentifierRole (Parser.start [IdentifierToken, IdentifierToken, SemicolonToken])
        false = some IdentifierRole.AsTypedefName
      ∧ parseDeclarationSpecifiers Externals.failing (ParserTable.ofFuel Externals.failing 3)
          none [] true (Parser.start [IdentifierToken, IdentifierToken, SemicolonToken])
        = Res.ok (true, none, [some (SpecifierSyntax.TypedefName (some 0))])
            ((Parser.start [IdentifierToken, IdentifierToken, SemicolonToken]).advance 1)
      ∧ typedefNameCount [some (SpecifierSyntax.TypedefName (some 0))] ≤ 1 :=
  ⟨rfl, rfl,
    ((C2_identifier_rule Externals.failing (ParserTable.ofFuel Externals.failing 3) true).2
      Externals.failing_givesNoTypedefName none
      (Parser.start [IdentifierToken, IdentifierToken, SemicolonToken])
      (true, none, [some (SpecifierSyntax.TypedefName (some 0))])
      ((Parser.start [IdentifierToken, IdentifierToken, SemicolonToken]).advance 1)).1 rfl⟩

/-! ## The two readings of a parenthesized identifier: claim C9 -/

theorem ofFuel_succ_parseTypeName (ext : Externals) (k : Nat) :
    (ParserTable.ofFuel ext (k + 1)).parseTypeName
      = parseTypeName ext (ParserTable.ofFuel ext k) := rfl

theorem ofFuel_succ_Cast (ext : Externals) (k : Nat) :
    (ParserTable.ofFuel ext (k + 1)).parseExpressionWithPrecedenceCast
      = parseExpressionWithPrecedenceCast ext (ParserTable.ofFuel ext k) := rfl

theorem ofFuel_succ_parseExpression (ext : Externals) (k : Nat) :
    (ParserTable.ofFuel ext (k + 1)).parseExpression
      = parseExpression ext (ParserTable.ofFuel ext k) := rfl

theorem specifierQualifierList_loop_closeParen (ext : Externals) (rec : ParserTable)
    (take : Bool) (specList : SpecifierList) (fuel : Nat) (decl : Option ExternalNode)
    (cells : SpecifierList) (seenType : Bool) (p : Parser)
    (h : p.peek 1 = CloseParenToken) (hc : cells.isEmpty = false) :
    parseSpecifierQualifierList_loop ext rec take specList (fuel + 1) decl cells seenType p
      = Res.ok (true, decl, cells) p := by
  rw [parseSpecifierQualifierList_loop]
  simp only [run_bind, run_peek, Res.andThen_ok, h, hc, Bool.false_eq_true, if_false]
  rfl

theorem specifierQualifierList_typedefName (ext : Externals) (rec : ParserTable)
    (hfuel : 2 ≤ rec.fuel) (p : Parser) (r : List SyntaxKind)
    (h : p.rest = IdentifierToken :: CloseParenToken :: r) :
    parseSpecifierQualifierList ext rec none [] false p
      = Res.ok (true, none, [some (SpecifierSyntax.TypedefName (some p.curTkIdx_))])
          (p.advance 1) := by
  obtain ⟨n, hn⟩ : ∃ n, rec.fuel = n + 2 := ⟨rec.fuel - 2, by omega⟩
  have hpk := rest_eq_cons_peek h
  have hpk2 : (p.advance 1).peek 1 = CloseParenToken := rest_eq_cons_peek (advance_rest h)
  unfold parseSpecifierQualifierList
  rw [hn, specifierQualifierList_identifier_step ext rec false [] (n + 1) none [] false p hpk]
  simp only [Bool.false_eq_true, if_false, identifierIsDeclarator_false, Res.andThen_ok,
    typedefName_AtFirst_identifier none p hpk]
  have : appendSpecifier ext rec none [] (some (SpecifierSyntax.TypedefName (some p.curTkIdx_)))
      (fun cs => parseSpecifierQualifierList_loop ext rec false [] (n + 1) none cs true)
      (p.advance 1)
      = parseSpecifierQualifierList_loop ext rec false [] (n + 1) none
          [some (SpecifierSyntax.TypedefName (some p.curTkIdx_))] true (p.advance 1) := by
    simp [appendSpecifier]
  rw [this, specifierQualifierList_loop_closeParen ext rec false [] n none
    [some (SpecifierSyntax.TypedefName (some p.curTkIdx_))] true _ hpk2 rfl]

theorem parseDeclarator_abstract_closeParen (ext : Externals) (rec : ParserTable) (p : Parser)
    (h : p.peek 1 = CloseParenToken) :
    parseDeclarator ext rec none DeclarationScope.FunctionPrototype DeclaratorVariety.Abstract p
      = Res.ok (true, some (DeclaratorSyntax.AbstractDeclarator [])) p := by
  simp [parseDeclarator, parseDirectDeclarator, parseBitfieldAfterDeclarator, h]

theorem parseTypeName_typedefName (ext : Externals) (rec : ParserTable)
    (hfuel : 2 ≤ rec.fuel) (p : Parser) (r : List SyntaxKind)
    (h : p.rest = IdentifierToken :: CloseParenToken :: r) :
    parseTypeName ext rec none p
      = Res.ok (true, some (TypeNameSyntax.mk
          [some (SpecifierSyntax.TypedefName (some p.curTkIdx_))]
          (some (DeclaratorSyntax.AbstractDeclarator [])))) (p.advance 1) := by
  have hpk2 : (p.advance 1).peek 1 = CloseParenToken := rest_eq_cons_peek (advance_rest h)
  unfold parseTypeName parseAbstractDeclarator
  simp only [run_bind, specifierQualifierList_typedefName ext rec hfuel p r h, Res.andThen_ok,
    if_true, parseDeclarator_abstract_closeParen ext rec _ hpk2, run_pure]

theorem ofFuel_succ_Unary (ext : Externals) (k : Nat) :
    (ParserTable.ofFuel ext (k + 1)).parseExpressionWithPrecedenceUnary
      = parseExpressionWithPrecedenceUnary ext (ParserTable.ofFuel ext k) := rfl

theorem backtrack_advance (p : Parser) (n : Nat) :
    (p.advance n).backtrack p.Backtracker = p := by
  cases p; rfl

theorem depth_restore (p : Parser) (n : Nat) :
    ({ ({ p with depthOfExprs_ := p.depthOfExprs_ + 1 } : Parser).advance n with
        depthOfExprs_ :=
          (({ p with depthOfExprs_ := p.depthOfExprs_ + 1 } : Parser).advance n).depthOfExprs_
            - 1 } : Parser)
      = p.advance n := by
  cases p; simp [Parser.advance]

theorem unary_prefix_operand (ext : Externals) (k : Nat) (hk : 1 ≤ k)
    (expr : Option ExpressionSyntax) (p : Parser) (op y : SyntaxKind) (r : List SyntaxKind)
    (h : p.rest = op :: y :: r)
    (hop : op = AmpersandToken ∨ op = AsteriskToken ∨ op = PlusToken ∨ op = MinusToken)
    (hy : isSingleTokenOperand y = true)
    (hr : continuesOperand (r.head?.getD EndOfFile) = false) :
    parseExpressionWithPrecedenceUnary ext (ParserTable.ofFuel ext (k + 1)) expr p
      = Res.ok (true, some (.PrefixUnaryExpression (prefixKindOfAmbiguityOperator op)
          (some p.curTkIdx_) (some (operandNode y (p.curTkIdx_ + 1))))) (p.advance 2) := by
  have hpk := rest_eq_cons_peek h
  have hcast := cast_singleTokenOperand ext (ParserTable.ofFuel ext k)
    (by rw [ofFuel_fuel]; exact hk) none (p.advance 1) y r (advance_rest h) hy hr
  have hne : op ≠ EndOfFile := by
    rcases hop with e | e | e | e <;> rw [e] <;> decide
  have hcons := consume_of_rest h hne
  rcases hop with e | e | e | e <;> subst e <;>
    simp [parseExpressionWithPrecedenceUnary, hpk, parsePrefixUnaryExpression_AtFirst,
      isPrefixUnaryOperatorToken, hcons, ofFuel_succ_Cast, hcast,
      prefixKindOfAmbiguityOperator]

theorem cast_prefix_operand (ext : Externals) (k : Nat) (hk : 1 ≤ k)
    (expr : Option ExpressionSyntax) (p : Parser) (op y : SyntaxKind) (r : List SyntaxKind)
    (h : p.rest = op :: y :: r)
    (hop : op = AmpersandToken ∨ op = AsteriskToken ∨ op = PlusToken ∨ op = MinusToken)
    (hy : isSingleTokenOperand y = true)
    (hr : continuesOperand (r.head?.getD EndOfFile) = false) :
    parseExpressionWithPrecedenceCast ext (ParserTable.ofFuel ext (k + 1)) expr p
      = Res.ok (true, some (.PrefixUnaryExpression (prefixKindOfAmbiguityOperator op)
          (some p.curTkIdx_) (some (operandNode y (p.curTkIdx_ + 1))))) (p.advance 2) := by
  have hpk := rest_eq_cons_peek h
  have hu := unary_prefix_operand ext k hk expr p op y r h hop hy hr
  rcases hop with e | e | e | e <;> subst e <;>
    simp [parseExpressionWithPrecedenceCast, hpk, startsUnaryExpression, hu]

@[simp] theorem run_newBacktracker (p : Parser) : newBacktracker p = Res.ok p.Backtracker p := rfl

@[simp] theorem run_backtrack (BT : Nat) (p : Parser) :
    backtrack BT p = Res.ok () (p.backtrack BT) := rfl

theorem advance_rest_n {p : Parser} (n : Nat) : (p.advance n).rest = p.rest.drop n := by
  unfold Parser.rest Parser.advance
  simp only [List.drop_drop]

theorem cast_openParen_identifier (ext : Externals) (rec : ParserTable)
    (expr : Option ExpressionSyntax) (p : Parser)
    (h1 : p.peek 1 = OpenParenToken) (h2 : p.peek 2 = IdentifierToken) :
    parseExpressionWithPrecedenceCast ext rec expr p
      = (parseCompoundLiteralOrCastExpression_AtFirst ext rec expr p).andThen fun r q =>
          if r.1 = true then
            match r.2 with
            | none => Res.fault Fault.nullDereference
            | some e =>
              if e.kind = SyntaxKind.CastExpression then
                (liftExcept (maybeAmbiguateCastExpression r.2) q).andThen fun a q' =>
                  Res.ok (true, a) q'
              else Res.ok (true, r.2) q
          else parseExpressionWithPrecedenceUnary ext rec r.2 (q.backtrack p.Backtracker) := by
  have hs : startsTypeNameAfterOpenParen IdentifierToken = false := rfl
  unfold parseExpressionWithPrecedenceCast
  simp only [run_bind, run_peek, Res.andThen_ok, h1, if_true, h2, hs, Bool.false_eq_true,
    if_false, run_newBacktracker]
  congr 1
  funext r q
  obtain ⟨r1, r2⟩ := r
  cases r1
  · simp only [Bool.false_eq_true, if_false, run_bind, run_backtrack, Res.andThen_ok]
  · cases r2 with
    | none => rfl
    | some e =>
      simp only [if_true]
      split
      · simp only [run_bind]; rfl
      · rfl

theorem maybeAmbiguate_castOfPrefixExpression (idx : Nat) (op y : SyntaxKind)
    (hop : op = AmpersandToken ∨ op = AsteriskToken ∨ op = PlusToken ∨ op = MinusToken) :
    maybeAmbiguateCastExpression (some (castOfPrefixExpression idx op y))
      = Except.ok (some (castOrBinaryAmbiguity idx op y)) := by
  rcases hop with e | e | e | e <;> subst e <;> rfl

theorem cast_ambiguity (ext : Externals) (k : Nat) (hk : 2 ≤ k)
    (expr : Option ExpressionSyntax) (p : Parser) (op y : SyntaxKind) (r : List SyntaxKind)
    (h : p.rest = OpenParenToken :: IdentifierToken :: CloseParenToken :: op :: y :: r)
    (hop : op = AmpersandToken ∨ op = AsteriskToken ∨ op = PlusToken ∨ op = MinusToken)
    (hy : isSingleTokenOperand y = true)
    (hr : continuesOperand (r.head?.getD EndOfFile) = false) :
    parseExpressionWithPrecedenceCast ext (ParserTable.ofFuel ext (k + 1)) expr p
      = Res.ok (true, some (castOrBinaryAmbiguity p.curTkIdx_ op y)) (p.advance 5) := by
  obtain ⟨k', rfl⟩ : ∃ k', k = k' + 1 := ⟨k - 1, by omega⟩
  have hpk := rest_eq_cons_peek h
  have hpk2 := rest_eq_cons_peek2 h
  simp only [List.head?_cons, Option.getD_some] at hpk2
  have h1 : (p.advance 1).rest = IdentifierToken :: CloseParenToken :: op :: y :: r := by
    rw [advance_rest_n, h]; rfl
  have h2 : (p.advance 2).rest = CloseParenToken :: op :: y :: r := by
    rw [advance_rest_n, h]; rfl
  have h3 : (p.advance 3).rest = op :: y :: r := by
    rw [advance_rest_n, h]; rfl
  have htn := parseTypeName_typedefName ext (ParserTable.ofFuel ext (k' + 1))
    (by rw [ofFuel_fuel]; omega) (p.advance 1) _ h1
  have hop' : op ≠ OpenBraceToken := by
    rcases hop with e | e | e | e <;> rw [e] <;> decide
  have hpre := cast_prefix_operand ext k' (by omega) none (p.advance 3) op y r h3 hop hy hr
  have heq := compoundLiteralOrCast_eq ext (ParserTable.ofFuel ext (k' + 1 + 1)) expr p hpk
  rw [ofFuel_succ_parseTypeName, htn] at heq
  simp only [Res.andThen_ok, advance_advance, if_true, rest_eq_cons_peek h2,
    rest_eq_cons_peek h3, hop', if_false, ofFuel_succ_Cast, hpre, advance_curTkIdx] at heq
  have hcast : (ExpressionSyntax.CastExpression (some p.curTkIdx_)
      (some (TypeNameSyntax.mk [some (SpecifierSyntax.TypedefName (some (p.curTkIdx_ + 1)))]
        (some (DeclaratorSyntax.AbstractDeclarator []))))
      (some (p.curTkIdx_ + (1 + 1)))
      (some (ExpressionSyntax.PrefixUnaryExpression (prefixKindOfAmbiguityOperator op)
        (some (p.curTkIdx_ + 3)) (some (operandNode y (p.curTkIdx_ + 3 + 1))))))
      = castOfPrefixExpression p.curTkIdx_ op y := rfl
  rw [hcast] at heq
  rw [cast_openParen_identifier ext _ expr p hpk hpk2, heq]
  simp only [Res.andThen_ok, if_true]
  have hkind : (castOfPrefixExpression p.curTkIdx_ op y).kind = SyntaxKind.CastExpression := rfl
  simp only [hkind, if_true, maybeAmbiguate_castOfPrefixExpression p.curTkIdx_ op y hop,
    liftExcept, Res.andThen_ok]

theorem nary_single_operand (ext : Externals) (rec : ParserTable) (hfuel : 1 ≤ rec.fuel)
    (expr : Option ExpressionSyntax) (cutoff : Nat) (q : Parser) (tk t2 : SyntaxKind)
    (r : List SyntaxKind) (h : q.rest = tk :: t2 :: r)
    (htk : isSingleTokenOperand tk = true) (h2 : continuesOperand t2 = false)
    (hc : precedenceOf t2 < cutoff) :
    parseNAryExpression ext rec expr cutoff q
      = Res.ok (true, some (operandNode tk q.curTkIdx_)) (q.advance 1) := by
  obtain ⟨n, hn⟩ : ∃ n, rec.fuel = n + 1 := ⟨rec.fuel - 1, by omega⟩
  have hcast := cast_singleTokenOperand ext rec hfuel expr q tk (t2 :: r) h htk
    (by simpa using h2)
  have hpk : (q.advance 1).peek 1 = t2 := rest_eq_cons_peek (advance_rest h)
  simp only [parseNAryExpression, run_bind, hcast, Res.andThen_ok, if_true,
    parseNAryExpression_AtOperator, hn]
  exact nary_loop_stop ext rec cutoff n _ _ _ (by rw [hpk]; exact hc)

theorem parseExpression_single_operand (ext : Externals) (rec : ParserTable)
    (hfuel : 1 ≤ rec.fuel) (expr : Option ExpressionSyntax) (q : Parser) (tk t2 : SyntaxKind)
    (r : List SyntaxKind) (h : q.rest = tk :: t2 :: r)
    (htk : isSingleTokenOperand tk = true) (h2 : continuesOperand t2 = false)
    (hc : precedenceOf t2 = 0) :
    parseExpression ext rec expr q
      = Res.ok (true, some (operandNode tk q.curTkIdx_)) (q.advance 1) := by
  have hn := nary_single_operand ext rec hfuel expr NAryPrecedence.Sequencing
    { q with depthOfExprs_ := q.depthOfExprs_ + 1 } tk t2 r h htk h2
    (by rw [hc]; decide)
  unfold parseExpression parseExpressionWithPrecedenceComma
  simp only [hn]
  rw [depth_restore]

theorem unary_parenthesizedIdentifier (ext : Externals) (k : Nat) (hk : 2 ≤ k)
    (expr : Option ExpressionSyntax) (p : Parser) (tk : SyntaxKind) (r : List SyntaxKind)
    (h : p.rest = OpenParenToken :: IdentifierToken :: CloseParenToken :: tk :: r)
    (htk1 : isPostfixStart tk = false) (htk2 : tk ≠ OpenBraceToken) :
    parseExpressionWithPrecedenceUnary ext (ParserTable.ofFuel ext (k + 1)) expr p
      = Res.ok (true, some (parenthesizedIdentifier p.curTkIdx_)) (p.advance 3) := by
  obtain ⟨k', rfl⟩ : ∃ k', k = k' + 1 := ⟨k - 1, by omega⟩
  have hpk := rest_eq_cons_peek h
  have hpk2 := rest_eq_cons_peek2 h
  simp only [List.head?_cons, Option.getD_some] at hpk2
  have h1 : (p.advance 1).rest = IdentifierToken :: CloseParenToken :: tk :: r := by
    rw [advance_rest_n, h]; rfl
  have h2 : (p.advance 2).rest = CloseParenToken :: tk :: r := by
    rw [advance_rest_n, h]; rfl
  have h3 : (p.advance 3).rest = tk :: r := by
    rw [advance_rest_n, h]; rfl
  have htn := parseTypeName_typedefName ext (ParserTable.ofFuel ext (k' + 1))
    (by rw [ofFuel_fuel]; omega) (p.advance 1) _ h1
  have hpk22 : (p.advance 2).peek 2 = tk := by
    have := rest_eq_cons_peek2 h2
    simpa using this
  have hcons := consume_of_rest h (by decide)
  have hcons2 := consume_of_rest h2 (by decide)
  have hexpr := parseExpression_single_operand ext (ParserTable.ofFuel ext (k' + 1))
    (by rw [ofFuel_fuel]; omega) none (p.advance 1) IdentifierToken CloseParenToken
    (tk :: r) h1 rfl rfl rfl
  have hfollow := postfix_AtFollow_stop ext (ParserTable.ofFuel ext (k' + 1 + 1))
    (by rw [ofFuel_fuel]; omega) (some (parenthesizedIdentifier p.curTkIdx_)) (p.advance 3)
    (by rw [rest_eq_cons_peek h3]; exact htk1)
  simp [parseExpressionWithPrecedenceUnary, hpk, parseExpressionWithPrecedencePostfix, hpk2,
    startsTypeNameAfterOpenParen, hcons, ofFuel_succ_parseTypeName, htn,
    rest_eq_cons_peek h2, hpk22, htk2, backtrack_advance, parsePrimaryExpression,
    parseParenthesizedExpression_AtFirst, ofFuel_succ_parseExpression, hexpr, matchOrSkipTo,
    hcons2, operandNode]
  simpa [parenthesizedIdentifier] using hfollow

theorem climb_replaceGiven (new : OperatorTree) (f : Nat) :
    (∀ base c L T R, climbOuter f base c L = some (T, R) →
      climbOuter f (base.replaceGiven new) c L = some (T.replaceGiven new, R))
    ∧ (∀ ref next L T R, climbInner f ref next L = some (T, R) →
      climbInner f ref (next.replaceGiven new) L = some (T.replaceGiven new, R)) := by
  induction f with
  | zero =>
    constructor
    · intro base c L T R h; simp [climbOuter] at h
    · intro ref next L T R h; simp [climbInner] at h
  | succ f ih =>
    obtain ⟨ihO, ihI⟩ := ih
    constructor
    · intro base c L T R h
      cases L with
      | nil =>
        simp only [climbOuter, Option.some.injEq, Prod.mk.injEq] at h ⊢
        exact ⟨by rw [h.1], h.2⟩
      | cons it rest =>
        by_cases hc : c ≤ precedenceOf it.oprtrTkK
        · simp only [climbOuter, ge_iff_le, hc, if_true] at h ⊢
          cases hI : climbInner f (precedenceOf it.oprtrTkK)
              (.operand it.operandTkK it.operandTkIdx) rest with
          | none => rw [hI] at h; cases h
          | some res =>
            obtain ⟨next, rest'⟩ := res
            rw [hI] at h
            simp only at h ⊢
            have h1 := ihI _ _ _ _ _ hI
            simp only [OperatorTree.replaceGiven] at h1
            rw [hI] at h1
            simp only [Option.some.injEq, Prod.mk.injEq, and_true] at h1
            have h2 := ihO _ _ _ _ _ h
            simp only [OperatorTree.replaceGiven] at h2
            rw [← h1] at h2
            exact h2
        · simp only [climbOuter, ge_iff_le, hc, if_false, Option.some.injEq,
            Prod.mk.injEq] at h ⊢
          exact ⟨by rw [h.1], h.2⟩
    · intro ref next L T R h
      cases L with
      | nil =>
        simp only [climbInner, Option.some.injEq, Prod.mk.injEq] at h ⊢
        exact ⟨by rw [h.1], h.2⟩
      | cons it rest =>
        by_cases hc : reclimbs ref it.oprtrTkK = true
        · simp only [climbInner, hc, if_true] at h ⊢
          cases hO : climbOuter f next (precedenceOf it.oprtrTkK) (it :: rest) with
          | none => rw [hO] at h; cases h
          | some res =>
            obtain ⟨next', rest'⟩ := res
            rw [hO] at h
            simp only at h
            rw [ihO _ _ _ _ _ hO]
            exact ihI _ _ _ _ _ h
        · simp only [Bool.not_eq_true] at hc
          simp only [climbInner, hc, Bool.false_eq_true, if_false, Option.some.injEq,
            Prod.mk.injEq] at h ⊢
          exact ⟨by rw [h.1], h.2⟩

theorem climbOuter_first_item (f : Nat) (base : OperatorTree) (c : Nat) (it : InfixItem)
    (items : List InfixItem) (hc : c ≤ precedenceOf it.oprtrTkK)
    (hnext : ∀ h ∈ items.head?, reclimbs (precedenceOf it.oprtrTkK) h.oprtrTkK = false) :
    climbOuter (f + 2) base c (it :: items)
      = climbOuter (f + 1) (.operator it.oprtrTkK it.oprtrTkIdx base
          (.operand it.operandTkK it.operandTkIdx)) c items := by
  have hI : climbInner (f + 1) (precedenceOf it.oprtrTkK)
      (.operand it.operandTkK it.operandTkIdx) items
        = some (.operand it.operandTkK it.operandTkIdx, items) := by
    cases items with
    | nil => simp [climbInner]
    | cons h r =>
      have := hnext h (by simp)
      simp [climbInner, this]
  simp [climbOuter, hc, hI]

theorem ambiguityOperator_facts (op : SyntaxKind)
    (hop : op = AmpersandToken ∨ op = AsteriskToken ∨ op = PlusToken ∨ op = MinusToken) :
    isInfixOperatorToken op = true ∧ isPostfixStart op = false ∧ op ≠ OpenBraceToken
      ∧ isRightAssociative op = false := by
  rcases hop with e | e | e | e <;> subst e <;> decide

/-- C9, the counterexample: on `( x ) - y * z` the n-ary engine returns the
multiplication of the ambiguity node (the cast of `-y` to `x`, or `(x) - y`) by `z`;
with the ambiguity node replaced by its binary alternative this is `((x) - y) * z`,
whereas the same tokens with `( x )` read as a parenthesized identifier expression give
`(x) - (y * z)`. And at a cutoff above the precedence of the operator, as in
`parseExpressionWithPrecedenceMultiplicative` on `( x ) + y`, the engine returns the
ambiguity node of the five tokens, whereas with `( x )` read as a parenthesized
identifier expression it returns that expression alone, with the cursor on `+`. -/
theorem C9_counterexample_tighter_operator_follows :
    parseNAryExpression Externals.failing (ParserTable.ofFuel Externals.failing 6) none
        NAryPrecedence.Sequencing
        (Parser.start [OpenParenToken, IdentifierToken, CloseParenToken, MinusToken,
          IdentifierToken, AsteriskToken, IdentifierToken])
      = Res.ok (true, some (OperatorTree.operator AsteriskToken 5
            (.given (castOrBinaryAmbiguity 0 MinusToken IdentifierToken))
            (.operand IdentifierToken 6)).toExpression)
          ((Parser.start [OpenParenToken, IdentifierToken, CloseParenToken, MinusToken,
            IdentifierToken, AsteriskToken, IdentifierToken]).advance 7)
    ∧ parseNAryExpression_parenthesizedFirst Externals.failing
        (ParserTable.ofFuel Externals.failing 6) none NAryPrecedence.Sequencing
        (Parser.start [OpenParenToken, IdentifierToken, CloseParenToken, MinusToken,
          IdentifierToken, AsteriskToken, IdentifierToken])
      = Res.ok (true, some (OperatorTree.operator MinusToken 3
            (.given (parenthesizedIdentifier 0))
            (.operator AsteriskToken 5 (.operand IdentifierToken 4)
              (.operand IdentifierToken 6))).toExpression)
          ((Parser.start [OpenParenToken, IdentifierToken, CloseParenToken, MinusToken,
            IdentifierToken, AsteriskToken, IdentifierToken]).advance 7)
    ∧ ((OperatorTree.operator AsteriskToken 5
            (.given (castOrBinaryAmbiguity 0 MinusToken IdentifierToken))
            (.operand IdentifierToken 6)).replaceGiven
          (binaryOfParenthesized 0 MinusToken IdentifierToken)).toExpression
        = .BinaryExpression MultiplyExpression
            (some (.BinaryExpression SubstractExpression (some (parenthesizedIdentifier 0))
              (some 3) (some (.IdentifierExpression (some 4)))))
            (some 5) (some (.IdentifierExpression (some 6)))
    ∧ (OperatorTree.operator MinusToken 3 (.given (parenthesizedIdentifier 0))
          (.operator AsteriskToken 5 (.operand IdentifierToken 4)
            (.operand IdentifierToken 6))).toExpression
        = .BinaryExpression SubstractExpression (some (parenthesizedIdentifier 0)) (some 3)
            (some (.BinaryExpression MultiplyExpression (some (.IdentifierExpression (some 4)))
              (some 5) (some (.IdentifierExpression (some 6)))))
    ∧ ((OperatorTree.operator AsteriskToken 5
            (.given (castOrBinaryAmbiguity 0 MinusToken IdentifierToken))
            (.operand IdentifierToken 6)).replaceGiven
          (binaryOfParenthesized 0 MinusToken IdentifierToken)).toExpression
        ≠ (OperatorTree.operator MinusToken 3 (.given (parenthesizedIdentifier 0))
          (.operator AsteriskToken 5 (.operand IdentifierToken 4)
            (.operand IdentifierToken 6))).toExpression
    ∧ parseExpressionWithPrecedenceMultiplicative Externals.failing
        (ParserTable.ofFuel Externals.failing 6) none
        (Parser.start [OpenParenToken, IdentifierToken, CloseParenToken, PlusToken,
          IdentifierToken])
      = Res.ok (true, some (castOrBinaryAmbiguity 0 PlusToken IdentifierToken))
          ((Parser.start [OpenParenToken, IdentifierToken, CloseParenToken, PlusToken,
            IdentifierToken]).advance 5)
    ∧ parseNAryExpression_parenthesizedFirst Externals.failing
        (ParserTable.ofFuel Externals.failing 6) none NAryPrecedence.Multiplicative
        (Parser.start [OpenParenToken, IdentifierToken, CloseParenToken, PlusToken,
          IdentifierToken])
      = Res.ok (true, some (parenthesizedIdentifier 0))
          ((Parser.start [OpenParenToken, IdentifierToken, CloseParenToken, PlusToken,
            IdentifierToken]).advance 3) := by
  refine ⟨rfl, rfl, rfl, rfl, ?_, rfl, rfl⟩
  intro h
  have h' : ExpressionSyntax.BinaryExpression MultiplyExpression
      (some (.BinaryExpression SubstractExpression (some (parenthesizedIdentifier 0))
        (some 3) (some (.IdentifierExpression (some 4)))))
      (some 5) (some (.IdentifierExpression (some 6)))
      = .BinaryExpression SubstractExpression (some (parenthesizedIdentifier 0)) (some 3)
          (some (.BinaryExpression MultiplyExpression (some (.IdentifierExpression (some 4)))
            (some 5) (some (.IdentifierExpression (some 6))))) := h
  injection h' with hk
  cases hk

theorem unary_prefix_operand_of (ext : Externals) (n : Nat)
    (expr : Option ExpressionSyntax) (p q : Parser) (op : SyntaxKind) (r : List SyntaxKind)
    (y : Option ExpressionSyntax) (h : p.rest = op :: r)
    (hop : op = AmpersandToken ∨ op = AsteriskToken ∨ op = PlusToken ∨ op = MinusToken)
    (hy : parseExpressionWithPrecedenceCast ext (ParserTable.ofFuel ext n) none (p.advance 1)
      = Res.ok (true, y) q) :
    parseExpressionWithPrecedenceUnary ext (ParserTable.ofFuel ext (n + 1)) expr p
      = Res.ok (true, some (.PrefixUnaryExpression (prefixKindOfAmbiguityOperator op)
          (some p.curTkIdx_) y)) q := by
  have hpk := rest_eq_cons_peek h
  have hne : op ≠ EndOfFile := by
    rcases hop with e | e | e | e <;> rw [e] <;> decide
  have hcons := consume_of_rest h hne
  rcases hop with e | e | e | e <;> subst e <;>
    simp [parseExpressionWithPrecedenceUnary, hpk, parsePrefixUnaryExpression_AtFirst,
      isPrefixUnaryOperatorToken, hcons, ofFuel_succ_Cast, hy,
      prefixKindOfAmbiguityOperator]

theorem cast_prefix_operand_of (ext : Externals) (n : Nat)
    (expr : Option ExpressionSyntax) (p q : Parser) (op : SyntaxKind) (r : List SyntaxKind)
    (y : Option ExpressionSyntax) (h : p.rest = op :: r)
    (hop : op = AmpersandToken ∨ op = AsteriskToken ∨ op = PlusToken ∨ op = MinusToken)
    (hy : parseExpressionWithPrecedenceCast ext (ParserTable.ofFuel ext n) none (p.advance 1)
      = Res.ok (true, y) q) :
    parseExpressionWithPrecedenceCast ext (ParserTable.ofFuel ext (n + 1)) expr p
      = Res.ok (true, some (.PrefixUnaryExpression (prefixKindOfAmbiguityOperator op)
          (some p.curTkIdx_) y)) q := by
  have hpk := rest_eq_cons_peek h
  have hu := unary_prefix_operand_of ext n expr p q op r y h hop hy
  rcases hop with e | e | e | e <;> subst e <;>
    simp [parseExpressionWithPrecedenceCast, hpk, startsUnaryExpression, hu]

theorem maybeAmbiguate_castOfPrefixOperand (idx : Nat) (op : SyntaxKind)
    (y : Option ExpressionSyntax)
    (hop : op = AmpersandToken ∨ op = AsteriskToken ∨ op = PlusToken ∨ op = MinusToken) :
    maybeAmbiguateCastExpression (some (castOfPrefixOperand idx op y))
      = Except.ok (some (castOrBinaryAmbiguityOfOperand idx op y)) := by
  rcases hop with e | e | e | e <;> subst e <;> rfl

/-- The cast reading of `( T ) op y`: `parseExpressionWithPrecedenceCast` returns the
ambiguity node, in the state that the parse of the operand `y` leaves. -/
theorem cast_ambiguity_of (ext : Externals) (n : Nat) (hn : 1 ≤ n)
    (expr : Option ExpressionSyntax) (p q : Parser) (op : SyntaxKind) (r : List SyntaxKind)
    (y : Option ExpressionSyntax)
    (h : p.rest = OpenParenToken :: IdentifierToken :: CloseParenToken :: op :: r)
    (hop : op = AmpersandToken ∨ op = AsteriskToken ∨ op = PlusToken ∨ op = MinusToken)
    (hy : parseExpressionWithPrecedenceCast ext (ParserTable.ofFuel ext n) none (p.advance 4)
      = Res.ok (true, y) q) :
    parseExpressionWithPrecedenceCast ext (ParserTable.ofFuel ext (n + 2)) expr p
      = Res.ok (true, some (castOrBinaryAmbiguityOfOperand p.curTkIdx_ op y)) q := by
  have hpk := rest_eq_cons_peek h
  have hpk2 := rest_eq_cons_peek2 h
  simp only [List.head?_cons, Option.getD_some] at hpk2
  have h1 : (p.advance 1).rest = IdentifierToken :: CloseParenToken :: op :: r := by
    rw [advance_rest_n, h]; rfl
  have h2 : (p.advance 2).rest = CloseParenToken :: op :: r := by
    rw [advance_rest_n, h]; rfl
  have h3 : (p.advance 3).rest = op :: r := by
    rw [advance_rest_n, h]; rfl
  have htn := parseTypeName_typedefName ext (ParserTable.ofFuel ext (n + 1))
    (by rw [ofFuel_fuel]; omega) (p.advance 1) _ h1
  have hop' : op ≠ OpenBraceToken := by
    rcases hop with e | e | e | e <;> rw [e] <;> decide
  have hpre := cast_prefix_operand_of ext n none (p.advance 3) q op r y h3 hop
    (by rw [advance_advance]; exact hy)
  have heq := compoundLiteralOrCast_eq ext (ParserTable.ofFuel ext (n + 1 + 1)) expr p hpk
  rw [ofFuel_succ_parseTypeName, htn] at heq
  simp only [Res.andThen_ok, advance_advance, if_true, rest_eq_cons_peek h2,
    rest_eq_cons_peek h3, hop', if_false, ofFuel_succ_Cast, hpre, advance_curTkIdx] at heq
  have hcast : (ExpressionSyntax.CastExpression (some p.curTkIdx_)
      (some (TypeNameSyntax.mk [some (SpecifierSyntax.TypedefName (some (p.curTkIdx_ + 1)))]
        (some (DeclaratorSyntax.AbstractDeclarator []))))
      (some (p.curTkIdx_ + (1 + 1)))
      (some (ExpressionSyntax.PrefixUnaryExpression (prefixKindOfAmbiguityOperator op)
        (some (p.curTkIdx_ + 3)) y)))
      = castOfPrefixOperand p.curTkIdx_ op y := rfl
  rw [hcast] at heq
  rw [cast_openParen_identifier ext _ expr p hpk hpk2, heq]
  simp only [Res.andThen_ok, if_true]
  have hkind : (castOfPrefixOperand p.curTkIdx_ op y).kind = SyntaxKind.CastExpression := rfl
  simp only [hkind, if_true, maybeAmbiguate_castOfPrefixOperand p.curTkIdx_ op y hop,
    liftExcept, Res.andThen_ok]

/-- An iteration of the n-ary loop that consumes an operator: what it parses, and the
iteration that follows it. -/
theorem nary_loop_iteration (ext : Externals) (rec : ParserTable) (c f d : Nat)
    (base : Option ExpressionSyntax) (p p2 p3 p4 : Parser)
    (condExpr : Option (Option ExpressionSyntax × IndexType))
    (nx ie : Option ExpressionSyntax)
    (hge : precedenceOf (p.peek 1) ≥ c) (hd : ¬ d + 1 > p.MAX_DEPTH_OF_EXPRS)
    (hcond : (p.peek 1 = QuestionToken
        ∧ ∃ m, parseConditionalMiddle rec p.consume.2 = Res.ok m p2 ∧ condExpr = some m)
      ∨ (p.peek 1 ≠ QuestionToken ∧ p2 = p.consume.2 ∧ condExpr = none))
    (hcast : parseExpressionWithPrecedenceCast ext rec none p2 = Res.ok (true, nx) p3)
    (hinner : parseNAryExpression_AtOperator_inner rec (precedenceOf (p.peek 1)) rec.fuel
      nx p3 = Res.ok (true, ie) p4) :
    parseNAryExpression_AtOperator_loop ext rec c (f + 1) d base p
      = parseNAryExpression_AtOperator_loop ext rec c f (d + 1)
          (some (makeNAryNode condExpr (NAryExpressionKind (p.peek 1)) base p.consume.1 ie))
          p4 := by
  rw [parseNAryExpression_AtOperator_loop]
  beta_reduce
  rw [if_pos hge, if_neg hd]
  dsimp only
  rw [run_bind, run_consume, Res.andThen_ok]
  rcases hcond with ⟨hQ, m, hm, rfl⟩ | ⟨hQ, rfl, rfl⟩
  · rw [if_pos hQ]
    simp only [run_bind, hm, Res.andThen_ok, run_pure, hcast, if_true, hinner]
  · rw [if_neg hQ]
    simp only [run_bind, Res.andThen_ok, run_pure, hcast, if_true, hinner]

/-- What a successful iteration of the n-ary loop that consumes an operator has
parsed. -/
theorem nary_loop_iteration_inv (ext : Externals) (rec : ParserTable) (c f d : Nat)
    (base : Option ExpressionSyntax) (p q : Parser) (e : Option ExpressionSyntax)
    (hge : precedenceOf (p.peek 1) ≥ c)
    (h : parseNAryExpression_AtOperator_loop ext rec c (f + 1) d base p
      = Res.ok (true, e) q) :
    ¬ d + 1 > p.MAX_DEPTH_OF_EXPRS
      ∧ ∃ (p2 p3 p4 : Parser) (condExpr : Option (Option ExpressionSyntax × IndexType))
          (nx ie : Option ExpressionSyntax),
        ((p.peek 1 = QuestionToken
            ∧ ∃ m, parseConditionalMiddle rec p.consume.2 = Res.ok m p2
              ∧ condExpr = some m)
          ∨ (p.peek 1 ≠ QuestionToken ∧ p2 = p.consume.2 ∧ condExpr = none))
        ∧ parseExpressionWithPrecedenceCast ext rec none p2 = Res.ok (true, nx) p3
        ∧ parseNAryExpression_AtOperator_inner rec (precedenceOf (p.peek 1)) rec.fuel nx p3
          = Res.ok (true, ie) p4
        ∧ parseNAryExpression_AtOperator_loop ext rec c f (d + 1)
            (some (makeNAryNode condExpr (NAryExpressionKind (p.peek 1)) base p.consume.1
              ie)) p4
          = Res.ok (true, e) q := by
  rw [parseNAryExpression_AtOperator_loop] at h
  beta_reduce at h
  rw [if_pos hge] at h
  by_cases hd : d + 1 > p.MAX_DEPTH_OF_EXPRS
  · rw [if_pos hd] at h
    cases h
  · rw [if_neg hd] at h
    refine ⟨hd, ?_⟩
    dsimp only at h
    obtain ⟨idx, p1, hc, h⟩ := bind_ok_inv h
    simp only [run_consume, Res.ok.injEq] at hc
    obtain ⟨rfl, rfl⟩ := hc
    have key : ∀ (condExpr : Option (Option ExpressionSyntax × IndexType)) (p2 : Parser),
        (parseExpressionWithPrecedenceCast ext rec none >>= fun n_1 =>
          if n_1.1 = true then
            (parseNAryExpression_AtOperator_inner rec (precedenceOf (p.peek 1)) rec.fuel
              n_1.2 >>= fun i =>
              if i.1 = true then
                parseNAryExpression_AtOperator_loop ext rec c f (d + 1)
                  (some (makeNAryNode condExpr (NAryExpressionKind (p.peek 1)) base
                    p.consume.1 i.2))
              else pure (false, base))
          else pure (false, base)) p2 = Res.ok (true, e) q →
        ∃ (p3 p4 : Parser) (nx ie : Option ExpressionSyntax),
          parseExpressionWithPrecedenceCast ext rec none p2 = Res.ok (true, nx) p3
          ∧ parseNAryExpression_AtOperator_inner rec (precedenceOf (p.peek 1)) rec.fuel nx p3
            = Res.ok (true, ie) p4
          ∧ parseNAryExpression_AtOperator_loop ext rec c f (d + 1)
              (some (makeNAryNode condExpr (NAryExpressionKind (p.peek 1)) base p.consume.1
                ie)) p4
            = Res.ok (true, e) q := by
      intro condExpr p2 h
      obtain ⟨nx, p3, hnx, h⟩ := bind_ok_inv h
      obtain ⟨nx1, nx2⟩ := nx
      cases nx1 with
      | false => cases h
      | true =>
        simp only [if_true] at h
        obtain ⟨i, p4, hi, h⟩ := bind_ok_inv h
        obtain ⟨i1, i2⟩ := i
        cases i1 with
        | false => cases h
        | true =>
          simp only [if_true] at h
          exact ⟨p3, p4, nx2, i2, hnx, hi, h⟩
    by_cases hQ : p.peek 1 = QuestionToken
    · rw [if_pos hQ] at h
      obtain ⟨m, p5, hm, h⟩ := bind_ok_inv h
      obtain ⟨y, p6, hy, h⟩ := bind_ok_inv h
      cases hy
      obtain ⟨p3, p4, nx, ie, h1, h2, h3⟩ := key (some m) p5 h
      exact ⟨p5, p3, p4, some m, nx, ie, Or.inl ⟨hQ, m, hm, rfl⟩, h1, h2, h3⟩
    · rw [if_neg hQ] at h
      obtain ⟨y, p6, hy, h⟩ := bind_ok_inv h
      cases hy
      obtain ⟨p3, p4, nx, ie, h1, h2, h3⟩ := key none _ h
      exact ⟨_, p3, p4, none, nx, ie, Or.inr ⟨hQ, rfl, rfl⟩, h1, h2, h3⟩

/-- The n-ary loop does not look into its left operand: when it succeeds, its result
is the left operand with the frames of its iterations around it, and over any other left
operand (with no less fuel and with no more of the depth budget used) it succeeds in the
same state, with the same frames around that operand. -/
theorem nary_loop_frames (ext : Externals) (rec : ParserTable) (c : Nat) :
    ∀ (f d : Nat) (base : Option ExpressionSyntax) (p q : Parser)
      (e : Option ExpressionSyntax),
      parseNAryExpression_AtOperator_loop ext rec c f d base p = Res.ok (true, e) q →
      ∃ frames : List NAryFrame,
        e = plugFrames frames base
        ∧ ∀ (base' : Option ExpressionSyntax) (f' d' : Nat), f ≤ f' → d' ≤ d →
          parseNAryExpression_AtOperator_loop ext rec c f' d' base' p
            = Res.ok (true, plugFrames frames base') q := by
  intro f
  induction f with
  | zero => intro d base p q e h; cases h
  | succ f ih =>
    intro d base p q e h
    by_cases hge : precedenceOf (p.peek 1) ≥ c
    · obtain ⟨hd, p2, p3, p4, condExpr, nx, ie, hcond, hcast, hinner, hloop⟩ :=
        nary_loop_iteration_inv ext rec c f d base p q e hge h
      obtain ⟨frames, he, hall⟩ := ih _ _ _ _ _ hloop
      refine ⟨⟨condExpr, NAryExpressionKind (p.peek 1), p.consume.1, ie⟩ :: frames, he, ?_⟩
      intro base' f' d' hf hd'
      obtain ⟨f'', rfl⟩ : ∃ f'', f' = f'' + 1 := ⟨f' - 1, by omega⟩
      rw [nary_loop_iteration ext rec c f'' d' base' p p2 p3 p4 condExpr nx ie hge
        (by omega) hcond hcast hinner]
      exact hall _ f'' (d' + 1) (by omega) (by omega)
    · rw [parseNAryExpression_AtOperator_loop] at h
      beta_reduce at h
      rw [if_neg hge] at h
      simp only [Res.ok.injEq, Prod.mk.injEq, true_and] at h
      obtain ⟨rfl, rfl⟩ := h
      refine ⟨[], rfl, ?_⟩
      intro base' f' d' hf hd'
      obtain ⟨f'', rfl⟩ : ∃ f'', f' = f'' + 1 := ⟨f' - 1, by omega⟩
      rw [parseNAryExpression_AtOperator_loop]
      beta_reduce
      rw [if_neg hge]
      rfl

theorem makeNAryNode_ambiguityOperator (op : SyntaxKind)
    (hop : op = AmpersandToken ∨ op = AsteriskToken ∨ op = PlusToken ∨ op = MinusToken)
    (base : Option ExpressionSyntax) (idx : IndexType) (y : Option ExpressionSyntax) :
    makeNAryNode none (NAryExpressionKind op) base idx y
      = .BinaryExpression (NAryExpressionKind op) base idx y := by
  rcases hop with e | e | e | e <;> subst e <;> rfl

/-- C9, as amended: on `( T ) op y` with `op` one of `&`, `*`, `+`, `-`, for every
operand `y` (what `parseExpressionWithPrecedenceCast` parses behind `op`, with the fuel
of the cast reading and of the binary reading alike) and every continuation, where the
token behind `y` is no operator that binds tighter than `op`: when the same tokens with
`( T )` read as a parenthesized identifier expression parse, by the n-ary engine with a
cutoff up to the precedence of `op`, to the tree `t2` in the state `q2`, then
`parseExpressionWithPrecedenceCast` makes the ambiguity node of the cast of `op y` to `T`
and of the binary expression of `( T )`, `op` and `y`, and the n-ary engine returns, in
the same state `q2`, the tree of the same frames around the ambiguity node as `t2` has
around that binary expression: the tree returned, with the ambiguity node replaced by its
binary alternative, is `t2`. -/
theorem C9_binary_alternative_without_tighter_operator (ext : Externals) (n : Nat)
    (hn : 1 ≤ n) (p q q2 : Parser) (expr y t2 : Option ExpressionSyntax) (cutoff : Nat)
    (op : SyntaxKind) (rest : List SyntaxKind)
    (hrest : p.rest = OpenParenToken :: IdentifierToken :: CloseParenToken :: op :: rest)
    (hop : op = AmpersandToken ∨ op = AsteriskToken ∨ op = PlusToken ∨ op = MinusToken)
    (hy1 : parseExpressionWithPrecedenceCast ext (ParserTable.ofFuel ext n) none
      (p.advance 4) = Res.ok (true, y) q)
    (hy2 : parseExpressionWithPrecedenceCast ext (ParserTable.ofFuel ext (n + 2)) none
      (p.advance 4) = Res.ok (true, y) q)
    (hdepth : q.depthOfExprs_ ≤ p.depthOfExprs_ + 1)
    (hnext : reclimbs (precedenceOf op) (q.peek 1) = false)
    (hcut : cutoff ≤ precedenceOf op)
    (hbin : parseNAryExpression_parenthesizedFirst ext (ParserTable.ofFuel ext (n + 2)) expr
      cutoff p = Res.ok (true, t2) q2) :
    ∃ frames : List NAryFrame,
      parseExpressionWithPrecedenceCast ext (ParserTable.ofFuel ext (n + 2)) expr p
          = Res.ok (true, some (castOrBinaryAmbiguityOfOperand p.curTkIdx_ op y)) q
        ∧ castOrBinaryAmbiguityOfOperand p.curTkIdx_ op y
          = .AmbiguousCastOrBinaryExpression (some (castOfPrefixOperand p.curTkIdx_ op y))
              (some (.BinaryExpression (NAryExpressionKind op)
                (some (parenthesizedIdentifier p.curTkIdx_)) (some (p.curTkIdx_ + 3)) y))
        ∧ parseNAryExpression ext (ParserTable.ofFuel ext (n + 2)) expr cutoff p
          = Res.ok (true, plugFrames frames
              (some (castOrBinaryAmbiguityOfOperand p.curTkIdx_ op y))) q2
        ∧ t2 = plugFrames frames (some (.BinaryExpression (NAryExpressionKind op)
            (some (parenthesizedIdentifier p.curTkIdx_)) (some (p.curTkIdx_ + 3)) y)) := by
  obtain ⟨_, hopPost, hopBrace, _⟩ := ambiguityOperator_facts op hop
  have hopQ : op ≠ QuestionToken := by
    rcases hop with e | e | e | e <;> rw [e] <;> decide
  have hopE : op ≠ EndOfFile := by
    rcases hop with e | e | e | e <;> rw [e] <;> decide
  have h3 : (p.advance 3).rest = op :: rest := by
    rw [advance_rest_n, hrest]; rfl
  have hpk3 : (p.advance 3).peek 1 = op := rest_eq_cons_peek h3
  have hcons3 : (p.advance 3).consume = (some (p.curTkIdx_ + 3), p.advance 4) := by
    rw [consume_of_rest h3 hopE, advance_advance]
    rfl
  have hcast := cast_ambiguity_of ext n hn expr p q op rest y hrest hop hy1
  have hunary := unary_parenthesizedIdentifier ext (n + 1) (by omega) expr p op rest hrest
    hopPost hopBrace
  simp only [parseNAryExpression_parenthesizedFirst, run_bind, hunary, Res.andThen_ok,
    if_true, parseNAryExpression_AtOperator, ofFuel_fuel, advance_depthOfExprs] at hbin
  obtain ⟨hd, p2, p3, p4, condExpr, nx, ie, hcond, hnx, hinner, hloop⟩ :=
    nary_loop_iteration_inv ext (ParserTable.ofFuel ext (n + 2)) cutoff (n + 1)
      p.depthOfExprs_ (some (parenthesizedIdentifier p.curTkIdx_)) (p.advance 3) q2 t2
      (by rw [hpk3]; exact hcut) hbin
  rw [hpk3] at hcond hinner hloop
  rw [hcons3] at hcond hloop
  rcases hcond with ⟨hQ, _⟩ | ⟨_, rfl, rfl⟩
  · exact absurd hQ hopQ
  · simp only at hnx
    rw [hy2] at hnx
    simp only [Res.ok.injEq, Prod.mk.injEq, true_and] at hnx
    obtain ⟨rfl, rfl⟩ := hnx
    rw [ofFuel_fuel, nary_inner_stop _ _ (n + 1) _ _ hnext] at hinner
    simp only [Res.ok.injEq, Prod.mk.injEq, true_and] at hinner
    obtain ⟨rfl, rfl⟩ := hinner
    rw [makeNAryNode_ambiguityOperator op hop] at hloop
    obtain ⟨frames, ht2, hall⟩ := nary_loop_frames ext _ cutoff _ _ _ _ _ _ hloop
    refine ⟨frames, hcast, rfl, ?_, ht2⟩
    simp only [parseNAryExpression, run_bind, hcast, Res.andThen_ok, if_true,
      parseNAryExpression_AtOperator, ofFuel_fuel]
    exact hall _ (n + 2) _ (by omega) hdepth

/-- An instance of C9 as amended: `( x ) * - y + z`, whose operand `- y` is a prefix
expression and where `+` does not bind tighter than `*`. The tree returned is the sum of
the ambiguity node and `z`; with `( x )` read as a parenthesized identifier expression
the tokens parse to the sum of the product `( x ) * - y` and `z`. -/
theorem C9_binary_alternative_without_tighter_operator_witness :
    (∃ frames : List NAryFrame,
      parseExpressionWithPrecedenceCast Externals.failing
          (ParserTable.ofFuel Externals.failing 6) none
          (Parser.start exampleCastOrProductOfNegationTokens)
        = Res.ok (true, some (castOrBinaryAmbiguityOfOperand 0 AsteriskToken
            (some (.PrefixUnaryExpression UnaryMinusExpression (some 4)
              (some (.IdentifierExpression (some 5)))))))
            ((Parser.start exampleCastOrProductOfNegationTokens).advance 6)
      ∧ castOrBinaryAmbiguityOfOperand 0 AsteriskToken
          (some (.PrefixUnaryExpression UnaryMinusExpression (some 4)
            (some (.IdentifierExpression (some 5)))))
        = .AmbiguousCastOrBinaryExpression
            (some (castOfPrefixOperand 0 AsteriskToken
              (some (.PrefixUnaryExpression UnaryMinusExpression (some 4)
                (some (.IdentifierExpression (some 5)))))))
            (some (.BinaryExpression (NAryExpressionKind AsteriskToken)
              (some (parenthesizedIdentifier 0)) (some (0 + 3))
              (some (.PrefixUnaryExpression UnaryMinusExpression (some 4)
                (some (.IdentifierExpression (some 5)))))))
      ∧ parseNAryExpression Externals.failing (ParserTable.ofFuel Externals.failing 6) none
          NAryPrecedence.Sequencing (Parser.start exampleCastOrProductOfNegationTokens)
        = Res.ok (true, plugFrames frames
            (some (castOrBinaryAmbiguityOfOperand 0 AsteriskToken
              (some (.PrefixUnaryExpression UnaryMinusExpression (some 4)
                (some (.IdentifierExpression (some 5))))))))
            ((Parser.start exampleCastOrProductOfNegationTokens).advance 8)
      ∧ some (ExpressionSyntax.BinaryExpression AddExpression
          (some (.BinaryExpression MultiplyExpression (some (parenthesizedIdentifier 0))
            (some 3)
            (some (.PrefixUnaryExpression UnaryMinusExpression (some 4)
              (some (.IdentifierExpression (some 5)))))))
          (some 6) (some (.IdentifierExpression (some 7))))
        = plugFrames frames (some (.BinaryExpression (NAryExpressionKind AsteriskToken)
            (some (parenthesizedIdentifier 0)) (some (0 + 3))
            (some (.PrefixUnaryExpression UnaryMinusExpression (some 4)
              (some (.IdentifierExpression (some 5))))))))
    ∧ parseNAryExpression Externals.failing (ParserTable.ofFuel Externals.failing 6) none
        NAryPrecedence.Sequencing (Parser.start exampleCastOrProductOfNegationTokens)
      = Res.ok (true, some (.BinaryExpression AddExpression
          (some (castOrBinaryAmbiguityOfOperand 0 AsteriskToken
            (some (.PrefixUnaryExpression UnaryMinusExpression (some 4)
              (some (.IdentifierExpression (some 5)))))))
          (some 6) (some (.IdentifierExpression (some 7)))))
          ((Parser.start exampleCastOrProductOfNegationTokens).advance 8) :=
  ⟨C9_binary_alternative_without_tighter_operator Externals.failing 4 (by decide)
      (Parser.start exampleCastOrProductOfNegationTokens)
      ((Parser.start exampleCastOrProductOfNegationTokens).advance 6)
      ((Parser.start exampleCastOrProductOfNegationTokens).advance 8)
      none
      (some (.PrefixUnaryExpression UnaryMinusExpression (some 4)
        (some (.IdentifierExpression (some 5)))))
      (some (.BinaryExpression AddExpression
        (some (.BinaryExpression MultiplyExpression (some (parenthesizedIdentifier 0))
          (some 3)
          (some (.PrefixUnaryExpression UnaryMinusExpression (some 4)
            (some (.IdentifierExpression (some 5)))))))
        (some 6) (some (.IdentifierExpression (some 7)))))
      NAryPrecedence.Sequencing AsteriskToken
      [MinusToken, IdentifierToken, PlusToken, IdentifierToken]
      rfl (Or.inr (Or.inl rfl)) rfl rfl (by decide) rfl (by decide) rfl,
    rfl⟩

/-! ## Chains beyond the depth budget: claims C3 and C4 -/

theorem nary_loop_depth_fault (ext : Externals) (rec : ParserTable) (c n d : Nat)
    (base : Option ExpressionSyntax) (p : Parser) (h : c ≤ precedenceOf (p.peek 1))
    (hd : p.MAX_DEPTH_OF_EXPRS < d + 1) :
    parseNAryExpression_AtOperator_loop ext rec c (n + 1) d base p
      = Res.fault Fault.maximumDepthOfExpressions := by
  simp [parseNAryExpression_AtOperator_loop, h, hd]

theorem nary_leftChain_fault (ext : Externals) (tail : List SyntaxKind)
    (htail : endsInfixSequence (tail.head?.getD EndOfFile) = true) (q c k : Nat)
    (hk : 1 ≤ k) (hc : c ≤ q) :
    ∀ (L : List InfixItem) (n d : Nat) (base : Option ExpressionSyntax) (p : Parser),
      L.length ≤ n → L ≠ [] →
      (∀ it ∈ L, precedenceOf it.oprtrTkK = q ∧ isRightAssociative it.oprtrTkK = false) →
      InfixOps L → AtItems p L tail → p.MAX_DEPTH_OF_EXPRS < d + L.length →
      parseNAryExpression_AtOperator_loop ext (ParserTable.ofFuel ext k) c n d base p
        = Res.fault Fault.maximumDepthOfExpressions := by
  intro L
  induction L with
  | nil => intro n d base p _ h; exact absurd rfl h
  | cons it rest ih =>
    intro n d base p hn _ hq hL hat hmax
    simp only [List.length_cons] at hn hmax
    obtain ⟨n', rfl⟩ : ∃ n', n = n' + 1 := ⟨n - 1, by omega⟩
    obtain ⟨k', hk'⟩ : ∃ k', k = k' + 1 := ⟨k - 1, by omega⟩
    have hpk := (AtItems_peek hat hL htail).2.2 it rest rfl
    have hit := hq it (List.mem_cons_self _ _)
    by_cases hd : p.MAX_DEPTH_OF_EXPRS < d + 1
    · exact nary_loop_depth_fault ext _ c n' d base p (by rw [hpk, hit.1]; exact hc) hd
    · obtain ⟨hop, hrest⟩ := InfixOps_cons hL
      obtain ⟨⟨r, hr, hr2⟩, _, hi2, hat2⟩ := AtItems_cons hat
      have hpeek2 := AtItems_peek hat2 hrest htail
      cases rest with
      | nil => simp only [List.length_nil] at hmax; omega
      | cons h rest' =>
        have hpk2 := hpeek2.2.2 h rest' rfl
        have hh := hq h (List.mem_cons_of_mem _ (List.mem_cons_self _ _))
        have hstop : reclimbs (precedenceOf it.oprtrTkK) ((p.advance 2).peek 1) = false := by
          rw [hpk2]
          simp [reclimbs, hit.1, hh.1, hh.2]
        rw [nary_loop_step ext _ (by rw [ofFuel_fuel]; omega) c n' d base p it.oprtrTkK
          it.operandTkK r hr hop (hL it (List.mem_cons_self _ _)).2
          (by rw [← hr2, ← peek_of_rest]; exact hpeek2.1) (by rw [hit.1]; exact hc) (by omega)]
        rw [ofFuel_fuel, hk', nary_inner_stop _ _ k' _ _ hstop]
        simp only [Res.andThen_ok, if_true]
        rw [← hk']
        exact ih n' (d + 1) _ (p.advance 2) (by omega) (by simp)
          (fun x hx => hq x (List.mem_cons_of_mem _ hx)) hrest hat2
          (by simp only [advance_MAX_DEPTH_OF_EXPRS, List.length_cons] at hmax ⊢; omega)

theorem operatorChain_fault (ext : Externals) (op : SyntaxKind)
    (hop : isInfixOperatorToken op = true) (hassoc : isRightAssociative op = false)
    (cutoff : Nat) (hcut : cutoff ≤ precedenceOf op) (maxDepth extra : Nat) :
    parseNAryExpression ext (ParserTable.ofFuel ext (maxDepth + 1 + extra)) none cutoff
        (Parser.startWithMaxDepth maxDepth (operatorChain op (maxDepth + 1)))
      = Res.fault Fault.maximumDepthOfExpressions := by
  have hrest : (Parser.startWithMaxDepth maxDepth (operatorChain op (maxDepth + 1))).rest
      = IdentifierToken :: (infixTokens (List.replicate (maxDepth + 1) (op, IdentifierToken))
          ++ []) := by
    simp [Parser.rest, Parser.startWithMaxDepth, Parser.start, operatorChain]
  have hops : ∀ x ∈ List.replicate (maxDepth + 1) (op, IdentifierToken),
      isInfixOperatorToken x.1 = true ∧ isSingleTokenOperand x.2 = true := by
    intro x hx
    rw [List.eq_of_mem_replicate hx]
    exact ⟨hop, rfl⟩
  have hL := InfixOps_infixItemsAt 1 _ hops
  have hat : AtItems
      ((Parser.startWithMaxDepth maxDepth (operatorChain op (maxDepth + 1))).advance 1)
      (infixItemsAt 1 (List.replicate (maxDepth + 1) (op, IdentifierToken))) [] :=
    ⟨_, rfl, advance_rest hrest⟩
  have hpk := (AtItems_peek hat hL rfl).1
  rw [peek_of_rest, advance_rest hrest] at hpk
  have hcast := cast_singleTokenOperand ext
    (ParserTable.ofFuel ext (maxDepth + 1 + extra)) (by rw [ofFuel_fuel]; omega) none _
    IdentifierToken _ hrest rfl hpk
  have hfault := nary_leftChain_fault ext [] rfl (precedenceOf op) cutoff
    (maxDepth + 1 + extra) (by omega) hcut
    (infixItemsAt 1 (List.replicate (maxDepth + 1) (op, IdentifierToken)))
    (maxDepth + 1 + extra) 0
    (some (operandNode IdentifierToken 0))
    ((Parser.startWithMaxDepth maxDepth (operatorChain op (maxDepth + 1))).advance 1)
    (by rw [infixItemsAt_length, List.length_replicate]; omega)
    (by simp [List.replicate, infixItemsAt])
    (by
      intro it hit
      have := infixItemsAt_mem _ _ _ hit
      have h2 := List.eq_of_mem_replicate this
      simp only [Prod.mk.injEq] at h2
      rw [h2.1]
      exact ⟨rfl, hassoc⟩)
    hL hat
    (by rw [infixItemsAt_length, List.length_replicate]
        simp [Parser.startWithMaxDepth, Parser.advance])
  simp only [parseNAryExpression, run_bind, hcast, Res.andThen_ok, if_true,
    parseNAryExpression_AtOperator, ofFuel_fuel]
  exact hfault

/-- C3, the counterexample: the alternating sequence `a + a + ... + a` with 257 operators
`+`, parsed from the start of the input with the sequencing cutoff and the maximum depth of
expressions 256, is not consumed and gives no tree: the loop of the n-ary engine begins its
257th iteration and raises the fatal error of the depth guard. The same holds for whatever
value `maxDepth` of the maximum, on the sequence with `maxDepth + 1` operators, with any
amount of fuel from `maxDepth + 1` on. -/
theorem C3_counterexample_chain_beyond_depth_budget :
    parseNAryExpression Externals.failing (ParserTable.ofFuel Externals.failing 1000) none
          NAryPrecedence.Sequencing (Parser.start (operatorChain PlusToken 257))
        = Res.fault Fault.maximumDepthOfExpressions
      ∧ (fun (maxDepth extra : Nat) =>
          parseNAryExpression Externals.failing
            (ParserTable.ofFuel Externals.failing (maxDepth + 1 + extra)) none
            NAryPrecedence.Sequencing
            (Parser.startWithMaxDepth maxDepth (operatorChain PlusToken (maxDepth + 1))))
        = fun _ _ => Res.fault Fault.maximumDepthOfExpressions :=
  ⟨operatorChain_fault Externals.failing PlusToken rfl rfl _ (by decide) 256 743,
    funext fun maxDepth => funext fun extra =>
      operatorChain_fault Externals.failing PlusToken rfl rfl _ (by decide) maxDepth extra⟩

/-- C4, the counterexample: for the operands and operators of `a * a * ... * a` with 257
operators `*`, all of the multiplicative level, which is left-to-right, the n-ary engine at
the multiplicative cutoff, with the maximum depth of expressions 256, builds no left-nested
tree: it raises the fatal error of the depth guard when its loop begins the 257th
iteration. The same holds for whatever value `maxDepth` of the maximum, with
`maxDepth + 1` operators and any amount of fuel from `maxDepth + 1` on. -/
theorem C4_counterexample_left_chain_beyond_depth_budget :
    precedenceOf AsteriskToken = NAryPrecedence.Multiplicative
      ∧ isRightAssociative AsteriskToken = false
      ∧ parseNAryExpression Externals.failing (ParserTable.ofFuel Externals.failing 1000) none
          NAryPrecedence.Multiplicative (Parser.start (operatorChain AsteriskToken 257))
        = Res.fault Fault.maximumDepthOfExpressions
      ∧ (fun (maxDepth extra : Nat) =>
          parseNAryExpression Externals.failing
            (ParserTable.ofFuel Externals.failing (maxDepth + 1 + extra)) none
            NAryPrecedence.Multiplicative
            (Parser.startWithMaxDepth maxDepth (operatorChain AsteriskToken (maxDepth + 1))))
        = fun _ _ => Res.fault Fault.maximumDepthOfExpressions :=
  ⟨rfl, rfl, operatorChain_fault Externals.failing AsteriskToken rfl rfl _ (by decide) 256 743,
    funext fun maxDepth => funext fun extra =>
      operatorChain_fault Externals.failing AsteriskToken rfl rfl _ (by decide) maxDepth extra⟩

/-! ## Backtracking from the speculative cast: claim C11 -/

/-- C11: when `(` is followed by an identifier and the speculative parse,
`parseCompoundLiteralOrCastExpression_AtFirst`, fails, `parseExpressionWithPrecedenceCast`
puts the cursor back on the `(` token and is `parseExpressionWithPrecedenceUnary` from
there: its outcome (flag, tree and final state) is the outcome of
`parseExpressionWithPrecedenceUnary` run in the state that the failed attempt left, with
the cursor restored, on the parameter as the attempt left it. -/
theorem C11_cast_backtracks_to_unary (ext : Externals) (rec : ParserTable)
    (expr e : Option ExpressionSyntax) (p q : Parser)
    (h1 : p.peek 1 = OpenParenToken) (h2 : p.peek 2 = IdentifierToken)
    (hfail : parseCompoundLiteralOrCastExpression_AtFirst ext rec expr p = Res.ok (false, e) q) :
    (q.backtrack p.Backtracker).curTkIdx_ = p.curTkIdx_
      ∧ parseExpressionWithPrecedenceCast ext rec expr p
        = parseExpressionWithPrecedenceUnary ext rec e (q.backtrack p.Backtracker) := by
  refine ⟨rfl, ?_⟩
  unfold parseExpressionWithPrecedenceCast
  have hst : startsTypeNameAfterOpenParen IdentifierToken = false := rfl
  simp only [run_bind, run_peek, Res.andThen_ok, h1, h2, if_true, hst, Bool.false_eq_true,
    if_false, run_newBacktracker, hfail, run_backtrack]

/-- An instance of C11: for `( x ) ;` the speculative parse fails at `;`, with a cast
without operand in the parameter, and the result is the parenthesized expression around
the identifier `x`, with the cursor on `;`. -/
theorem C11_cast_backtracks_to_unary_witness :
    parseCompoundLiteralOrCastExpression_AtFirst Externals.failing
        (ParserTable.ofFuel Externals.failing 6) none
        (Parser.start [OpenParenToken, IdentifierToken, CloseParenToken, SemicolonToken])
      = Res.ok (false, some exampleFailedCast)
          (((Parser.start [OpenParenToken, IdentifierToken, CloseParenToken,
            SemicolonToken]).advance 3).report Diagnostic.ExpectedFIRSTofExpression)
    ∧ parseExpressionWithPrecedenceCast Externals.failing
        (ParserTable.ofFuel Externals.failing 6) none
        (Parser.start [OpenParenToken, IdentifierToken, CloseParenToken, SemicolonToken])
      = Res.ok (true, some (parenthesizedIdentifier 0))
          (((Parser.start [OpenParenToken, IdentifierToken, CloseParenToken,
            SemicolonToken]).advance 3).report Diagnostic.ExpectedFIRSTofExpression) :=
  ⟨rfl, (C11_cast_backtracks_to_unary Externals.failing
    (ParserTable.ofFuel Externals.failing 6) none (some exampleFailedCast)
    (Parser.start [OpenParenToken, IdentifierToken, CloseParenToken, SemicolonToken])
    (((Parser.start [OpenParenToken, IdentifierToken, CloseParenToken,
      SemicolonToken]).advance 3).report Diagnostic.ExpectedFIRSTofExpression)
    rfl rfl rfl).2.trans rfl⟩

/-! ## Chains of declarator suffixes: claim C17 -/

theorem unwrapSuffixes_suffixChain (items : List ParsedSuffix) :
    ∀ (n : Nat) (inner : Option DeclaratorSyntax) (attrs1 : SpecifierList)
      (l : List (SyntaxKind × Option DeclaratorSuffixSyntax)) (h : Option DeclaratorSyntax),
      unwrapSuffixes n inner = some (l, h) →
      unwrapSuffixes (items.length + n) (suffixChain inner attrs1 items)
        = some ((items.reverse.map fun s => (s.kind, some s.suffix_)) ++ l, h) := by
  induction items with
  | nil => intro n inner attrs1 l h hu; simpa [suffixChain] using hu
  | cons s rest ih =>
    intro n inner attrs1 l h hu
    have := ih (n + 1) (some (DeclaratorSyntax.ArrayOrFunctionDeclarator s.kind attrs1 inner
      (some s.suffix_) s.attrs2_ none none)) [] ((s.kind, some s.suffix_) :: l) h
      (by simp [unwrapSuffixes, hu])
    simp only [suffixChain, List.length_cons, List.reverse_cons, List.map_append, List.map_cons,
      List.map_nil, List.append_assoc, List.singleton_append]
    rw [show rest.length + 1 + n = rest.length + (n + 1) by omega]
    exact this

theorem SuffixesParsed_kinds {ext : Externals} {declScope : DeclarationScope} {fuel : Nat}
    {p q : Parser} {items : List ParsedSuffix}
    (h : SuffixesParsed ext declScope fuel p items q) :
    ∀ s ∈ items, s.kindMatchesSuffix = true := by
  induction h with
  | done => intro s hs; cases hs
  | parameters fuel p q1 q3 q decls_ ellipsisTkIdx_ attrs2_ rest hopen hlist hclose hattrs
      hrest ih =>
    intro s hs
    rcases List.mem_cons.mp hs with rfl | hs
    · rfl
    · exact ih s hs
  | subscript fuel p q1 q2 q3 q s closeBracketTkIdx_ attrs2_ rest hopen hslots hclose hattrs
      hrest ih =>
    intro s' hs
    rcases List.mem_cons.mp hs with rfl | hs
    · rfl
    · exact ih s' hs

theorem SuffixesParsed_peek {ext : Externals} {declScope : DeclarationScope} {fuel : Nat}
    {p q : Parser} {items : List ParsedSuffix}
    (h : SuffixesParsed ext declScope fuel p items q) :
    (items = [] → p.peek 1 ≠ OpenParenToken ∧ p.peek 1 ≠ OpenBracketToken)
      ∧ (items ≠ [] → (p.peek 1 = OpenParenToken ∨ p.peek 1 = OpenBracketToken)
          ∧ 1 ≤ fuel) := by
  cases h with
  | done _ _ h1 h2 => exact ⟨fun _ => ⟨h1, h2⟩, fun h => absurd rfl h⟩
  | parameters fuel p q1 q3 q decls_ ellipsisTkIdx_ attrs2_ rest hopen =>
    exact ⟨(fun h => by cases h), fun _ => ⟨Or.inl hopen, by omega⟩⟩
  | subscript fuel p q1 q2 q3 q s closeBracketTkIdx_ attrs2_ rest hopen =>
    exact ⟨(fun h => by cases h), fun _ => ⟨Or.inr hopen, by omega⟩⟩

theorem ofFuel_succ_parseDirectDeclaratorSuffix (ext : Externals) (k : Nat) :
    (ParserTable.ofFuel ext (k + 1)).parseDirectDeclaratorSuffix
      = parseDirectDeclaratorSuffix ext (ParserTable.ofFuel ext k) := rfl

theorem directDeclaratorSuffix_none (ext : Externals) (rec : ParserTable)
    (decltor : Option DeclaratorSyntax) (declScope : DeclarationScope)
    (decltorVariety : DeclaratorVariety) (attrList : SpecifierList)
    (inner : Option DeclaratorSyntax) (p : Parser)
    (h1 : p.peek 1 ≠ OpenParenToken) (h2 : p.peek 1 ≠ OpenBracketToken) :
    parseDirectDeclaratorSuffix ext rec decltor declScope decltorVariety attrList inner p
      = Res.ok (true, decltor) p := by
  unfold parseDirectDeclaratorSuffix
  simp only [run_bind, run_peek, Res.andThen_ok]
  rfl

theorem directDeclaratorSuffix_step_finish (ext : Externals) (k : Nat)
    (declScope : DeclarationScope) (decltorVariety : DeclaratorVariety)
    (node : DeclaratorSyntax) (p q : Parser) (rest : List ParsedSuffix)
    (hrest : SuffixesParsed ext declScope k p rest q)
    (ih : rest ≠ [] → parseDirectDeclaratorSuffix ext (ParserTable.ofFuel ext k)
        (some node) declScope decltorVariety [] (some node) p
      = Res.ok (true, suffixChain (some node) [] rest) q) :
    (do
      let tkK ← peek 1
      if (tkK == OpenParenToken || tkK == OpenBracketToken) = true then
        (ParserTable.ofFuel ext (k + 1)).parseDirectDeclaratorSuffix (some node) declScope
          decltorVariety [] (some node)
      else pure (true, some node)) p
      = Res.ok (true, suffixChain (some node) [] rest) q := by
  have hpeek := SuffixesParsed_peek hrest
  cases rest with
  | nil =>
    obtain ⟨h1, h2⟩ := hpeek.1 rfl
    cases hrest
    have hb : (p.peek 1 == OpenParenToken || p.peek 1 == OpenBracketToken) = false := by
      simp [h1, h2]
    simp only [run_bind, run_peek, Res.andThen_ok, hb, Bool.false_eq_true, if_false, run_pure,
      suffixChain]
  | cons s rest' =>
    obtain ⟨hor, hk⟩ := hpeek.2 (by simp)
    have hb : (p.peek 1 == OpenParenToken || p.peek 1 == OpenBracketToken) = true := by
      rcases hor with h | h <;> simp [h]
    simp only [run_bind, run_peek, Res.andThen_ok, hb, if_true,
      ofFuel_succ_parseDirectDeclaratorSuffix]
    exact ih (by simp)

theorem directDeclaratorSuffix_chain (ext : Externals) (declScope : DeclarationScope)
    (decltorVariety : DeclaratorVariety) (fuel : Nat) (p q : Parser)
    (items : List ParsedSuffix) (h : SuffixesParsed ext declScope fuel p items q) :
    ∀ (decltor inner : Option DeclaratorSyntax) (attrList : SpecifierList), items ≠ [] →
      parseDirectDeclaratorSuffix ext (ParserTable.ofFuel ext fuel) decltor declScope
          decltorVariety attrList inner p
        = Res.ok (true, suffixChain inner attrList items) q := by
  induction h with
  | done => intro _ _ _ h; exact absurd rfl h
  | parameters fuel p q1 q3 q decls_ ellipsisTkIdx_ attrs2_ rest hopen hlist hclose hattrs
      hrest ih =>
    intro decltor inner attrList _
    have hcons := consume_of_peek (p := p) (by rw [hopen]; decide)
    have hmatch := match_of_peek (p := q1) none hclose (by decide)
    have hfin := directDeclaratorSuffix_step_finish ext fuel declScope decltorVariety
      (DeclaratorSyntax.ArrayOrFunctionDeclarator FunctionDeclarator attrList inner
        (some (DeclaratorSuffixSyntax.ParameterSuffix (some p.curTkIdx_) decls_ ellipsisTkIdx_
          (some q1.curTkIdx_) (q1.advance 1).consumeOmission.1)) attrs2_ none none)
      q3 q rest hrest (fun hne => ih _ _ _ hne)
    rw [run_bind] at hfin
    unfold parseDirectDeclaratorSuffix
    simp only [run_bind, run_peek, Res.andThen_ok, hopen, run_consume, hcons, hlist, if_true,
      run_match_, hmatch]
    by_cases ho : (q1.advance 1).peek 1 = Keyword_ExtPSY_omission
    · simp only [ho, if_true, Parser.consumeOmission] at hattrs hfin ⊢
      simp only [run_bind, run_consume, Res.andThen_ok, hattrs, if_true, suffixChain]
      exact hfin
    · simp only [ho, if_false, Parser.consumeOmission] at hattrs hfin ⊢
      simp only [run_bind, run_pure, Res.andThen_ok, hattrs, if_true, suffixChain]
      exact hfin
  | subscript fuel p q1 q2 q3 q s closeBracketTkIdx_ attrs2_ rest hopen hslots hclose hattrs
      hrest ih =>
    intro decltor inner attrList _
    have hcons := consume_of_peek (p := p) (by rw [hopen]; decide)
    have hfin := directDeclaratorSuffix_step_finish ext fuel declScope decltorVariety
      (DeclaratorSyntax.ArrayOrFunctionDeclarator ArrayDeclarator attrList inner
        (some (DeclaratorSuffixSyntax.SubscriptSuffix (some p.curTkIdx_) s.qualsAndAttrs1_
          s.staticKwTkIdx_ s.qualsAndAttrs2_ s.asteriskTkIdx_ s.expr_ closeBracketTkIdx_))
        attrs2_ none none)
      q3 q rest hrest (fun hne => ih _ _ _ hne)
    rw [run_bind] at hfin
    unfold parseDirectDeclaratorSuffix
    simp only [run_bind, run_peek, Res.andThen_ok, hopen, run_consume, hcons, hslots, if_true,
      hclose, hattrs, suffixChain]
    exact hfin

/-- C17: for a direct declarator with head `h` followed by `k >= 1` suffixes `s1 ... sk`,
each a parameter suffix or a subscript suffix, `parseDirectDeclaratorSuffix` returns the
chain of `k` array or function declarators over `h`: read from the outermost declarator
inwards, the declarators carry `sk`, ..., `s1`, and the inner declarator of the one that
carries `s1` is `h`; the kind of each is `FunctionDeclarator` for a parameter suffix and
`ArrayDeclarator` for a subscript suffix. -/
theorem C17_suffix_chain (ext : Externals) (declScope : DeclarationScope)
    (decltorVariety : DeclaratorVariety) (fuel : Nat) (p q : Parser)
    (items : List ParsedSuffix) (decltor h : Option DeclaratorSyntax)
    (attrList : SpecifierList)
    (hparsed : SuffixesParsed ext declScope fuel p items q) (hk : items ≠ []) :
    parseDirectDeclaratorSuffix ext (ParserTable.ofFuel ext fuel) decltor declScope
        decltorVariety attrList h p
      = Res.ok (true, suffixChain h attrList items) q
    ∧ unwrapSuffixes items.length (suffixChain h attrList items)
      = some (items.reverse.map (fun s => (s.kind, some s.suffix_)), h)
    ∧ ∀ s ∈ items, s.kindMatchesSuffix = true := by
  refine ⟨directDeclaratorSuffix_chain ext declScope decltorVariety fuel p q items hparsed
    decltor h attrList hk, ?_, SuffixesParsed_kinds hparsed⟩
  have := unwrapSuffixes_suffixChain items 0 h attrList [] h rfl
  simpa using this

/-- An instance of C17: `a [ 1 ] [ 2 ]` gives the array declarator of `[ 2 ]` whose inner
declarator is the array declarator of `[ 1 ]`, whose inner declarator is `a`. -/
theorem C17_suffix_chain_witness :
    parseDirectDeclaratorSuffix Externals.failing (ParserTable.ofFuel Externals.failing 4)
        (some exampleArrayHead) DeclarationScope.File DeclaratorVariety.Named []
        (some exampleArrayHead)
        ((Parser.start exampleArrayDeclaratorTokens).advance 1)
      = Res.ok (true, some (.ArrayOrFunctionDeclarator ArrayDeclarator []
          (some (.ArrayOrFunctionDeclarator ArrayDeclarator [] (some exampleArrayHead)
            (some (exampleSubscript 1)) [] none none))
          (some (exampleSubscript 4)) [] none none))
          ((Parser.start exampleArrayDeclaratorTokens).advance 7) :=
  (C17_suffix_chain Externals.failing DeclarationScope.File DeclaratorVariety.Named 4
    ((Parser.start exampleArrayDeclaratorTokens).advance 1)
    ((Parser.start exampleArrayDeclaratorTokens).advance 7)
    [⟨ArrayDeclarator, exampleSubscript 1, []⟩, ⟨ArrayDeclarator, exampleSubscript 4, []⟩]
    (some exampleArrayHead) (some exampleArrayHead) []
    (SuffixesParsed.subscript 3 _ _ _ _ _
      ⟨[], none, [], none,
        some (.ConstantExpression IntegerConstantExpression (some 2))⟩ (some 3) [] _
      rfl
      (rfl : parseSubscriptSlots Externals.failing (ParserTable.ofFuel Externals.failing 4)
        DeclarationScope.File
        ((Parser.start exampleArrayDeclaratorTokens).advance 2)
        = Res.ok (true, ⟨[], none, [], none,
            some (.ConstantExpression IntegerConstantExpression (some 2))⟩)
          ((Parser.start exampleArrayDeclaratorTokens).advance 3))
      (rfl : matchOrSkipTo Externals.failing CloseBracketToken none
        ((Parser.start exampleArrayDeclaratorTokens).advance 3)
        = Res.ok (true, some 3)
          ((Parser.start exampleArrayDeclaratorTokens).advance 4))
      (rfl : parseTrailingAsmLabelAndAttributes Externals.failing
        ((Parser.start exampleArrayDeclaratorTokens).advance 4)
        = Res.ok (true, [])
          ((Parser.start exampleArrayDeclaratorTokens).advance 4))
      (SuffixesParsed.subscript 2 _ _ _ _ _
        ⟨[], none, [], none,
          some (.ConstantExpression IntegerConstantExpression (some 5))⟩ (some 6) [] _
        rfl
        (rfl : parseSubscriptSlots Externals.failing (ParserTable.ofFuel Externals.failing 3)
          DeclarationScope.File
          ((Parser.start exampleArrayDeclaratorTokens).advance 5)
          = Res.ok (true, ⟨[], none, [], none,
              some (.ConstantExpression IntegerConstantExpression (some 5))⟩)
            ((Parser.start exampleArrayDeclaratorTokens).advance 6))
        (rfl : matchOrSkipTo Externals.failing CloseBracketToken none
          ((Parser.start exampleArrayDeclaratorTokens).advance 6)
          = Res.ok (true, some 6)
            ((Parser.start exampleArrayDeclaratorTokens).advance 7))
        (rfl : parseTrailingAsmLabelAndAttributes Externals.failing
          ((Parser.start exampleArrayDeclaratorTokens).advance 7)
          = Res.ok (true, [])
            ((Parser.start exampleArrayDeclaratorTokens).advance 7))
        (SuffixesParsed.done 2 _ (by decide) (by decide))))
    (by simp)).1

/-! ## Designated initializers: claims C18 and C19 -/

theorem designatorList_loop_length (ext : Externals) (rec : ParserTable) (fuel : Nat) :
    ∀ (fieldNext : Bool) (desigList r : List (Option DesignatorSyntax)) (p q : Parser),
      parseDesignatorList_loop ext rec fuel fieldNext desigList p = Res.ok (true, r) q →
      r.length = 1 := by
  induction fuel with
  | zero => intro fieldNext desigList r p q h; cases h
  | succ fuel ih =>
    intro fieldNext desigList r p q h
    rw [parseDesignatorList_loop] at h
    have key : ∀ (m : ParserM (Bool × Option DesignatorSyntax)),
        (m >>= fun d =>
            if d.1 = true then do
              let tkK ← peek 1
              match tkK with
                | DotToken => parseDesignatorList_loop ext rec fuel true [d.2]
                | OpenBracketToken => parseDesignatorList_loop ext rec fuel false [d.2]
                | _ => pure (true, [d.2])
            else pure (false, desigList)) p = Res.ok (true, r) q → r.length = 1 := by
      intro m h
      obtain ⟨d, p1, hd, h⟩ := bind_ok_inv h
      by_cases hd1 : d.1 = true
      · simp only [hd1, if_true] at h
        rw [run_bind, run_peek, Res.andThen_ok] at h
        generalize p1.peek 1 = tk at h
        split at h
        · exact ih _ _ _ _ _ h
        · exact ih _ _ _ _ _ h
        · simp only [run_pure, Res.ok.injEq, Prod.mk.injEq, true_and] at h
          rw [← h.1]; rfl
      · simp only [hd1, Bool.false_eq_true, if_false, run_pure, Res.ok.injEq,
          Prod.mk.injEq] at h
        exact absurd h.1.1 (by decide)
    split at h
    · exact key _ h
    · exact key _ h

/-- C18, the divergence: `parseDesignatorList_AtFirst` stores every list cell through
`desigs_cur`, which it never moves from the head of the list, so each designator replaces
the one before it. For `. a [ 2 ] . b = 1`, a chain of three designators, the designator
list of the designated initializer has one element, the field designator of `. b` (the
tokens at the indices 5 and 6); and whenever the loop of the list succeeds, on any input,
the list it gives has exactly one element. -/
theorem C18_designator_list_keeps_last_designator_only :
    parseDesignatedInitializer_AtFirst Externals.failing
        (ParserTable.ofFuel Externals.failing 8) none true
        (Parser.start exampleDesignatedInitializerTokens)
      = Res.ok (true, some (InitializerSyntax.DesignatedInitializer
          [some (DesignatorSyntax.FieldDesignator (some 5) (some 6))] (some 7)
          (some (InitializerSyntax.ExpressionInitializer
            (some (ExpressionSyntax.ConstantExpression IntegerConstantExpression (some 8)))))))
          ((Parser.start exampleDesignatedInitializerTokens).advance 9)
    ∧ ∀ (ext : Externals) (rec : ParserTable) (fuel : Nat) (fieldNext : Bool)
        (desigList r : List (Option DesignatorSyntax)) (p q : Parser),
        parseDesignatorList_loop ext rec fuel fieldNext desigList p = Res.ok (true, r) q →
        r.length = 1 :=
  ⟨rfl, fun ext rec fuel => designatorList_loop_length ext rec fuel⟩

/-- C19: in `parseDesignatedInitializer_AtFirst`, after the designator list has been
parsed (to `desigs`, leaving the state `q`): if the current token is not `=`,
`ExpectedFOLLOWofDesignatedInitializer` is reported, no token is consumed, and the
initializer is parsed from there; if it is `=`, the token is consumed and the initializer
is parsed from the next token, with no report in between. In both cases the routine
returns the flag of `parseInitializer` and the designated initializer node with the
designator list, the initializer that `parseInitializer` gave, and in its equals slot the
index of the `=`, or null when there was none. -/
theorem C19_designated_initializer_equals (ext : Externals) (rec : ParserTable)
    (init : Option InitializerSyntax) (fieldFirst : Bool) (p q : Parser)
    (desigs : List (Option DesignatorSyntax))
    (hfirst : p.peek 1 = DotToken ∨ p.peek 1 = OpenBracketToken)
    (hlist : parseDesignatorList_AtFirst ext rec [] fieldFirst
      p.afterDesignatedInitializerFeature = Res.ok (true, desigs) q) :
    (q.peek 1 ≠ EqualsToken →
      parseDesignatedInitializer_AtFirst ext rec init fieldFirst p
        = (rec.parseInitializer none
            (q.report Diagnostic.ExpectedFOLLOWofDesignatedInitializer)).andThen
          (fun i s => Res.ok
            (i.1, some (InitializerSyntax.DesignatedInitializer desigs none i.2)) s))
    ∧ (q.peek 1 = EqualsToken →
      parseDesignatedInitializer_AtFirst ext rec init fieldFirst p
        = (rec.parseInitializer none (q.advance 1)).andThen
          (fun i s => Res.ok
            (i.1, some (InitializerSyntax.DesignatedInitializer desigs (some q.curTkIdx_)
              i.2)) s)) := by
  have hhead : (!(p.peek 1 == DotToken || p.peek 1 == OpenBracketToken)) = false := by
    rcases hfirst with h | h <;> rw [h] <;> rfl
  have hpre : parseDesignatedInitializer_AtFirst ext rec init fieldFirst p
      = (parseDesignatorList_AtFirst ext rec [] fieldFirst
          p.afterDesignatedInitializerFeature).andThen
        (fun d s => if d.1 = true then
            (if s.peek 1 = EqualsToken then
              (rec.parseInitializer none s.consume.2).andThen (fun i s' => Res.ok
                (i.1, some (InitializerSyntax.DesignatedInitializer d.2 s.consume.1 i.2)) s')
            else
              (rec.parseInitializer none
                (s.report Diagnostic.ExpectedFOLLOWofDesignatedInitializer)).andThen
                (fun i s' => Res.ok
                  (i.1, some (InitializerSyntax.DesignatedInitializer d.2 none i.2)) s'))
          else Res.ok (false, init) s) := by
    unfold parseDesignatedInitializer_AtFirst Parser.afterDesignatedInitializerFeature
    simp only [run_bind, run_peek, Res.andThen_ok, hhead, Bool.false_eq_true, if_false,
      run_getOptions]
    by_cases ho : (p.options.stdBeforeC99
        && !p.options.isEnabled_ExtGNU_DesignatedInitializers) = true
    · simp only [ho, if_true, run_bind, run_report, Res.andThen_ok]
      congr 1
      funext d s
      by_cases hd : d.1 = true
      · simp only [hd, if_true, run_bind, run_peek, Res.andThen_ok]
        by_cases he : s.peek 1 = EqualsToken
        · simp only [he, if_true, run_bind, run_consume, Res.andThen_ok]; rfl
        · simp only [he, if_false, run_bind, run_report, Res.andThen_ok]; rfl
      · simp only [hd, Bool.false_eq_true, if_false]; rfl
    · simp only [ho, Bool.false_eq_true, if_false, run_bind, run_pure, Res.andThen_ok]
      congr 1
      funext d s
      by_cases hd : d.1 = true
      · simp only [hd, if_true, run_bind, run_peek, Res.andThen_ok]
        by_cases he : s.peek 1 = EqualsToken
        · simp only [he, if_true, run_bind, run_consume, Res.andThen_ok]; rfl
        · simp only [he, if_false, run_bind, run_report, Res.andThen_ok]; rfl
      · simp only [hd, Bool.false_eq_true, if_false]; rfl
  rw [hpre, hlist]
  simp only [Res.andThen_ok, if_true]
  constructor
  · intro he
    simp only [he, if_false]
  · intro he
    have hcons := consume_of_peek (p := q) (by rw [he]; decide)
    simp only [he, if_true, hcons]

/-- An instance of C19: for `. a 1`, where the `=` is missing, the designated initializer
is built with a null equals slot and the initializer `1`, after the report of
`ExpectedFOLLOWofDesignatedInitializer` at the token `1`, and the routine succeeds. -/
theorem C19_designated_initializer_equals_witness :
    parseDesignatedInitializer_AtFirst Externals.failing
        (ParserTable.ofFuel Externals.failing 6) none true
        (Parser.start [DotToken, IdentifierToken, IntegerConstantToken, CloseBraceToken])
      = Res.ok (true, some (InitializerSyntax.DesignatedInitializer
          [some (DesignatorSyntax.FieldDesignator (some 0) (some 1))] none
          (some (InitializerSyntax.ExpressionInitializer
            (some (ExpressionSyntax.ConstantExpression IntegerConstantExpression (some 2)))))))
          ((((Parser.start [DotToken, IdentifierToken, IntegerConstantToken,
            CloseBraceToken]).advance 2).report
              Diagnostic.ExpectedFOLLOWofDesignatedInitializer).advance 1) :=
  ((C19_designated_initializer_equals Externals.failing
    (ParserTable.ofFuel Externals.failing 6) none true
    (Parser.start [DotToken, IdentifierToken, IntegerConstantToken, CloseBraceToken])
    ((Parser.start [DotToken, IdentifierToken, IntegerConstantToken,
      CloseBraceToken]).advance 2)
    [some (DesignatorSyntax.FieldDesignator (some 0) (some 1))]
    (Or.inl rfl) rfl).1 (by decide)).trans rfl

/-! ## Conditional expressions: claim C20 -/

theorem nary_loop_conditional_step (ext : Externals) (k : Nat) (hk : 1 ≤ k)
    (c0 n d : Nat) (base : Option ExpressionSyntax) (p : Parser) (b c : SyntaxKind)
    (r : List SyntaxKind) (h : p.rest = QuestionToken :: b :: ColonToken :: c :: r)
    (hb : isSingleTokenOperand b = true) (hc : isSingleTokenOperand c = true)
    (hr : continuesOperand (r.head?.getD EndOfFile) = false)
    (hcut : c0 ≤ NAryPrecedence.Conditional) (hd : d + 1 ≤ p.MAX_DEPTH_OF_EXPRS) :
    parseNAryExpression_AtOperator_loop ext (ParserTable.ofFuel ext (k + 1)) c0 (n + 1) d base p
      = (parseNAryExpression_AtOperator_inner (ParserTable.ofFuel ext (k + 1))
            NAryPrecedence.Conditional (k + 1)
            (some (operandNode c (p.curTkIdx_ + 3))) (p.advance 4)).andThen
          (fun i q => if i.1 = true then
              parseNAryExpression_AtOperator_loop ext (ParserTable.ofFuel ext (k + 1)) c0 n
                (d + 1)
                (some (ExpressionSyntax.ConditionalExpression base (some p.curTkIdx_)
                  (some (operandNode b (p.curTkIdx_ + 1))) (some (p.curTkIdx_ + 2)) i.2)) q
            else Res.ok (false, base) q) := by
  have hpk := rest_eq_cons_peek h
  have hcons := consume_of_rest h (by decide)
  have h1 : (p.advance 1).rest = b :: ColonToken :: c :: r := advance_rest h
  have h2 : (p.advance 2).rest = ColonToken :: c :: r := by
    have := advance_rest h1; simpa using this
  have h3 : (p.advance 3).rest = c :: r := by
    have := advance_rest h2; simpa using this
  have hpk1 : (p.advance 1).peek 1 ≠ ColonToken := by
    rw [rest_eq_cons_peek h1]; intro e; rw [e] at hb; exact absurd hb (by decide)
  have hmid := parseExpression_single_operand ext (ParserTable.ofFuel ext k)
    (by rw [ofFuel_fuel]; exact hk) none (p.advance 1) b ColonToken (c :: r) h1 hb rfl rfl
  have hmatch := match_of_peek (p := p.advance 2) none (rest_eq_cons_peek h2) (by decide)
  have hcast := cast_singleTokenOperand ext (ParserTable.ofFuel ext (k + 1))
    (by rw [ofFuel_fuel]; omega) none (p.advance 3) c r h3 hc hr
  have hprec : precedenceOf QuestionToken = NAryPrecedence.Conditional := rfl
  simp only [advance_advance, advance_curTkIdx] at hmid hmatch hcast
  simp only [parseNAryExpression_AtOperator_loop, hpk, ge_iff_le, hprec, hcut, if_true,
    Nat.not_lt.mpr hd, if_false, run_bind, run_consume, hcons, Res.andThen_ok, run_pure,
    parseConditionalMiddle, run_peek, hpk1, ofFuel_succ_parseExpression, hmid, run_match_,
    hmatch, hcast, advance_advance, advance_curTkIdx, ofFuel_fuel]
  congr 1
  funext i q
  split <;> rfl

theorem reclimbs_conditional_of_end (tk : SyntaxKind) (refPrec : Nat) (href : 1 ≤ refPrec)
    (h : endsInfixSequence tk = true) : reclimbs refPrec tk = false := by
  have h0 := endsInfixSequence_precedence tk h
  simp only [reclimbs, h0, Bool.or_eq_false_iff, Bool.and_eq_false_iff,
    decide_eq_false_iff_not, beq_eq_false_iff_ne]
  exact ⟨Or.inl (by omega), Or.inl (by omega)⟩

theorem nary_conditional_AtOperator (ext : Externals) (k : Nat) (hk : 1 ≤ k)
    (c0 : Nat) (base : Option ExpressionSyntax) (p : Parser) (b c : SyntaxKind)
    (tail : List SyntaxKind) (h : p.rest = QuestionToken :: b :: ColonToken :: c :: tail)
    (hb : isSingleTokenOperand b = true) (hc : isSingleTokenOperand c = true)
    (htail : endsInfixSequence (tail.head?.getD EndOfFile) = true)
    (hcut1 : 1 ≤ c0) (hcut : c0 ≤ NAryPrecedence.Conditional)
    (hd : p.depthOfExprs_ + 1 ≤ p.MAX_DEPTH_OF_EXPRS) :
    parseNAryExpression_AtOperator ext (ParserTable.ofFuel ext (k + 1)) base c0 p
      = Res.ok (true, some (ExpressionSyntax.ConditionalExpression base (some p.curTkIdx_)
          (some (operandNode b (p.curTkIdx_ + 1))) (some (p.curTkIdx_ + 2))
          (some (operandNode c (p.curTkIdx_ + 3))))) (p.advance 4) := by
  have h4 : (p.advance 4).rest = tail := by rw [advance_rest_n, h]; rfl
  have hpk4 : (p.advance 4).peek 1 = tail.head?.getD EndOfFile := by
    rw [peek_of_rest, h4]
  have hstop := reclimbs_conditional_of_end _ NAryPrecedence.Conditional (by decide) htail
  have h0 := endsInfixSequence_precedence _ htail
  rw [← hpk4] at hstop h0
  unfold parseNAryExpression_AtOperator
  rw [ofFuel_fuel, nary_loop_conditional_step ext k hk c0 k p.depthOfExprs_ base p b c tail h
    hb hc (endsInfixSequence_not_continuesOperand _ htail) hcut hd,
    nary_inner_stop _ _ k _ _ hstop]
  simp only [Res.andThen_ok, if_true]
  obtain ⟨k', rfl⟩ : ∃ k', k = k' + 1 := ⟨k - 1, by omega⟩
  exact nary_loop_stop ext _ c0 k' _ _ _ (by omega)

/-- C20: conditional expressions nest to the right, and a conditional binds tighter than
an assignment. For tokens `a ? b : c ? d : e` (single-token operands, followed by a token
that is no operator and does not continue `e`), at a cutoff up to the conditional level,
`parseNAryExpression` returns the conditional expression with condition `a`, `b` when
true, and when false the conditional expression of `c`, `d` and `e`, each node with the
indices of its own `?` and `:`. For tokens `x op a ? b : c` with `op` an assignment
operator, at a cutoff up to the assignment level, it returns the assignment of the
conditional expression of `a`, `b`, `c` to `x`. Both with the cursor behind the tokens,
given fuel for the recursion and room for one more level of expression depth. -/
theorem C20_conditional_nests_right (ext : Externals) (fuel : Nat) (p : Parser)
    (expr : Option ExpressionSyntax) (cutoff : Nat) (tail : List SyntaxKind)
    (htail : endsInfixSequence (tail.head?.getD EndOfFile) = true)
    (hcut : 1 ≤ cutoff) (hdepth : p.depthOfExprs_ + 1 ≤ p.MAX_DEPTH_OF_EXPRS)
    (hfuel : 3 ≤ fuel) :
    (∀ a b c d e : SyntaxKind,
      isSingleTokenOperand a = true → isSingleTokenOperand b = true →
      isSingleTokenOperand c = true → isSingleTokenOperand d = true →
      isSingleTokenOperand e = true →
      cutoff ≤ NAryPrecedence.Conditional →
      p.rest = a :: QuestionToken :: b :: ColonToken :: c :: QuestionToken :: d :: ColonToken
        :: e :: tail →
      parseNAryExpression ext (ParserTable.ofFuel ext fuel) expr cutoff p
        = Res.ok (true, some (ExpressionSyntax.ConditionalExpression
            (some (operandNode a p.curTkIdx_)) (some (p.curTkIdx_ + 1))
            (some (operandNode b (p.curTkIdx_ + 2))) (some (p.curTkIdx_ + 3))
            (some (ExpressionSyntax.ConditionalExpression
              (some (operandNode c (p.curTkIdx_ + 4))) (some (p.curTkIdx_ + 5))
              (some (operandNode d (p.curTkIdx_ + 6))) (some (p.curTkIdx_ + 7))
              (some (operandNode e (p.curTkIdx_ + 8))))))) (p.advance 9))
    ∧ (∀ x op a b c : SyntaxKind,
      isSingleTokenOperand x = true → isSingleTokenOperand a = true →
      isSingleTokenOperand b = true → isSingleTokenOperand c = true →
      precedenceOf op = NAryPrecedence.Assignment →
      cutoff ≤ NAryPrecedence.Assignment →
      p.rest = x :: op :: a :: QuestionToken :: b :: ColonToken :: c :: tail →
      parseNAryExpression ext (ParserTable.ofFuel ext fuel) expr cutoff p
        = Res.ok (true, some (ExpressionSyntax.AssignmentExpression (NAryExpressionKind op)
            (some (operandNode x p.curTkIdx_)) (some (p.curTkIdx_ + 1))
            (some (ExpressionSyntax.ConditionalExpression
              (some (operandNode a (p.curTkIdx_ + 2))) (some (p.curTkIdx_ + 3))
              (some (operandNode b (p.curTkIdx_ + 4))) (some (p.curTkIdx_ + 5))
              (some (operandNode c (p.curTkIdx_ + 6))))))) (p.advance 7)) := by
  obtain ⟨k, rfl⟩ : ∃ k, fuel = k + 3 := ⟨fuel - 3, by omega⟩
  have hend := endsInfixSequence_not_continuesOperand _ htail
  have h0 := endsInfixSequence_precedence _ htail
  constructor
  · intro a b c d e ha hb hc hd he hcq hrest
    have hcast := cast_singleTokenOperand ext (ParserTable.ofFuel ext (k + 3))
      (by rw [ofFuel_fuel]; omega) expr p a _ hrest ha rfl
    have h1 : (p.advance 1).rest = QuestionToken :: b :: ColonToken :: c :: QuestionToken :: d
        :: ColonToken :: e :: tail := advance_rest hrest
    have h5 : (p.advance 5).rest = QuestionToken :: d :: ColonToken :: e :: tail := by
      rw [advance_rest_n, hrest]; rfl
    have h9 : (p.advance 9).rest = tail := by rw [advance_rest_n, hrest]; rfl
    have hpk5 : (p.advance 5).peek 1 = QuestionToken := rest_eq_cons_peek h5
    have hpk9 : (p.advance 9).peek 1 = tail.head?.getD EndOfFile := by
      rw [peek_of_rest, h9]
    have hre : reclimbs NAryPrecedence.Conditional ((p.advance 5).peek 1) = true := by
      rw [hpk5]; rfl
    have hstop : reclimbs NAryPrecedence.Conditional ((p.advance 9).peek 1) = false := by
      rw [hpk9]; exact reclimbs_conditional_of_end _ _ (by decide) htail
    have hinnerCond := nary_conditional_AtOperator ext (k + 1) (by omega)
      NAryPrecedence.Conditional (some (operandNode c (p.curTkIdx_ + 4))) (p.advance 5) d e
      tail h5 hd he htail (by decide) (Nat.le_refl _) (by simpa using hdepth)
    simp only [advance_advance, advance_curTkIdx] at hinnerCond
    simp only [parseNAryExpression, run_bind, hcast, Res.andThen_ok, if_true,
      parseNAryExpression_AtOperator, ofFuel_fuel, advance_depthOfExprs]
    rw [nary_loop_conditional_step ext (k + 2) (by omega) cutoff (k + 2) p.depthOfExprs_ _
      (p.advance 1) b c _ h1 hb hc rfl hcq (by simpa using hdepth)]
    simp only [advance_advance, advance_curTkIdx]
    rw [nary_inner_step _ _ (k + 2) _ _ hre, ofFuel_succ_AtOperator, hpk5]
    have hprec : precedenceOf QuestionToken = NAryPrecedence.Conditional := rfl
    rw [hprec, hinnerCond]
    simp only [Res.andThen_ok, if_true]
    rw [nary_inner_stop _ _ (k + 1) _ _ hstop]
    simp only [Res.andThen_ok, if_true]
    exact nary_loop_stop ext _ cutoff (k + 1) _ _ _ (by rw [hpk9, h0]; omega)
  · intro x op a b c hx ha hb hc hop hcq hrest
    have hopInfix : isInfixOperatorToken op = true := by
      have hne : op ≠ QuestionToken := by
        intro hq; rw [hq] at hop; exact absurd hop (by decide)
      simp [isInfixOperatorToken, hop, NAryPrecedence.Undefined, NAryPrecedence.Assignment,
        hne]
    have hcast := cast_singleTokenOperand ext (ParserTable.ofFuel ext (k + 3))
      (by rw [ofFuel_fuel]; omega) expr p x _ hrest hx
      (by simpa using infixOperator_not_continuesOperand op hopInfix)
    have h1 : (p.advance 1).rest = op :: a :: QuestionToken :: b :: ColonToken :: c :: tail :=
      advance_rest hrest
    have h3 : (p.advance 3).rest = QuestionToken :: b :: ColonToken :: c :: tail := by
      rw [advance_rest_n, hrest]; rfl
    have h7 : (p.advance 7).rest = tail := by rw [advance_rest_n, hrest]; rfl
    have hpk3 : (p.advance 3).peek 1 = QuestionToken := rest_eq_cons_peek h3
    have hpk7 : (p.advance 7).peek 1 = tail.head?.getD EndOfFile := by
      rw [peek_of_rest, h7]
    have hre : reclimbs (precedenceOf op) ((p.advance 3).peek 1) = true := by
      rw [hpk3, hop]; rfl
    have hstop : reclimbs (precedenceOf op) ((p.advance 7).peek 1) = false := by
      rw [hpk7, hop]; exact reclimbs_conditional_of_end _ _ (by decide) htail
    have hinnerCond := nary_conditional_AtOperator ext (k + 1) (by omega)
      NAryPrecedence.Conditional (some (operandNode a (p.curTkIdx_ + 2))) (p.advance 3) b c
      tail h3 hb hc htail (by decide) (Nat.le_refl _) (by simpa using hdepth)
    simp only [advance_advance, advance_curTkIdx] at hinnerCond
    have hkind : isAssignmentExpression (NAryExpressionKind op) = true := by
      cases op <;> first | rfl | (exfalso; revert hop; decide)
    simp only [parseNAryExpression, run_bind, hcast, Res.andThen_ok, if_true,
      parseNAryExpression_AtOperator, ofFuel_fuel, advance_depthOfExprs]
    rw [nary_loop_step ext _ (by rw [ofFuel_fuel]; omega) cutoff (k + 2) p.depthOfExprs_ _
      (p.advance 1) op a _ h1 hopInfix ha rfl (by rw [hop]; exact hcq)
      (by simpa using hdepth)]
    simp only [advance_advance, advance_curTkIdx, ofFuel_fuel]
    rw [nary_inner_step _ _ (k + 2) _ _ hre, ofFuel_succ_AtOperator, hpk3]
    have hprec : precedenceOf QuestionToken = NAryPrecedence.Conditional := rfl
    rw [hprec, hinnerCond]
    simp only [Res.andThen_ok, if_true]
    rw [nary_inner_stop _ _ (k + 1) _ _ hstop]
    simp only [Res.andThen_ok, if_true]
    rw [nary_loop_stop ext _ cutoff (k + 1) _ _ _ (by rw [hpk7, h0]; omega)]
    simp only [makeNAryNode, hkind, if_true]

/-- An instance of C20: `a ? b : c ? d : e` and `x = a ? b : c`, each before `;`. -/
theorem C20_conditional_nests_right_witness :
    parseNAryExpression Externals.failing (ParserTable.ofFuel Externals.failing 3) none
        NAryPrecedence.Sequencing
        (Parser.start [IdentifierToken, QuestionToken, IdentifierToken, ColonToken,
          IdentifierToken, QuestionToken, IdentifierToken, ColonToken, IdentifierToken,
          SemicolonToken])
      = Res.ok (true, some (ExpressionSyntax.ConditionalExpression
          (some (.IdentifierExpression (some 0))) (some 1)
          (some (.IdentifierExpression (some 2))) (some 3)
          (some (ExpressionSyntax.ConditionalExpression
            (some (.IdentifierExpression (some 4))) (some 5)
            (some (.IdentifierExpression (some 6))) (some 7)
            (some (.IdentifierExpression (some 8)))))))
          ((Parser.start [IdentifierToken, QuestionToken, IdentifierToken, ColonToken,
            IdentifierToken, QuestionToken, IdentifierToken, ColonToken, IdentifierToken,
            SemicolonToken]).advance 9)
    ∧ parseNAryExpression Externals.failing (ParserTable.ofFuel Externals.failing 3) none
        NAryPrecedence.Sequencing
        (Parser.start [IdentifierToken, EqualsToken, IdentifierToken, QuestionToken,
          IdentifierToken, ColonToken, IdentifierToken, SemicolonToken])
      = Res.ok (true, some (ExpressionSyntax.AssignmentExpression BasicAssignmentExpression
          (some (.IdentifierExpression (some 0))) (some 1)
          (some (ExpressionSyntax.ConditionalExpression
            (some (.IdentifierExpression (some 2))) (some 3)
            (some (.IdentifierExpression (some 4))) (some 5)
            (some (.IdentifierExpression (some 6)))))))
          ((Parser.start [IdentifierToken, EqualsToken, IdentifierToken, QuestionToken,
            IdentifierToken, ColonToken, IdentifierToken, SemicolonToken]).advance 7) :=
  ⟨(C20_conditional_nests_right Externals.failing 3
      (Parser.start [IdentifierToken, QuestionToken, IdentifierToken, ColonToken,
        IdentifierToken, QuestionToken, IdentifierToken, ColonToken, IdentifierToken,
        SemicolonToken]) none NAryPrecedence.Sequencing [SemicolonToken]
      (by decide) (by decide) (by decide) (by decide)).1
      IdentifierToken IdentifierToken IdentifierToken IdentifierToken IdentifierToken
      rfl rfl rfl rfl rfl (by decide) rfl,
    (C20_conditional_nests_right Externals.failing 3
      (Parser.start [IdentifierToken, EqualsToken, IdentifierToken, QuestionToken,
        IdentifierToken, ColonToken, IdentifierToken, SemicolonToken]) none
      NAryPrecedence.Sequencing [SemicolonToken]
      (by decide) (by decide) (by decide) (by decide)).2
      IdentifierToken EqualsToken IdentifierToken IdentifierToken IdentifierToken
      rfl rfl rfl rfl rfl (by decide) rfl⟩

/-! ## Declarations without declarators: claim C14 -/

/-- C14: in `parseDeclaration`, when the specifiers have been parsed (with the type
declaration `tyDecl`, or none, and the list `specList`, leaving the state `q`) and the
current token is `;`: if there is a type declaration, which is what a struct, union or
enum with a body leaves, the result is that declaration with the index of the `;` in
its semicolon slot; otherwise the result is the incomplete declaration with the specifier
list and the index of the `;`. In both cases the routine returns true one token behind
the specifiers. -/
theorem C14_declaration_at_semicolon (ext : Externals)
    (parseSpecifiers : Option ExternalNode → SpecifierList → Bool → ParserM SpecifiersResult)
    (parse_AtFollowOfSpecifiers : Option DeclarationSyntax → SpecifierList →
      ParserM DeclResult)
    (decl tyDecl : Option ExternalNode) (declScope : DeclarationScope) (p q : Parser)
    (specList : SpecifierList)
    (hspecs : parseSpecifiers decl [] (declScope != DeclarationScope.Block) p
      = Res.ok (true, tyDecl, specList) q)
    (hsemi : q.peek 1 = SemicolonToken) :
    parseDeclaration ext parseSpecifiers parse_AtFollowOfSpecifiers decl declScope p
      = Res.ok (true, some (match tyDecl with
          | some typeDecl => DeclarationSyntax.TypeDeclaration typeDecl (some q.curTkIdx_)
          | none => DeclarationSyntax.IncompleteDeclaration specList (some q.curTkIdx_)))
          (q.advance 1) := by
  have hcons := consume_of_peek (p := q) (by rw [hsemi]; decide)
  unfold parseDeclaration
  simp only [run_bind, hspecs, Res.andThen_ok, Bool.not_true, Bool.false_eq_true, if_false,
    run_peek, hsemi, if_true]
  cases tyDecl with
  | some typeDecl => simp only [run_bind, run_consume, hcons, Res.andThen_ok, run_pure]
  | none =>
    simp only [parseIncompleteDeclaration_AtFirst, run_bind, run_peek, hsemi, bne_self_eq_false,
      Bool.false_eq_true, if_false, run_consume, hcons, Res.andThen_ok, run_pure]

/-- An instance of C14: `int ;` is the incomplete declaration with the specifier `int`,
and `struct { } ;` is the type declaration of the struct, each with the index of its `;`. -/
theorem C14_declaration_at_semicolon_witness :
    parseDeclarationOrFunctionDefinition Externals.ofExamples
        (ParserTable.ofFuel Externals.ofExamples 4) none
        (Parser.start [Keyword_int, SemicolonToken])
      = Res.ok (true, some (DeclarationSyntax.IncompleteDeclaration
          [some (SpecifierSyntax.BuiltinTypeSpecifier (some 0))] (some 1)))
          ((Parser.start [Keyword_int, SemicolonToken]).advance 2)
    ∧ parseDeclarationOrFunctionDefinition Externals.ofExamples
        (ParserTable.ofFuel Externals.ofExamples 4) none
        (Parser.start [Keyword_struct, OpenBraceToken, CloseBraceToken, SemicolonToken])
      = Res.ok (true, some (DeclarationSyntax.TypeDeclaration ⟨0⟩ (some 3)))
          ((Parser.start [Keyword_struct, OpenBraceToken, CloseBraceToken,
            SemicolonToken]).advance 4) :=
  ⟨C14_declaration_at_semicolon Externals.ofExamples _ _ none none DeclarationScope.File
      (Parser.start [Keyword_int, SemicolonToken])
      ((Parser.start [Keyword_int, SemicolonToken]).advance 1)
      [some (SpecifierSyntax.BuiltinTypeSpecifier (some 0))] rfl rfl,
    C14_declaration_at_semicolon Externals.ofExamples _ _ none (some ⟨0⟩)
      DeclarationScope.File
      (Parser.start [Keyword_struct, OpenBraceToken, CloseBraceToken, SemicolonToken])
      ((Parser.start [Keyword_struct, OpenBraceToken, CloseBraceToken,
        SemicolonToken]).advance 3)
      [some (SpecifierSyntax.External StructTypeSpecifier ⟨0⟩)] rfl rfl⟩

/-! ## The type declaration as a specifier: claim C15 -/

theorem replaceTaggedTypeSpecifier_at (node : ExternalNode) (tyDeclSpec value : SpecifierSyntax)
    (hvalue : value.asTaggedTypeSpecifier = some node) (post : SpecifierList) :
    ∀ pre : SpecifierList,
      (∀ c ∈ pre, ∃ v, c = some v ∧ v.isTaggedTypeSpecifierOf node = false) →
      replaceTaggedTypeSpecifier (some node) tyDeclSpec (pre ++ some value :: post)
        = Except.ok (pre ++ some tyDeclSpec :: post) := by
  intro pre
  induction pre with
  | nil =>
    intro _
    simp [replaceTaggedTypeSpecifier, hvalue]
  | cons c pre ih =>
    intro hpre
    obtain ⟨v, rfl, hv⟩ := hpre c (List.mem_cons_self _ _)
    have hne : ¬ (v.asTaggedTypeSpecifier.isSome = true
        ∧ (v.asTaggedTypeSpecifier == some node) = true) := by
      intro h
      rw [SpecifierSyntax.isTaggedTypeSpecifierOf] at hv
      rw [hv] at h
      exact absurd h.2 (by decide)
    have hrest := ih (fun c hc => hpre c (List.mem_cons_of_mem _ hc))
    simp only [List.cons_append, replaceTaggedTypeSpecifier, Bool.and_eq_true, hne, if_false,
      List.append_eq, hrest]

/-- C15: in `parseDeclaration`, when the specifiers have been parsed with the type
declaration `tyDecl` of an inline struct, union or enum, made for the tagged type
specifier `value` of the list, and the current token is not `;`, the routine is
`parse_AtFollowOfSpecifiers` run with a null declaration and with the list in which the
type declaration as a specifier, wrapping `tyDecl`, stands in the place of `value`: the
cells before and behind are as they were, so the list has its length and order. (The
cells before `value` hold specifiers, none of them that same node.) -/
theorem C15_type_declaration_lifted (ext : Externals)
    (parseSpecifiers : Option ExternalNode → SpecifierList → Bool → ParserM SpecifiersResult)
    (parse_AtFollowOfSpecifiers : Option DeclarationSyntax → SpecifierList →
      ParserM DeclResult)
    (decl : Option ExternalNode) (declScope : DeclarationScope) (p q : Parser)
    (tyDecl node : ExternalNode) (value : SpecifierSyntax) (pre post : SpecifierList)
    (hspecs : parseSpecifiers decl [] (declScope != DeclarationScope.Block) p
      = Res.ok (true, some tyDecl, pre ++ some value :: post) q)
    (hvalue : value.asTaggedTypeSpecifier = some node)
    (htypeSpec : ext.typeSpecOf tyDecl = some node)
    (hpre : ∀ c ∈ pre, ∃ v, c = some v ∧ v.isTaggedTypeSpecifierOf node = false)
    (hnext : q.peek 1 ≠ SemicolonToken) :
    parseDeclaration ext parseSpecifiers parse_AtFollowOfSpecifiers decl declScope p
      = parse_AtFollowOfSpecifiers none
          (pre ++ some (SpecifierSyntax.TypeDeclarationAsSpecifier (some tyDecl)) :: post) q
    ∧ (pre ++ some (SpecifierSyntax.TypeDeclarationAsSpecifier (some tyDecl)) :: post).length
      = (pre ++ some value :: post).length := by
  refine ⟨?_, by simp⟩
  have hrep := replaceTaggedTypeSpecifier_at node
    (SpecifierSyntax.TypeDeclarationAsSpecifier (some tyDecl)) value hvalue post pre hpre
  have hne : (pre ++ some value :: post).isEmpty = false := by
    cases pre <;> rfl
  have hne2 : (pre ++ some (SpecifierSyntax.TypeDeclarationAsSpecifier (some tyDecl))
      :: post).isEmpty = false := by
    cases pre <;> rfl
  unfold parseDeclaration
  simp only [run_bind, hspecs, Res.andThen_ok, Bool.not_true, Bool.false_eq_true, if_false,
    run_peek, hnext, hne, htypeSpec, hrep, liftExcept, hne2, run_pure]

/-- An instance of C15: in `const struct { } x ;` the specifier list `const`, `struct { }`
is handed to the declarator phase as `const` and the type declaration of the struct as
a specifier, and the result is the declaration of `x` with that list. -/
theorem C15_type_declaration_lifted_witness :
    parseDeclarationOrFunctionDefinition Externals.ofExamples
        (ParserTable.ofFuel Externals.ofExamples 4) none
        (Parser.start [Keyword_const, Keyword_struct, OpenBraceToken, CloseBraceToken,
          IdentifierToken, SemicolonToken])
      = Res.ok (true, some (DeclarationSyntax.VariableAndOrFunctionDeclaration
          [some (SpecifierSyntax.TypeQualifier ConstQualifier (some 0)),
            some (SpecifierSyntax.TypeDeclarationAsSpecifier (some ⟨1⟩))]
          [(some (DeclaratorSyntax.IdentifierDeclarator (some 4) [] [] none none), none)]
          (some 5)))
          ((Parser.start [Keyword_const, Keyword_struct, OpenBraceToken, CloseBraceToken,
            IdentifierToken, SemicolonToken]).advance 6) :=
  (C15_type_declaration_lifted Externals.ofExamples _ _ none DeclarationScope.File
    (Parser.start [Keyword_const, Keyword_struct, OpenBraceToken, CloseBraceToken,
      IdentifierToken, SemicolonToken])
    ((Parser.start [Keyword_const, Keyword_struct, OpenBraceToken, CloseBraceToken,
      IdentifierToken, SemicolonToken]).advance 4)
    ⟨1⟩ ⟨1⟩ (SpecifierSyntax.External StructTypeSpecifier ⟨1⟩)
    [some (SpecifierSyntax.TypeQualifier ConstQualifier (some 0))] []
    rfl rfl rfl (by decide) (by decide)).1.trans rfl

/-! ## The declarators of a declaration: claim C13 -/

@[simp] theorem run_liftExcept_ok {α : Type} (a : α) (p : Parser) :
    liftExcept (Except.ok a) p = Res.ok a p := rfl

@[simp] theorem run_liftExcept_error {α : Type} (f : Fault) (p : Parser) :
    liftExcept (Except.error f : Except Fault α) p = Res.fault f := rfl

theorem followOfDeclarator_comma (ext : Externals) (specList : SpecifierList)
    (decl : Option DeclarationSyntax) (pre : List (Option DeclaratorSyntax × IndexType))
    (continue_ : List (Option DeclaratorSyntax × IndexType) → ParserM DeclResult)
    (decltor : Option DeclaratorSyntax) (init : Bool) (q : Parser)
    (h : q.peek 1 = CommaToken) :
    parseFollowOfDeclarator ext specList decl pre continue_ decltor init q
      = continue_ (pre ++ [(decltor, some q.curTkIdx_)]) (q.advance 1) := by
  have hcons := consume_of_peek (p := q) (by rw [h]; decide)
  unfold parseFollowOfDeclarator
  simp only [run_bind, run_peek, Res.andThen_ok, h, if_true, run_consume, hcons]

theorem followOfDeclarator_semicolon (ext : Externals) (specList : SpecifierList)
    (decl : Option DeclarationSyntax) (pre : List (Option DeclaratorSyntax × IndexType))
    (continue_ : List (Option DeclaratorSyntax × IndexType) → ParserM DeclResult)
    (decltor : Option DeclaratorSyntax) (init : Bool) (q : Parser)
    (h : q.peek 1 = SemicolonToken) :
    parseFollowOfDeclarator ext specList decl pre continue_ decltor init q
      = Res.ok (true, some (DeclarationSyntax.VariableAndOrFunctionDeclaration specList
          (pre ++ [(decltor, none)]) (some q.curTkIdx_))) (q.advance 1) := by
  have hcons := consume_of_peek (p := q) (by rw [h]; decide)
  have hne : SemicolonToken ≠ CommaToken := by decide
  unfold parseFollowOfDeclarator
  simp only [run_bind, run_peek, Res.andThen_ok, h, hne, if_false, if_true, run_consume, hcons,
    run_pure]

theorem followOfDeclarator_other (ext : Externals) (specList : SpecifierList)
    (decl : Option DeclarationSyntax) (pre : List (Option DeclaratorSyntax × IndexType))
    (continue_ : List (Option DeclaratorSyntax × IndexType) → ParserM DeclResult)
    (decltor : Option DeclaratorSyntax) (init : Bool) (q : Parser)
    (h1 : q.peek 1 ≠ CommaToken) (h2 : q.peek 1 ≠ SemicolonToken)
    (isDefinition : Bool)
    (hdef : (if q.peek 1 = OpenBraceToken ∧ pre.isEmpty = true then
        declaresFunctionOfIdentifier decltor else Except.ok false) = Except.ok isDefinition) :
    parseFollowOfDeclarator ext specList decl pre continue_ decltor init q
      = if isDefinition = true then
          (ext.parseCompoundStatement_AtFirst q).andThen (fun b s =>
            Res.ok (true, some (DeclarationSyntax.FunctionDefinition specList decltor b.2)) s)
        else Res.ok (false, decl)
          (q.report (if init = true then Diagnostic.ExpectedFOLLOWofInitializedDeclarator
            else Diagnostic.ExpectedFOLLOWofDeclarator)) := by
  unfold parseFollowOfDeclarator
  simp only [run_bind, run_peek, Res.andThen_ok, h1, h2, if_false]
  by_cases hc : q.peek 1 = OpenBraceToken ∧ pre.isEmpty = true
  · simp only [hc, and_self, if_true] at hdef ⊢
    simp only [hdef, run_bind, run_liftExcept_ok, Res.andThen_ok]
    cases isDefinition
    · cases init <;>
        simp only [Bool.false_eq_true, if_false, if_true, run_bind, run_report, run_pure,
          Res.andThen_ok]
    · simp only [if_true, run_bind, run_pure]
      rfl
  · simp only [hc, if_false, Except.ok.injEq] at hdef ⊢
    subst hdef
    simp only [run_bind, run_pure, Res.andThen_ok]
    cases init <;>
      simp only [Bool.false_eq_true, if_false, if_true, run_bind, run_report, run_pure,
        Res.andThen_ok]

theorem follow_loop_step (ext : Externals) (rec : ParserTable) (specList : SpecifierList)
    (fuel : Nat) (decl : Option DeclarationSyntax)
    (pre : List (Option DeclaratorSyntax × IndexType)) (p q : Parser)
    (d : Option DeclaratorSyntax)
    (hd : parseDeclarator ext rec none DeclarationScope.File DeclaratorVariety.Named p
      = Res.ok (true, d) q)
    (hne : q.peek 1 ≠ EqualsToken) :
    parseDeclarationOrFunctionDefinition_AtFollowOfSpecifiers_loop ext rec specList (fuel + 1)
        decl pre p
      = parseFollowOfDeclarator ext specList decl pre
          (parseDeclarationOrFunctionDefinition_AtFollowOfSpecifiers_loop ext rec specList fuel
            decl) d false q := by
  rw [parseDeclarationOrFunctionDefinition_AtFollowOfSpecifiers_loop]
  simp only [run_bind, hd, Res.andThen_ok, Bool.not_true, Bool.false_eq_true, if_false,
    run_peek, hne]

theorem follow_loop_equals (ext : Externals) (rec : ParserTable) (specList : SpecifierList)
    (fuel : Nat) (decl : Option DeclarationSyntax)
    (pre : List (Option DeclaratorSyntax × IndexType)) (p q : Parser)
    (d : Option DeclaratorSyntax)
    (hd : parseDeclarator ext rec none DeclarationScope.File DeclaratorVariety.Named p
      = Res.ok (true, d) q)
    (heq : q.peek 1 = EqualsToken) (takes : Bool)
    (htakes : takesInitializer d = Except.ok takes) :
    parseDeclarationOrFunctionDefinition_AtFollowOfSpecifiers_loop ext rec specList (fuel + 1)
        decl pre p
      = if takes = true then
          (parseInitializer ext rec none (q.advance 1)).andThen (fun i s =>
            if i.1 = true then
              parseFollowOfDeclarator ext specList decl pre
                (parseDeclarationOrFunctionDefinition_AtFollowOfSpecifiers_loop ext rec specList
                  fuel decl)
                (d.map (DeclaratorSyntax.setStrippedInitializer (some q.curTkIdx_) i.2)) true s
            else Res.ok (false, decl) s)
        else
          (ext.ignoreDeclarator (q.report Diagnostic.UnexpectedInitializerOfDeclarator)).andThen
            (fun g s => Res.ok (g, decl) s) := by
  have hcons := consume_of_peek (p := q) (by rw [heq]; decide)
  rw [parseDeclarationOrFunctionDefinition_AtFollowOfSpecifiers_loop]
  simp only [run_bind, hd, Res.andThen_ok, Bool.not_true, Bool.false_eq_true, if_false,
    run_peek, heq, if_true, htakes, run_liftExcept_ok]
  cases takes
  · simp only [Bool.false_eq_true, if_false, run_bind, run_report, Res.andThen_ok]
    congr 1
  · simp only [if_true, run_bind, run_consume, hcons, Res.andThen_ok]
    congr 1
    funext i s
    split <;> rfl

theorem DeclaratorsParsed_delimiters {ext : Externals} {rec : ParserTable} {p q : Parser}
    {cells : List (Option DeclaratorSyntax × IndexType)}
    (h : DeclaratorsParsed ext rec p cells q) :
    1 ≤ cells.length ∧ (cells.getLast?.map Prod.snd) = some none
      ∧ ∀ c ∈ cells.dropLast, c.2.isSome = true := by
  induction h with
  | last p q d hd hs => exact ⟨by simp, rfl, by simp⟩
  | more p q1 q d rest hd hc hrest ih =>
    obtain ⟨h1, h2, h3⟩ := ih
    obtain ⟨c, rest', rfl⟩ : ∃ c rest', rest = c :: rest' := by
      cases rest with
      | nil => simp at h1
      | cons c rest' => exact ⟨c, rest', rfl⟩
    refine ⟨by simp, ?_, ?_⟩
    · rw [List.getLast?_cons_cons]; exact h2
    · intro x hx
      rw [List.dropLast_cons₂, List.mem_cons] at hx
      rcases hx with rfl | hx
      · rfl
      · exact h3 x hx

theorem follow_loop_declarators (ext : Externals) (rec : ParserTable)
    (specList : SpecifierList) (decl : Option DeclarationSyntax) (p q : Parser)
    (cells : List (Option DeclaratorSyntax × IndexType))
    (h : DeclaratorsParsed ext rec p cells q) :
    ∀ (fuel : Nat) (pre : List (Option DeclaratorSyntax × IndexType)), cells.length ≤ fuel →
      parseDeclarationOrFunctionDefinition_AtFollowOfSpecifiers_loop ext rec specList fuel
          decl pre p
        = Res.ok (true, some (DeclarationSyntax.VariableAndOrFunctionDeclaration specList
            (pre ++ cells) (some q.curTkIdx_))) (q.advance 1) := by
  induction h with
  | last p q d hd hs =>
    intro fuel pre hf
    obtain ⟨fuel', rfl⟩ : ∃ f, fuel = f + 1 := ⟨fuel - 1, by simp at hf; omega⟩
    rw [follow_loop_step ext rec specList fuel' decl pre p q d hd (by rw [hs]; decide),
      followOfDeclarator_semicolon _ _ _ _ _ _ _ _ hs]
  | more p q1 q d rest hd hc hrest ih =>
    intro fuel pre hf
    simp only [List.length_cons] at hf
    obtain ⟨fuel', rfl⟩ : ∃ f, fuel = f + 1 := ⟨fuel - 1, by omega⟩
    rw [follow_loop_step ext rec specList fuel' decl pre p q1 d hd (by rw [hc]; decide),
      followOfDeclarator_comma _ _ _ _ _ _ _ _ hc, ih fuel' _ (by omega)]
    simp

/-- C13: for `n >= 1` declarators separated by commas and terminated by `;`,
`parseDeclarationOrFunctionDefinition_AtFollowOfSpecifiers` returns true, behind the `;`,
with the variable-and-or-function declaration whose specifier slot is the given
specifier list, whose semicolon slot is the index of the `;`, and whose declarator list
has the `n` declarators in their order, each but the last with the index of the comma
behind it and the last with a null index. -/
theorem C13_declarator_list (ext : Externals) (rec : ParserTable)
    (decl : Option DeclarationSyntax) (specList : SpecifierList) (p q : Parser)
    (cells : List (Option DeclaratorSyntax × IndexType))
    (hparsed : DeclaratorsParsed ext rec p cells q) (hfuel : cells.length ≤ rec.fuel) :
    parseDeclarationOrFunctionDefinition_AtFollowOfSpecifiers ext rec decl specList p
      = Res.ok (true, some (DeclarationSyntax.VariableAndOrFunctionDeclaration specList cells
          (some q.curTkIdx_))) (q.advance 1)
    ∧ 1 ≤ cells.length ∧ (cells.getLast?.map Prod.snd) = some none
    ∧ ∀ c ∈ cells.dropLast, c.2.isSome = true := by
  refine ⟨?_, DeclaratorsParsed_delimiters hparsed⟩
  unfold parseDeclarationOrFunctionDefinition_AtFollowOfSpecifiers
  rw [follow_loop_declarators ext rec specList decl p q cells hparsed rec.fuel [] hfuel]
  rfl

/-- An instance of C13: `x , y ;` behind the specifier `int`. -/
theorem C13_declarator_list_witness :
    parseDeclarationOrFunctionDefinition_AtFollowOfSpecifiers Externals.failing
        (ParserTable.ofFuel Externals.failing 3) none
        [some (SpecifierSyntax.BuiltinTypeSpecifier (some 0))]
        ((Parser.start [Keyword_int, IdentifierToken, CommaToken, IdentifierToken,
          SemicolonToken]).advance 1)
      = Res.ok (true, some (DeclarationSyntax.VariableAndOrFunctionDeclaration
          [some (SpecifierSyntax.BuiltinTypeSpecifier (some 0))]
          [(some (DeclaratorSyntax.IdentifierDeclarator (some 1) [] [] none none), some 2),
            (some (DeclaratorSyntax.IdentifierDeclarator (some 3) [] [] none none), none)]
          (some 4)))
          ((Parser.start [Keyword_int, IdentifierToken, CommaToken, IdentifierToken,
            SemicolonToken]).advance 5) :=
  (C13_declarator_list Externals.failing (ParserTable.ofFuel Externals.failing 3) none
    [some (SpecifierSyntax.BuiltinTypeSpecifier (some 0))]
    ((Parser.start [Keyword_int, IdentifierToken, CommaToken, IdentifierToken,
      SemicolonToken]).advance 1)
    ((Parser.start [Keyword_int, IdentifierToken, CommaToken, IdentifierToken,
      SemicolonToken]).advance 4)
    [(some (DeclaratorSyntax.IdentifierDeclarator (some 1) [] [] none none), some 2),
      (some (DeclaratorSyntax.IdentifierDeclarator (some 3) [] [] none none), none)]
    (DeclaratorsParsed.more _
      ((Parser.start [Keyword_int, IdentifierToken, CommaToken, IdentifierToken,
        SemicolonToken]).advance 2) _ _ _ rfl rfl
      (DeclaratorsParsed.last _ _ _ rfl rfl))
    (by decide)).1

/-! ## Function definitions and initializers of declarators: claims C12 and C16 -/

theorem DeclaratorSyntax.depth_pos (d : DeclaratorSyntax) : 1 ≤ d.depth := by
  cases d with
  | PointerDeclarator a i q inner e init => cases inner <;> simp [DeclaratorSyntax.depth]
  | IdentifierDeclarator i a1 a2 e init => simp [DeclaratorSyntax.depth]
  | ParenthesizedDeclarator o inner c => cases inner <;> simp [DeclaratorSyntax.depth]
  | AbstractDeclarator a => simp [DeclaratorSyntax.depth]
  | ArrayOrFunctionDeclarator k a1 inner s a2 e init =>
    cases inner <;> simp [DeclaratorSyntax.depth]
  | BitfieldDeclarator inner c x a => cases inner <;> simp [DeclaratorSyntax.depth]

theorem innermostDeclarator_loop_spec (n : Nat) :
    ∀ (d : DeclaratorSyntax) (prev : Option DeclaratorSyntax) (fuel : Nat)
      (pk : Option SyntaxKind) (ik : SyntaxKind),
      d.depth ≤ n → n ≤ fuel →
      d.wrapperAndInnermost (prev.map DeclaratorSyntax.kind) = some (pk, ik) →
      ∃ prev' outer, innermostDeclarator_loop fuel prev d.stripped = some (prev', some outer)
        ∧ prev'.map DeclaratorSyntax.kind = pk ∧ outer.kind = ik := by
  induction n with
  | zero =>
    intro d prev fuel pk ik hd
    have := DeclaratorSyntax.depth_pos d
    omega
  | succ n ih =>
    intro d prev fuel pk ik hd hf hw
    obtain ⟨f, rfl⟩ : ∃ f, fuel = f + 1 := ⟨fuel - 1, by omega⟩
    cases d with
    | PointerDeclarator a i q inner e init =>
      cases inner with
      | none => simp [DeclaratorSyntax.wrapperAndInnermost] at hw
      | some inner =>
        simp only [DeclaratorSyntax.wrapperAndInnermost] at hw
        simp only [DeclaratorSyntax.depth] at hd
        have := ih inner (some (.PointerDeclarator a i q (some inner) e init)) f pk ik
          (by omega) (by omega) hw
        simpa [DeclaratorSyntax.stripped, innermostDeclarator_loop, innerDeclarator,
          strippedDeclarator] using this
    | IdentifierDeclarator i a1 a2 e init =>
      simp only [DeclaratorSyntax.wrapperAndInnermost, Option.some.injEq, Prod.mk.injEq] at hw
      exact ⟨prev, .IdentifierDeclarator i a1 a2 e init,
        by simp [DeclaratorSyntax.stripped, innermostDeclarator_loop, innerDeclarator],
        hw.1, hw.2⟩
    | ParenthesizedDeclarator o inner c =>
      cases inner with
      | none => simp [DeclaratorSyntax.wrapperAndInnermost] at hw
      | some inner =>
        simp only [DeclaratorSyntax.wrapperAndInnermost] at hw
        simp only [DeclaratorSyntax.depth] at hd
        have := ih inner prev (f + 1) pk ik (by omega) (by omega) hw
        simpa [DeclaratorSyntax.stripped] using this
    | AbstractDeclarator a =>
      simp only [DeclaratorSyntax.wrapperAndInnermost, Option.some.injEq, Prod.mk.injEq] at hw
      exact ⟨prev, .AbstractDeclarator a,
        by simp [DeclaratorSyntax.stripped, innermostDeclarator_loop, innerDeclarator],
        hw.1, hw.2⟩
    | ArrayOrFunctionDeclarator k a1 inner s a2 e init =>
      cases inner with
      | none => simp [DeclaratorSyntax.wrapperAndInnermost] at hw
      | some inner =>
        simp only [DeclaratorSyntax.wrapperAndInnermost] at hw
        simp only [DeclaratorSyntax.depth] at hd
        have := ih inner (some (.ArrayOrFunctionDeclarator k a1 (some inner) s a2 e init)) f
          pk ik (by omega) (by omega) hw
        simpa [DeclaratorSyntax.stripped, innermostDeclarator_loop, innerDeclarator,
          strippedDeclarator] using this
    | BitfieldDeclarator inner c x a =>
      cases inner with
      | none => simp [DeclaratorSyntax.wrapperAndInnermost] at hw
      | some inner =>
        simp only [DeclaratorSyntax.wrapperAndInnermost] at hw
        simp only [DeclaratorSyntax.depth] at hd
        have := ih inner (some (.BitfieldDeclarator (some inner) c x a)) f pk ik
          (by omega) (by omega) hw
        simpa [DeclaratorSyntax.stripped, innermostDeclarator_loop, innerDeclarator,
          strippedDeclarator] using this

theorem declaresFunctionOfIdentifier_eq (d : DeclaratorSyntax)
    (h : (d.wrapperAndInnermost none).isSome = true) :
    declaresFunctionOfIdentifier (some d) = Except.ok d.isFunctionOfIdentifier := by
  obtain ⟨⟨pk, ik⟩, hw⟩ := Option.isSome_iff_exists.mp h
  obtain ⟨prev', outer, hloop, hpk, hik⟩ := innermostDeclarator_loop_spec (d.depth + 1) d none
    (d.depth + 1) pk ik (by omega) (Nat.le_refl _) hw
  simp only [declaresFunctionOfIdentifier, strippedDeclarator, hloop,
    DeclaratorSyntax.isFunctionOfIdentifier, hw]
  cases prev' with
  | none =>
    simp only [Option.map_none'] at hpk
    subst hpk
    rfl
  | some pd =>
    simp only [Option.map_some'] at hpk
    subst hpk hik
    by_cases hk : pd.kind = SyntaxKind.FunctionDeclarator
    · simp [hk]
    · simp [hk]

theorem setInitializer_wrapperAndInnermost (e : IndexType) (n : Option InitializerSyntax)
    (d : DeclaratorSyntax) (prev : Option SyntaxKind) :
    (d.setInitializer e n).wrapperAndInnermost prev = d.wrapperAndInnermost prev := by
  cases d with
  | PointerDeclarator a i q inner e' init =>
    cases inner <;> simp [DeclaratorSyntax.setInitializer, DeclaratorSyntax.wrapperAndInnermost]
  | IdentifierDeclarator i a1 a2 e' init =>
    simp [DeclaratorSyntax.setInitializer, DeclaratorSyntax.wrapperAndInnermost]
  | ParenthesizedDeclarator o inner c => rfl
  | AbstractDeclarator a => rfl
  | ArrayOrFunctionDeclarator k a1 inner s a2 e' init =>
    cases inner <;> simp [DeclaratorSyntax.setInitializer, DeclaratorSyntax.wrapperAndInnermost]
  | BitfieldDeclarator inner c x a => rfl

theorem setStrippedInitializer_of_not_parenthesized (e : IndexType)
    (n : Option InitializerSyntax) (d : DeclaratorSyntax)
    (h : ∀ o inner c, d ≠ .ParenthesizedDeclarator o (some inner) c) :
    d.setStrippedInitializer e n = d.setInitializer e n := by
  cases d with
  | ParenthesizedDeclarator o inner c =>
    cases inner with
    | none => rfl
    | some inner => exact absurd rfl (h o inner c)
  | _ => rfl

theorem setStrippedInitializer_spec (e : IndexType) (init : Option InitializerSyntax)
    (n : Nat) :
    ∀ d : DeclaratorSyntax, d.depth ≤ n →
      (∀ prev, (d.setStrippedInitializer e init).wrapperAndInnermost prev
        = d.wrapperAndInnermost prev)
      ∧ (∀ strip, d.stripped = some strip →
        (d.setStrippedInitializer e init).stripped = some (strip.setInitializer e init)) := by
  induction n with
  | zero => intro d hd; have := DeclaratorSyntax.depth_pos d; omega
  | succ n ih =>
    intro d hd
    cases d with
    | ParenthesizedDeclarator o inner c =>
      cases inner with
      | none =>
        refine ⟨fun prev => rfl, fun strip h => ?_⟩
        simp [DeclaratorSyntax.stripped] at h
      | some inner =>
        simp only [DeclaratorSyntax.depth] at hd
        obtain ⟨h1, h2⟩ := ih inner (by omega)
        refine ⟨fun prev => ?_, fun strip h => ?_⟩
        · simp only [DeclaratorSyntax.setStrippedInitializer,
            DeclaratorSyntax.wrapperAndInnermost]
          exact h1 prev
        · simp only [DeclaratorSyntax.stripped] at h
          simp only [DeclaratorSyntax.setStrippedInitializer, DeclaratorSyntax.stripped]
          exact h2 strip h
    | PointerDeclarator a i q inner e' init' =>
      refine ⟨fun prev => setInitializer_wrapperAndInnermost e init _ prev, fun strip h => ?_⟩
      simp only [DeclaratorSyntax.stripped, Option.some.injEq] at h
      subst h
      rfl
    | IdentifierDeclarator i a1 a2 e' init' =>
      refine ⟨fun prev => setInitializer_wrapperAndInnermost e init _ prev, fun strip h => ?_⟩
      simp only [DeclaratorSyntax.stripped, Option.some.injEq] at h
      subst h
      rfl
    | AbstractDeclarator a =>
      refine ⟨fun prev => rfl, fun strip h => ?_⟩
      simp only [DeclaratorSyntax.stripped, Option.some.injEq] at h
      subst h
      rfl
    | ArrayOrFunctionDeclarator k a1 inner s a2 e' init' =>
      refine ⟨fun prev => setInitializer_wrapperAndInnermost e init _ prev, fun strip h => ?_⟩
      simp only [DeclaratorSyntax.stripped, Option.some.injEq] at h
      subst h
      rfl
    | BitfieldDeclarator inner c x a =>
      refine ⟨fun prev => rfl, fun strip h => ?_⟩
      simp only [DeclaratorSyntax.stripped, Option.some.injEq] at h
      subst h
      rfl

theorem setStrippedInitializer_isFunctionOfIdentifier (e : IndexType)
    (init : Option InitializerSyntax) (d : DeclaratorSyntax) :
    (d.setStrippedInitializer e init).isFunctionOfIdentifier = d.isFunctionOfIdentifier
      ∧ ((d.setStrippedInitializer e init).wrapperAndInnermost none).isSome
        = (d.wrapperAndInnermost none).isSome := by
  have h := (setStrippedInitializer_spec e init d.depth d (Nat.le_refl _)).1 none
  simp only [DeclaratorSyntax.isFunctionOfIdentifier, h, and_self]

theorem definition_test_at_open_brace (pre : List (Option DeclaratorSyntax × IndexType))
    (d : DeclaratorSyntax) (q : Parser)
    (hspine : (d.wrapperAndInnermost none).isSome = true)
    (hbrace : q.peek 1 = OpenBraceToken) :
    (if q.peek 1 = OpenBraceToken ∧ pre.isEmpty = true then
        declaresFunctionOfIdentifier (some d) else Except.ok false)
      = Except.ok (pre.isEmpty && d.isFunctionOfIdentifier) := by
  rw [declaresFunctionOfIdentifier_eq d hspine]
  cases hp : pre.isEmpty <;> simp [hbrace]

/-- C12, as amended: in parseDeclarationOrFunctionDefinition_AtFollowOfSpecifiers, a
`{` after a declarator (whose slots `innerDecltor_` down to its identifier or abstract
declarator are not null) produces a FunctionDefinition, with the specifier list, that
declarator and the compound-statement body, exactly when the declarator is the first of
the declaration, its innermost declarator is an identifier declarator and the declarator
directly around that one, parentheses aside, is a function declarator; a `{` after a
second or later declarator, or after a first declarator of any other shape, is reported
(ExpectedFOLLOWofDeclarator, or ExpectedFOLLOWofInitializedDeclarator when an
initializer was parsed) and the routine returns failure. -/
theorem C12_function_definition_at_open_brace (ext : Externals) (rec : ParserTable)
    (specList : SpecifierList) (fuel : Nat) (decl : Option DeclarationSyntax)
    (pre : List (Option DeclaratorSyntax × IndexType)) (p q : Parser) (d : DeclaratorSyntax)
    (hd : parseDeclarator ext rec none DeclarationScope.File DeclaratorVariety.Named p
      = Res.ok (true, some d) q)
    (hspine : (d.wrapperAndInnermost none).isSome = true) :
    (q.peek 1 = OpenBraceToken →
      parseDeclarationOrFunctionDefinition_AtFollowOfSpecifiers_loop ext rec specList
          (fuel + 1) decl pre p
        = if (pre.isEmpty && d.isFunctionOfIdentifier) = true then
            (ext.parseCompoundStatement_AtFirst q).andThen (fun b s =>
              Res.ok (true, some (DeclarationSyntax.FunctionDefinition specList (some d) b.2)) s)
          else Res.ok (false, decl) (q.report Diagnostic.ExpectedFOLLOWofDeclarator))
    ∧ (∀ (i : Option InitializerSyntax) (s : Parser),
      q.peek 1 = EqualsToken → takesInitializer (some d) = Except.ok true →
      parseInitializer ext rec none (q.advance 1) = Res.ok (true, i) s →
      s.peek 1 = OpenBraceToken →
      parseDeclarationOrFunctionDefinition_AtFollowOfSpecifiers_loop ext rec specList
          (fuel + 1) decl pre p
        = if (pre.isEmpty && d.isFunctionOfIdentifier) = true then
            (ext.parseCompoundStatement_AtFirst s).andThen (fun b t =>
              Res.ok (true, some (DeclarationSyntax.FunctionDefinition specList
                (some (d.setStrippedInitializer (some q.curTkIdx_) i)) b.2)) t)
          else Res.ok (false, decl)
            (s.report Diagnostic.ExpectedFOLLOWofInitializedDeclarator)) := by
  refine ⟨fun hbrace => ?_, fun i s heq htakes hi hbrace => ?_⟩
  · rw [follow_loop_step ext rec specList fuel decl pre p q (some d) hd
      (by rw [hbrace]; decide)]
    rw [followOfDeclarator_other ext specList decl pre _ (some d) false q
      (by rw [hbrace]; decide) (by rw [hbrace]; decide) _
      (definition_test_at_open_brace pre d q hspine hbrace)]
    simp
  · have hset := setStrippedInitializer_isFunctionOfIdentifier (some q.curTkIdx_) i d
    rw [follow_loop_equals ext rec specList fuel decl pre p q (some d) hd heq true htakes]
    simp only [if_true, hi, Res.andThen_ok, Option.map_some']
    rw [followOfDeclarator_other ext specList decl pre _
      (some (d.setStrippedInitializer (some q.curTkIdx_) i)) true s
      (by rw [hbrace]; decide) (by rw [hbrace]; decide) _
      (definition_test_at_open_brace pre _ s (by rw [hset.2]; exact hspine) hbrace)]
    rw [hset.1]
    simp

/-- An instance of C12: `f ( ) { }` as the first declarator behind the specifier `int`,
and `x { }`, which is reported. -/
theorem C12_function_definition_at_open_brace_witness :
    parseDeclarationOrFunctionDefinition_AtFollowOfSpecifiers_loop Externals.ofExamples
        (ParserTable.ofFuel Externals.ofExamples 3)
        [some (SpecifierSyntax.BuiltinTypeSpecifier (some 0))] 1 none []
        ((Parser.start [Keyword_int, IdentifierToken, OpenParenToken, CloseParenToken,
          OpenBraceToken, CloseBraceToken]).advance 1)
      = Res.ok (true, some (DeclarationSyntax.FunctionDefinition
          [some (SpecifierSyntax.BuiltinTypeSpecifier (some 0))]
          (some (DeclaratorSyntax.ArrayOrFunctionDeclarator FunctionDeclarator []
            (some (DeclaratorSyntax.IdentifierDeclarator (some 1) [] [] none none))
            (some (DeclaratorSuffixSyntax.ParameterSuffix (some 2) none none (some 3) none))
            [] none none))
          (some ⟨4⟩)))
          ((Parser.start [Keyword_int, IdentifierToken, OpenParenToken, CloseParenToken,
            OpenBraceToken, CloseBraceToken]).advance 6)
    ∧ parseDeclarationOrFunctionDefinition_AtFollowOfSpecifiers_loop Externals.ofExamples
        (ParserTable.ofFuel Externals.ofExamples 3)
        [some (SpecifierSyntax.BuiltinTypeSpecifier (some 0))] 1 none []
        ((Parser.start [Keyword_int, IdentifierToken, OpenBraceToken,
          CloseBraceToken]).advance 1)
      = Res.ok (false, none)
          (((Parser.start [Keyword_int, IdentifierToken, OpenBraceToken,
            CloseBraceToken]).advance 2).report Diagnostic.ExpectedFOLLOWofDeclarator) :=
  ⟨(C12_function_definition_at_open_brace Externals.ofExamples
      (ParserTable.ofFuel Externals.ofExamples 3)
      [some (SpecifierSyntax.BuiltinTypeSpecifier (some 0))] 0 none []
      ((Parser.start [Keyword_int, IdentifierToken, OpenParenToken, CloseParenToken,
        OpenBraceToken, CloseBraceToken]).advance 1)
      ((Parser.start [Keyword_int, IdentifierToken, OpenParenToken, CloseParenToken,
        OpenBraceToken, CloseBraceToken]).advance 4)
      (DeclaratorSyntax.ArrayOrFunctionDeclarator FunctionDeclarator []
        (some (DeclaratorSyntax.IdentifierDeclarator (some 1) [] [] none none))
        (some (DeclaratorSuffixSyntax.ParameterSuffix (some 2) none none (some 3) none))
        [] none none) rfl rfl).1 rfl,
   (C12_function_definition_at_open_brace Externals.ofExamples
      (ParserTable.ofFuel Externals.ofExamples 3)
      [some (SpecifierSyntax.BuiltinTypeSpecifier (some 0))] 0 none []
      ((Parser.start [Keyword_int, IdentifierToken, OpenBraceToken,
        CloseBraceToken]).advance 1)
      ((Parser.start [Keyword_int, IdentifierToken, OpenBraceToken,
        CloseBraceToken]).advance 2)
      (DeclaratorSyntax.IdentifierDeclarator (some 1) [] [] none none) rfl rfl).1 rfl⟩

/-- C12, the counterexample: in `int * f ( ) { }` the outermost non-parenthesized shape
of the declarator `* f ( )` is a pointer declarator, not a function declarator, and the
`{` behind it produces a FunctionDefinition with no report. -/
theorem C12_counterexample_function_returning_pointer :
    parseDeclarationOrFunctionDefinition Externals.ofExamples
        (ParserTable.ofFuel Externals.ofExamples 4) none
        (Parser.start exampleFunctionReturningPointerTokens)
      = Res.ok (true, some (DeclarationSyntax.FunctionDefinition
          [some (SpecifierSyntax.BuiltinTypeSpecifier (some 0))]
          (some (DeclaratorSyntax.PointerDeclarator [] (some 1) []
            (some (DeclaratorSyntax.ArrayOrFunctionDeclarator FunctionDeclarator []
              (some (DeclaratorSyntax.IdentifierDeclarator (some 2) [] [] none none))
              (some (DeclaratorSuffixSyntax.ParameterSuffix (some 3) none none (some 4) none))
              [] none none))
            none none))
          (some ⟨5⟩)))
          ((Parser.start exampleFunctionReturningPointerTokens).advance 7)
    ∧ (strippedDeclarator (some (DeclaratorSyntax.PointerDeclarator [] (some 1) []
          (some (DeclaratorSyntax.ArrayOrFunctionDeclarator FunctionDeclarator []
            (some (DeclaratorSyntax.IdentifierDeclarator (some 2) [] [] none none))
            (some (DeclaratorSuffixSyntax.ParameterSuffix (some 3) none none (some 4) none))
            [] none none))
          none none))).map DeclaratorSyntax.kind = some PointerDeclarator
    ∧ ((Parser.start exampleFunctionReturningPointerTokens).advance 7).diagnostics = [] :=
  ⟨rfl, rfl, rfl⟩

theorem takesInitializer_function_rejected (d : DeclaratorSyntax)
    (a1 a2 : List (Option SpecifierSyntax)) (inner : Option DeclaratorSyntax)
    (sfx : Option DeclaratorSuffixSyntax) (e : IndexType) (n : Option InitializerSyntax)
    (hstrip : d.stripped
      = some (.ArrayOrFunctionDeclarator FunctionDeclarator a1 inner sfx a2 e n))
    (hinner : inner = none
      ∨ ∃ i si, inner = some i ∧ i.stripped = some si ∧ si.kind ≠ PointerDeclarator) :
    takesInitializer (some d) = Except.ok false := by
  have hkind : ∀ inner, (DeclaratorSyntax.ArrayOrFunctionDeclarator FunctionDeclarator a1
      inner sfx a2 e n).kind = FunctionDeclarator := fun _ => rfl
  rcases hinner with rfl | ⟨i, si, rfl, hsi, hk⟩
  · simp [takesInitializer, strippedDeclarator, hstrip, hkind]
  · simp [takesInitializer, strippedDeclarator, hstrip, hkind, hsi, hk]

theorem takesInitializer_accepted (d strip : DeclaratorSyntax)
    (hstrip : d.stripped = some strip)
    (hshape : strip.kind = IdentifierDeclarator ∨ strip.kind = PointerDeclarator
      ∨ strip.kind = ArrayDeclarator
      ∨ ∃ a1 i sfx a2 e n si,
        strip = .ArrayOrFunctionDeclarator FunctionDeclarator a1 (some i) sfx a2 e n
          ∧ i.stripped = some si ∧ si.kind = PointerDeclarator) :
    takesInitializer (some d) = Except.ok true := by
  rcases hshape with h | h | h | ⟨a1, i, sfx, a2, e, n, si, rfl, hsi, hk⟩
  · simp [takesInitializer, strippedDeclarator, hstrip, h]
  · simp [takesInitializer, strippedDeclarator, hstrip, h]
  · simp [takesInitializer, strippedDeclarator, hstrip, h]
  · have hkind : (DeclaratorSyntax.ArrayOrFunctionDeclarator FunctionDeclarator a1
        (some i) sfx a2 e n).kind = FunctionDeclarator := rfl
    simp [takesInitializer, strippedDeclarator, hstrip, hkind, hsi, hk]

theorem initializerSlots_setInitializer (strip : DeclaratorSyntax) (e : IndexType)
    (n : Option InitializerSyntax)
    (hshape : strip.kind = IdentifierDeclarator ∨ strip.kind = PointerDeclarator
      ∨ strip.kind = ArrayDeclarator ∨ strip.kind = FunctionDeclarator) :
    (strip.setInitializer e n).initializerSlots = some (e, n) := by
  cases strip with
  | PointerDeclarator a i q inner e' init => rfl
  | IdentifierDeclarator i a1 a2 e' init => rfl
  | ArrayOrFunctionDeclarator k a1 inner s a2 e' init => rfl
  | ParenthesizedDeclarator o inner c => simp [DeclaratorSyntax.kind] at hshape
  | AbstractDeclarator a => simp [DeclaratorSyntax.kind] at hshape
  | BitfieldDeclarator inner c x a => simp [DeclaratorSyntax.kind] at hshape

/-- C16, as amended: let a declarator be followed by `=` in
parseDeclarationOrFunctionDefinition_AtFollowOfSpecifiers. When its outermost
non-parenthesized shape is a function declarator whose inner declarator is null or,
parentheses aside, not a pointer declarator (such as `f ( void )`), the routine reports
UnexpectedInitializerOfDeclarator, consumes no `=`, attaches no initializer and returns
what ignoreDeclarator returns. When that shape is an identifier, pointer (`* f ( void )`
included), array or function-pointer declarator, the `=` is consumed with no such
report, the initializer is parsed behind it, and the index of the `=` and the parsed
initializer are stored in the slots of that outermost non-parenthesized declarator. -/
theorem C16_initializer_by_shape (ext : Externals) (rec : ParserTable)
    (specList : SpecifierList) (fuel : Nat) (decl : Option DeclarationSyntax)
    (pre : List (Option DeclaratorSyntax × IndexType)) (p q : Parser)
    (d strip : DeclaratorSyntax)
    (hd : parseDeclarator ext rec none DeclarationScope.File DeclaratorVariety.Named p
      = Res.ok (true, some d) q)
    (hequals : q.peek 1 = EqualsToken)
    (hstrip : d.stripped = some strip) :
    ((∃ a1 inner sfx a2 e n,
        strip = .ArrayOrFunctionDeclarator FunctionDeclarator a1 inner sfx a2 e n
          ∧ (inner = none
            ∨ ∃ i si, inner = some i ∧ i.stripped = some si ∧ si.kind ≠ PointerDeclarator)) →
      parseDeclarationOrFunctionDefinition_AtFollowOfSpecifiers_loop ext rec specList
          (fuel + 1) decl pre p
        = (ext.ignoreDeclarator (q.report Diagnostic.UnexpectedInitializerOfDeclarator)).andThen
            (fun g s => Res.ok (g, decl) s))
    ∧ ((strip.kind = IdentifierDeclarator ∨ strip.kind = PointerDeclarator
        ∨ strip.kind = ArrayDeclarator
        ∨ ∃ a1 i sfx a2 e n si,
          strip = .ArrayOrFunctionDeclarator FunctionDeclarator a1 (some i) sfx a2 e n
            ∧ i.stripped = some si ∧ si.kind = PointerDeclarator) →
      parseDeclarationOrFunctionDefinition_AtFollowOfSpecifiers_loop ext rec specList
          (fuel + 1) decl pre p
        = (parseInitializer ext rec none (q.advance 1)).andThen (fun i s =>
            if i.1 = true then
              parseFollowOfDeclarator ext specList decl pre
                (parseDeclarationOrFunctionDefinition_AtFollowOfSpecifiers_loop ext rec
                  specList fuel decl)
                (some (d.setStrippedInitializer (some q.curTkIdx_) i.2)) true s
            else Res.ok (false, decl) s)
        ∧ ∀ init, (d.setStrippedInitializer (some q.curTkIdx_) init).stripped.bind
            DeclaratorSyntax.initializerSlots = some (some q.curTkIdx_, init)) := by
  refine ⟨?_, fun hshape => ⟨?_, fun init => ?_⟩⟩
  · rintro ⟨a1, inner, sfx, a2, e, n, rfl, hinner⟩
    rw [follow_loop_equals ext rec specList fuel decl pre p q (some d) hd hequals false
      (takesInitializer_function_rejected d a1 a2 inner sfx e n hstrip hinner)]
    simp
  · rw [follow_loop_equals ext rec specList fuel decl pre p q (some d) hd hequals true
      (takesInitializer_accepted d strip hstrip hshape)]
    simp
  · rw [(setStrippedInitializer_spec (some q.curTkIdx_) init d.depth d (Nat.le_refl _)).2
      strip hstrip]
    simp only [Option.some_bind]
    apply initializerSlots_setInitializer
    rcases hshape with h | h | h | ⟨a1, i, sfx, a2, e, n, si, rfl, -, -⟩
    · exact Or.inl h
    · exact Or.inr (Or.inl h)
    · exact Or.inr (Or.inr (Or.inl h))
    · exact Or.inr (Or.inr (Or.inr rfl))

/-- An instance of C16: `f ( ) = 1 ;` behind the specifier `int` is reported and the
cursor stays at the `=`; in `x = 1 ;` the declarator receives the index of the `=`. -/
theorem C16_initializer_by_shape_witness :
    parseDeclarationOrFunctionDefinition_AtFollowOfSpecifiers_loop Externals.ofExamples
        (ParserTable.ofFuel Externals.ofExamples 3)
        [some (SpecifierSyntax.BuiltinTypeSpecifier (some 0))] 1 none []
        ((Parser.start [Keyword_int, IdentifierToken, OpenParenToken, CloseParenToken,
          EqualsToken, IntegerConstantToken, SemicolonToken]).advance 1)
      = Res.ok (false, none)
          (((Parser.start [Keyword_int, IdentifierToken, OpenParenToken, CloseParenToken,
            EqualsToken, IntegerConstantToken, SemicolonToken]).advance 4).report
              Diagnostic.UnexpectedInitializerOfDeclarator)
    ∧ ∀ init, (DeclaratorSyntax.setStrippedInitializer (some 2) init
          (DeclaratorSyntax.IdentifierDeclarator (some 1) [] [] none none)).stripped.bind
        DeclaratorSyntax.initializerSlots = some (some 2, init) :=
  ⟨(C16_initializer_by_shape Externals.ofExamples
      (ParserTable.ofFuel Externals.ofExamples 3)
      [some (SpecifierSyntax.BuiltinTypeSpecifier (some 0))] 0 none []
      ((Parser.start [Keyword_int, IdentifierToken, OpenParenToken, CloseParenToken,
        EqualsToken, IntegerConstantToken, SemicolonToken]).advance 1)
      ((Parser.start [Keyword_int, IdentifierToken, OpenParenToken, CloseParenToken,
        EqualsToken, IntegerConstantToken, SemicolonToken]).advance 4)
      (DeclaratorSyntax.ArrayOrFunctionDeclarator FunctionDeclarator []
        (some (DeclaratorSyntax.IdentifierDeclarator (some 1) [] [] none none))
        (some (DeclaratorSuffixSyntax.ParameterSuffix (some 2) none none (some 3) none))
        [] none none)
      (DeclaratorSyntax.ArrayOrFunctionDeclarator FunctionDeclarator []
        (some (DeclaratorSyntax.IdentifierDeclarator (some 1) [] [] none none))
        (some (DeclaratorSuffixSyntax.ParameterSuffix (some 2) none none (some 3) none))
        [] none none) rfl rfl rfl).1
      ⟨_, _, _, _, _, _, rfl, Or.inr ⟨_, _, rfl, rfl, by decide⟩⟩,
   ((C16_initializer_by_shape Externals.ofExamples
      (ParserTable.ofFuel Externals.ofExamples 3)
      [some (SpecifierSyntax.BuiltinTypeSpecifier (some 0))] 0 none []
      ((Parser.start [Keyword_int, IdentifierToken, EqualsToken, IntegerConstantToken,
        SemicolonToken]).advance 1)
      ((Parser.start [Keyword_int, IdentifierToken, EqualsToken, IntegerConstantToken,
        SemicolonToken]).advance 2)
      (DeclaratorSyntax.IdentifierDeclarator (some 1) [] [] none none)
      (DeclaratorSyntax.IdentifierDeclarator (some 1) [] [] none none) rfl rfl rfl).2
      (Or.inl rfl)).2⟩

/-- C16, the counterexample: `* f ( )` declares a function and not a pointer to
function, and in `int * f ( ) = 1 ;` the `=` behind it is consumed, its index and the
initializer are stored on the declarator, and nothing is reported. -/
theorem C16_counterexample_function_returning_pointer :
    parseDeclarationOrFunctionDefinition Externals.ofExamples
        (ParserTable.ofFuel Externals.ofExamples 6) none
        (Parser.start exampleInitializedFunctionTokens)
      = Res.ok (true, some (DeclarationSyntax.VariableAndOrFunctionDeclaration
          [some (SpecifierSyntax.BuiltinTypeSpecifier (some 0))]
          [(some (DeclaratorSyntax.PointerDeclarator [] (some 1) []
            (some (DeclaratorSyntax.ArrayOrFunctionDeclarator FunctionDeclarator []
              (some (DeclaratorSyntax.IdentifierDeclarator (some 2) [] [] none none))
              (some (DeclaratorSuffixSyntax.ParameterSuffix (some 3) none none (some 4) none))
              [] none none))
            (some 5)
            (some (InitializerSyntax.ExpressionInitializer
              (some (ExpressionSyntax.ConstantExpression IntegerConstantExpression (some 6)))))),
            none)]
          (some 7)))
          ((Parser.start exampleInitializedFunctionTokens).advance 8)
    ∧ ((Parser.start exampleInitializedFunctionTokens).advance 8).diagnostics = [] :=
  ⟨rfl, rfl⟩

/-! ## The oracle leaves the parser as it is: claim C26 -/

theorem determineIdentifierRole_step_loop (p : Parser) (fuel LA : Nat) (seenType : Bool)
    (parenCnt : Int) :
    determineIdentifierRole_loop p (fuel + 1) LA seenType parenCnt
      = match determineIdentifierRole_step (p.peek LA) seenType parenCnt with
        | Sum.inl role => some role
        | Sum.inr (s, c) => determineIdentifierRole_loop p fuel (LA + 1) s c := by
  rw [determineIdentifierRole_loop]
  generalize p.peek LA = tk
  cases tk <;> simp only [determineIdentifierRole_step] <;> split_ifs <;> rfl

theorem determineIdentifierRole_run_loop_eq (p : Parser) :
    ∀ (fuel LA : Nat) (seenType : Bool) (parenCnt : Int),
      determineIdentifierRole_run_loop fuel LA seenType parenCnt p
        = match determineIdentifierRole_loop p fuel LA seenType parenCnt with
          | some role => Res.ok role p
          | none => Res.fault Fault.outOfFuel := by
  intro fuel
  induction fuel with
  | zero => intro LA s c; rfl
  | succ n ih =>
    intro LA s c
    rw [determineIdentifierRole_step_loop, determineIdentifierRole_run_loop]
    simp only [run_bind, run_peek, Res.andThen_ok]
    cases h : determineIdentifierRole_step (p.peek LA) s c with
    | inl role => rfl
    | inr sc => exact ih (LA + 1) sc.1 sc.2

/-- C26: `determineIdentifierRole` has no side effect on the parser. For every token
stream, cursor and flag, the call returns (it does not run out of fuel), its answer is
that of `determineIdentifierRole`, and the parser after the call is the parser before
it: the cursor, the reports and every other field are as they were. -/
theorem C26_determineIdentifierRole_no_side_effect (p : Parser) (seenType : Bool) :
    ∃ role, determineIdentifierRole_run seenType p = Res.ok role p
      ∧ determineIdentifierRole p seenType = some role := by
  have h := determineIdentifierRole_loop_eq p (p.tokens.length + 1) 2 seenType 0 (by omega)
    (by rw [List.length_drop]; omega)
  refine ⟨_, ?_, h⟩
  unfold determineIdentifierRole_run
  rw [determineIdentifierRole_run_loop_eq, h]

/-! ## The ellipsis of a parameter list: claim C30 -/

theorem peek_advance (p : Parser) (n k : Nat) : (p.advance n).peek k = p.peek (n + k) := by
  simp only [Parser.peek, Parser.advance]
  congr 1
  omega

theorem setLastDelim_snoc {α : Type} (acc : List (α × IndexType)) (a : α) (i idx : IndexType) :
    setLastDelim (acc ++ [(a, i)]) idx = acc ++ [(a, idx)] := by
  induction acc with
  | nil => rfl
  | cons c cs ih =>
    cases cs with
    | nil => rfl
    | cons c2 cs2 =>
      have h : setLastDelim (c :: ((c2 :: cs2) ++ [(a, i)])) idx
          = c :: setLastDelim ((c2 :: cs2) ++ [(a, i)]) idx := rfl
      rw [List.cons_append, h, ih]
      rfl

theorem setLastDelim_cons_cons {α : Type} (c c2 : α × IndexType) (cs : List (α × IndexType))
    (idx : IndexType) :
    setLastDelim (c :: c2 :: cs) idx = c :: setLastDelim (c2 :: cs) idx := rfl

theorem ParametersParsed_ne_nil {ext : Externals} {p r : Parser}
    {cells : ParameterDeclarationList} (h : ParametersParsed ext p cells r) : cells ≠ [] := by
  cases h <;> simp

theorem parameterDeclarationList_loop_parameters (ext : Externals) {p r : Parser}
    {cells : ParameterDeclarationList} (h : ParametersParsed ext p cells r) :
    ∀ (acc : ParameterDeclarationList) (fuel : Nat), cells.length ≤ fuel →
      (r.peek 1 ≠ CommaToken →
        (ext.parseParameterDeclaration p).andThen (fun x s =>
          if x.1 = true then
            parseParameterDeclarationList_loop ext fuel (acc ++ [(x.2, none)]) s
          else Res.ok (false, acc ++ [(x.2, none)]) s)
        = Res.ok (true, acc ++ cells) r)
      ∧ (r.peek 1 = CommaToken → r.peek 2 = EllipsisToken →
        (ext.parseParameterDeclaration p).andThen (fun x s =>
          if x.1 = true then
            parseParameterDeclarationList_loop ext fuel (acc ++ [(x.2, none)]) s
          else Res.ok (false, acc ++ [(x.2, none)]) s)
        = Res.ok (true, acc ++ setLastDelim cells (some r.curTkIdx_)) (r.advance 1)) := by
  induction h with
  | last p q d hd =>
    intro acc fuel hf
    obtain ⟨f, rfl⟩ : ∃ f, fuel = f + 1 := ⟨fuel - 1, by simp at hf; omega⟩
    refine ⟨fun hne => ?_, fun hc he => ?_⟩
    · simp [hd, parseParameterDeclarationList_loop, hne]
    · have hcons := consume_of_peek (p := q) (by rw [hc]; decide)
      have hpk : (q.advance 1).peek 1 = EllipsisToken := by rw [peek_advance]; exact he
      simp [hd, parseParameterDeclarationList_loop, hc, hcons, hpk, setLastDelim_snoc,
        setLastDelim]
  | more p q r d cells hd hc hne hrest ih =>
    intro acc fuel hf
    obtain ⟨f, rfl⟩ : ∃ f, fuel = f + 1 := ⟨fuel - 1, by simp at hf; omega⟩
    have hcons := consume_of_peek (p := q) (by rw [hc]; decide)
    have hpk : (q.advance 1).peek 1 ≠ EllipsisToken := by rw [peek_advance]; exact hne
    have hih := ih (acc ++ [(d, some q.curTkIdx_)]) f (by simp at hf; omega)
    have hnil := ParametersParsed_ne_nil hrest
    have hstep : (ext.parseParameterDeclaration p).andThen (fun x s =>
          if x.1 = true then
            parseParameterDeclarationList_loop ext (f + 1) (acc ++ [(x.2, none)]) s
          else Res.ok (false, acc ++ [(x.2, none)]) s)
        = (ext.parseParameterDeclaration (q.advance 1)).andThen (fun x s =>
          if x.1 = true then
            parseParameterDeclarationList_loop ext f
              ((acc ++ [(d, some q.curTkIdx_)]) ++ [(x.2, none)]) s
          else Res.ok (false, (acc ++ [(d, some q.curTkIdx_)]) ++ [(x.2, none)]) s) := by
      simp only [hd, Res.andThen_ok, if_true]
      rw [parseParameterDeclarationList_loop]
      simp only [run_bind, run_peek, Res.andThen_ok, hc, if_true, run_consume, hcons,
        setLastDelim_snoc, hpk, if_false]
      cases ext.parseParameterDeclaration (q.advance 1) with
      | ok x s => cases hx : x.1 <;> simp [hx]
      | fault e => rfl
    have hcells : ∀ idx, setLastDelim ((d, some q.curTkIdx_) :: cells) idx
        = (d, some q.curTkIdx_) :: setLastDelim cells idx := by
      intro idx
      cases cells with
      | nil => exact absurd rfl hnil
      | cons c cs => rfl
    refine ⟨fun hr => ?_, fun hr he => ?_⟩
    · rw [hstep, hih.1 hr]; simp
    · rw [hstep, hih.2 hr he, hcells]; simp

/-- C30: in `parseParameterDeclarationListAndOrEllipsis`, called on the empty slots of a
new parameter suffix. When `...` is the first token, `ExpectedNamedParameterBeforeEllipsis`
is reported once, the index of the `...` is recorded, the parameter list stays empty and
the routine returns true. When parameters precede the `...` (they parse one after the
other, leaving the state `r`), behind a comma or not, the index of the `...` is recorded,
the list holds the parameters, and the routine returns true in the state behind the
`...`, which has the reports of `r`: nothing is reported. -/
theorem C30_ellipsis_in_parameter_list (ext : Externals) (rec : ParserTable) (p : Parser) :
    (p.peek 1 = EllipsisToken →
      parseParameterDeclarationListAndOrEllipsis ext rec [] none p
        = Res.ok (true, [], some p.curTkIdx_)
            ((p.report Diagnostic.ExpectedNamedParameterBeforeEllipsis).advance 1))
    ∧ (∀ (cells : ParameterDeclarationList) (r : Parser),
      ParametersParsed ext p cells r →
      p.peek 1 ≠ CloseParenToken → p.peek 1 ≠ EllipsisToken → cells.length ≤ rec.fuel →
      (r.peek 1 = CommaToken → r.peek 2 = EllipsisToken →
        parseParameterDeclarationListAndOrEllipsis ext rec [] none p
          = Res.ok (true, setLastDelim cells (some r.curTkIdx_), some (r.curTkIdx_ + 1))
              (r.advance 2))
      ∧ (r.peek 1 = EllipsisToken →
        parseParameterDeclarationListAndOrEllipsis ext rec [] none p
          = Res.ok (true, cells, some r.curTkIdx_) (r.advance 1))) := by
  refine ⟨fun he => ?_, fun cells r hparsed h1 h2 hfuel => ?_⟩
  · have hpk : (p.report Diagnostic.ExpectedNamedParameterBeforeEllipsis).peek 1
        ≠ EndOfFile := by
      show p.peek 1 ≠ EndOfFile
      rw [he]; decide
    have hcons := consume_of_peek hpk
    simp [parseParameterDeclarationListAndOrEllipsis, he, hcons]
    rfl
  · have hloop := parameterDeclarationList_loop_parameters ext hparsed [] rec.fuel hfuel
    have hlist : ∀ res : ParameterDeclarationList × Parser, (ext.parseParameterDeclaration p).andThen (fun x s =>
          if x.1 = true then
            parseParameterDeclarationList_loop ext rec.fuel ([] ++ [(x.2, none)]) s
          else Res.ok (false, [] ++ [(x.2, none)]) s) = Res.ok (true, res.1) res.2 →
        parseParameterDeclarationList ext rec [] p = Res.ok (true, res.1) res.2 := by
      intro res hres
      unfold parseParameterDeclarationList
      simp only [run_bind]
      cases hx : ext.parseParameterDeclaration p with
      | ok x s =>
        rw [hx] at hres
        cases hx1 : x.1
        · simp [hx1] at hres
        · simpa [hx1] using hres
      | fault e => rw [hx] at hres; simp at hres
    refine ⟨fun hc he => ?_, fun he => ?_⟩
    · have hl : parseParameterDeclarationList ext rec [] p
          = Res.ok (true, setLastDelim cells (some r.curTkIdx_)) (r.advance 1) :=
        hlist (setLastDelim cells (some r.curTkIdx_), r.advance 1)
          (by simpa using hloop.2 hc he)
      have hpk : (r.advance 1).peek 1 = EllipsisToken := by rw [peek_advance]; exact he
      have hcons := consume_of_peek (p := r.advance 1) (by rw [hpk]; decide)
      simp [parseParameterDeclarationListAndOrEllipsis, h1, h2, hl, hpk, hcons]
    · have hl : parseParameterDeclarationList ext rec [] p = Res.ok (true, cells) r :=
        hlist (cells, r) (by simpa using hloop.1 (by rw [he]; decide))
      have hcons := consume_of_peek (p := r) (by rw [he]; decide)
      simp [parseParameterDeclarationListAndOrEllipsis, h1, h2, hl, he, hcons]

/-- An instance of C30: `...` alone is reported, and in `int a , ...` the index 3 of the
`...` is recorded behind the parameter, whose cell holds the index 2 of the comma. -/
theorem C30_ellipsis_in_parameter_list_witness :
    parseParameterDeclarationListAndOrEllipsis Externals.ofParameterExamples
        (ParserTable.ofFuel Externals.ofParameterExamples 2) [] none
        (Parser.start [EllipsisToken, CloseParenToken])
      = Res.ok (true, [], some 0)
          (((Parser.start [EllipsisToken, CloseParenToken]).report
            Diagnostic.ExpectedNamedParameterBeforeEllipsis).advance 1)
    ∧ parseParameterDeclarationListAndOrEllipsis Externals.ofParameterExamples
        (ParserTable.ofFuel Externals.ofParameterExamples 2) [] none
        (Parser.start [Keyword_int, IdentifierToken, CommaToken, EllipsisToken,
          CloseParenToken])
      = Res.ok (true, [(some ⟨0⟩, some 2)], some 3)
          ((Parser.start [Keyword_int, IdentifierToken, CommaToken, EllipsisToken,
            CloseParenToken]).advance 4) :=
  ⟨(C30_ellipsis_in_parameter_list Externals.ofParameterExamples
      (ParserTable.ofFuel Externals.ofParameterExamples 2)
      (Parser.start [EllipsisToken, CloseParenToken])).1 rfl,
   ((C30_ellipsis_in_parameter_list Externals.ofParameterExamples
      (ParserTable.ofFuel Externals.ofParameterExamples 2)
      (Parser.start [Keyword_int, IdentifierToken, CommaToken, EllipsisToken,
        CloseParenToken])).2 [(some ⟨0⟩, none)]
      ((Parser.start [Keyword_int, IdentifierToken, CommaToken, EllipsisToken,
        CloseParenToken]).advance 2)
      (ParametersParsed.last _ _ _ rfl) (by decide) (by decide) (by decide)).1 rfl rfl⟩

/-! ## The conditional with an elided operand: claim C21 -/

theorem afterElidedOperandFeature_facts (p : Parser) :
    p.afterElidedOperandFeature.rest = p.rest
      ∧ p.afterElidedOperandFeature.curTkIdx_ = p.curTkIdx_
      ∧ p.afterElidedOperandFeature.depthOfExprs_ = p.depthOfExprs_
      ∧ p.afterElidedOperandFeature.MAX_DEPTH_OF_EXPRS = p.MAX_DEPTH_OF_EXPRS
      ∧ p.afterElidedOperandFeature.diagnostics
        = if p.options.isEnabled_ExtGNU_StatementExpressions then p.diagnostics
          else p.diagnostics ++ [(Diagnostic.ExpectedFeature "GNU conditionals", p.curTkIdx_)] := by
  unfold Parser.afterElidedOperandFeature
  split <;> simp [Parser.report, Parser.rest, *]

theorem conditionalMiddle_elided (rec : ParserTable) (p : Parser)
    (h : p.peek 1 = ColonToken) :
    parseConditionalMiddle rec p
      = Res.ok (none, some p.curTkIdx_) (p.afterElidedOperandFeature.advance 1) := by
  have hq := afterElidedOperandFeature_facts p
  have hpk : p.afterElidedOperandFeature.peek 1 = ColonToken := by
    rw [peek_of_rest, hq.1, ← peek_of_rest, h]
  have hmatch := match_of_peek (p := p.afterElidedOperandFeature) none hpk (by decide)
  rw [hq.2.1] at hmatch
  unfold parseConditionalMiddle
  simp only [run_bind, run_peek, Res.andThen_ok, h, if_true, run_getOptions]
  by_cases hopt : p.options.isEnabled_ExtGNU_StatementExpressions = true
  · have he : p.afterElidedOperandFeature = p := by
      simp [Parser.afterElidedOperandFeature, hopt]
    rw [he] at hmatch
    simp [hopt, hmatch, he]
  · have he : p.afterElidedOperandFeature
        = p.report (Diagnostic.ExpectedFeature "GNU conditionals") := by
      simp [Parser.afterElidedOperandFeature, hopt]
    rw [he] at hmatch
    simp [hopt, hmatch, he]

theorem nary_loop_elided_step (ext : Externals) (k : Nat)
    (c0 n d : Nat) (base : Option ExpressionSyntax) (p : Parser) (c : SyntaxKind)
    (r : List SyntaxKind) (h : p.rest = QuestionToken :: ColonToken :: c :: r)
    (hc : isSingleTokenOperand c = true)
    (hr : continuesOperand (r.head?.getD EndOfFile) = false)
    (hcut : c0 ≤ NAryPrecedence.Conditional) (hd : d + 1 ≤ p.MAX_DEPTH_OF_EXPRS) :
    parseNAryExpression_AtOperator_loop ext (ParserTable.ofFuel ext (k + 1)) c0 (n + 1) d base p
      = (parseNAryExpression_AtOperator_inner (ParserTable.ofFuel ext (k + 1))
            NAryPrecedence.Conditional (k + 1)
            (some (operandNode c (p.curTkIdx_ + 2)))
            ((p.advance 1).afterElidedOperandFeature.advance 2)).andThen
          (fun i q => if i.1 = true then
              parseNAryExpression_AtOperator_loop ext (ParserTable.ofFuel ext (k + 1)) c0 n
                (d + 1)
                (some (ExpressionSyntax.ConditionalExpression base (some p.curTkIdx_)
                  none (some (p.curTkIdx_ + 1)) i.2)) q
            else Res.ok (false, base) q) := by
  have hpk := rest_eq_cons_peek h
  have hcons := consume_of_rest h (by decide)
  have h1 : (p.advance 1).rest = ColonToken :: c :: r := advance_rest h
  have hq := afterElidedOperandFeature_facts (p.advance 1)
  have hmid := conditionalMiddle_elided (ParserTable.ofFuel ext (k + 1)) (p.advance 1)
    (rest_eq_cons_peek h1)
  have h1' : (p.advance 1).afterElidedOperandFeature.rest = ColonToken :: c :: r := by
    rw [hq.1, h1]
  have h2 : ((p.advance 1).afterElidedOperandFeature.advance 1).rest = c :: r :=
    advance_rest h1'
  have hcast := cast_singleTokenOperand ext (ParserTable.ofFuel ext (k + 1))
    (by rw [ofFuel_fuel]; omega) none ((p.advance 1).afterElidedOperandFeature.advance 1)
    c r h2 hc hr
  have hprec : precedenceOf QuestionToken = NAryPrecedence.Conditional := rfl
  simp only [advance_advance, advance_curTkIdx, hq.2.1] at hmid hcast
  simp only [parseNAryExpression_AtOperator_loop, hpk, ge_iff_le, hprec, hcut, if_true,
    Nat.not_lt.mpr hd, if_false, run_bind, run_consume, hcons, Res.andThen_ok, run_pure,
    hmid, hcast, advance_advance, advance_curTkIdx, ofFuel_fuel]
  congr 1
  funext i q
  split <;> rfl

/-- C21: for a conditional whose `?` is followed at once by `:`. For tokens `a ? : b`
(single-token operands, followed by a token that is no operator and does not continue
`b`), at a cutoff up to the conditional level, `parseNAryExpression` returns true with
the conditional expression of condition `a`, a null operand for the true case, the
indices of the `?` and of the `:`, and `b` for the false case, with the cursor behind
the tokens. `ExpectedFeature` is reported, while the cursor stands on the `:`, exactly
when the flag that the sources read there is off; nothing else is reported. -/
theorem C21_conditional_elided_operand (ext : Externals) (fuel : Nat) (p : Parser)
    (expr : Option ExpressionSyntax) (cutoff : Nat) (a b : SyntaxKind) (tail : List SyntaxKind)
    (ha : isSingleTokenOperand a = true) (hb : isSingleTokenOperand b = true)
    (hrest : p.rest = a :: QuestionToken :: ColonToken :: b :: tail)
    (htail : endsInfixSequence (tail.head?.getD EndOfFile) = true)
    (hcut1 : 1 ≤ cutoff) (hcut : cutoff ≤ NAryPrecedence.Conditional)
    (hdepth : p.depthOfExprs_ + 1 ≤ p.MAX_DEPTH_OF_EXPRS) (hfuel : 2 ≤ fuel) :
    parseNAryExpression ext (ParserTable.ofFuel ext fuel) expr cutoff p
        = Res.ok (true, some (ExpressionSyntax.ConditionalExpression
            (some (operandNode a p.curTkIdx_)) (some (p.curTkIdx_ + 1)) none
            (some (p.curTkIdx_ + 2)) (some (operandNode b (p.curTkIdx_ + 3)))))
            ((p.advance 2).afterElidedOperandFeature.advance 2)
      ∧ ((p.advance 2).afterElidedOperandFeature.advance 2).diagnostics
        = (if p.options.isEnabled_ExtGNU_StatementExpressions then p.diagnostics
          else p.diagnostics
            ++ [(Diagnostic.ExpectedFeature "GNU conditionals", p.curTkIdx_ + 2)])
      ∧ ((p.advance 2).afterElidedOperandFeature.advance 2).curTkIdx_ = p.curTkIdx_ + 4 := by
  obtain ⟨k, rfl⟩ : ∃ k, fuel = k + 2 := ⟨fuel - 2, by omega⟩
  have hq := afterElidedOperandFeature_facts (p.advance 2)
  refine ⟨?_, ?_, ?_⟩
  · have hcast := cast_singleTokenOperand ext (ParserTable.ofFuel ext (k + 2))
      (by rw [ofFuel_fuel]; omega) expr p a _ hrest ha rfl
    have h1 : (p.advance 1).rest = QuestionToken :: ColonToken :: b :: tail :=
      advance_rest hrest
    have h4 : ((p.advance 2).afterElidedOperandFeature.advance 2).rest = tail := by
      rw [advance_rest_n, hq.1, advance_rest_n, hrest]; rfl
    have hpk4 : ((p.advance 2).afterElidedOperandFeature.advance 2).peek 1
        = tail.head?.getD EndOfFile := by rw [peek_of_rest, h4]
    have hstop := reclimbs_conditional_of_end _ NAryPrecedence.Conditional (by decide) htail
    have h0 := endsInfixSequence_precedence _ htail
    rw [← hpk4] at hstop h0
    simp only [parseNAryExpression, run_bind, hcast, Res.andThen_ok, if_true,
      parseNAryExpression_AtOperator, ofFuel_fuel, advance_depthOfExprs]
    rw [nary_loop_elided_step ext (k + 1) cutoff (k + 1) p.depthOfExprs_ _ (p.advance 1) b
      tail h1 hb (endsInfixSequence_not_continuesOperand _ htail) hcut (by simpa using hdepth)]
    simp only [advance_advance, advance_curTkIdx]
    rw [nary_inner_stop _ _ (k + 1) _ _ hstop]
    simp only [Res.andThen_ok, if_true]
    exact nary_loop_stop ext _ cutoff k _ _ _ (by omega)
  · simp only [Parser.advance] at hq ⊢
    rw [hq.2.2.2.2]
  · simp [hq.2.1]

/-- An instance of C21: `a ? : b ;` with the extensions enabled, where nothing is
reported. -/
theorem C21_conditional_elided_operand_witness :
    parseNAryExpression Externals.failing (ParserTable.ofFuel Externals.failing 2) none
        NAryPrecedence.Sequencing
        (Parser.start [IdentifierToken, QuestionToken, ColonToken, IdentifierToken,
          SemicolonToken])
      = Res.ok (true, some (ExpressionSyntax.ConditionalExpression
          (some (ExpressionSyntax.IdentifierExpression (some 0))) (some 1) none (some 2)
          (some (ExpressionSyntax.IdentifierExpression (some 3)))))
          ((Parser.start [IdentifierToken, QuestionToken, ColonToken, IdentifierToken,
            SemicolonToken]).advance 4) :=
  (C21_conditional_elided_operand Externals.failing 2
    (Parser.start [IdentifierToken, QuestionToken, ColonToken, IdentifierToken,
      SemicolonToken]) none NAryPrecedence.Sequencing IdentifierToken IdentifierToken
    [SemicolonToken] rfl rfl rfl rfl (by decide) (by decide) (by decide) (by decide)).1

/-! ## The keyword _Atomic in a specifier list: claim C29 -/

theorem atomicTypeSpecifier_AtFirst_eq (ext : Externals) (rec : ParserTable) (p : Parser)
    (h1 : p.peek 1 = Keyword__Atomic) (h2 : p.peek 2 = OpenParenToken) :
    parseAtomiceTypeSpecifier_AtFirst ext rec none p = atomicTypeSpecifierAt ext rec p := by
  have hcons := consume_of_peek (p := p) (by rw [h1]; decide)
  have hpk : (p.advance 1).peek 1 = OpenParenToken := by rw [peek_advance]; exact h2
  have hmatch := match_of_peek (p := p.advance 1) none hpk (by decide)
  simp only [advance_advance, advance_curTkIdx] at hmatch
  unfold parseAtomiceTypeSpecifier_AtFirst atomicTypeSpecifierAt
  simp only [run_bind, run_peek, Res.andThen_ok, h1, bne_self_eq_false, Bool.false_eq_true,
    if_false, run_consume, hcons, run_match_, hmatch, if_true]
  congr 1
  funext t s
  split
  · rfl
  · rfl

theorem declarationSpecifiers_atomic_step (ext : Externals) (rec : ParserTable)
    (take : Bool) (specList : SpecifierList) (fuel : Nat) (decl : Option ExternalNode)
    (cells : SpecifierList) (seenType : Bool) (p : Parser) (h : p.peek 1 = Keyword__Atomic) :
    parseDeclarationSpecifiers_loop ext rec take specList (fuel + 1) decl cells seenType p
      = if p.peek 2 = OpenParenToken then
          (parseAtomiceTypeSpecifier_AtFirst ext rec none p).andThen fun r s =>
            if r.1 = true then
              appendSpecifier ext rec decl cells r.2
                (fun cs => parseDeclarationSpecifiers_loop ext rec take specList fuel decl cs
                  seenType) s
            else Res.ok (false, decl, if cells.isEmpty = true then specList else cells) s
        else
          appendSpecifier ext rec decl cells
            (some (SpecifierSyntax.TypeQualifier AtomicQualifier (some p.curTkIdx_)))
            (fun cs => parseDeclarationSpecifiers_loop ext rec take specList fuel decl cs
              seenType) (p.advance 1) := by
  have hcons := consume_of_peek (p := p) (by rw [h]; decide)
  rw [parseDeclarationSpecifiers_loop]
  simp only [run_bind, run_peek, Res.andThen_ok, h]
  split
  · rw [run_bind]
    congr 1
    funext r s
    split <;> rfl
  · simp only [parseTrivialSpecifier_AtFirst, run_bind, run_consume, hcons, Res.andThen_ok,
      run_pure]

theorem specifierQualifierList_atomic_step (ext : Externals) (rec : ParserTable)
    (take : Bool) (specList : SpecifierList) (fuel : Nat) (decl : Option ExternalNode)
    (cells : SpecifierList) (seenType : Bool) (p : Parser) (h : p.peek 1 = Keyword__Atomic) :
    parseSpecifierQualifierList_loop ext rec take specList (fuel + 1) decl cells seenType p
      = if p.peek 2 = OpenParenToken then
          (parseAtomiceTypeSpecifier_AtFirst ext rec none p).andThen fun r s =>
            if r.1 = true then
              appendSpecifier ext rec decl cells r.2
                (fun cs => parseSpecifierQualifierList_loop ext rec take specList fuel decl cs
                  seenType) s
            else Res.ok (false, decl, if cells.isEmpty = true then specList else cells) s
        else
          appendSpecifier ext rec decl cells
            (some (SpecifierSyntax.TypeQualifier AtomicQualifier (some p.curTkIdx_)))
            (fun cs => parseSpecifierQualifierList_loop ext rec take specList fuel decl cs
              seenType) (p.advance 1) := by
  have hcons := consume_of_peek (p := p) (by rw [h]; decide)
  rw [parseSpecifierQualifierList_loop]
  simp only [run_bind, run_peek, Res.andThen_ok, h]
  split
  · rw [run_bind]
    congr 1
    funext r s
    split <;> rfl
  · simp only [parseTrivialSpecifier_AtFirst, run_bind, run_consume, hcons, Res.andThen_ok,
      run_pure]

theorem typeQualifiersAndAttributes_atomic_step (ext : Externals) (n : Nat)
    (l : SpecifierList) (p : Parser) (h : p.peek 1 = Keyword__Atomic) :
    parseTypeQualifiersAndAttributes_loop ext (n + 1) l p
      = parseTypeQualifiersAndAttributes_loop ext n
          (l ++ [some (SpecifierSyntax.TypeQualifier AtomicQualifier (some p.curTkIdx_))])
          (p.advance 1) := by
  have hcons := consume_of_peek (p := p) (by rw [h]; decide)
  rw [parseTypeQualifiersAndAttributes_loop]
  simp only [run_bind, run_peek, Res.andThen_ok, h, parseTrivialSpecifier_AtFirst,
    run_consume, hcons, run_pure]

theorem appendSpecifier_declaration (ext : Externals) (rec : ParserTable)
    (tyDecl : ExternalNode) (cells : SpecifierList) (spec : Option SpecifierSyntax)
    (continue_ : SpecifierList → ParserM SpecifiersResult) (p : Parser) :
    appendSpecifier ext rec (some tyDecl) cells spec continue_ p
      = (parseTypeQualifiersAndAttributes ext rec [] p).andThen (fun q s =>
          Res.ok (q.1, some tyDecl, (cells ++ [spec]) ++ q.2) s) := by
  simp [appendSpecifier]
  rfl

/-- C29, as amended: an `_Atomic` token met while a specifier list is built, at any
iteration of the loop of `parseDeclarationSpecifiers` or of `parseSpecifierQualifierList`
(which run as long as no inline type declaration exists), or of the loop of
`parseTypeQualifiersAndAttributes` (which continues the list once one exists). In the
first two, if the next token is `(`, the atomic type specifier is parsed (the keyword,
the `(`, a type name, the `)`) and, when that succeeds, its node is the specifier
appended; if the next token is anything else, the `_Atomic` token alone is consumed and
the specifier appended is the type qualifier of kind `AtomicQualifier` with the index of
the token. In the third, whatever the next token is, the `_Atomic` token alone is
consumed and that type qualifier is appended. Which loop meets the next token is settled
when a specifier is appended: `parseTypeQualifiersAndAttributes` if an inline type
declaration exists, the next iteration of the same loop otherwise. -/
theorem C29_atomic_specifier_or_qualifier (ext : Externals) (rec : ParserTable)
    (take : Bool) (specList : SpecifierList) (fuel : Nat) (decl : Option ExternalNode)
    (cells : SpecifierList) (seenType : Bool) (p : Parser)
    (h : p.peek 1 = Keyword__Atomic) :
    (p.peek 2 = OpenParenToken →
      parseDeclarationSpecifiers_loop ext rec take specList (fuel + 1) decl cells seenType p
        = (atomicTypeSpecifierAt ext rec p).andThen (fun r s =>
            if r.1 = true then
              appendSpecifier ext rec decl cells r.2
                (fun cs => parseDeclarationSpecifiers_loop ext rec take specList fuel decl cs
                  seenType) s
            else Res.ok (false, decl, if cells.isEmpty = true then specList else cells) s)
      ∧ parseSpecifierQualifierList_loop ext rec take specList (fuel + 1) decl cells seenType
          p
        = (atomicTypeSpecifierAt ext rec p).andThen (fun r s =>
            if r.1 = true then
              appendSpecifier ext rec decl cells r.2
                (fun cs => parseSpecifierQualifierList_loop ext rec take specList fuel decl cs
                  seenType) s
            else Res.ok (false, decl, if cells.isEmpty = true then specList else cells) s))
    ∧ (p.peek 2 ≠ OpenParenToken →
      parseDeclarationSpecifiers_loop ext rec take specList (fuel + 1) decl cells seenType p
        = appendSpecifier ext rec decl cells
            (some (SpecifierSyntax.TypeQualifier AtomicQualifier (some p.curTkIdx_)))
            (fun cs => parseDeclarationSpecifiers_loop ext rec take specList fuel decl cs
              seenType) (p.advance 1)
      ∧ parseSpecifierQualifierList_loop ext rec take specList (fuel + 1) decl cells seenType
          p
        = appendSpecifier ext rec decl cells
            (some (SpecifierSyntax.TypeQualifier AtomicQualifier (some p.curTkIdx_)))
            (fun cs => parseSpecifierQualifierList_loop ext rec take specList fuel decl cs
              seenType) (p.advance 1))
    ∧ (∀ l : SpecifierList,
      parseTypeQualifiersAndAttributes_loop ext (fuel + 1) l p
        = parseTypeQualifiersAndAttributes_loop ext fuel
            (l ++ [some (SpecifierSyntax.TypeQualifier AtomicQualifier (some p.curTkIdx_))])
            (p.advance 1))
    ∧ (∀ (tyDecl : ExternalNode) (spec : Option SpecifierSyntax)
        (continue_ : SpecifierList → ParserM SpecifiersResult) (s : Parser),
      appendSpecifier ext rec (some tyDecl) cells spec continue_ s
        = (parseTypeQualifiersAndAttributes_loop ext rec.fuel [] s).andThen (fun q t =>
            Res.ok (q.1, some tyDecl, (cells ++ [spec]) ++ q.2) t)
      ∧ appendSpecifier ext rec none cells spec continue_ s
        = continue_ (cells ++ [spec]) s) := by
  refine ⟨fun h2 => ⟨?_, ?_⟩, fun h2 => ⟨?_, ?_⟩, fun l => ?_,
    fun tyDecl spec continue_ s => ⟨?_, rfl⟩⟩
  · rw [declarationSpecifiers_atomic_step _ _ _ _ _ _ _ _ _ h, if_pos h2,
      atomicTypeSpecifier_AtFirst_eq ext rec p h h2]
  · rw [specifierQualifierList_atomic_step _ _ _ _ _ _ _ _ _ h, if_pos h2,
      atomicTypeSpecifier_AtFirst_eq ext rec p h h2]
  · rw [declarationSpecifiers_atomic_step _ _ _ _ _ _ _ _ _ h, if_neg h2]
  · rw [specifierQualifierList_atomic_step _ _ _ _ _ _ _ _ _ h, if_neg h2]
  · exact typeQualifiersAndAttributes_atomic_step ext fuel l p h
  · exact appendSpecifier_declaration ext rec tyDecl cells spec continue_ s

/-- An instance of C29: `_Atomic ( int ) x` gives the atomic type specifier of `int`,
`_Atomic int x` gives the qualifier and the specifier `int`, and behind `struct { }`
(the tagged type parser being the method of the sources) the loop of
`parseTypeQualifiersAndAttributes` at the `_Atomic` of `_Atomic const x` gives the two
qualifiers. -/
theorem C29_atomic_specifier_or_qualifier_witness :
    parseDeclarationSpecifiers Externals.failing (ParserTable.ofFuel Externals.failing 4) none
        [] true
        (Parser.start [Keyword__Atomic, OpenParenToken, Keyword_int, CloseParenToken,
          IdentifierToken])
      = Res.ok (true, none, [some (SpecifierSyntax.AtomicTypeSpecifier (some 0) (some 1)
          (some (TypeNameSyntax.mk [some (SpecifierSyntax.BuiltinTypeSpecifier (some 2))]
            (some (DeclaratorSyntax.AbstractDeclarator []))))
          (some 3))])
          ((Parser.start [Keyword__Atomic, OpenParenToken, Keyword_int, CloseParenToken,
            IdentifierToken]).advance 4)
    ∧ parseDeclarationSpecifiers Externals.failing (ParserTable.ofFuel Externals.failing 4)
        none [] true
        (Parser.start [Keyword__Atomic, Keyword_int, IdentifierToken])
      = Res.ok (true, none, [some (SpecifierSyntax.TypeQualifier AtomicQualifier (some 0)),
          some (SpecifierSyntax.BuiltinTypeSpecifier (some 1))])
          ((Parser.start [Keyword__Atomic, Keyword_int, IdentifierToken]).advance 2)
    ∧ parseTypeQualifiersAndAttributes_loop (Externals.ofSourceTaggedTypes 4) 4 []
        ((Parser.start [Keyword_struct, OpenBraceToken, CloseBraceToken, Keyword__Atomic,
          Keyword_const, IdentifierToken]).advance 3)
      = Res.ok (true, [some (SpecifierSyntax.TypeQualifier AtomicQualifier (some 3)),
          some (SpecifierSyntax.TypeQualifier ConstQualifier (some 4))])
          ((Parser.start [Keyword_struct, OpenBraceToken, CloseBraceToken, Keyword__Atomic,
            Keyword_const, IdentifierToken]).advance 5) :=
  ⟨((C29_atomic_specifier_or_qualifier Externals.failing
      (ParserTable.ofFuel Externals.failing 4) true [] 3 none [] false
      (Parser.start [Keyword__Atomic, OpenParenToken, Keyword_int, CloseParenToken,
        IdentifierToken]) rfl).1 rfl).1,
   ((C29_atomic_specifier_or_qualifier Externals.failing
      (ParserTable.ofFuel Externals.failing 4) true [] 3 none [] false
      (Parser.start [Keyword__Atomic, Keyword_int, IdentifierToken]) rfl).2.1
      (by decide)).1,
   ((C29_atomic_specifier_or_qualifier (Externals.ofSourceTaggedTypes 4)
      (ParserTable.ofFuel (Externals.ofSourceTaggedTypes 4) 4) true [] 3 none [] false
      ((Parser.start [Keyword_struct, OpenBraceToken, CloseBraceToken, Keyword__Atomic,
        Keyword_const, IdentifierToken]).advance 3) rfl).2.2.1 []).trans rfl⟩

/-- C29, the counterexample: in `struct { } _Atomic ( int ) x`, with the tagged type
parser of the sources, the `_Atomic` behind the struct is followed by `(` and yet is
consumed alone, as the type qualifier of kind `AtomicQualifier`: the list (of
`parseDeclarationSpecifiers` and of `parseSpecifierQualifierList` alike) is the
specifier of the struct and that qualifier, and the cursor is left on the `(`. -/
theorem C29_counterexample_atomic_behind_type_declaration :
    parseDeclarationSpecifiers (Externals.ofSourceTaggedTypes 4)
        (ParserTable.ofFuel (Externals.ofSourceTaggedTypes 4) 4) none [] true
        (Parser.start [Keyword_struct, OpenBraceToken, CloseBraceToken, Keyword__Atomic,
          OpenParenToken, Keyword_int, CloseParenToken, IdentifierToken])
      = Res.ok (true, some ⟨0⟩, [some (SpecifierSyntax.External StructTypeSpecifier ⟨0⟩),
          some (SpecifierSyntax.TypeQualifier AtomicQualifier (some 3))])
          ((Parser.start [Keyword_struct, OpenBraceToken, CloseBraceToken, Keyword__Atomic,
            OpenParenToken, Keyword_int, CloseParenToken, IdentifierToken]).advance 4)
    ∧ parseSpecifierQualifierList (Externals.ofSourceTaggedTypes 4)
        (ParserTable.ofFuel (Externals.ofSourceTaggedTypes 4) 4) none [] true
        (Parser.start [Keyword_struct, OpenBraceToken, CloseBraceToken, Keyword__Atomic,
          OpenParenToken, Keyword_int, CloseParenToken, IdentifierToken])
      = Res.ok (true, some ⟨0⟩, [some (SpecifierSyntax.External StructTypeSpecifier ⟨0⟩),
          some (SpecifierSyntax.TypeQualifier AtomicQualifier (some 3))])
          ((Parser.start [Keyword_struct, OpenBraceToken, CloseBraceToken, Keyword__Atomic,
            OpenParenToken, Keyword_int, CloseParenToken, IdentifierToken]).advance 4)
    ∧ ((Parser.start [Keyword_struct, OpenBraceToken, CloseBraceToken, Keyword__Atomic,
        OpenParenToken, Keyword_int, CloseParenToken, IdentifierToken]).advance 3).peek 2
      = OpenParenToken
    ∧ ((Parser.start [Keyword_struct, OpenBraceToken, CloseBraceToken, Keyword__Atomic,
        OpenParenToken, Keyword_int, CloseParenToken, IdentifierToken]).advance 4).peek 1
      = OpenParenToken :=
  ⟨rfl, rfl, rfl, rfl⟩

/-! ## External declarations and the translation unit: claims C24 and C23 -/

theorem andThen_ok_inv {α β : Type} {r : Res α} {k : α → Parser → Res β} {b : β}
    {q : Parser} (h : r.andThen k = Res.ok b q) :
    ∃ a s, r = Res.ok a s ∧ k a s = Res.ok b q := by
  cases r with
  | ok a s => exact ⟨a, s, rfl, h⟩
  | fault f => cases h

theorem failed_node (ext : Externals) (tkK : SyntaxKind) (n : DeclarationSyntax)
    (s q : Parser) (b : Bool) (d : Option DeclarationSyntax)
    (h : (do ext.skipTo tkK; pure (false, some n) : ParserM DeclResult) s = Res.ok (b, d) q) :
    d = some n := by
  obtain ⟨_, t, -, h⟩ := bind_ok_inv h
  simp only [run_pure, Res.ok.injEq, Prod.mk.injEq] at h
  exact h.1.2.symm

theorem staticAssertDeclaration_node (ext : Externals) (rec : ParserTable) (p : Parser)
    (h : p.peek 1 = Keyword__Static_assert) (b : Bool) (d : Option DeclarationSyntax)
    (q : Parser)
    (hres : parseStaticAssertDeclaration_AtFirst ext rec none p = Res.ok (b, d) q) :
    ∃ o e c s cp sc,
      d = some (DeclarationSyntax.StaticAssertDeclaration (some p.curTkIdx_) o e c s cp sc) := by
  have hcons := consume_of_peek (p := p) (by rw [h]; decide)
  unfold parseStaticAssertDeclaration_AtFirst at hres
  obtain ⟨tk, p0, hpk, hres⟩ := bind_ok_inv hres
  simp only [run_peek, Res.ok.injEq] at hpk
  obtain ⟨rfl, rfl⟩ := hpk
  simp only [h, bne_self_eq_false, Bool.false_eq_true, if_false] at hres
  obtain ⟨idx, p1, hc, hres⟩ := bind_ok_inv hres
  simp only [run_consume, hcons, Res.ok.injEq] at hc
  obtain ⟨rfl, rfl⟩ := hc
  obtain ⟨o, p2, -, hres⟩ := bind_ok_inv hres
  split at hres
  · obtain ⟨e, p3, -, hres⟩ := bind_ok_inv hres
    split at hres
    · obtain ⟨c, p4, -, hres⟩ := bind_ok_inv hres
      split at hres
      · obtain ⟨s, p5, -, hres⟩ := bind_ok_inv hres
        split at hres
        · obtain ⟨cp, p6, -, hres⟩ := bind_ok_inv hres
          split at hres
          · obtain ⟨sc, p7, -, hres⟩ := bind_ok_inv hres
            split at hres
            · simp only [run_pure, Res.ok.injEq, Prod.mk.injEq] at hres
              exact ⟨_, _, _, _, _, _, hres.1.2.symm⟩
            · exact ⟨_, _, _, _, _, _, failed_node ext _ _ _ _ _ _ hres⟩
          · exact ⟨_, _, _, _, _, _, failed_node ext _ _ _ _ _ _ hres⟩
        · exact ⟨_, _, _, _, _, _, failed_node ext _ _ _ _ _ _ hres⟩
      · exact ⟨_, _, _, _, _, _, failed_node ext _ _ _ _ _ _ hres⟩
    · exact ⟨_, _, _, _, _, _, failed_node ext _ _ _ _ _ _ hres⟩
  · exact ⟨_, _, _, _, _, _, failed_node ext _ _ _ _ _ _ hres⟩

theorem asmStatementDeclaration_node (ext : Externals) (rec : ParserTable) (p : Parser)
    (h : p.peek 1 = Keyword_ExtGNU___asm__) (b : Bool) (d : Option DeclarationSyntax)
    (q : Parser)
    (hres : parseExtGNU_AsmStatementDeclaration_AtFirst_node ext rec p = Res.ok (b, d) q) :
    ∃ o s cp,
      d = some (DeclarationSyntax.ExtGNU_AsmStatementDeclaration (some p.curTkIdx_) o s cp) := by
  have hcons := consume_of_peek (p := p) (by rw [h]; decide)
  unfold parseExtGNU_AsmStatementDeclaration_AtFirst_node at hres
  obtain ⟨idx, p1, hc, hres⟩ := bind_ok_inv hres
  simp only [run_consume, hcons, Res.ok.injEq] at hc
  obtain ⟨rfl, rfl⟩ := hc
  obtain ⟨o, p2, -, hres⟩ := bind_ok_inv hres
  split at hres
  · obtain ⟨s, p3, -, hres⟩ := bind_ok_inv hres
    split at hres
    · obtain ⟨cp, p4, -, hres⟩ := bind_ok_inv hres
      split at hres
      · simp only [run_pure, Res.ok.injEq, Prod.mk.injEq] at hres
        exact ⟨_, _, _, hres.1.2.symm⟩
      · exact ⟨_, _, _, failed_node ext _ _ _ _ _ _ hres⟩
    · exact ⟨_, _, _, failed_node ext _ _ _ _ _ _ hres⟩
  · exact ⟨_, _, _, failed_node ext _ _ _ _ _ _ hres⟩

theorem afterAsmFeature_facts (p : Parser) :
    p.afterAsmFeature.peek 1 = p.peek 1 ∧ p.afterAsmFeature.curTkIdx_ = p.curTkIdx_ := by
  unfold Parser.afterAsmFeature
  split <;> exact ⟨rfl, rfl⟩

theorem failed_flag (ext : Externals) (tkK : SyntaxKind) (n : DeclarationSyntax)
    (s q : Parser) (d : Option DeclarationSyntax)
    (h : (do ext.skipTo tkK; pure (false, some n) : ParserM DeclResult) s
      = Res.ok (true, d) q) : False := by
  obtain ⟨_, t, -, h⟩ := bind_ok_inv h
  simp only [run_pure, Res.ok.injEq, Prod.mk.injEq] at h
  exact absurd h.1.1 (by decide)

/-- The static assert declaration `_Static_assert ( E , S ) ;`: the keyword, the `(`, the
expression that `parseExpressionWithPrecedenceConditional` gives, the `,`, the string
literal that `parseStringLiteral` gives, the `)` and the `;`. -/
theorem staticAssertDeclaration_wellFormed (ext : Externals) (rec : ParserTable)
    (p q1 q2 : Parser) (e s : Option ExpressionSyntax)
    (h : p.peek 1 = Keyword__Static_assert) (ho : p.peek 2 = OpenParenToken)
    (he : parseExpressionWithPrecedenceConditional ext rec none (p.advance 2)
      = Res.ok (true, e) q1)
    (hc : q1.peek 1 = CommaToken)
    (hs : parseStringLiteral rec none (q1.advance 1) = Res.ok (true, s) q2)
    (hcp : q2.peek 1 = CloseParenToken) (hsc : q2.peek 2 = SemicolonToken) :
    parseStaticAssertDeclaration_AtFirst ext rec none p
      = Res.ok (true, some (DeclarationSyntax.StaticAssertDeclaration (some p.curTkIdx_)
          (some (p.curTkIdx_ + 1)) e (some q1.curTkIdx_) s (some q2.curTkIdx_)
          (some (q2.curTkIdx_ + 1)))) (q2.advance 2) := by
  have hcons := consume_of_peek (p := p) (by rw [h]; decide)
  have ho' : (p.advance 1).peek 1 = OpenParenToken := by rw [peek_advance]; exact ho
  have hsc' : (q2.advance 1).peek 1 = SemicolonToken := by rw [peek_advance]; exact hsc
  unfold parseStaticAssertDeclaration_AtFirst
  simp only [run_bind, run_peek, Res.andThen_ok, h, bne_self_eq_false, Bool.false_eq_true,
    if_false, run_consume, hcons, run_match_, match_of_peek none ho' (by decide),
    advance_advance, he, if_true, match_of_peek none hc (by decide), hs,
    match_of_peek none hcp (by decide), match_of_peek none hsc' (by decide), run_pure]
  rfl

/-- When `parseStaticAssertDeclaration_AtFirst` returns true at `_Static_assert`, the
tokens are those of `_Static_assert ( E , S ) ;` and the node holds them all. -/
theorem staticAssertDeclaration_true (ext : Externals) (rec : ParserTable) (p q : Parser)
    (d : Option DeclarationSyntax) (h : p.peek 1 = Keyword__Static_assert)
    (hres : parseStaticAssertDeclaration_AtFirst ext rec none p = Res.ok (true, d) q) :
    p.peek 2 = OpenParenToken
      ∧ ∃ e s q1 q2,
        parseExpressionWithPrecedenceConditional ext rec none (p.advance 2)
          = Res.ok (true, e) q1
        ∧ q1.peek 1 = CommaToken
        ∧ parseStringLiteral rec none (q1.advance 1) = Res.ok (true, s) q2
        ∧ q2.peek 1 = CloseParenToken ∧ q2.peek 2 = SemicolonToken
        ∧ d = some (DeclarationSyntax.StaticAssertDeclaration (some p.curTkIdx_)
            (some (p.curTkIdx_ + 1)) e (some q1.curTkIdx_) s (some q2.curTkIdx_)
            (some (q2.curTkIdx_ + 1)))
        ∧ q = q2.advance 2 := by
  have hcons := consume_of_peek (p := p) (by rw [h]; decide)
  unfold parseStaticAssertDeclaration_AtFirst at hres
  obtain ⟨tk, p0, hpk, hres⟩ := bind_ok_inv hres
  simp only [run_peek, Res.ok.injEq] at hpk
  obtain ⟨rfl, rfl⟩ := hpk
  simp only [h, bne_self_eq_false, Bool.false_eq_true, if_false] at hres
  obtain ⟨idx, p1, hc, hres⟩ := bind_ok_inv hres
  simp only [run_consume, hcons, Res.ok.injEq] at hc
  obtain ⟨rfl, rfl⟩ := hc
  obtain ⟨o, p2, ho, hres⟩ := bind_ok_inv hres
  by_cases ho1 : (p.advance 1).peek 1 = OpenParenToken
  · rw [run_match_, match_of_peek none ho1 (by decide)] at ho
    simp only [Res.ok.injEq] at ho
    obtain ⟨rfl, rfl⟩ := ho
    simp only [if_true, advance_advance] at hres
    obtain ⟨e, q1, he, hres⟩ := bind_ok_inv hres
    obtain ⟨e1, e2⟩ := e
    cases e1 with
    | false => exact absurd (failed_flag ext _ _ _ _ _ hres) id
    | true =>
      simp only [if_true] at hres
      obtain ⟨c, p3, hcm, hres⟩ := bind_ok_inv hres
      by_cases hc1 : q1.peek 1 = CommaToken
      · rw [run_match_, match_of_peek none hc1 (by decide)] at hcm
        simp only [Res.ok.injEq] at hcm
        obtain ⟨rfl, rfl⟩ := hcm
        simp only [if_true] at hres
        obtain ⟨s, q2, hs, hres⟩ := bind_ok_inv hres
        obtain ⟨s1, s2⟩ := s
        cases s1 with
        | false => exact absurd (failed_flag ext _ _ _ _ _ hres) id
        | true =>
          simp only [if_true] at hres
          obtain ⟨cp, p4, hcpm, hres⟩ := bind_ok_inv hres
          by_cases hcp1 : q2.peek 1 = CloseParenToken
          · rw [run_match_, match_of_peek none hcp1 (by decide)] at hcpm
            simp only [Res.ok.injEq] at hcpm
            obtain ⟨rfl, rfl⟩ := hcpm
            simp only [if_true] at hres
            obtain ⟨sc, p5, hscm, hres⟩ := bind_ok_inv hres
            by_cases hsc1 : (q2.advance 1).peek 1 = SemicolonToken
            · rw [run_match_, match_of_peek none hsc1 (by decide)] at hscm
              simp only [Res.ok.injEq, advance_advance] at hscm
              obtain ⟨rfl, rfl⟩ := hscm
              simp only [if_true, run_pure, Res.ok.injEq, Prod.mk.injEq, true_and] at hres
              refine ⟨(peek_advance p 1 1).symm.trans ho1, e2, s2, q1, q2, he, hc1, hs, hcp1,
                (peek_advance q2 1 1).symm.trans hsc1, hres.1.symm, hres.2.symm⟩
            · rw [run_match_, match_of_peek_ne none hsc1] at hscm
              simp only [Res.ok.injEq] at hscm
              obtain ⟨rfl, rfl⟩ := hscm
              exact absurd (failed_flag ext _ _ _ _ _ hres) id
          · rw [run_match_, match_of_peek_ne none hcp1] at hcpm
            simp only [Res.ok.injEq] at hcpm
            obtain ⟨rfl, rfl⟩ := hcpm
            exact absurd (failed_flag ext _ _ _ _ _ hres) id
      · rw [run_match_, match_of_peek_ne none hc1] at hcm
        simp only [Res.ok.injEq] at hcm
        obtain ⟨rfl, rfl⟩ := hcm
        exact absurd (failed_flag ext _ _ _ _ _ hres) id
  · rw [run_match_, match_of_peek_ne none ho1] at ho
    simp only [Res.ok.injEq] at ho
    obtain ⟨rfl, rfl⟩ := ho
    exact absurd (failed_flag ext _ _ _ _ _ hres) id

/-- The asm statement declaration `__asm__ ( S )`: the keyword, the `(`, the string
literal that `parseStringLiteral` gives, and the `)`. -/
theorem asmStatementDeclaration_wellFormed (ext : Externals) (rec : ParserTable)
    (p q1 : Parser) (s : Option ExpressionSyntax)
    (h : p.peek 1 = Keyword_ExtGNU___asm__) (ho : p.peek 2 = OpenParenToken)
    (hs : parseStringLiteral rec none (p.advance 2) = Res.ok (true, s) q1)
    (hcp : q1.peek 1 = CloseParenToken) :
    parseExtGNU_AsmStatementDeclaration_AtFirst_node ext rec p
      = Res.ok (true, some (DeclarationSyntax.ExtGNU_AsmStatementDeclaration
          (some p.curTkIdx_) (some (p.curTkIdx_ + 1)) s (some q1.curTkIdx_)))
          (q1.advance 1) := by
  have hcons := consume_of_peek (p := p) (by rw [h]; decide)
  have ho' : (p.advance 1).peek 1 = OpenParenToken := by rw [peek_advance]; exact ho
  unfold parseExtGNU_AsmStatementDeclaration_AtFirst_node
  simp only [run_bind, Res.andThen_ok, run_consume, hcons, run_match_,
    match_of_peek none ho' (by decide), advance_advance, hs, if_true,
    match_of_peek none hcp (by decide), run_pure]
  rfl

/-- When the asm statement declaration parser returns true at `__asm__`, the tokens are
those of `__asm__ ( S )` and the node holds them all. -/
theorem asmStatementDeclaration_true (ext : Externals) (rec : ParserTable) (p q : Parser)
    (d : Option DeclarationSyntax) (h : p.peek 1 = Keyword_ExtGNU___asm__)
    (hres : parseExtGNU_AsmStatementDeclaration_AtFirst_node ext rec p
      = Res.ok (true, d) q) :
    p.peek 2 = OpenParenToken
      ∧ ∃ s q1,
        parseStringLiteral rec none (p.advance 2) = Res.ok (true, s) q1
        ∧ q1.peek 1 = CloseParenToken
        ∧ d = some (DeclarationSyntax.ExtGNU_AsmStatementDeclaration (some p.curTkIdx_)
            (some (p.curTkIdx_ + 1)) s (some q1.curTkIdx_))
        ∧ q = q1.advance 1 := by
  have hcons := consume_of_peek (p := p) (by rw [h]; decide)
  unfold parseExtGNU_AsmStatementDeclaration_AtFirst_node at hres
  obtain ⟨idx, p1, hc, hres⟩ := bind_ok_inv hres
  simp only [run_consume, hcons, Res.ok.injEq] at hc
  obtain ⟨rfl, rfl⟩ := hc
  obtain ⟨o, p2, ho, hres⟩ := bind_ok_inv hres
  by_cases ho1 : (p.advance 1).peek 1 = OpenParenToken
  · rw [run_match_, match_of_peek none ho1 (by decide)] at ho
    simp only [Res.ok.injEq] at ho
    obtain ⟨rfl, rfl⟩ := ho
    simp only [if_true, advance_advance] at hres
    obtain ⟨s, q1, hs, hres⟩ := bind_ok_inv hres
    obtain ⟨s1, s2⟩ := s
    cases s1 with
    | false => exact absurd (failed_flag ext _ _ _ _ _ hres) id
    | true =>
      simp only [if_true] at hres
      obtain ⟨cp, p4, hcpm, hres⟩ := bind_ok_inv hres
      by_cases hcp1 : q1.peek 1 = CloseParenToken
      · rw [run_match_, match_of_peek none hcp1 (by decide)] at hcpm
        simp only [Res.ok.injEq] at hcpm
        obtain ⟨rfl, rfl⟩ := hcpm
        simp only [if_true, run_pure, Res.ok.injEq, Prod.mk.injEq, true_and] at hres
        exact ⟨(peek_advance p 1 1).symm.trans ho1, s2, q1, hs, hcp1, hres.1.symm,
          hres.2.symm⟩
      · rw [run_match_, match_of_peek_ne none hcp1] at hcpm
        simp only [Res.ok.injEq] at hcpm
        obtain ⟨rfl, rfl⟩ := hcpm
        exact absurd (failed_flag ext _ _ _ _ _ hres) id
  · rw [run_match_, match_of_peek_ne none ho1] at ho
    simp only [Res.ok.injEq] at ho
    obtain ⟨rfl, rfl⟩ := ho
    exact absurd (failed_flag ext _ _ _ _ _ hres) id

theorem afterAsmFeature_peek (p : Parser) (k : Nat) : p.afterAsmFeature.peek k = p.peek k := by
  unfold Parser.afterAsmFeature
  split <;> rfl

/-- C24: `parseExternalDeclaration` dispatches on the first token only. On `;` it gives
the incomplete declaration with an empty specifier list and the index of that token. On
`_Static_assert` it is `parseStaticAssertDeclaration_AtFirst`: whatever it returns, its
node is a static assert declaration with the index of the keyword; on
`_Static_assert ( E , S ) ;` it returns true with the static assert declaration of the
seven parts (the keyword, the `(`, the expression E as
`parseExpressionWithPrecedenceConditional` gives it, the `,`, the string literal S as
`parseStringLiteral` gives it, the `)` and the `;`) and the cursor behind the `;`; and it
returns true on such tokens only. On `__asm__` it is
`parseExtGNU_AsmStatementDeclaration_AtFirst`: `ExpectedFeature` is reported if GNU
assembly is disabled; whatever it returns, its node is an asm statement declaration with
the index of the keyword; on `__asm__ ( S )` it returns true with the asm statement
declaration of the four parts and the cursor behind the `)`; and it returns true on such
tokens only. On `_Template` the keyword is consumed,
`parseDeclarationOrFunctionDefinition` parses the declaration that follows, and the
result is true with the template declaration wrapping it. On every other token it is
`parseDeclarationOrFunctionDefinition` in the same state. -/
theorem C24_external_declaration_dispatch (ext : Externals) (rec : ParserTable)
    (p : Parser) :
    (p.peek 1 = SemicolonToken →
      parseExternalDeclaration ext rec p
        = Res.ok (true, some (DeclarationSyntax.IncompleteDeclaration [] (some p.curTkIdx_)))
            (p.advance 1))
    ∧ (p.peek 1 = Keyword__Static_assert →
      parseExternalDeclaration ext rec p = parseStaticAssertDeclaration_AtFirst ext rec none p
      ∧ (∀ b d q, parseExternalDeclaration ext rec p = Res.ok (b, d) q →
        ∃ o e c s cp sc, d = some (DeclarationSyntax.StaticAssertDeclaration
          (some p.curTkIdx_) o e c s cp sc))
      ∧ (∀ (e s : Option ExpressionSyntax) (q1 q2 : Parser),
        p.peek 2 = OpenParenToken →
        parseExpressionWithPrecedenceConditional ext rec none (p.advance 2)
          = Res.ok (true, e) q1 →
        q1.peek 1 = CommaToken →
        parseStringLiteral rec none (q1.advance 1) = Res.ok (true, s) q2 →
        q2.peek 1 = CloseParenToken → q2.peek 2 = SemicolonToken →
        parseExternalDeclaration ext rec p
          = Res.ok (true, some (DeclarationSyntax.StaticAssertDeclaration (some p.curTkIdx_)
              (some (p.curTkIdx_ + 1)) e (some q1.curTkIdx_) s (some q2.curTkIdx_)
              (some (q2.curTkIdx_ + 1)))) (q2.advance 2))
      ∧ (∀ d q, parseExternalDeclaration ext rec p = Res.ok (true, d) q →
        p.peek 2 = OpenParenToken
        ∧ ∃ e s q1 q2,
          parseExpressionWithPrecedenceConditional ext rec none (p.advance 2)
            = Res.ok (true, e) q1
          ∧ q1.peek 1 = CommaToken
          ∧ parseStringLiteral rec none (q1.advance 1) = Res.ok (true, s) q2
          ∧ q2.peek 1 = CloseParenToken ∧ q2.peek 2 = SemicolonToken
          ∧ d = some (DeclarationSyntax.StaticAssertDeclaration (some p.curTkIdx_)
              (some (p.curTkIdx_ + 1)) e (some q1.curTkIdx_) s (some q2.curTkIdx_)
              (some (q2.curTkIdx_ + 1)))
          ∧ q = q2.advance 2))
    ∧ (p.peek 1 = Keyword_ExtGNU___asm__ →
      parseExternalDeclaration ext rec p
        = parseExtGNU_AsmStatementDeclaration_AtFirst_node ext rec p.afterAsmFeature
      ∧ p.afterAsmFeature.diagnostics
        = (if p.options.isEnabled_ExtGNU_Asm then p.diagnostics
          else p.diagnostics
            ++ [(Diagnostic.ExpectedFeature "GNU assembly in C", p.curTkIdx_)])
      ∧ (∀ b d q, parseExternalDeclaration ext rec p = Res.ok (b, d) q →
        ∃ o s cp, d = some (DeclarationSyntax.ExtGNU_AsmStatementDeclaration
          (some p.curTkIdx_) o s cp))
      ∧ (∀ (s : Option ExpressionSyntax) (q1 : Parser),
        p.peek 2 = OpenParenToken →
        parseStringLiteral rec none (p.afterAsmFeature.advance 2) = Res.ok (true, s) q1 →
        q1.peek 1 = CloseParenToken →
        parseExternalDeclaration ext rec p
          = Res.ok (true, some (DeclarationSyntax.ExtGNU_AsmStatementDeclaration
              (some p.curTkIdx_) (some (p.curTkIdx_ + 1)) s (some q1.curTkIdx_)))
              (q1.advance 1))
      ∧ (∀ d q, parseExternalDeclaration ext rec p = Res.ok (true, d) q →
        p.peek 2 = OpenParenToken
        ∧ ∃ s q1,
          parseStringLiteral rec none (p.afterAsmFeature.advance 2) = Res.ok (true, s) q1
          ∧ q1.peek 1 = CloseParenToken
          ∧ d = some (DeclarationSyntax.ExtGNU_AsmStatementDeclaration (some p.curTkIdx_)
              (some (p.curTkIdx_ + 1)) s (some q1.curTkIdx_))
          ∧ q = q1.advance 1))
    ∧ (p.peek 1 = Keyword_ExtPSY__Template →
      parseExternalDeclaration ext rec p
        = (parseDeclarationOrFunctionDefinition ext rec none (p.advance 1)).andThen
            (fun r s => Res.ok (true, some (DeclarationSyntax.ExtPSY_TemplateDeclaration
              (some p.curTkIdx_) r.2)) s))
    ∧ (startsOtherExternalDeclaration (p.peek 1) = false →
      parseExternalDeclaration ext rec p
        = parseDeclarationOrFunctionDefinition ext rec none p) := by
  refine ⟨fun h => ?_, fun h => ?_, fun h => ?_, fun h => ?_, fun h => ?_⟩
  · have hcons := consume_of_peek (p := p) (by rw [h]; decide)
    simp only [parseExternalDeclaration, run_bind, run_peek, Res.andThen_ok, h,
      parseIncompleteDeclaration_AtFirst, bne_self_eq_false, Bool.false_eq_true, if_false,
      run_consume, hcons, run_pure]
  · have heq : parseExternalDeclaration ext rec p
        = parseStaticAssertDeclaration_AtFirst ext rec none p := by
      simp only [parseExternalDeclaration, run_bind, run_peek, Res.andThen_ok, h]
    refine ⟨heq, fun b d q hres => ?_, fun e s q1 q2 ho he hc hs hcp hsc => ?_,
      fun d q hres => ?_⟩
    · rw [heq] at hres
      exact staticAssertDeclaration_node ext rec p h b d q hres
    · rw [heq]
      exact staticAssertDeclaration_wellFormed ext rec p q1 q2 e s h ho he hc hs hcp hsc
    · rw [heq] at hres
      exact staticAssertDeclaration_true ext rec p q d h hres
  · have heq : parseExternalDeclaration ext rec p
        = parseExtGNU_AsmStatementDeclaration_AtFirst_node ext rec p.afterAsmFeature := by
      simp only [parseExternalDeclaration, run_bind, run_peek, Res.andThen_ok, h,
        parseExtGNU_AsmStatementDeclaration_AtFirst, bne_self_eq_false, Bool.false_eq_true,
        if_false, run_getOptions, Parser.afterAsmFeature]
      cases hopt : p.options.isEnabled_ExtGNU_Asm <;> simp
    have hf := afterAsmFeature_facts p
    have h1 : p.afterAsmFeature.peek 1 = Keyword_ExtGNU___asm__ := by rw [hf.1]; exact h
    refine ⟨heq, ?_, fun b d q hres => ?_, fun s q1 ho hs hcp => ?_, fun d q hres => ?_⟩
    · unfold Parser.afterAsmFeature
      split <;> rfl
    · rw [heq] at hres
      have := asmStatementDeclaration_node ext rec p.afterAsmFeature h1 b d q hres
      rw [hf.2] at this
      exact this
    · rw [heq]
      have := asmStatementDeclaration_wellFormed ext rec p.afterAsmFeature q1 s h1
        (by rw [afterAsmFeature_peek]; exact ho) hs hcp
      rw [hf.2] at this
      exact this
    · rw [heq] at hres
      have := asmStatementDeclaration_true ext rec p.afterAsmFeature q d h1 hres
      rw [hf.2, afterAsmFeature_peek] at this
      exact this
  · have hcons := consume_of_peek (p := p) (by rw [h]; decide)
    simp only [parseExternalDeclaration, run_bind, run_peek, Res.andThen_ok, h,
      parseExtPSY_TemplateDeclaration_AtFirst, bne_self_eq_false, Bool.false_eq_true,
      if_false, run_consume, hcons]
    cases parseDeclarationOrFunctionDefinition ext rec none (p.advance 1) <;> rfl
  · rw [parseExternalDeclaration]
    simp only [run_bind, run_peek, Res.andThen_ok]
    generalize p.peek 1 = tk at h
    cases tk <;> first | rfl | exact absurd h (by decide)

/-- An instance of C24: `;` alone is the incomplete declaration with the index 0;
`_Static_assert ( 1 , "s" ) ;` is the static assert declaration of its seven parts;
`__asm__ ( "s" )` is the asm statement declaration of its four parts, and with GNU
assembly disabled `ExpectedFeature` is reported at the keyword; `_Template int x ;` is
the template declaration around the declaration of `x`; and `int x ;` goes to
`parseDeclarationOrFunctionDefinition`. -/
theorem C24_external_declaration_dispatch_witness :
    parseExternalDeclaration Externals.failing (ParserTable.ofFuel Externals.failing 6)
        (Parser.start [SemicolonToken])
      = Res.ok (true, some (DeclarationSyntax.IncompleteDeclaration [] (some 0)))
          ((Parser.start [SemicolonToken]).advance 1)
    ∧ parseExternalDeclaration Externals.failing (ParserTable.ofFuel Externals.failing 6)
        (Parser.start exampleStaticAssertTokens)
      = Res.ok (true, some (DeclarationSyntax.StaticAssertDeclaration (some 0) (some 1)
          (some (ExpressionSyntax.ConstantExpression IntegerConstantExpression (some 2)))
          (some 3) (some (ExpressionSyntax.StringLiteralExpression (some 4) none))
          (some 5) (some 6)))
          ((Parser.start exampleStaticAssertTokens).advance 7)
    ∧ parseExternalDeclaration Externals.failing (ParserTable.ofFuel Externals.failing 6)
        (Parser.start exampleAsmStatementTokens)
      = Res.ok (true, some (DeclarationSyntax.ExtGNU_AsmStatementDeclaration (some 0)
          (some 1) (some (ExpressionSyntax.StringLiteralExpression (some 2) none))
          (some 3)))
          ((Parser.start exampleAsmStatementTokens).advance 4)
    ∧ ({ Parser.start exampleAsmStatementTokens with
          options := ⟨LanguageStd.C11, false, false, false, false, false⟩ }
        : Parser).afterAsmFeature.diagnostics
      = [(Diagnostic.ExpectedFeature "GNU assembly in C", 0)]
    ∧ parseExternalDeclaration Externals.failing (ParserTable.ofFuel Externals.failing 6)
        (Parser.start [Keyword_ExtPSY__Template, Keyword_int, IdentifierToken,
          SemicolonToken])
      = Res.ok (true, some (DeclarationSyntax.ExtPSY_TemplateDeclaration (some 0)
          (some (DeclarationSyntax.VariableAndOrFunctionDeclaration
            [some (SpecifierSyntax.BuiltinTypeSpecifier (some 1))]
            [(some (DeclaratorSyntax.IdentifierDeclarator (some 2) [] [] none none), none)]
            (some 3)))))
          ((Parser.start [Keyword_ExtPSY__Template, Keyword_int, IdentifierToken,
            SemicolonToken]).advance 4)
    ∧ parseExternalDeclaration Externals.failing (ParserTable.ofFuel Externals.failing 6)
        (Parser.start [Keyword_int, IdentifierToken, SemicolonToken])
      = parseDeclarationOrFunctionDefinition Externals.failing
          (ParserTable.ofFuel Externals.failing 6) none
          (Parser.start [Keyword_int, IdentifierToken, SemicolonToken]) :=
  ⟨(C24_external_declaration_dispatch Externals.failing
      (ParserTable.ofFuel Externals.failing 6) (Parser.start [SemicolonToken])).1 rfl,
   ((C24_external_declaration_dispatch Externals.failing
      (ParserTable.ofFuel Externals.failing 6)
      (Parser.start exampleStaticAssertTokens)).2.1 rfl).2.2.1
      (some (ExpressionSyntax.ConstantExpression IntegerConstantExpression (some 2)))
      (some (ExpressionSyntax.StringLiteralExpression (some 4) none))
      ((Parser.start exampleStaticAssertTokens).advance 3)
      ((Parser.start exampleStaticAssertTokens).advance 5) rfl rfl rfl rfl rfl rfl,
   ((C24_external_declaration_dispatch Externals.failing
      (ParserTable.ofFuel Externals.failing 6)
      (Parser.start exampleAsmStatementTokens)).2.2.1 rfl).2.2.2.1
      (some (ExpressionSyntax.StringLiteralExpression (some 2) none))
      ((Parser.start exampleAsmStatementTokens).advance 3) rfl rfl rfl,
   ((C24_external_declaration_dispatch Externals.failing
      (ParserTable.ofFuel Externals.failing 6)
      ({ Parser.start exampleAsmStatementTokens with
          options := ⟨LanguageStd.C11, false, false, false, false, false⟩ }
        : Parser)).2.2.1 rfl).2.1,
   ((C24_external_declaration_dispatch Externals.failing
      (ParserTable.ofFuel Externals.failing 6)
      (Parser.start [Keyword_ExtPSY__Template, Keyword_int, IdentifierToken,
        SemicolonToken])).2.2.2.1 rfl).trans rfl,
   (C24_external_declaration_dispatch Externals.failing
      (ParserTable.ofFuel Externals.failing 6)
      (Parser.start [Keyword_int, IdentifierToken, SemicolonToken])).2.2.2.2 rfl⟩

theorem translationUnit_loop_extension_failed (ext : Externals) (rec : ParserTable)
    (fuel : Nat) (decls : List (Option DeclarationSyntax)) (p q : Parser)
    (d : Option DeclarationSyntax) (h : p.peek 1 = Keyword_ExtGNU___extension__)
    (hfail : parseExternalDeclaration ext rec (p.advance 1) = Res.ok (false, d) q) :
    parseTranslationUnit_loop ext rec (fuel + 1) decls p
      = parseTranslationUnit_loop ext rec fuel (decls ++ [d]) q := by
  have hcons := consume_of_peek (p := p) (by rw [h]; decide)
  rw [parseTranslationUnit_loop]
  simp [h, hcons, hfail]

theorem translationUnit_loop_failed (ext : Externals) (rec : ParserTable)
    (fuel : Nat) (decls : List (Option DeclarationSyntax)) (p q : Parser)
    (d : Option DeclarationSyntax) (h1 : p.peek 1 ≠ Keyword_ExtGNU___extension__)
    (h2 : p.peek 1 ≠ EndOfFile)
    (hfail : parseExternalDeclaration ext rec p = Res.ok (false, d) q) :
    parseTranslationUnit_loop ext rec (fuel + 1) decls p
      = (ext.ignoreDeclarationOrDefinition q).andThen
          (fun _ s => parseTranslationUnit_loop ext rec fuel decls s) := by
  rw [parseTranslationUnit_loop]
  simp only [run_bind, run_peek, Res.andThen_ok, hfail, Bool.false_eq_true, if_false]

/-- C23, the divergence: in `parseTranslationUnit`, a failed attempt to parse an external
declaration behind `__extension__` leaves the `switch` by `break` and its cell is
appended to the declaration list, with no call of `ignoreDeclarationOrDefinition`. For
`__extension__ int x` the declaration list has one element, which is null; for `int x`,
without the keyword, the list is empty. And for every state at `__extension__` from
which `parseExternalDeclaration` returns false leaving `d`, the loop goes on with `d`
appended, in the state that the failed attempt left; while at another token it goes on
with the list as it was, behind `ignoreDeclarationOrDefinition`. -/
theorem C23_failed_declaration_after_extension_is_appended :
    parseTranslationUnit Externals.failing (ParserTable.ofFuel Externals.failing 4)
        (Parser.start exampleExtensionTokens)
      = Res.ok [none]
          (((Parser.start exampleExtensionTokens).advance 3).report
            Diagnostic.ExpectedFOLLOWofDeclarator)
    ∧ parseTranslationUnit Externals.failing (ParserTable.ofFuel Externals.failing 4)
        (Parser.start [Keyword_int, IdentifierToken])
      = Res.ok []
          (((Parser.start [Keyword_int, IdentifierToken]).advance 2).report
            Diagnostic.ExpectedFOLLOWofDeclarator)
    ∧ (∀ (ext : Externals) (rec : ParserTable) (fuel : Nat)
        (decls : List (Option DeclarationSyntax)) (p q : Parser)
        (d : Option DeclarationSyntax),
        p.peek 1 = Keyword_ExtGNU___extension__ →
        parseExternalDeclaration ext rec (p.advance 1) = Res.ok (false, d) q →
        parseTranslationUnit_loop ext rec (fuel + 1) decls p
          = parseTranslationUnit_loop ext rec fuel (decls ++ [d]) q)
    ∧ (∀ (ext : Externals) (rec : ParserTable) (fuel : Nat)
        (decls : List (Option DeclarationSyntax)) (p q : Parser)
        (d : Option DeclarationSyntax),
        p.peek 1 ≠ Keyword_ExtGNU___extension__ → p.peek 1 ≠ EndOfFile →
        parseExternalDeclaration ext rec p = Res.ok (false, d) q →
        parseTranslationUnit_loop ext rec (fuel + 1) decls p
          = (ext.ignoreDeclarationOrDefinition q).andThen
              (fun _ s => parseTranslationUnit_loop ext rec fuel decls s)) :=
  ⟨rfl, rfl, translationUnit_loop_extension_failed, translationUnit_loop_failed⟩

/-! ## Behind an inline type declaration: claim C27 -/

theorem hasKindIn_mono (k1 k2 : List SyntaxKind) (h : ∀ k ∈ k1, k ∈ k2)
    (c : Option SpecifierSyntax) (hc : hasKindIn k1 c = true) : hasKindIn k2 c = true := by
  cases c with
  | none => cases hc
  | some s =>
    simp only [hasKindIn, List.contains_iff_exists_mem_beq, beq_iff_eq, exists_eq_right']
      at hc ⊢
    exact h _ hc

theorem typeQualifiersAndAttributes_loop_kinds (ext : Externals)
    (hext : ext.GivesOwnKinds) :
    ∀ (n : Nat) (l : SpecifierList) (p : Parser) (r : Bool × SpecifierList) (q : Parser),
      parseTypeQualifiersAndAttributes_loop ext n l p = Res.ok r q →
      ∀ c ∈ r.2, c ∈ l ∨ hasKindIn qualifierAndAttributeKinds c = true := by
  intro n
  induction n with
  | zero => intro l p r q h; cases h
  | succ n ih =>
    intro l p r q h
    have hstep : ∀ (spec : Option SpecifierSyntax) (p1 : Parser),
        parseTypeQualifiersAndAttributes_loop ext n (l ++ [spec]) p1 = Res.ok r q →
        hasKindIn qualifierAndAttributeKinds spec = true →
        ∀ c ∈ r.2, c ∈ l ∨ hasKindIn qualifierAndAttributeKinds c = true := by
      intro spec p1 h hk c hc
      rcases ih _ _ _ _ h c hc with hm | hm
      · rcases List.mem_append.mp hm with hm | hm
        · exact Or.inl hm
        · simp only [List.mem_singleton] at hm
          rw [hm]; exact Or.inr hk
      · exact Or.inr hm
    have htriv : ∀ (k : SyntaxKind),
        (parseTrivialSpecifier_AtFirst (SpecifierSyntax.TypeQualifier k) >>= fun spec =>
          parseTypeQualifiersAndAttributes_loop ext n (l ++ [spec])) p = Res.ok r q →
        k ∈ qualifierAndAttributeKinds →
        ∀ c ∈ r.2, c ∈ l ∨ hasKindIn qualifierAndAttributeKinds c = true := by
      intro k h hk
      obtain ⟨spec, p1, hs, h⟩ := bind_ok_inv h
      unfold parseTrivialSpecifier_AtFirst at hs
      obtain ⟨i, p2, _, hs⟩ := bind_ok_inv hs
      cases hs
      refine hstep _ _ h ?_
      simp only [hasKindIn, SpecifierSyntax.kind, List.contains_iff_exists_mem_beq, beq_iff_eq,
        exists_eq_right']
      exact hk
    rw [parseTypeQualifiersAndAttributes_loop] at h
    rw [run_bind] at h
    simp only [run_peek, Res.andThen_ok] at h
    generalize htk : p.peek 1 = tk at h
    split at h
    · intro c hc
      rcases hext.2.2.1 _ _ _ _ h c hc with hm | hm
      · exact Or.inl hm
      · exact Or.inr (hasKindIn_mono _ _ (by decide) c hm)
    · obtain ⟨a, p1, ha, h⟩ := bind_ok_inv h
      split at h
      · cases h; intro c hc; exact Or.inl hc
      · exact hstep _ _ h (hasKindIn_mono _ _ (by decide) _ (hext.2.2.2 _ _ _ htk ha))
    · exact htriv _ h (by decide)
    · exact htriv _ h (by decide)
    · exact htriv _ h (by decide)
    · exact htriv _ h (by decide)
    · cases h; intro c hc; exact Or.inl hc

theorem typeQualifiersAndAttributes_loop_other (ext : Externals) (n : Nat)
    (l : SpecifierList) (p : Parser)
    (h : continuesQualifiersAndAttributes (p.peek 1) = false) :
    parseTypeQualifiersAndAttributes_loop ext (n + 1) l p = Res.ok (true, l) p := by
  rw [parseTypeQualifiersAndAttributes_loop]
  rw [run_bind]
  simp only [run_peek, Res.andThen_ok]
  generalize p.peek 1 = tk at h
  cases tk <;> first | rfl | exact absurd h (by decide)

theorem specifierLoops_tagged_step (ext : Externals) (rec : ParserTable)
    (take : Bool) (specList : SpecifierList) (fuel : Nat) (decl : Option ExternalNode)
    (cells : SpecifierList) (seenType : Bool) (p : Parser) (declK specK : SyntaxKind)
    (h : taggedKindsOf (p.peek 1) = some (declK, specK)) :
    parseDeclarationSpecifiers_loop ext rec take specList (fuel + 1) decl cells seenType p
        = (ext.parseTaggedTypeSpecifier_AtFirst decl declK specK p).andThen (fun r s =>
          if r.1 = true then
            appendSpecifier ext rec r.2.1 cells r.2.2
              (fun cs => parseDeclarationSpecifiers_loop ext rec take specList fuel r.2.1 cs
                true) s
          else Res.ok (false, r.2.1, if cells.isEmpty = true then specList else cells) s)
      ∧ parseSpecifierQualifierList_loop ext rec take specList (fuel + 1) decl cells seenType p
        = (ext.parseTaggedTypeSpecifier_AtFirst decl declK specK p).andThen (fun r s =>
          if r.1 = true then
            appendSpecifier ext rec r.2.1 cells r.2.2
              (fun cs => parseSpecifierQualifierList_loop ext rec take specList fuel r.2.1 cs
                true) s
          else Res.ok (false, r.2.1, if cells.isEmpty = true then specList else cells) s) := by
  rw [parseDeclarationSpecifiers_loop, parseSpecifierQualifierList_loop]
  simp only [run_bind, run_peek, Res.andThen_ok]
  generalize p.peek 1 = tk at h
  have key : ∀ (L : Option ExternalNode → SpecifierList → Bool → ParserM SpecifiersResult),
      (ext.parseTaggedTypeSpecifier_AtFirst decl declK specK p).andThen (fun r =>
          if r.1 = true then appendSpecifier ext rec r.2.1 cells r.2.2 (fun cs => L r.2.1 cs true)
          else (pure (false, r.2.1, if cells.isEmpty = true then specList else cells) :
            ParserM SpecifiersResult))
        = (ext.parseTaggedTypeSpecifier_AtFirst decl declK specK p).andThen (fun r s =>
          if r.1 = true then
            appendSpecifier ext rec r.2.1 cells r.2.2 (fun cs => L r.2.1 cs true) s
          else Res.ok (false, r.2.1, if cells.isEmpty = true then specList else cells) s) := by
    intro L
    congr 1
    funext r s
    split <;> rfl
  by_cases hs : tk = Keyword_struct
  · subst hs
    have h2 : some (StructDeclaration, StructTypeSpecifier) = some (declK, specK) := h
    cases h2
    exact ⟨key _, key _⟩
  · by_cases hu : tk = Keyword_union
    · subst hu
      have h2 : some (UnionDeclaration, UnionTypeSpecifier) = some (declK, specK) := h
      cases h2
      exact ⟨key _, key _⟩
    · by_cases he : tk = Keyword_enum
      · subst he
        have h2 : some (EnumDeclaration, EnumTypeSpecifier) = some (declK, specK) := h
        cases h2
        exact ⟨key _, key _⟩
      · simp [taggedKindsOf, hs, hu, he] at h

theorem hasKindIn_external (k : SyntaxKind) (node : ExternalNode) :
    hasKindIn [k] (some (SpecifierSyntax.External k node)) = true := by
  simp [hasKindIn, SpecifierSyntax.kind]

/-- At `__asm__` the asm-label parser of the sources leaves a node, whatever it returns. -/
theorem asmLabel_node (rec : ParserTable) (p q : Parser)
    (r : Bool × Option ExtGNU_AsmLabelSyntax) (hp : p.peek 1 = Keyword_ExtGNU___asm__)
    (h : parseExtGNU_AsmLabel_AtFirst rec p = Res.ok r q) : r.2.isSome = true := by
  unfold parseExtGNU_AsmLabel_AtFirst at h
  obtain ⟨tk, p0, hpk, h⟩ := bind_ok_inv h
  cases hpk
  simp only [hp, bne_self_eq_false, Bool.false_eq_true, if_false] at h
  obtain ⟨i, p1, -, h⟩ := bind_ok_inv h
  obtain ⟨o, p2, -, h⟩ := bind_ok_inv h
  split at h
  · obtain ⟨s, p3, -, h⟩ := bind_ok_inv h
    split at h
    · obtain ⟨c, p4, -, h⟩ := bind_ok_inv h
      cases h; rfl
    · cases h; rfl
  · cases h; rfl

/-- When the attribute-specifier parser of the sources returns true it leaves a node. -/
theorem attributeSpecifier_node (ext : Externals) (rec : ParserTable)
    (isAvailability : IndexType → Bool) (p q : Parser)
    (r : Bool × Option ExtGNU_AttributeSpecifierSyntax)
    (h : parseExtGNU_AttributeSpecifier_AtFirst ext rec isAvailability p = Res.ok r q)
    (hr : r.1 = true) : r.2.isSome = true := by
  unfold parseExtGNU_AttributeSpecifier_AtFirst at h
  obtain ⟨tk, p0, hpk, h⟩ := bind_ok_inv h
  cases hpk
  split at h
  · cases h; cases hr
  · obtain ⟨i, p1, -, h⟩ := bind_ok_inv h
    obtain ⟨o1, p2, -, h⟩ := bind_ok_inv h
    split at h
    · obtain ⟨o2, p3, -, h⟩ := bind_ok_inv h
      split at h
      · obtain ⟨l, p4, -, h⟩ := bind_ok_inv h
        split at h
        · obtain ⟨c1, p5, -, h⟩ := bind_ok_inv h
          split at h
          · obtain ⟨c2, p6, -, h⟩ := bind_ok_inv h
            split at h
            · cases h; rfl
            · obtain ⟨u, p7, -, h⟩ := bind_ok_inv h
              cases h; rfl
          · obtain ⟨u, p7, -, h⟩ := bind_ok_inv h
            cases h; rfl
        · obtain ⟨u, p7, -, h⟩ := bind_ok_inv h
          cases h; rfl
      · obtain ⟨u, p7, -, h⟩ := bind_ok_inv h
        cases h; rfl
    · obtain ⟨u, p7, -, h⟩ := bind_ok_inv h
      cases h; rfl

/-- The cells that the loop of the attribute-list parser of the sources leaves are cells
of the list it was given or specifiers that the attribute-specifier parser gave. -/
theorem attributeSpecifierList_loop_cells (ext : Externals) (specList : SpecifierList)
    (h2 : ∀ p r q, ext.parseExtGNU_AttributeSpecifier_AtFirst p = Res.ok r q →
      r.1 = true → hasKindIn [ExtGNU_AttributeSpecifier] r.2 = true) :
    ∀ (fuel : Nat) (written : SpecifierList) (p q : Parser) (r : Bool × SpecifierList),
      parseExtGNU_AttributeSpecifierList_AtFirst_loop ext specList fuel written p
        = Res.ok r q →
      (∀ c ∈ written, hasKindIn [ExtGNU_AttributeSpecifier] c = true) →
      ∀ c ∈ r.2, c ∈ specList ∨ hasKindIn [ExtGNU_AttributeSpecifier] c = true := by
  intro fuel
  induction fuel with
  | zero => intro written p q r h; cases h
  | succ n ih =>
    intro written p q r h hw
    rw [parseExtGNU_AttributeSpecifierList_AtFirst_loop] at h
    simp only [run_bind] at h
    obtain ⟨a, p1, ha, h⟩ := andThen_ok_inv h
    by_cases h1 : a.1 = true
    · have hw' : ∀ c ∈ written ++ [a.2], hasKindIn [ExtGNU_AttributeSpecifier] c = true := by
        intro c hc
        rcases List.mem_append.mp hc with hc | hc
        · exact hw c hc
        · simp only [List.mem_singleton] at hc
          rw [hc]; exact h2 _ _ _ ha h1
      simp only [h1, if_true, run_bind, run_peek, Res.andThen_ok] at h
      split at h
      · exact ih _ _ _ _ h hw'
      · cases h
        intro c hc
        exact Or.inr (hw' c hc)
    · simp only [h1, if_false, run_pure] at h
      cases h
      intro c hc
      simp only at hc
      split at hc
      · exact Or.inl hc
      · exact Or.inr (hw c hc)

theorem attributeSpecifierList_cells (ext : Externals) (rec : ParserTable)
    (h2 : ∀ p r q, ext.parseExtGNU_AttributeSpecifier_AtFirst p = Res.ok r q →
      r.1 = true → hasKindIn [ExtGNU_AttributeSpecifier] r.2 = true)
    (specList : SpecifierList) (p q : Parser) (r : Bool × SpecifierList)
    (h : parseExtGNU_AttributeSpecifierList_AtFirst ext rec specList p = Res.ok r q) :
    ∀ c ∈ r.2, c ∈ specList ∨ hasKindIn [ExtGNU_AttributeSpecifier] c = true := by
  unfold parseExtGNU_AttributeSpecifierList_AtFirst at h
  simp only [run_bind, run_peek, Res.andThen_ok] at h
  split at h
  · cases h
    intro c hc
    exact Or.inl hc
  · exact attributeSpecifierList_loop_cells ext specList h2 _ _ _ _ _ h
      (fun c hc => by cases hc)

/-- When the tagged type parser of the sources returns true it leaves a specifier. -/
theorem taggedTypeSpecifier_node (ext : Externals) (rec : ParserTable)
    (declK specK : SyntaxKind) (parseMember : ParserM DeclResult) (p q : Parser)
    (r : Bool × Option SyntaxKind × Option TaggedTypeSpecifierSyntax)
    (h : parseTaggedTypeSpecifier_AtFirst ext rec declK specK parseMember p = Res.ok r q)
    (hr : r.1 = true) : r.2.2.isSome = true := by
  unfold parseTaggedTypeSpecifier_AtFirst at h
  obtain ⟨tk, p0, hpk, h⟩ := bind_ok_inv h
  cases hpk
  split at h
  · obtain ⟨i, p1, -, h⟩ := bind_ok_inv h
    obtain ⟨a, p2, hpk1, h⟩ := bind_ok_inv h
    cases hpk1
    dsimp only at h
    split at h
    · obtain ⟨l, pl, -, h⟩ := bind_ok_inv h
      obtain ⟨y, py, -, h⟩ := bind_ok_inv h
      obtain ⟨tk2, p3, hpk2, h⟩ := bind_ok_inv h
      cases hpk2
      split at h
      · obtain ⟨o, p3, -, h⟩ := bind_ok_inv h
        obtain ⟨m, p4, -, h⟩ := bind_ok_inv h
        cases h; rfl
      · split at h
        · obtain ⟨o, p3, -, h⟩ := bind_ok_inv h
          obtain ⟨tk3, p5, hpk3, h⟩ := bind_ok_inv h
          cases hpk3
          split at h
          · cases h; rfl
          · obtain ⟨o', p5, -, h⟩ := bind_ok_inv h
            obtain ⟨m, p4, -, h⟩ := bind_ok_inv h
            cases h; rfl
        · obtain ⟨u, p3, -, h⟩ := bind_ok_inv h
          cases h; rfl
    · obtain ⟨y, py, -, h⟩ := bind_ok_inv h
      obtain ⟨tk2, p3, hpk2, h⟩ := bind_ok_inv h
      cases hpk2
      split at h
      · obtain ⟨o, p3, -, h⟩ := bind_ok_inv h
        obtain ⟨m, p4, -, h⟩ := bind_ok_inv h
        cases h; rfl
      · split at h
        · obtain ⟨o, p3, -, h⟩ := bind_ok_inv h
          obtain ⟨tk3, p5, hpk3, h⟩ := bind_ok_inv h
          cases hpk3
          split at h
          · cases h; rfl
          · obtain ⟨o', p5, -, h⟩ := bind_ok_inv h
            obtain ⟨m, p4, -, h⟩ := bind_ok_inv h
            cases h; rfl
        · obtain ⟨u, p3, -, h⟩ := bind_ok_inv h
          cases h; rfl
  · cases h; cases hr

theorem Externals.ofSourceAttributes_attribute (fuel : Nat) (p q : Parser)
    (r : Bool × Option SpecifierSyntax)
    (h : (Externals.ofSourceAttributes fuel).parseExtGNU_AttributeSpecifier_AtFirst p
      = Res.ok r q) (hr : r.1 = true) :
    hasKindIn [ExtGNU_AttributeSpecifier] r.2 = true := by
  simp only [Externals.ofSourceAttributes] at h
  obtain ⟨a, s, ha, h⟩ := andThen_ok_inv h
  cases h
  have hn := attributeSpecifier_node _ _ _ _ _ _ ha hr
  cases hn2 : a.2 with
  | none => rw [hn2] at hn; cases hn
  | some n => exact hasKindIn_external _ _

/-- The externals whose tagged type, attribute and asm-label parsers are the methods of
the sources give specifiers of their own kinds. -/
theorem Externals.ofSourceTaggedTypes_givesOwnKinds (fuel : Nat) :
    (Externals.ofSourceTaggedTypes fuel).GivesOwnKinds := by
  refine ⟨?_, ?_, ?_, ?_⟩
  · intro decl declK specK p r q h hr
    simp only [Externals.ofSourceTaggedTypes] at h
    obtain ⟨a, s, ha, h⟩ := andThen_ok_inv h
    cases h
    have hn := taggedTypeSpecifier_node _ _ _ _ _ _ _ _ ha hr
    simp only
    cases hn2 : a.2.2 with
    | none => rw [hn2] at hn; cases hn
    | some n => exact hasKindIn_external _ _
  · intro p r q h hr
    exact Externals.ofSourceAttributes_attribute fuel p q r h hr
  · intro l p r q h
    simp only [Externals.ofSourceTaggedTypes, Externals.ofSourceAttributes] at h
    refine attributeSpecifierList_cells _ _ ?_ l p q r h
    intro p' r' q' h' hr'
    exact Externals.ofSourceAttributes_attribute fuel p' q' r' h' hr'
  · intro p r q hp h
    simp only [Externals.ofSourceTaggedTypes, Externals.ofSourceAttributes] at h
    obtain ⟨a, s, ha, h⟩ := andThen_ok_inv h
    cases h
    have hn := asmLabel_node _ _ _ _ hp ha
    simp only
    cases hn2 : a.2 with
    | none => rw [hn2] at hn; cases hn
    | some n => exact hasKindIn_external _ _

theorem Externals.ofSourceSpecifiers_givesOwnKinds (fuel : Nat) :
    (Externals.ofSourceSpecifiers fuel).GivesOwnKinds :=
  Externals.ofSourceTaggedTypes_givesOwnKinds fuel


/-- C27, as amended: in `parseDeclarationSpecifiers` and `parseSpecifierQualifierList`,
once the tagged type specifier parsed at `struct`, `union` or `enum` has left an inline
type declaration, the loop of the list ends: `parseTypeQualifiersAndAttributes` parses
what follows onto the end of the list, behind the tagged type specifier, and its flag is
the result. Every specifier it appends is a type qualifier, an attribute specifier, or
an asm label (the sub-parsers taken as parameters giving specifiers of their own kinds,
as the methods of the sources do). At every token other than `const`,
`volatile`, `restrict`, `_Atomic`, `__attribute__` and `__asm__`, such as a storage-class
keyword, a type-specifier keyword, an identifier or a function-specifier keyword, it
returns true with the list and the parser as they are: the token is left unconsumed. -/
theorem C27_after_type_declaration (ext : Externals) (rec : ParserTable)
    (hext : ext.GivesOwnKinds)
    (take : Bool) (specList : SpecifierList) (fuel : Nat) (decl : Option ExternalNode)
    (cells : SpecifierList) (seenType : Bool) (p s : Parser) (declK specK : SyntaxKind)
    (tyDecl : ExternalNode) (spec : Option SpecifierSyntax)
    (hk : taggedKindsOf (p.peek 1) = some (declK, specK))
    (htag : ext.parseTaggedTypeSpecifier_AtFirst decl declK specK p
      = Res.ok (true, some tyDecl, spec) s) :
    (parseDeclarationSpecifiers_loop ext rec take specList (fuel + 1) decl cells seenType p
        = (parseTypeQualifiersAndAttributes ext rec [] s).andThen (fun q t =>
            Res.ok (q.1, some tyDecl, (cells ++ [spec]) ++ q.2) t)
      ∧ parseSpecifierQualifierList_loop ext rec take specList (fuel + 1) decl cells seenType
          p
        = (parseTypeQualifiersAndAttributes ext rec [] s).andThen (fun q t =>
            Res.ok (q.1, some tyDecl, (cells ++ [spec]) ++ q.2) t))
    ∧ (∀ (r : Bool × SpecifierList) (t : Parser),
        parseTypeQualifiersAndAttributes ext rec [] s = Res.ok r t →
        ∀ c ∈ r.2, hasKindIn qualifierAndAttributeKinds c = true)
    ∧ (∀ (n : Nat) (l : SpecifierList) (u : Parser),
        continuesQualifiersAndAttributes (u.peek 1) = false →
        parseTypeQualifiersAndAttributes_loop ext (n + 1) l u = Res.ok (true, l) u) := by
  have hstep := specifierLoops_tagged_step ext rec take specList fuel decl cells seenType p
    declK specK hk
  refine ⟨⟨?_, ?_⟩, fun r t h c hc => ?_, fun n l u h =>
    typeQualifiersAndAttributes_loop_other ext n l u h⟩
  · rw [hstep.1, htag]
    simp only [Res.andThen_ok, if_true]
    exact appendSpecifier_declaration ext rec tyDecl cells spec _ s
  · rw [hstep.2, htag]
    simp only [Res.andThen_ok, if_true]
    exact appendSpecifier_declaration ext rec tyDecl cells spec _ s
  · rcases typeQualifiersAndAttributes_loop_kinds ext hext _ _ _ _ _ h c hc with hm | hm
    · cases hm
    · exact hm

/-- An instance of C27, with the tagged type, attribute and asm-label parsers of the
sources: in `struct { } const int` the qualifier `const` is appended behind the specifier
of the struct, and `int` is left unconsumed. -/
theorem C27_after_type_declaration_witness :
    parseDeclarationSpecifiers (Externals.ofSourceTaggedTypes 3)
        (ParserTable.ofFuel (Externals.ofSourceTaggedTypes 3) 3) none [] true
        (Parser.start [Keyword_struct, OpenBraceToken, CloseBraceToken, Keyword_const,
          Keyword_int])
      = Res.ok (true, some ⟨0⟩, [some (SpecifierSyntax.External StructTypeSpecifier ⟨0⟩),
          some (SpecifierSyntax.TypeQualifier ConstQualifier (some 3))])
          ((Parser.start [Keyword_struct, OpenBraceToken, CloseBraceToken, Keyword_const,
            Keyword_int]).advance 4) :=
  (C27_after_type_declaration (Externals.ofSourceTaggedTypes 3)
    (ParserTable.ofFuel (Externals.ofSourceTaggedTypes 3) 3)
    (Externals.ofSourceTaggedTypes_givesOwnKinds 3) true [] 2 none [] false
    (Parser.start [Keyword_struct, OpenBraceToken, CloseBraceToken, Keyword_const,
      Keyword_int])
    ((Parser.start [Keyword_struct, OpenBraceToken, CloseBraceToken, Keyword_const,
      Keyword_int]).advance 3)
    StructDeclaration StructTypeSpecifier ⟨0⟩
    (some (SpecifierSyntax.External StructTypeSpecifier ⟨0⟩)) rfl rfl).1.1

/-- C27, the counterexample: in `struct { } __asm__ ;`, with the tagged type parser and
the asm-label parser of the sources, the node of the asm label behind the struct is
appended to the specifier list behind the specifier of the struct: a specifier that is
neither a type qualifier nor an attribute specifier. -/
theorem C27_counterexample_asm_label_appended :
    parseDeclarationSpecifiers (Externals.ofSourceTaggedTypes 3)
        (ParserTable.ofFuel (Externals.ofSourceTaggedTypes 3) 3) none [] true
        (Parser.start [Keyword_struct, OpenBraceToken, CloseBraceToken,
          Keyword_ExtGNU___asm__, SemicolonToken])
      = Res.ok (true, some ⟨0⟩, [some (SpecifierSyntax.External StructTypeSpecifier ⟨0⟩),
          some (SpecifierSyntax.External ExtGNU_AsmLabel ⟨3⟩)])
          (((Parser.start [Keyword_struct, OpenBraceToken, CloseBraceToken,
            Keyword_ExtGNU___asm__, SemicolonToken]).advance 4).report
              (Diagnostic.ExpectedToken OpenParenToken))
    ∧ hasKindIn [ConstQualifier, VolatileQualifier, RestrictQualifier, AtomicQualifier,
        ExtGNU_AttributeSpecifier] (some (SpecifierSyntax.External ExtGNU_AsmLabel ⟨3⟩))
      = false :=
  ⟨rfl, rfl⟩

/-! ## What the specifier-qualifier list holds: claim C28 -/

theorem appendSpecifier_kinds (ext : Externals) (rec : ParserTable)
    (hext : ext.GivesOwnKinds)
    (L : Option ExternalNode → SpecifierList → Bool → ParserM SpecifiersResult)
    (ih : ∀ d cs s p r q, L d cs s p = Res.ok r q →
      (∀ c ∈ cs, hasKindIn specifierQualifierKinds c = true) →
      ∀ c ∈ r.2.2, hasKindIn specifierQualifierKinds c = true)
    (d : Option ExternalNode) (cells : SpecifierList) (spec : Option SpecifierSyntax)
    (s : Bool) (p : Parser) (r : SpecifiersResult) (q : Parser)
    (h : appendSpecifier ext rec d cells spec (fun cs => L d cs s) p = Res.ok r q)
    (h1 : ∀ c ∈ cells, hasKindIn specifierQualifierKinds c = true)
    (hs : hasKindIn specifierQualifierKinds spec = true) :
    ∀ c ∈ r.2.2, hasKindIn specifierQualifierKinds c = true := by
  have hcells : ∀ c ∈ cells ++ [spec], hasKindIn specifierQualifierKinds c = true := by
    intro c hc
    rcases List.mem_append.mp hc with hc | hc
    · exact h1 c hc
    · simp only [List.mem_singleton] at hc
      rw [hc]; exact hs
  unfold appendSpecifier at h
  simp only at h
  split at h
  · obtain ⟨a, p1, ha, h⟩ := bind_ok_inv h
    cases h
    intro c hc
    rcases List.mem_append.mp hc with hc | hc
    · exact hcells c hc
    · rcases typeQualifiersAndAttributes_loop_kinds ext hext _ _ _ _ _ ha c hc with hm | hm
      · cases hm
      · exact hasKindIn_mono _ _ (by decide) c hm
  · exact ih _ _ _ _ _ _ h hcells

theorem trivialSpecifier_kinds (ext : Externals) (rec : ParserTable)
    (hext : ext.GivesOwnKinds)
    (L : Option ExternalNode → SpecifierList → Bool → ParserM SpecifiersResult)
    (ih : ∀ d cs s p r q, L d cs s p = Res.ok r q →
      (∀ c ∈ cs, hasKindIn specifierQualifierKinds c = true) →
      ∀ c ∈ r.2.2, hasKindIn specifierQualifierKinds c = true)
    (mk : IndexType → SpecifierSyntax)
    (d : Option ExternalNode) (cells : SpecifierList)
    (s : Bool) (p : Parser) (r : SpecifiersResult) (q : Parser)
    (h : (parseTrivialSpecifier_AtFirst mk >>= fun spec =>
          appendSpecifier ext rec d cells spec (fun cs => L d cs s)) p = Res.ok r q)
    (hmk : ∀ i, hasKindIn specifierQualifierKinds (some (mk i)) = true)
    (h1 : ∀ c ∈ cells, hasKindIn specifierQualifierKinds c = true) :
    ∀ c ∈ r.2.2, hasKindIn specifierQualifierKinds c = true := by
  obtain ⟨spec, p1, hs, h⟩ := bind_ok_inv h
  unfold parseTrivialSpecifier_AtFirst at hs
  obtain ⟨i, p2, _, hs⟩ := bind_ok_inv hs
  cases hs
  exact appendSpecifier_kinds ext rec hext L ih d cells _ s _ r q h h1 (hmk i)

theorem subSpecifier_kinds (ext : Externals) (rec : ParserTable)
    (hext : ext.GivesOwnKinds)
    (L : Option ExternalNode → SpecifierList → Bool → ParserM SpecifiersResult)
    (ih : ∀ d cs s p r q, L d cs s p = Res.ok r q →
      (∀ c ∈ cs, hasKindIn specifierQualifierKinds c = true) →
      ∀ c ∈ r.2.2, hasKindIn specifierQualifierKinds c = true)
    (m : ParserM (Bool × Option SpecifierSyntax))
    (d : Option ExternalNode) (cells out : SpecifierList)
    (s : Bool) (p : Parser) (r : SpecifiersResult) (q : Parser)
    (h : (m >>= fun r0 =>
          if r0.1 = true then appendSpecifier ext rec d cells r0.2 (fun cs => L d cs s)
          else pure (false, d, out)) p = Res.ok r q)
    (hm : ∀ p r q, m p = Res.ok r q → r.1 = true →
      hasKindIn specifierQualifierKinds r.2 = true)
    (hout : ∀ c ∈ out, hasKindIn specifierQualifierKinds c = true)
    (h1 : ∀ c ∈ cells, hasKindIn specifierQualifierKinds c = true) :
    ∀ c ∈ r.2.2, hasKindIn specifierQualifierKinds c = true := by
  obtain ⟨r0, p1, hs, h⟩ := bind_ok_inv h
  split at h
  · rename_i hr
    exact appendSpecifier_kinds ext rec hext L ih d cells _ s _ r q h h1 (hm _ _ _ hs hr)
  · cases h; exact hout

theorem taggedSpecifier_kinds (ext : Externals) (rec : ParserTable)
    (hext : ext.GivesOwnKinds)
    (L : Option ExternalNode → SpecifierList → Bool → ParserM SpecifiersResult)
    (ih : ∀ d cs s p r q, L d cs s p = Res.ok r q →
      (∀ c ∈ cs, hasKindIn specifierQualifierKinds c = true) →
      ∀ c ∈ r.2.2, hasKindIn specifierQualifierKinds c = true)
    (declK specK : SyntaxKind) (hspecK : specK ∈ specifierQualifierKinds)
    (d : Option ExternalNode) (cells out : SpecifierList)
    (p : Parser) (r : SpecifiersResult) (q : Parser)
    (h : (ext.parseTaggedTypeSpecifier_AtFirst d declK specK >>= fun r0 =>
          if r0.1 = true then
            appendSpecifier ext rec r0.2.1 cells r0.2.2 (fun cs => L r0.2.1 cs true)
          else pure (false, r0.2.1, out)) p = Res.ok r q)
    (hout : ∀ c ∈ out, hasKindIn specifierQualifierKinds c = true)
    (h1 : ∀ c ∈ cells, hasKindIn specifierQualifierKinds c = true) :
    ∀ c ∈ r.2.2, hasKindIn specifierQualifierKinds c = true := by
  obtain ⟨r0, p1, hs, h⟩ := bind_ok_inv h
  split at h
  · rename_i hr
    refine appendSpecifier_kinds ext rec hext L ih r0.2.1 cells _ true _ r q h h1 ?_
    exact hasKindIn_mono _ _ (by
      intro k hk
      simp only [List.mem_singleton] at hk
      rw [hk]; exact hspecK) _ (hext.1 _ _ _ _ _ _ hs hr)
  · cases h; exact hout

theorem atomicTypeSpecifier_kinds (ext : Externals) (rec : ParserTable) (p : Parser)
    (r : Bool × Option SpecifierSyntax) (q : Parser)
    (h : parseAtomiceTypeSpecifier_AtFirst ext rec none p = Res.ok r q) (hr : r.1 = true) :
    hasKindIn specifierQualifierKinds r.2 = true := by
  unfold parseAtomiceTypeSpecifier_AtFirst at h
  obtain ⟨tk, p0, -, h⟩ := bind_ok_inv h
  split at h
  · cases h; cases hr
  · obtain ⟨i, p1, -, h⟩ := bind_ok_inv h
    obtain ⟨o, p2, -, h⟩ := bind_ok_inv h
    split at h
    · obtain ⟨t, p3, -, h⟩ := bind_ok_inv h
      split at h
      · obtain ⟨m, p4, -, h⟩ := bind_ok_inv h
        cases h
        rfl
      · cases h; rfl
    · cases h; rfl

theorem alignmentSpecifier_kinds (ext : Externals) (p : Parser)
    (r : Bool × Option SpecifierSyntax) (q : Parser)
    (h : parseAlignmentSpecifier_AtFirst ext none p = Res.ok r q) (hr : r.1 = true) :
    hasKindIn specifierQualifierKinds r.2 = true := by
  unfold parseAlignmentSpecifier_AtFirst at h
  obtain ⟨tk, p0, -, h⟩ := bind_ok_inv h
  split at h
  · cases h; cases hr
  · obtain ⟨i, p1, -, h⟩ := bind_ok_inv h
    obtain ⟨o, p2, -, h⟩ := bind_ok_inv h
    cases h
    rfl

theorem typeof_kinds (ext : Externals) (p : Parser)
    (r : Bool × Option SpecifierSyntax) (q : Parser)
    (h : parseExtGNU_Typeof_AtFirst ext none p = Res.ok r q) (hr : r.1 = true) :
    hasKindIn specifierQualifierKinds r.2 = true := by
  unfold parseExtGNU_Typeof_AtFirst at h
  obtain ⟨tk, p0, -, h⟩ := bind_ok_inv h
  split at h
  · cases h; cases hr
  · obtain ⟨i, p1, -, h⟩ := bind_ok_inv h
    obtain ⟨o, p2, -, h⟩ := bind_ok_inv h
    cases h
    rfl

theorem identifierIsDeclarator_state (take seenType : Bool) (p q : Parser) (a : Bool)
    (h : identifierIsDeclarator take seenType p = Res.ok a q) : q = p := by
  unfold identifierIsDeclarator at h
  cases take
  · cases h; rfl
  · simp only [if_true] at h
    split at h
    · cases h; rfl
    · cases h

theorem specifierQualifierList_loop_kinds (ext : Externals) (rec : ParserTable) (take : Bool)
    (specList : SpecifierList) (hext : ext.GivesOwnKinds)
    (hspec : ∀ c ∈ specList, hasKindIn specifierQualifierKinds c = true) :
    ∀ (n : Nat) (decl : Option ExternalNode) (cells : SpecifierList) (seenType : Bool)
      (p : Parser) (r : SpecifiersResult) (q : Parser),
      parseSpecifierQualifierList_loop ext rec take specList n decl cells seenType p
        = Res.ok r q →
      (∀ c ∈ cells, hasKindIn specifierQualifierKinds c = true) →
      ∀ c ∈ r.2.2, hasKindIn specifierQualifierKinds c = true := by
  intro n
  induction n with
  | zero => intro decl cells seenType p r q h; cases h
  | succ n ih =>
    intro decl cells seenType p r q h h1
    have hout : ∀ c ∈ (if cells.isEmpty = true then specList else cells),
        hasKindIn specifierQualifierKinds c = true := by
      split
      · exact hspec
      · exact h1
    rw [parseSpecifierQualifierList_loop] at h
    rw [run_bind] at h
    simp only [run_peek, Res.andThen_ok] at h
    generalize htk : p.peek 1 = tk at h
    split at h
    all_goals first
      | exact trivialSpecifier_kinds ext rec hext _ ih _ decl cells _ p r q h (fun _ => rfl) h1
      | exact taggedSpecifier_kinds ext rec hext _ ih _ _ (by decide) decl cells _ p r q h
          hout h1
      | exact subSpecifier_kinds ext rec hext _ ih _ decl cells _ _ p r q h
          (alignmentSpecifier_kinds ext) hout h1
      | exact subSpecifier_kinds ext rec hext _ ih _ decl cells _ _ p r q h
          (typeof_kinds ext) hout h1
      | exact subSpecifier_kinds ext rec hext _ ih _ decl cells _ _ p r q h
          (fun p r q hm hr => hasKindIn_mono _ _ (by decide) _ (hext.2.1 p r q hm hr)) hout h1
      | skip
    · obtain ⟨la, p1, _, h⟩ := bind_ok_inv h
      split at h
      · exact subSpecifier_kinds ext rec hext _ ih _ decl cells _ _ _ r q h
          (atomicTypeSpecifier_kinds ext rec) hout h1
      · exact trivialSpecifier_kinds ext rec hext _ ih _ decl cells _ _ r q h (fun _ => rfl) h1
    · split at h
      · cases h; exact hout
      · obtain ⟨a, p1, ha, h2⟩ := bind_ok_inv h
        have hp1 := identifierIsDeclarator_state _ _ _ _ _ ha
        subst hp1
        by_cases ha1 : a = true
        · rw [if_pos ha1] at h2
          cases h2; exact hout
        · rw [if_neg ha1] at h2
          obtain ⟨spec, p2, hsp, h3⟩ := bind_ok_inv h2
          rw [typedefName_AtFirst_identifier none p1 htk] at hsp
          cases hsp
          exact appendSpecifier_kinds ext rec hext _ ih decl cells _ true _ r q h3 h1 rfl
    · split at h
      · obtain ⟨u, p1, _, h⟩ := bind_ok_inv h
        cases h
        exact hspec
      · cases h
        exact h1

theorem specifierQualifierList_loop_other (ext : Externals) (rec : ParserTable)
    (take : Bool) (specList : SpecifierList) (fuel : Nat) (decl : Option ExternalNode)
    (cells : SpecifierList) (seenType : Bool) (p : Parser)
    (h : startsSpecifierQualifier (p.peek 1) = false) :
    parseSpecifierQualifierList_loop ext rec take specList (fuel + 1) decl cells seenType p
      = if cells.isEmpty = true then
          Res.ok (false, decl, specList) (p.report Diagnostic.ExpectedFIRSTofSpecifierQualifier)
        else Res.ok (true, decl, cells) p := by
  rw [parseSpecifierQualifierList_loop]
  rw [run_bind]
  simp only [run_peek, Res.andThen_ok]
  generalize p.peek 1 = tk at h
  cases hc : cells.isEmpty <;>
    cases tk <;> first | (simp [hc]; done) | exact absurd h (by decide)

/-- C28, as amended: every specifier that `parseSpecifierQualifierList` appends to its
list is a type specifier (built-in, tagged, typedef-name, atomic type specifier or
`typeof` specifier), a type qualifier, an alignment specifier, an attribute specifier, or
the node of an asm label behind an inline type declaration (the sub-parsers taken as
parameters giving specifiers of their own kinds, as the methods of the sources do). On a
token that starts none of them,
which the storage-class keywords and the function-specifier keywords are, an iteration
of its loop appends nothing and stops: it returns true with the list as it is and the
token unconsumed, or, when the list is still empty, it reports
`ExpectedFIRSTofSpecifierQualifier` and returns false. So it does for the routine when
the very first token cannot start a specifier or qualifier. -/
theorem C28_specifier_qualifier_list (ext : Externals) (rec : ParserTable)
    (hext : ext.GivesOwnKinds) (take : Bool) (decl : Option ExternalNode) (p : Parser) :
    (∀ (r : SpecifiersResult) (q : Parser),
        parseSpecifierQualifierList ext rec decl [] take p = Res.ok r q →
        ∀ c ∈ r.2.2, hasKindIn specifierQualifierKinds c = true)
    ∧ (∀ (specList : SpecifierList) (fuel : Nat) (d : Option ExternalNode)
        (cells : SpecifierList) (seenType : Bool) (u : Parser),
        startsSpecifierQualifier (u.peek 1) = false →
        parseSpecifierQualifierList_loop ext rec take specList (fuel + 1) d cells seenType u
          = if cells.isEmpty = true then
              Res.ok (false, d, specList)
                (u.report Diagnostic.ExpectedFIRSTofSpecifierQualifier)
            else Res.ok (true, d, cells) u)
    ∧ (∀ tkK ∈ storageClassAndFunctionSpecifierKeywords,
        startsSpecifierQualifier tkK = false)
    ∧ (1 ≤ rec.fuel → startsSpecifierQualifier (p.peek 1) = false →
        parseSpecifierQualifierList ext rec decl [] take p
          = Res.ok (false, decl, [])
              (p.report Diagnostic.ExpectedFIRSTofSpecifierQualifier)) := by
  refine ⟨fun r q h => ?_, fun specList fuel d cells seenType u h =>
    specifierQualifierList_loop_other ext rec take specList fuel d cells seenType u h,
    by decide, fun hfuel h => ?_⟩
  · exact specifierQualifierList_loop_kinds ext rec take [] hext (fun c hc => by cases hc)
      _ _ _ _ _ _ _ h (fun c hc => by cases hc)
  · obtain ⟨f, hf⟩ : ∃ f, rec.fuel = f + 1 := ⟨rec.fuel - 1, by omega⟩
    unfold parseSpecifierQualifierList
    rw [hf, specifierQualifierList_loop_other ext rec take [] f decl [] false p h]
    rfl

/-- An instance of C28, with the tagged type, attribute and asm-label parsers of the
sources: at `static int` the routine reports and fails, with nothing consumed; and the
cells of `const int x` are a qualifier and a type specifier. -/
theorem C28_specifier_qualifier_list_witness :
    parseSpecifierQualifierList (Externals.ofSourceSpecifiers 3)
        (ParserTable.ofFuel (Externals.ofSourceSpecifiers 3) 3) none [] true
        (Parser.start [Keyword_static, Keyword_int])
      = Res.ok (false, none, [])
          ((Parser.start [Keyword_static, Keyword_int]).report
            Diagnostic.ExpectedFIRSTofSpecifierQualifier)
    ∧ ∀ c ∈ [some (SpecifierSyntax.TypeQualifier ConstQualifier (some 0)),
        some (SpecifierSyntax.BuiltinTypeSpecifier (some 1))],
      hasKindIn specifierQualifierKinds c = true :=
  ⟨(C28_specifier_qualifier_list (Externals.ofSourceSpecifiers 3)
      (ParserTable.ofFuel (Externals.ofSourceSpecifiers 3) 3)
      (Externals.ofSourceSpecifiers_givesOwnKinds 3) true none
      (Parser.start [Keyword_static, Keyword_int])).2.2.2 (by decide) rfl,
   (C28_specifier_qualifier_list (Externals.ofSourceSpecifiers 3)
      (ParserTable.ofFuel (Externals.ofSourceSpecifiers 3) 3)
      (Externals.ofSourceSpecifiers_givesOwnKinds 3) true none
      (Parser.start [Keyword_const, Keyword_int, IdentifierToken])).1
      (true, none, [some (SpecifierSyntax.TypeQualifier ConstQualifier (some 0)),
        some (SpecifierSyntax.BuiltinTypeSpecifier (some 1))])
      ((Parser.start [Keyword_const, Keyword_int, IdentifierToken]).advance 2) rfl⟩

/-- C28, the counterexample: on the alignment specifier of `_Alignas ( int ) int x`, on
the `typeof` specifier of `__typeof__ ( int ) x` and on the attribute specifier of
`__attribute__ ( ( ) ) int x`, `parseSpecifierQualifierList` does not stop: it appends
the specifier to its list and goes on (the attribute parsers are the methods of the
sources). -/
theorem C28_counterexample_specifiers_appended :
    parseSpecifierQualifierList (Externals.ofSourceSpecifiers 3)
        (ParserTable.ofFuel (Externals.ofSourceSpecifiers 3) 3) none [] true
        (Parser.start [Keyword__Alignas, OpenParenToken, Keyword_int, CloseParenToken,
          Keyword_int, IdentifierToken])
      = Res.ok (true, none, [some (SpecifierSyntax.AlignmentSpecifier (some 0) (some ⟨1⟩)),
          some (SpecifierSyntax.BuiltinTypeSpecifier (some 4))])
          ((Parser.start [Keyword__Alignas, OpenParenToken, Keyword_int, CloseParenToken,
            Keyword_int, IdentifierToken]).advance 5)
    ∧ parseSpecifierQualifierList (Externals.ofSourceSpecifiers 3)
        (ParserTable.ofFuel (Externals.ofSourceSpecifiers 3) 3) none [] true
        (Parser.start [Keyword_ExtGNU___typeof__, OpenParenToken, Keyword_int,
          CloseParenToken, IdentifierToken])
      = Res.ok (true, none, [some (SpecifierSyntax.ExtGNU_Typeof (some 0) (some ⟨1⟩))])
          ((Parser.start [Keyword_ExtGNU___typeof__, OpenParenToken, Keyword_int,
            CloseParenToken, IdentifierToken]).advance 4)
    ∧ parseSpecifierQualifierList (Externals.ofSourceSpecifiers 3)
        (ParserTable.ofFuel (Externals.ofSourceSpecifiers 3) 3) none [] true
        (Parser.start [Keyword_ExtGNU___attribute__, OpenParenToken, OpenParenToken,
          CloseParenToken, CloseParenToken, Keyword_int, IdentifierToken])
      = Res.ok (true, none,
          [some (SpecifierSyntax.External ExtGNU_AttributeSpecifier ⟨0⟩),
            some (SpecifierSyntax.BuiltinTypeSpecifier (some 5))])
          ((Parser.start [Keyword_ExtGNU___attribute__, OpenParenToken, OpenParenToken,
            CloseParenToken, CloseParenToken, Keyword_int, IdentifierToken]).advance 6) :=
  ⟨rfl, rfl, rfl⟩

/-! ## A typedef name before a declarator: claim C25 -/

theorem specIdentifierRoleScan_asterisks (k : Nat) (tail : List SyntaxKind) :
    specIdentifierRoleScan (List.replicate k AsteriskToken ++ IdentifierToken :: tail)
      false 0 = IdentifierRole.AsTypedefName := by
  induction k with
  | zero => simp [specIdentifierRoleScan]
  | succ k ih =>
    rw [List.replicate_succ, List.cons_append, specIdentifierRoleScan]
    simp [specBuiltinTypeKeywords, specSkippedTokens, ih]

theorem determineIdentifierRole_asterisks (p : Parser) (k : Nat) (tail : List SyntaxKind)
    (hrest : p.rest
      = IdentifierToken :: (List.replicate k AsteriskToken ++ IdentifierToken :: tail)) :
    determineIdentifierRole p false = some IdentifierRole.AsTypedefName := by
  have h := determineIdentifierRole_loop_eq p (p.tokens.length + 1) 2 false 0 (by omega)
    (by rw [List.length_drop]; omega)
  have hdrop : p.tokens.drop (p.curTkIdx_ + 2 - 1)
      = List.replicate k AsteriskToken ++ IdentifierToken :: tail := by
    have : p.curTkIdx_ + 2 - 1 = p.curTkIdx_ + 1 := by omega
    rw [this, ← List.drop_drop]
    have hr : p.tokens.drop p.curTkIdx_ = p.rest := rfl
    rw [hr, hrest]
    rfl
  rw [hdrop, specIdentifierRoleScan_asterisks] at h
  exact h

theorem declarationSpecifiers_loop_asterisk (ext : Externals) (rec : ParserTable)
    (take : Bool) (specList : SpecifierList) (fuel : Nat) (decl : Option ExternalNode)
    (cells : SpecifierList) (seenType : Bool) (p : Parser) (h : p.peek 1 = AsteriskToken) :
    parseDeclarationSpecifiers_loop ext rec take specList (fuel + 1) decl cells seenType p
      = Res.ok (true, decl, if cells.isEmpty = true then specList else cells) p := by
  rw [parseDeclarationSpecifiers_loop]
  simp only [run_bind, run_peek, Res.andThen_ok, h]
  rfl

theorem declarationSpecifiers_typedefName (ext : Externals) (rec : ParserTable)
    (hfuel : 2 ≤ rec.fuel) (p : Parser) (k : Nat) (tail : List SyntaxKind)
    (hrest : p.rest
      = IdentifierToken :: (List.replicate k AsteriskToken ++ IdentifierToken :: tail)) :
    parseDeclarationSpecifiers ext rec none [] true p
      = Res.ok (true, none, [some (SpecifierSyntax.TypedefName (some p.curTkIdx_))])
          (p.advance 1) := by
  obtain ⟨f, hf⟩ : ∃ f, rec.fuel = f + 2 := ⟨rec.fuel - 2, by omega⟩
  have hpk := rest_eq_cons_peek hrest
  have hrole := determineIdentifierRole_asterisks p k tail hrest
  have h1 : (p.advance 1).rest = List.replicate k AsteriskToken ++ IdentifierToken :: tail :=
    advance_rest hrest
  unfold parseDeclarationSpecifiers
  rw [hf, declarationSpecifiers_identifier_step _ _ _ _ _ _ _ _ _ hpk]
  simp only [Bool.false_eq_true, if_false, identifierIsDeclarator_true false p _ hrole,
    Res.andThen_ok, typedefName_AtFirst_identifier none p hpk]
  have hno : (IdentifierRole.AsTypedefName == IdentifierRole.AsDeclarator) = false := rfl
  simp only [hno, Bool.false_eq_true, if_false, appendSpecifier, Option.isSome_none,
    List.nil_append]
  cases k with
  | zero =>
    have hpk1 : (p.advance 1).peek 1 = IdentifierToken := rest_eq_cons_peek h1
    rw [declarationSpecifiers_identifier_step _ _ _ _ _ _ _ _ _ hpk1]
    rfl
  | succ k =>
    have hpk1 : (p.advance 1).peek 1 = AsteriskToken := rest_eq_cons_peek h1
    rw [declarationSpecifiers_loop_asterisk _ _ _ _ _ _ _ _ _ hpk1]
    rfl

theorem parseDeclarator_identifier (ext : Externals) (rec : ParserTable) (p : Parser)
    (h1 : p.peek 1 = IdentifierToken) (h2 : p.peek 2 = SemicolonToken) :
    parseDeclarator ext rec none DeclarationScope.File DeclaratorVariety.Named p
      = Res.ok (true, some (DeclaratorSyntax.IdentifierDeclarator (some p.curTkIdx_) [] []
          none none)) (p.advance 1) := by
  have hcons := consume_of_peek (p := p) (by rw [h1]; decide)
  have hpk : (p.advance 1).peek 1 = SemicolonToken := by rw [peek_advance]; exact h2
  have hsfx := directDeclaratorSuffix_none ext rec
    (some (DeclaratorSyntax.IdentifierDeclarator (some p.curTkIdx_) [] [] none none))
    DeclarationScope.File DeclaratorVariety.Named []
    (some (DeclaratorSyntax.IdentifierDeclarator (some p.curTkIdx_) [] [] none none))
    (p.advance 1) (by rw [hpk]; decide) (by rw [hpk]; decide)
  simp [parseDeclarator, h1, parseDirectDeclarator, hcons, hsfx,
    parseTrailingAsmLabelAndAttributes, hpk, parseBitfieldAfterDeclarator,
    DeclaratorSyntax.setIdentifierAttrs2]

theorem parseDeclarator_asterisk (ext : Externals) (f : Nat) (p : Parser)
    (h1 : p.peek 1 = AsteriskToken)
    (h2 : continuesQualifiersAndAttributes (p.peek 2) = false) :
    parseDeclarator ext (ParserTable.ofFuel ext (f + 1)) none DeclarationScope.File
        DeclaratorVariety.Named p
      = (parseDeclarator ext (ParserTable.ofFuel ext f) none DeclarationScope.File
          DeclaratorVariety.Named (p.advance 1)).andThen (fun i s =>
            Res.ok (i.1, some (DeclaratorSyntax.PointerDeclarator [] (some p.curTkIdx_) []
              i.2 none none)) s) := by
  have hcons := consume_of_peek (p := p) (by rw [h1]; decide)
  have hpk : continuesQualifiersAndAttributes ((p.advance 1).peek 1) = false := by
    rw [peek_advance]; exact h2
  have hq := typeQualifiersAndAttributes_loop_other ext f [] (p.advance 1) hpk
  have hrec : (ParserTable.ofFuel ext (f + 1)).parseDeclarator
      = parseDeclarator ext (ParserTable.ofFuel ext f) := rfl
  have hna : ¬ (AsteriskToken = Keyword_ExtGNU___attribute__) := by decide
  rw [parseDeclarator]
  simp only [run_bind, run_peek, Res.andThen_ok, h1, hna, if_false, run_pure]
  rw [if_pos True.intro]
  simp only [run_bind, run_peek, Res.andThen_ok, if_true, run_consume, hcons,
    parseTypeQualifiersAndAttributes, ofFuel_fuel, hq, hrec, run_pure]
  rfl

theorem parseDeclarator_pointerChain (ext : Externals) :
    ∀ (k n : Nat) (p : Parser) (tail : List SyntaxKind), k ≤ n →
      p.rest = List.replicate k AsteriskToken ++ IdentifierToken :: SemicolonToken :: tail →
      parseDeclarator ext (ParserTable.ofFuel ext n) none DeclarationScope.File
          DeclaratorVariety.Named p
        = Res.ok (true, some (pointerDeclaratorChain p.curTkIdx_ k)) (p.advance (k + 1)) := by
  intro k
  induction k with
  | zero =>
    intro n p tail _ hrest
    have h1 := rest_eq_cons_peek hrest
    have h2 := rest_eq_cons_peek2 hrest
    simp only [List.replicate_zero, List.nil_append, List.head?_cons, Option.getD_some] at h1 h2
    exact parseDeclarator_identifier ext _ p h1 h2
  | succ k ih =>
    intro n p tail hn hrest
    obtain ⟨f, rfl⟩ : ∃ f, n = f + 1 := ⟨n - 1, by omega⟩
    rw [List.replicate_succ, List.cons_append] at hrest
    have h1 := rest_eq_cons_peek hrest
    have h2 := rest_eq_cons_peek2 hrest
    have h2' : continuesQualifiersAndAttributes (p.peek 2) = false := by
      rw [h2]
      cases k <;> rfl
    have hadv : (p.advance 1).rest
        = List.replicate k AsteriskToken ++ IdentifierToken :: SemicolonToken :: tail :=
      advance_rest hrest
    rw [parseDeclarator_asterisk ext f p h1 h2', ih f (p.advance 1) tail (by omega) hadv]
    simp only [Res.andThen_ok, advance_curTkIdx, advance_advance, pointerDeclaratorChain]
    congr 2
    omega

/-- C25, as amended: with the cursor on an identifier `T`, followed by any number `k` of
`*` tokens and then another identifier, whatever the tokens before the cursor are:
`determineIdentifierRole`, with no type specifier seen, answers typedef-name;
`parseDeclarationSpecifiers`, as it is called at file scope, yields the single specifier
`TypedefName(T)`; and when `;` follows the second identifier, the declaration that results
is the variable declaration of that specifier list whose one declarator is the identifier
declarator of the second identifier inside `k` pointer declarators, one for each `*`
(for `T x ;`, the identifier declarator alone). -/
theorem C25_typedef_name_before_declarator (ext : Externals) (p : Parser) (k : Nat)
    (tail : List SyntaxKind)
    (hrest : p.rest
      = IdentifierToken :: (List.replicate k AsteriskToken ++ IdentifierToken :: tail)) :
    determineIdentifierRole p false = some IdentifierRole.AsTypedefName
    ∧ (∀ rec : ParserTable, 2 ≤ rec.fuel →
      parseDeclarationSpecifiers ext rec none [] true p
        = Res.ok (true, none, [some (SpecifierSyntax.TypedefName (some p.curTkIdx_))])
            (p.advance 1))
    ∧ (∀ (n : Nat) (tail2 : List SyntaxKind), tail = SemicolonToken :: tail2 → k + 2 ≤ n →
      parseDeclarationOrFunctionDefinition ext (ParserTable.ofFuel ext n) none p
        = Res.ok (true, some (DeclarationSyntax.VariableAndOrFunctionDeclaration
            [some (SpecifierSyntax.TypedefName (some p.curTkIdx_))]
            [(some (pointerDeclaratorChain (p.curTkIdx_ + 1) k), none)]
            (some (p.curTkIdx_ + k + 2)))) (p.advance (k + 3))) := by
  refine ⟨determineIdentifierRole_asterisks p k tail hrest,
    fun rec hfuel => declarationSpecifiers_typedefName ext rec hfuel p k tail hrest,
    fun n tail2 htail hn => ?_⟩
  subst htail
  obtain ⟨f, rfl⟩ : ∃ f, n = f + 1 := ⟨n - 1, by omega⟩
  have hspecs := declarationSpecifiers_typedefName ext (ParserTable.ofFuel ext (f + 1))
    (by rw [ofFuel_fuel]; omega) p k _ hrest
  have h1 : (p.advance 1).rest
      = List.replicate k AsteriskToken ++ IdentifierToken :: SemicolonToken :: tail2 :=
    advance_rest hrest
  have hpk1 : (p.advance 1).peek 1 ≠ SemicolonToken := by
    rw [peek_of_rest, h1]
    cases k <;> simp [List.replicate_succ]
  have hdecl := parseDeclarator_pointerChain ext k (f + 1) (p.advance 1) tail2 (by omega) h1
  simp only [advance_curTkIdx, advance_advance] at hdecl
  have hend : (p.advance (1 + (k + 1))).rest = SemicolonToken :: tail2 := by
    rw [advance_rest_n, hrest]
    have : 1 + (k + 1) = (k + 1) + 1 := by omega
    rw [this, List.drop_succ_cons]
    have hlen : (List.replicate k AsteriskToken).length = k := List.length_replicate _ _
    rw [List.drop_append_eq_append_drop, hlen]
    simp
  have hpk2 : (p.advance (1 + (k + 1))).peek 1 = SemicolonToken := rest_eq_cons_peek hend
  have hb : (DeclarationScope.File != DeclarationScope.Block) = true := rfl
  unfold parseDeclarationOrFunctionDefinition parseDeclaration
  simp only [run_bind, hb, hspecs, Res.andThen_ok, Bool.not_true, Bool.false_eq_true, if_false,
    run_peek, hpk1, run_pure, List.isEmpty_cons]
  unfold parseDeclarationOrFunctionDefinition_AtFollowOfSpecifiers
  rw [ofFuel_fuel, follow_loop_step ext _ _ f none [] (p.advance 1) _ _ hdecl
    (by rw [hpk2]; decide), followOfDeclarator_semicolon _ _ _ _ _ _ _ _ hpk2]
  simp only [advance_curTkIdx, advance_advance, List.nil_append]
  have e1 : p.curTkIdx_ + (1 + (k + 1)) = p.curTkIdx_ + k + 2 := by omega
  have e2 : 1 + (k + 1) + 1 = k + 3 := by omega
  rw [e1, e2]

/-- An instance of C25: `T * x ;` is the declaration of `x` by a pointer declarator behind
the specifier `TypedefName(T)`. -/
theorem C25_typedef_name_before_declarator_witness :
    parseDeclarationOrFunctionDefinition Externals.failing
        (ParserTable.ofFuel Externals.failing 3) none
        (Parser.start [IdentifierToken, AsteriskToken, IdentifierToken, SemicolonToken])
      = Res.ok (true, some (DeclarationSyntax.VariableAndOrFunctionDeclaration
          [some (SpecifierSyntax.TypedefName (some 0))]
          [(some (DeclaratorSyntax.PointerDeclarator [] (some 1) []
            (some (DeclaratorSyntax.IdentifierDeclarator (some 2) [] [] none none))
            none none), none)]
          (some 3)))
          ((Parser.start [IdentifierToken, AsteriskToken, IdentifierToken,
            SemicolonToken]).advance 4) :=
  (C25_typedef_name_before_declarator Externals.failing
    (Parser.start [IdentifierToken, AsteriskToken, IdentifierToken, SemicolonToken]) 1
    [SemicolonToken] rfl).2.2 3 [] rfl (by decide)

/-- C25, the counterexample: in `T x ;` no `*` stands between the two identifiers, and the
declaration that results declares `x` by an identifier declarator: there is no pointer
declarator. -/
theorem C25_counterexample_no_asterisk :
    parseDeclarationOrFunctionDefinition Externals.failing
        (ParserTable.ofFuel Externals.failing 3) none
        (Parser.start [IdentifierToken, IdentifierToken, SemicolonToken])
      = Res.ok (true, some (DeclarationSyntax.VariableAndOrFunctionDeclaration
          [some (SpecifierSyntax.TypedefName (some 0))]
          [(some (DeclaratorSyntax.IdentifierDeclarator (some 1) [] [] none none), none)]
          (some 2)))
          ((Parser.start [IdentifierToken, IdentifierToken, SemicolonToken]).advance 3)
    ∧ (DeclaratorSyntax.IdentifierDeclarator (some 1) [] [] none none).kind
      ≠ PointerDeclarator :=
  ⟨rfl, by decide⟩

/-! ## The depth guard under nesting: claim C22 -/

theorem cast_parenthesized (ext : Externals) (f : Nat) (expr : Option ExpressionSyntax)
    (p : Parser) (h1 : p.peek 1 = OpenParenToken)
    (h2 : startsTypeNameAfterOpenParen (p.peek 2) = false)
    (h3 : p.peek 2 ≠ IdentifierToken) (h4 : p.peek 2 ≠ OpenBraceToken) :
    parseExpressionWithPrecedenceCast ext (ParserTable.ofFuel ext (f + 1)) expr p
      = (parseExpression ext (ParserTable.ofFuel ext f) none (p.advance 1)).andThen
          (fun r s =>
            if r.1 = true then
              (matchOrSkipTo ext CloseParenToken none s).andThen (fun m s2 =>
                if m.1 = true then
                  parsePostfixExpression_AtFollow ext (ParserTable.ofFuel ext (f + 1))
                    (some (ExpressionSyntax.ParenthesizedExpression (some p.curTkIdx_) r.2 m.2))
                    s2
                else Res.ok (false, some (ExpressionSyntax.ParenthesizedExpression
                  (some p.curTkIdx_) r.2 m.2)) s2)
            else Res.ok (false, some (ExpressionSyntax.ParenthesizedExpression
              (some p.curTkIdx_) r.2 none)) s) := by
  have hcons := consume_of_peek (p := p) (by rw [h1]; decide)
  have hu : parseExpressionWithPrecedenceUnary ext (ParserTable.ofFuel ext (f + 1)) expr p
      = parseExpressionWithPrecedencePostfix ext (ParserTable.ofFuel ext (f + 1)) expr p := by
    unfold parseExpressionWithPrecedenceUnary
    simp only [run_bind, run_peek, Res.andThen_ok, h1]
  have hprim : parsePrimaryExpression ext (ParserTable.ofFuel ext (f + 1)) expr p
      = parseParenthesizedExpression_AtFirst ext (ParserTable.ofFuel ext (f + 1)) expr p := by
    unfold parsePrimaryExpression
    simp only [run_bind, run_peek, Res.andThen_ok, h1, h4, if_false]
  unfold parseExpressionWithPrecedenceCast
  simp only [run_bind, run_peek, Res.andThen_ok, h1, if_true, h2, Bool.false_eq_true,
    if_false, h3, hu]
  unfold parseExpressionWithPrecedencePostfix
  simp only [run_bind, run_peek, Res.andThen_ok, h1, if_true, h2, Bool.false_eq_true,
    if_false, h3, hprim]
  unfold parseParenthesizedExpression_AtFirst
  simp only [run_bind, run_peek, Res.andThen_ok, h1, bne_self_eq_false, Bool.false_eq_true,
    if_false, run_consume, hcons, ofFuel_succ_parseExpression]
  cases parseExpression ext (ParserTable.ofFuel ext f) none (p.advance 1) with
  | fault F => rfl
  | ok r s =>
    simp only [Res.andThen_ok]
    cases hr : r.1
    · simp only [Bool.false_eq_true, if_false, run_pure, Res.andThen_ok]
    · simp only [if_true, run_bind]
      cases matchOrSkipTo ext CloseParenToken none s with
      | fault F => rfl
      | ok m s2 =>
        simp only [Res.andThen_ok, run_pure]
        cases hm : m.1 <;> simp

theorem cast_subscript_fault (ext : Externals) (f : Nat) (expr : Option ExpressionSyntax)
    (p : Parser) (base : SyntaxKind) (r : List SyntaxKind)
    (h : p.rest = base :: OpenBracketToken :: r) (hbase : isSingleTokenOperand base = true)
    (F : Fault)
    (hin : parseExpression ext (ParserTable.ofFuel ext f) none (p.advance 2) = Res.fault F) :
    parseExpressionWithPrecedenceCast ext (ParserTable.ofFuel ext (f + 1)) expr p
      = Res.fault F := by
  have hpk := rest_eq_cons_peek h
  obtain ⟨hs, hparen, hext⟩ := singleTokenOperand_startsUnary hbase
  have h1 : (p.advance 1).rest = OpenBracketToken :: r := advance_rest h
  have hpk1 : (p.advance 1).peek 1 = OpenBracketToken := rest_eq_cons_peek h1
  have hcons1 := consume_of_peek (p := p.advance 1) (by rw [hpk1]; decide)
  have hprim := primary_singleTokenOperand ext (ParserTable.ofFuel ext (f + 1))
    (by rw [ofFuel_fuel]; omega) expr p base hpk hbase (by rw [hpk1]; rfl)
  unfold parseExpressionWithPrecedenceCast
  simp only [run_bind, run_peek, Res.andThen_ok, hpk, hparen, if_false, hs, if_true]
  rw [unary_singleTokenOperand ext _ expr p base hpk hbase]
  unfold parseExpressionWithPrecedencePostfix
  simp only [run_bind, run_peek, Res.andThen_ok, hpk, hparen, if_false, hprim, if_true]
  unfold parsePostfixExpression_AtFollow
  rw [ofFuel_fuel, parsePostfixExpression_AtFollow_loop]
  simp only [run_bind, run_peek, Res.andThen_ok, hpk1, run_consume, hcons1,
    ofFuel_succ_parseExpression, advance_advance, hin, Res.andThen_fault]

theorem parseExpression_of_cast_fault (ext : Externals) (rec : ParserTable)
    (expr : Option ExpressionSyntax) (p : Parser) (F : Fault)
    (h : parseExpressionWithPrecedenceCast ext rec expr
      { p with depthOfExprs_ := p.depthOfExprs_ + 1 } = Res.fault F) :
    parseExpression ext rec expr p = Res.fault F := by
  unfold parseExpression parseExpressionWithPrecedenceComma parseNAryExpression
  simp only [run_bind, h, Res.andThen_fault]

theorem operator_continuesOperand (op : SyntaxKind) (h : 1 ≤ precedenceOf op) :
    continuesOperand op = false := by
  cases op <;> first | rfl | (exfalso; revert h; decide)

theorem parseExpression_operator_fault (ext : Externals) (rec : ParserTable)
    (hfuel : 1 ≤ rec.fuel) (expr : Option ExpressionSyntax) (p : Parser) (e op : SyntaxKind)
    (r : List SyntaxKind) (h : p.rest = e :: op :: r) (he : isSingleTokenOperand e = true)
    (hop : 1 ≤ precedenceOf op) (hd : p.MAX_DEPTH_OF_EXPRS < p.depthOfExprs_ + 2) :
    parseExpression ext rec expr p = Res.fault Fault.maximumDepthOfExpressions := by
  obtain ⟨n, hn⟩ : ∃ n, rec.fuel = n + 1 := ⟨rec.fuel - 1, by omega⟩
  have hcast := cast_singleTokenOperand ext rec hfuel expr
    { p with depthOfExprs_ := p.depthOfExprs_ + 1 } e (op :: r) h he
    (by simpa using operator_continuesOperand op hop)
  have hpk : (({ p with depthOfExprs_ := p.depthOfExprs_ + 1 } : Parser).advance 1).peek 1
      = op := rest_eq_cons_peek (advance_rest (p := { p with depthOfExprs_ := _ }) h)
  unfold parseExpression parseExpressionWithPrecedenceComma parseNAryExpression
  simp only [run_bind, hcast, Res.andThen_ok, if_true, parseNAryExpression_AtOperator, hn]
  rw [nary_loop_depth_fault ext rec _ n _ _ _ (by rw [hpk]; exact hop)
    (by simp only [advance_MAX_DEPTH_OF_EXPRS, advance_depthOfExprs]; omega)]

theorem nestingTokens_head (ns : List Nesting) (e : SyntaxKind)
    (h : nestingDescends ns e = true) (he : isSingleTokenOperand e = true) (r : List SyntaxKind) :
    (nestingTokens ns ++ e :: r).head?.getD EndOfFile
        = (nestingTokens ns ++ [e]).head?.getD EndOfFile
      ∧ startsTypeNameAfterOpenParen ((nestingTokens ns ++ [e]).head?.getD EndOfFile) = false
      ∧ (nestingTokens ns ++ [e]).head?.getD EndOfFile ≠ OpenBraceToken := by
  cases ns with
  | nil =>
    refine ⟨rfl, ?_, ?_⟩ <;>
      (simp only [nestingTokens, List.nil_append, List.head?_cons, Option.getD_some]
       revert he; cases e <;> decide)
  | cons n ns =>
    cases n with
    | parenthesis =>
      refine ⟨rfl, rfl, ?_⟩
      simp only [nestingTokens, List.cons_append, List.head?_cons, Option.getD_some]
      decide
    | subscript base =>
      simp only [nestingDescends, Bool.and_eq_true] at h
      have hb := h.1
      refine ⟨rfl, ?_, ?_⟩ <;>
        (simp only [nestingTokens, List.cons_append, List.head?_cons, Option.getD_some]
         revert hb; cases base <;> decide)

theorem nesting_fault (ext : Externals) (e op : SyntaxKind) (r : List SyntaxKind)
    (he : isSingleTokenOperand e = true) (hop : 1 ≤ precedenceOf op) :
    ∀ (ns : List Nesting) (fuel : Nat) (expr : Option ExpressionSyntax) (p : Parser),
      p.rest = nestingTokens ns ++ e :: op :: r → nestingDescends ns e = true →
      p.MAX_DEPTH_OF_EXPRS < p.depthOfExprs_ + ns.length + 2 → ns.length + 1 ≤ fuel →
      parseExpression ext (ParserTable.ofFuel ext fuel) expr p
        = Res.fault Fault.maximumDepthOfExpressions := by
  intro ns
  induction ns with
  | nil =>
    intro fuel expr p hrest _ hd hfuel
    exact parseExpression_operator_fault ext _ (by rw [ofFuel_fuel]; simpa using hfuel) expr p
      e op r hrest he hop (by simpa using hd)
  | cons n ns ih =>
    intro fuel expr p hrest hns hd hfuel
    simp only [List.length_cons] at hd hfuel
    obtain ⟨f, rfl⟩ : ∃ f, fuel = f + 1 := ⟨fuel - 1, by omega⟩
    apply parseExpression_of_cast_fault
    generalize hq : ({ p with depthOfExprs_ := p.depthOfExprs_ + 1 } : Parser) = q
    have hqrest : q.rest = p.rest := by subst hq; rfl
    have hqd : q.depthOfExprs_ = p.depthOfExprs_ + 1 := by subst hq; rfl
    have hqm : q.MAX_DEPTH_OF_EXPRS = p.MAX_DEPTH_OF_EXPRS := by subst hq; rfl
    rw [hrest] at hqrest
    cases n with
    | parenthesis =>
      simp only [nestingDescends, Bool.and_eq_true, bne_iff_ne, ne_eq] at hns
      simp only [nestingTokens, List.cons_append] at hqrest
      obtain ⟨hh1, hh2, hh3⟩ := nestingTokens_head ns e hns.2 he (op :: r)
      have hpk1 : q.peek 1 = OpenParenToken := rest_eq_cons_peek hqrest
      have hpk2 : q.peek 2 = (nestingTokens ns ++ [e]).head?.getD EndOfFile := by
        rw [rest_eq_cons_peek2 hqrest, hh1]
      rw [cast_parenthesized ext f expr _ hpk1 (by rw [hpk2]; exact hh2)
        (by rw [hpk2]; exact hns.1) (by rw [hpk2]; exact hh3)]
      rw [ih f none (q.advance 1) (advance_rest hqrest) hns.2
        (by simp only [advance_MAX_DEPTH_OF_EXPRS, advance_depthOfExprs]; omega) (by omega)]
      rfl
    | subscript base =>
      simp only [nestingDescends, Bool.and_eq_true] at hns
      simp only [nestingTokens, List.cons_append] at hqrest
      have hrest2 : (q.advance 2).rest = nestingTokens ns ++ e :: op :: r := by
        rw [advance_rest_n, hqrest]; rfl
      exact cast_subscript_fault ext f expr _ base _ hqrest hns.1 _
        (ih f none _ hrest2 hns.2
          (by simp only [advance_MAX_DEPTH_OF_EXPRS, advance_depthOfExprs]; omega) (by omega))

theorem parseExpression_of_cast (ext : Externals) (rec : ParserTable) (hfuel : 1 ≤ rec.fuel)
    (expr e : Option ExpressionSyntax) (p : Parser) (n : Nat)
    (h : parseExpressionWithPrecedenceCast ext rec expr
        { p with depthOfExprs_ := p.depthOfExprs_ + 1 }
      = Res.ok (true, e) (({ p with depthOfExprs_ := p.depthOfExprs_ + 1 } : Parser).advance n))
    (hstop : precedenceOf ((p.advance n).peek 1) = 0) :
    parseExpression ext rec expr p = Res.ok (true, e) (p.advance n) := by
  obtain ⟨m, hm⟩ : ∃ m, rec.fuel = m + 1 := ⟨rec.fuel - 1, by omega⟩
  have hpk : (({ p with depthOfExprs_ := p.depthOfExprs_ + 1 } : Parser).advance n).peek 1
      = (p.advance n).peek 1 := rfl
  unfold parseExpression parseExpressionWithPrecedenceComma parseNAryExpression
  simp only [run_bind, h, Res.andThen_ok, if_true, parseNAryExpression_AtOperator, hm]
  rw [nary_loop_stop ext rec _ m _ _ _ (by rw [hpk, hstop]; decide)]
  simp only [depth_restore]

theorem cast_prefixChain (ext : Externals) (r : List SyntaxKind)
    (hr : continuesOperand (r.head?.getD EndOfFile) = false) :
    ∀ (k f : Nat) (expr : Option ExpressionSyntax) (p : Parser), k + 1 ≤ f →
      p.rest = List.replicate k MinusToken ++ IdentifierToken :: r →
      parseExpressionWithPrecedenceCast ext (ParserTable.ofFuel ext f) expr p
        = Res.ok (true, some (prefixChain p.curTkIdx_ k)) (p.advance (k + 1)) := by
  intro k
  induction k with
  | zero =>
    intro f expr p hf hrest
    exact cast_singleTokenOperand ext _ (by rw [ofFuel_fuel]; omega) expr p IdentifierToken r
      hrest rfl hr
  | succ k ih =>
    intro f expr p hf hrest
    obtain ⟨f', rfl⟩ : ∃ f', f = f' + 1 := ⟨f - 1, by omega⟩
    rw [List.replicate_succ, List.cons_append] at hrest
    have hpk := rest_eq_cons_peek hrest
    have hcons := consume_of_rest hrest (by decide)
    have hin := ih f' none (p.advance 1) (by omega) (advance_rest hrest)
    simp only [advance_curTkIdx, advance_advance] at hin
    have e1 : 1 + (k + 1) = k + 1 + 1 := by omega
    have hne : ¬ (MinusToken = OpenParenToken) := by decide
    have hs : startsUnaryExpression MinusToken = true := rfl
    have hu : parseExpressionWithPrecedenceUnary ext (ParserTable.ofFuel ext (f' + 1)) expr p
        = Res.ok (true, some (ExpressionSyntax.PrefixUnaryExpression UnaryMinusExpression
            (some p.curTkIdx_) (some (prefixChain (p.curTkIdx_ + 1) k))))
            (p.advance (1 + (k + 1))) := by
      simp [parseExpressionWithPrecedenceUnary, hpk, parsePrefixUnaryExpression_AtFirst,
        isPrefixUnaryOperatorToken, hcons, ofFuel_succ_Cast, hin]
    unfold parseExpressionWithPrecedenceCast
    simp only [run_bind, run_peek, Res.andThen_ok, hpk, hne, if_false, hs, if_true, hu,
      prefixChain, e1]

theorem parseExpression_prefixChain (ext : Externals) (k f : Nat)
    (expr : Option ExpressionSyntax) (p : Parser) (r : List SyntaxKind) (hf : k + 1 ≤ f)
    (hrest : p.rest = List.replicate k MinusToken ++ IdentifierToken :: r)
    (hr : endsInfixSequence (r.head?.getD EndOfFile) = true) :
    parseExpression ext (ParserTable.ofFuel ext f) expr p
      = Res.ok (true, some (prefixChain p.curTkIdx_ k)) (p.advance (k + 1)) := by
  simp only [endsInfixSequence, Bool.and_eq_true, beq_iff_eq, Bool.not_eq_true'] at hr
  have hend : (p.advance (k + 1)).rest = r := by
    rw [advance_rest_n, hrest]
    have hlen : (List.replicate k MinusToken).length = k := List.length_replicate _ _
    rw [List.drop_append_eq_append_drop, hlen]
    simp
  apply parseExpression_of_cast ext _ (by rw [ofFuel_fuel]; omega)
  · exact cast_prefixChain ext r hr.2 k f expr { p with depthOfExprs_ := p.depthOfExprs_ + 1 }
      hf hrest
  · rw [peek_of_rest, hend]; exact hr.1

theorem parseExpression_parenthesizedChain (ext : Externals) :
    ∀ (k f : Nat) (expr : Option ExpressionSyntax) (p : Parser) (r : List SyntaxKind),
      k + 1 ≤ f →
      p.rest = List.replicate k OpenParenToken
        ++ IntegerConstantToken :: (List.replicate k CloseParenToken ++ r) →
      endsInfixSequence (r.head?.getD EndOfFile) = true →
      parseExpression ext (ParserTable.ofFuel ext f) expr p
        = Res.ok (true, some (parenthesizedChain p.curTkIdx_ k)) (p.advance (2 * k + 1)) := by
  intro k
  induction k with
  | zero =>
    intro f expr p r hf hrest hr
    simp only [endsInfixSequence, Bool.and_eq_true, beq_iff_eq, Bool.not_eq_true'] at hr
    simp only [List.replicate_zero, List.nil_append] at hrest
    apply parseExpression_of_cast ext _ (by rw [ofFuel_fuel]; omega)
    · exact cast_singleTokenOperand ext _ (by rw [ofFuel_fuel]; omega) expr
        { p with depthOfExprs_ := p.depthOfExprs_ + 1 } IntegerConstantToken r hrest rfl hr.2
    · rw [peek_of_rest, advance_rest hrest]; exact hr.1
  | succ k ih =>
    intro f expr p r hf hrest hr
    obtain ⟨f', rfl⟩ : ∃ f', f = f' + 1 := ⟨f - 1, by omega⟩
    have hr' := hr
    simp only [endsInfixSequence, Bool.and_eq_true, beq_iff_eq, Bool.not_eq_true'] at hr'
    have hsplit : List.replicate (k + 1) CloseParenToken ++ r
        = List.replicate k CloseParenToken ++ CloseParenToken :: r := by
      rw [List.replicate_succ', List.append_assoc]; rfl
    rw [List.replicate_succ, List.cons_append, hsplit] at hrest
    have hlen1 : (List.replicate k OpenParenToken).length = k := List.length_replicate _ _
    have hlen2 : (List.replicate k CloseParenToken).length = k := List.length_replicate _ _
    have hmid : (p.advance (1 + (2 * k + 1))).rest = CloseParenToken :: r := by
      rw [advance_rest_n, hrest]
      have : 1 + (2 * k + 1) = (k + (k + 1)) + 1 := by omega
      rw [this, List.drop_succ_cons, List.drop_append_eq_append_drop, hlen1]
      have h0 : k + (k + 1) - k = k + 1 := by omega
      rw [List.drop_of_length_le (by rw [hlen1]; omega), h0, List.nil_append,
        List.drop_succ_cons, List.drop_append_eq_append_drop, hlen2]
      simp
    have hend : (p.advance (2 * (k + 1) + 1)).rest = r := by
      have : 2 * (k + 1) + 1 = 1 + (2 * k + 1) + 1 := by omega
      rw [this, ← advance_advance, advance_rest hmid]
    apply parseExpression_of_cast ext _ (by rw [ofFuel_fuel]; omega)
    · generalize hq : ({ p with depthOfExprs_ := p.depthOfExprs_ + 1 } : Parser) = q
      have hqrest : q.rest = p.rest := by subst hq; rfl
      have hqidx : q.curTkIdx_ = p.curTkIdx_ := by subst hq; rfl
      rw [hrest] at hqrest
      have hpk1 : q.peek 1 = OpenParenToken := rest_eq_cons_peek hqrest
      have hpk2 : q.peek 2 = OpenParenToken ∨ q.peek 2 = IntegerConstantToken := by
        rw [rest_eq_cons_peek2 hqrest]
        cases k with
        | zero => right; rfl
        | succ k => left; rfl
      have hqmid : (q.advance (1 + (2 * k + 1))).rest = CloseParenToken :: r := by
        rw [← hmid]; subst hq; rfl
      have hin := ih f' none (q.advance 1) (CloseParenToken :: r) (by omega)
        (advance_rest hqrest) rfl
      simp only [advance_curTkIdx, advance_advance] at hin
      have hcons := consume_of_rest hqmid (by decide)
      have hfollow := postfix_AtFollow_stop ext (ParserTable.ofFuel ext (f' + 1))
        (by rw [ofFuel_fuel]; omega)
        (some (ExpressionSyntax.ParenthesizedExpression (some q.curTkIdx_)
          (some (parenthesizedChain (q.curTkIdx_ + 1) k))
          (some (q.curTkIdx_ + (1 + (2 * k + 1))))))
        ((q.advance (1 + (2 * k + 1))).advance 1)
        (by
          rw [peek_of_rest, advance_rest hqmid]
          have := hr'.2
          simp only [continuesOperand, Bool.or_eq_false_iff] at this
          exact this.1)
      rw [cast_parenthesized ext f' expr q hpk1
        (by rcases hpk2 with h | h <;> rw [h] <;> rfl)
        (by rcases hpk2 with h | h <;> rw [h] <;> decide)
        (by rcases hpk2 with h | h <;> rw [h] <;> decide), hin]
      simp only [Res.andThen_ok, if_true, matchOrSkipTo, run_bind, run_peek,
        rest_eq_cons_peek hqmid, run_consume, hcons, run_pure, advance_curTkIdx, hfollow]
      simp only [advance_advance, parenthesizedChain, hqidx]
      have e1 : p.curTkIdx_ + (1 + (2 * k + 1)) = p.curTkIdx_ + 2 * k + 2 := by omega
      have e2 : 1 + (2 * k + 1) + 1 = 2 * (k + 1) + 1 := by omega
      rw [e1, e2]
    · rw [peek_of_rest, hend]; exact hr'.1

theorem parseExpression_rightChain (ext : Externals) (fuel : Nat) (p : Parser)
    (expr : Option ExpressionSyntax) (e0 : SyntaxKind)
    (pairs : List (SyntaxKind × SyntaxKind)) (tail : List SyntaxKind)
    (hrest : p.rest = e0 :: (infixTokens pairs ++ tail))
    (he0 : isSingleTokenOperand e0 = true)
    (hops : ∀ x ∈ pairs, isInfixOperatorToken x.1 = true ∧ isSingleTokenOperand x.2 = true)
    (htail : endsInfixSequence (tail.head?.getD EndOfFile) = true)
    (hfuel : 2 * pairs.length + 1 ≤ fuel)
    (hlevel : ∀ x ∈ pairs, precedenceOf x.1 = NAryPrecedence.Assignment)
    (hdepth : p.depthOfExprs_ + 1 < p.MAX_DEPTH_OF_EXPRS) :
    parseExpression ext (ParserTable.ofFuel ext fuel) expr p
      = Res.ok (true, some (rightNested (.operand e0 p.curTkIdx_)
          (infixItemsAt (p.curTkIdx_ + 1) pairs)).toExpression)
          (p.advance (2 * pairs.length + 1)) := by
  generalize hq : ({ p with depthOfExprs_ := p.depthOfExprs_ + 1 } : Parser) = q
  have hqrest : q.rest = e0 :: (infixTokens pairs ++ tail) := by subst hq; exact hrest
  have hqidx : q.curTkIdx_ = p.curTkIdx_ := by subst hq; rfl
  have hqd : q.depthOfExprs_ < q.MAX_DEPTH_OF_EXPRS := by subst hq; exact hdepth
  have hL := InfixOps_infixItemsAt (q.curTkIdx_ + 1) pairs hops
  have hat : AtItems (q.advance 1) (infixItemsAt (q.curTkIdx_ + 1) pairs) tail :=
    ⟨pairs, rfl, advance_rest hqrest⟩
  have hpk := (AtItems_peek hat hL htail).1
  rw [peek_of_rest, advance_rest hqrest] at hpk
  have hcast := cast_singleTokenOperand ext (ParserTable.ofFuel ext fuel)
    (by rw [ofFuel_fuel]; omega) expr q e0 _ hqrest he0 hpk
  have hrun := nary_rightChain ext tail htail NAryPrecedence.Assignment
    (infixItemsAt (q.curTkIdx_ + 1) pairs)
    fuel fuel NAryPrecedence.Sequencing (.operand e0 q.curTkIdx_) (q.advance 1)
    (by rw [infixItemsAt_length]; omega) (by rw [infixItemsAt_length]; omega) (by decide)
    (by decide)
    (by
      intro it hit
      have h1 := hlevel _ (infixItemsAt_mem _ _ _ hit)
      simp only at h1
      refine ⟨h1, ?_⟩
      simp [isRightAssociative, h1])
    hL hat (fun _ => by simpa using hqd)
  simp only [infixItemsAt_length, advance_advance, OperatorTree.toExpression,
    advance_depthOfExprs] at hrun
  have hfin : ({ (q.advance (1 + 2 * pairs.length)) with
      depthOfExprs_ := (q.advance (1 + 2 * pairs.length)).depthOfExprs_ - 1 } : Parser)
      = p.advance (2 * pairs.length + 1) := by
    subst hq
    have : 1 + 2 * pairs.length = 2 * pairs.length + 1 := by omega
    rw [this]
    exact depth_restore p _
  rw [hqidx] at hcast hrun
  unfold parseExpression parseExpressionWithPrecedenceComma
  simp only [hq, parseNAryExpression, run_bind, hcast, Res.andThen_ok, if_true,
    parseNAryExpression_AtOperator, ofFuel_fuel, advance_depthOfExprs, hrun]
  rw [← hfin]
  rfl

theorem rightChain_returns (ext : Externals) (n maxDepth extra : Nat) (h : 2 ≤ maxDepth) :
    parseExpression ext (ParserTable.ofFuel ext (2 * n + 1 + extra)) none
        (Parser.startWithMaxDepth maxDepth (operatorChain EqualsToken n))
      = Res.ok (true, some (rightNested (.operand IdentifierToken 0)
          (infixItemsAt 1 (List.replicate n (EqualsToken, IdentifierToken)))).toExpression)
          ((Parser.startWithMaxDepth maxDepth (operatorChain EqualsToken n)).advance
            (2 * n + 1)) := by
  have hrest : (Parser.startWithMaxDepth maxDepth (operatorChain EqualsToken n)).rest
      = IdentifierToken :: (infixTokens (List.replicate n (EqualsToken, IdentifierToken))
          ++ []) := by
    simp [Parser.rest, Parser.startWithMaxDepth, Parser.start, operatorChain]
  have hmem : ∀ x ∈ List.replicate n (EqualsToken, IdentifierToken),
      x = (EqualsToken, IdentifierToken) := fun x hx => List.eq_of_mem_replicate hx
  have hrun := parseExpression_rightChain ext (2 * n + 1 + extra)
    (Parser.startWithMaxDepth maxDepth (operatorChain EqualsToken n)) none IdentifierToken
    (List.replicate n (EqualsToken, IdentifierToken)) [] hrest rfl
    (fun x hx => by rw [hmem x hx]; exact ⟨rfl, rfl⟩) rfl
    (by rw [List.length_replicate]; omega)
    (fun x hx => by rw [hmem x hx]; rfl)
    (by simp only [Parser.startWithMaxDepth, Parser.start]; omega)
  rw [List.length_replicate] at hrun
  exact hrun

theorem prefixChain_returns (ext : Externals) (n maxDepth extra : Nat) :
    parseExpression ext (ParserTable.ofFuel ext (n + 1 + extra)) none
        (Parser.startWithMaxDepth maxDepth (prefixChainTokens n))
      = Res.ok (true, some (prefixChain 0 n))
          ((Parser.startWithMaxDepth maxDepth (prefixChainTokens n)).advance (n + 1)) := by
  have hrest : (Parser.startWithMaxDepth maxDepth (prefixChainTokens n)).rest
      = List.replicate n MinusToken ++ IdentifierToken :: [] := by
    simp [Parser.rest, Parser.startWithMaxDepth, Parser.start, prefixChainTokens]
  exact parseExpression_prefixChain ext n (n + 1 + extra) none _ [] (by omega) hrest rfl

theorem parenthesizedChain_returns (ext : Externals) (n maxDepth extra : Nat) :
    parseExpression ext (ParserTable.ofFuel ext (n + 1 + extra)) none
        (Parser.startWithMaxDepth maxDepth (parenthesizedChainTokens n))
      = Res.ok (true, some (parenthesizedChain 0 n))
          ((Parser.startWithMaxDepth maxDepth (parenthesizedChainTokens n)).advance
            (2 * n + 1)) := by
  have hrest : (Parser.startWithMaxDepth maxDepth (parenthesizedChainTokens n)).rest
      = List.replicate n OpenParenToken
        ++ IntegerConstantToken :: (List.replicate n CloseParenToken ++ []) := by
    simp [Parser.rest, Parser.startWithMaxDepth, Parser.start, parenthesizedChainTokens]
  exact parseExpression_parenthesizedChain ext n (n + 1 + extra) none _ [] (by omega) hrest rfl

/-- C22, as amended: when the input from the cursor on is any number `k` of levels of
nesting by parentheses or subscripts (each base of a subscript an operand of one token, no
identifier behind an opening parenthesis), an operand of one token and then an operator of
the n-ary engine (a token with a defined precedence), and the operator stands beyond the
maximum depth (`depthOfExprs_ + k + 2 > MAX_DEPTH_OF_EXPRS`: one level for the entry of
`parseExpression`, one for each level of nesting, one for the operator), `parseExpression`
raises the fatal error of the maximum depth of expressions and returns no tree, given fuel
for the `k` levels. -/
theorem C22_depth_error_at_nested_operator (ext : Externals) (fuel : Nat) (p : Parser)
    (expr : Option ExpressionSyntax) (ns : List Nesting) (e op : SyntaxKind)
    (r : List SyntaxKind)
    (hrest : p.rest = nestingTokens ns ++ e :: op :: r)
    (hns : nestingDescends ns e = true) (he : isSingleTokenOperand e = true)
    (hop : 1 ≤ precedenceOf op)
    (hdepth : p.MAX_DEPTH_OF_EXPRS < p.depthOfExprs_ + ns.length + 2)
    (hfuel : ns.length + 1 ≤ fuel) :
    parseExpression ext (ParserTable.ofFuel ext fuel) expr p
      = Res.fault Fault.maximumDepthOfExpressions :=
  nesting_fault ext e op r he hop ns fuel expr p hrest hns hdepth hfuel

/-- An instance of C22: in `a [ ( 1 + 2 ) ]` with the maximum depth 3, the operator `+`
stands at depth 4 (the entry, the subscript, the parenthesis, the operator), and the fatal
error is raised. -/
theorem C22_depth_error_at_nested_operator_witness :
    parseExpression Externals.failing (ParserTable.ofFuel Externals.failing 3) none
        (Parser.startWithMaxDepth 3 [IdentifierToken, OpenBracketToken, OpenParenToken,
          IntegerConstantToken, PlusToken, IntegerConstantToken, CloseParenToken,
          CloseBracketToken])
      = Res.fault Fault.maximumDepthOfExpressions :=
  C22_depth_error_at_nested_operator Externals.failing 3
    (Parser.startWithMaxDepth 3 [IdentifierToken, OpenBracketToken, OpenParenToken,
      IntegerConstantToken, PlusToken, IntegerConstantToken, CloseParenToken,
      CloseBracketToken])
    none [Nesting.subscript IdentifierToken, Nesting.parenthesis] IntegerConstantToken
    PlusToken [IntegerConstantToken, CloseParenToken, CloseBracketToken] rfl rfl rfl
    (by decide) (by decide) (by decide)

/-- C22, the counterexample: with the maximum depth of expressions 256, `parseExpression`
returns a tree, and raises no error, for the right-nested chain `a = a = ... = a` with 257
operators `=` (257 calls of the n-ary engine, one in the other), for the chain of 257
prefix operators `- - ... - a` (257 calls of the cast-level parser, one in the other), and
for the constant in 257 pairs of parentheses (the counter `depthOfExprs_` reaches 258).
The same holds for chains and nestings of any length `n`, whatever the maximum depth (from
2 on for the chain of `=`). -/
theorem C22_counterexample_nesting_without_depth_error :
    parseExpression Externals.failing (ParserTable.ofFuel Externals.failing 515) none
        (Parser.start (operatorChain EqualsToken 257))
      = Res.ok (true, some (rightNested (.operand IdentifierToken 0)
          (infixItemsAt 1 (List.replicate 257 (EqualsToken, IdentifierToken)))).toExpression)
          ((Parser.start (operatorChain EqualsToken 257)).advance 515)
    ∧ parseExpression Externals.failing (ParserTable.ofFuel Externals.failing 258) none
        (Parser.start (prefixChainTokens 257))
      = Res.ok (true, some (prefixChain 0 257))
          ((Parser.start (prefixChainTokens 257)).advance 258)
    ∧ parseExpression Externals.failing (ParserTable.ofFuel Externals.failing 258) none
        (Parser.start (parenthesizedChainTokens 257))
      = Res.ok (true, some (parenthesizedChain 0 257))
          ((Parser.start (parenthesizedChainTokens 257)).advance 515)
    ∧ (∀ n maxDepth extra : Nat, 2 ≤ maxDepth →
        parseExpression Externals.failing
            (ParserTable.ofFuel Externals.failing (2 * n + 1 + extra)) none
            (Parser.startWithMaxDepth maxDepth (operatorChain EqualsToken n))
          = Res.ok (true, some (rightNested (.operand IdentifierToken 0)
              (infixItemsAt 1 (List.replicate n (EqualsToken, IdentifierToken)))).toExpression)
              ((Parser.startWithMaxDepth maxDepth (operatorChain EqualsToken n)).advance
                (2 * n + 1)))
    ∧ (∀ n maxDepth extra : Nat,
        parseExpression Externals.failing
            (ParserTable.ofFuel Externals.failing (n + 1 + extra)) none
            (Parser.startWithMaxDepth maxDepth (prefixChainTokens n))
          = Res.ok (true, some (prefixChain 0 n))
              ((Parser.startWithMaxDepth maxDepth (prefixChainTokens n)).advance (n + 1)))
    ∧ (∀ n maxDepth extra : Nat,
        parseExpression Externals.failing
            (ParserTable.ofFuel Externals.failing (n + 1 + extra)) none
            (Parser.startWithMaxDepth maxDepth (parenthesizedChainTokens n))
          = Res.ok (true, some (parenthesizedChain 0 n))
              ((Parser.startWithMaxDepth maxDepth (parenthesizedChainTokens n)).advance
                (2 * n + 1))) :=
  ⟨rightChain_returns Externals.failing 257 256 0 (by decide),
    prefixChain_returns Externals.failing 257 256 0,
    parenthesizedChain_returns Externals.failing 257 256 0,
    fun n maxDepth extra h => rightChain_returns Externals.failing n maxDepth extra h,
    fun n maxDepth extra => prefixChain_returns Externals.failing n maxDepth extra,
    fun n maxDepth extra => parenthesizedChain_returns Externals.failing n maxDepth extra⟩

/-! ## Adjacent string literals: claim C32 -/

theorem stringLiteral_chain_run :
    ∀ (lits : List SyntaxKind) (fuel : Nat) (p : Parser) (tail : List SyntaxKind),
      lits ≠ [] → lits.length ≤ fuel → p.rest = lits ++ tail →
      (∀ t ∈ lits, isStringLiteralToken t = true) →
      isStringLiteralToken (tail.head?.getD EndOfFile) = false →
      parseStringLiteral_chain fuel p
        = Res.ok (stringLiteralChain p.curTkIdx_ lits.length) (p.advance lits.length) := by
  intro lits
  induction lits with
  | nil => intro _ _ _ h; exact absurd rfl h
  | cons t rest ih =>
    intro fuel p tail _ hfuel hrest hall htail
    simp only [List.length_cons] at hfuel
    obtain ⟨f, rfl⟩ : ∃ f, fuel = f + 1 := ⟨fuel - 1, by omega⟩
    rw [List.cons_append] at hrest
    have ht := hall t (List.mem_cons_self _ _)
    have hne : t ≠ EndOfFile := by
      intro hc; rw [hc] at ht; exact absurd ht (by decide)
    have hcons := consume_of_rest hrest hne
    have hadv : (p.advance 1).rest = rest ++ tail := advance_rest hrest
    rw [parseStringLiteral_chain]
    simp only [run_bind, run_consume, hcons, Res.andThen_ok, run_peek]
    cases rest with
    | nil =>
      have hpk : (p.advance 1).peek 1 = tail.head?.getD EndOfFile := by
        rw [peek_of_rest, hadv]; rfl
      simp only [hpk, htail, Bool.false_eq_true, if_false, run_pure, List.length_singleton,
        stringLiteralChain]
    | cons t2 rest2 =>
      have hpk : (p.advance 1).peek 1 = t2 := rest_eq_cons_peek hadv
      have ht2 := hall t2 (List.mem_cons_of_mem _ (List.mem_cons_self _ _))
      have hin := ih f (p.advance 1) tail (by simp) (by simpa using hfuel) hadv
        (fun x hx => hall x (List.mem_cons_of_mem _ hx)) htail
      simp only [hpk, ht2, if_true, run_bind, hin, Res.andThen_ok, run_pure, advance_curTkIdx,
        advance_advance, stringLiteralChain]
      have e1 : 1 + (t2 :: rest2).length = (t :: t2 :: rest2).length := by
        simp only [List.length_cons]; omega
      rw [e1]

theorem adjacentIndices_chain (n : Nat) :
    ∀ (idx fuel : Nat), n ≤ fuel →
      adjacentIndices fuel (stringLiteralChain idx n)
        = (List.range n).map (fun i => some (idx + i)) := by
  induction n with
  | zero => intro idx fuel _; cases fuel <;> rfl
  | succ n ih =>
    intro idx fuel hf
    obtain ⟨f, rfl⟩ : ∃ f, fuel = f + 1 := ⟨fuel - 1, by omega⟩
    rw [stringLiteralChain, adjacentIndices, ih (idx + 1) f (by omega), List.range_succ_eq_map]
    simp only [List.map_cons, List.map_map, Nat.add_zero, List.cons.injEq, true_and]
    apply List.map_congr_left
    intro i _
    simp only [Function.comp, Option.some.injEq]
    omega

/-- C32: for `n >= 1` adjacent string literal tokens (of any encoding prefixes, the same or
not) followed by a token that is no string literal, `parseStringLiteral_AtFirst` consumes
exactly the `n` tokens and returns one string literal expression that heads a chain of `n`
nodes linked through the slot `adjacent_`: the `i`-th node holds the index of the `i`-th
token, and the slot of the last node is null (following the slots from the head, for up
to `n + 1` nodes, gives the `n` indices and no more). -/
theorem C32_adjacent_string_literals (rec : ParserTable) (expr : Option ExpressionSyntax)
    (p : Parser) (lits tail : List SyntaxKind)
    (hn : 1 ≤ lits.length) (hrest : p.rest = lits ++ tail)
    (hall : ∀ t ∈ lits, isStringLiteralToken t = true)
    (htail : isStringLiteralToken (tail.head?.getD EndOfFile) = false)
    (hfuel : lits.length ≤ rec.fuel) :
    parseStringLiteral_AtFirst rec expr p
        = Res.ok (stringLiteralChain p.curTkIdx_ lits.length) (p.advance lits.length)
      ∧ (∃ adjacent_, stringLiteralChain p.curTkIdx_ lits.length
          = some (ExpressionSyntax.StringLiteralExpression (some p.curTkIdx_) adjacent_))
      ∧ adjacentIndices (lits.length + 1) (stringLiteralChain p.curTkIdx_ lits.length)
          = (List.range lits.length).map (fun i => some (p.curTkIdx_ + i)) := by
  have hne : lits ≠ [] := by
    intro hc; rw [hc] at hn; simp at hn
  refine ⟨?_, ?_, adjacentIndices_chain _ _ _ (Nat.le_succ _)⟩
  · obtain ⟨t, rest, rfl⟩ : ∃ t rest, lits = t :: rest := by
      cases lits with
      | nil => exact absurd rfl hne
      | cons t rest => exact ⟨t, rest, rfl⟩
    have hpk : p.peek 1 = t := rest_eq_cons_peek hrest
    unfold parseStringLiteral_AtFirst
    simp only [run_bind, run_peek, Res.andThen_ok, hpk, hall t (List.mem_cons_self _ _),
      Bool.not_true, Bool.false_eq_true, if_false]
    exact stringLiteral_chain_run _ rec.fuel p tail hne hfuel hrest hall htail
  · obtain ⟨n, hn'⟩ : ∃ n, lits.length = n + 1 := ⟨lits.length - 1, by omega⟩
    rw [hn']
    exact ⟨_, rfl⟩

/-- An instance of C32: the three adjacent string literals of `"a" L"b" u8"c" ;`, of
three encoding prefixes, are one chain of three nodes, with the indices 0, 1 and 2. -/
theorem C32_adjacent_string_literals_witness :
    parseStringLiteral_AtFirst (ParserTable.ofFuel Externals.failing 3) none
        (Parser.start [StringLiteralToken, StringLiteral_L_Token, StringLiteral_u8_Token,
          SemicolonToken])
      = Res.ok (some (ExpressionSyntax.StringLiteralExpression (some 0)
          (some (ExpressionSyntax.StringLiteralExpression (some 1)
            (some (ExpressionSyntax.StringLiteralExpression (some 2) none))))))
          ((Parser.start [StringLiteralToken, StringLiteral_L_Token, StringLiteral_u8_Token,
            SemicolonToken]).advance 3) :=
  (C32_adjacent_string_literals (ParserTable.ofFuel Externals.failing 3) none
    (Parser.start [StringLiteralToken, StringLiteral_L_Token, StringLiteral_u8_Token,
      SemicolonToken])
    [StringLiteralToken, StringLiteral_L_Token, StringLiteral_u8_Token] [SemicolonToken]
    (by decide) rfl (by decide) rfl (by decide)).1

/-! ## The oracle ends at end-of-file: claim C35 -/

theorem peek_ne_endOfFile_lt (p : Parser) (LA : Nat) (h : p.peek LA ≠ EndOfFile) :
    p.curTkIdx_ + LA - 1 < p.tokens.length := by
  by_contra hc
  apply h
  unfold Parser.peek
  rw [List.getD_eq_getElem?_getD, List.getElem?_eq_none (by omega)]
  rfl

theorem determineIdentifierRole_trace_spec (p : Parser) :
    ∀ (fuel LA : Nat) (seenType : Bool) (parenCnt : Int), 1 ≤ LA →
      p.tokens.length - (p.curTkIdx_ + LA - 1) < fuel →
      ∃ role n, determineIdentifierRole_trace p fuel LA seenType parenCnt
          = (List.range' LA (n + 1), some role)
        ∧ determineIdentifierRole_loop p fuel LA seenType parenCnt = some role
        ∧ (∀ k, k < n → p.peek (LA + k) ≠ EndOfFile)
        ∧ (p.peek (LA + n) = EndOfFile → role = IdentifierRole.AsDeclarator)
        ∧ n < fuel := by
  intro fuel
  induction fuel with
  | zero =>
    intro LA s c _ h
    exact absurd h (Nat.not_lt_zero _)
  | succ f ih =>
    intro LA s c hLA h
    rw [determineIdentifierRole_step_loop, determineIdentifierRole_trace]
    cases hstep : determineIdentifierRole_step (p.peek LA) s c with
    | inl role =>
      refine ⟨role, 0, rfl, rfl, fun k hk => absurd hk (Nat.not_lt_zero k), fun he => ?_,
        Nat.succ_pos f⟩
      rw [Nat.add_zero] at he
      rw [he] at hstep
      cases hstep
      rfl
    | inr sc =>
      have hne : p.peek LA ≠ EndOfFile := by
        intro he
        rw [he] at hstep
        cases hstep
      have hlt := peek_ne_endOfFile_lt p LA hne
      have hfuel : p.tokens.length - (p.curTkIdx_ + (LA + 1) - 1) < f := by
        have e : p.curTkIdx_ + (LA + 1) - 1 = p.curTkIdx_ + LA - 1 + 1 := by omega
        rw [e]
        omega
      obtain ⟨role, n, h1, h2, h3, h4, h5⟩ := ih (LA + 1) sc.1 sc.2 (by omega) hfuel
      refine ⟨role, n + 1, ?_, h2, fun k hk => ?_, fun he => ?_, by omega⟩
      · simp only [h1]
        rfl
      · cases k with
        | zero => exact hne
        | succ k =>
          have := h3 k (by omega)
          have e : LA + (k + 1) = LA + 1 + k := by omega
          rw [e]
          exact this
      · apply h4
        have e : LA + (n + 1) = LA + 1 + n := by omega
        rw [← e]
        exact he

/-- C35: `determineIdentifierRole` ends on every token stream (a lookahead past the last
token reads end-of-file). Its loop calls `peek` at the lookahead positions 2, 3, ...,
`n + 2`, one after the other, for some `n` below its fuel, and returns at the last of
them; at every position before the last the token is not end-of-file, so no position
behind the first end-of-file token is read; and when the token at the last position is
end-of-file, the answer is declarator. -/
theorem C35_determineIdentifierRole_terminates (p : Parser) (seenType : Bool) :
    ∃ role n,
      determineIdentifierRole_trace p (p.tokens.length + 1) 2 seenType 0
          = (List.range' 2 (n + 1), some role)
        ∧ determineIdentifierRole p seenType = some role
        ∧ (∀ k, k < n → p.peek (2 + k) ≠ EndOfFile)
        ∧ (p.peek (2 + n) = EndOfFile → role = IdentifierRole.AsDeclarator)
        ∧ n < p.tokens.length + 1 :=
  determineIdentifierRole_trace_spec p (p.tokens.length + 1) 2 seenType 0 (by omega) (by omega)

/-! ## What the depth check counts: claim C39 -/

theorem parseNAryExpression_leftChain_fault (ext : Externals) (fuel : Nat) (p : Parser)
    (expr : Option ExpressionSyntax) (cutoff q : Nat) (e0 : SyntaxKind)
    (pairs : List (SyntaxKind × SyntaxKind)) (tail : List SyntaxKind)
    (hrest : p.rest = e0 :: (infixTokens pairs ++ tail))
    (he0 : isSingleTokenOperand e0 = true)
    (hops : ∀ x ∈ pairs, isInfixOperatorToken x.1 = true ∧ isSingleTokenOperand x.2 = true)
    (htail : endsInfixSequence (tail.head?.getD EndOfFile) = true)
    (hfuel : pairs.length + 1 ≤ fuel)
    (hlevel : ∀ x ∈ pairs, precedenceOf x.1 = q ∧ isRightAssociative x.1 = false)
    (hcq : cutoff ≤ q) (hne : pairs ≠ [])
    (hdepth : p.MAX_DEPTH_OF_EXPRS < p.depthOfExprs_ + pairs.length) :
    parseNAryExpression ext (ParserTable.ofFuel ext fuel) expr cutoff p
      = Res.fault Fault.maximumDepthOfExpressions := by
  have hL := InfixOps_infixItemsAt (p.curTkIdx_ + 1) pairs hops
  have hat : AtItems (p.advance 1) (infixItemsAt (p.curTkIdx_ + 1) pairs) tail :=
    ⟨pairs, rfl, advance_rest hrest⟩
  have hpk := (AtItems_peek hat hL htail).1
  rw [peek_of_rest, advance_rest hrest] at hpk
  have hcast := cast_singleTokenOperand ext (ParserTable.ofFuel ext fuel)
    (by rw [ofFuel_fuel]; omega) expr p e0 _ hrest he0 hpk
  have hfault := nary_leftChain_fault ext tail htail q cutoff fuel (by omega) hcq
    (infixItemsAt (p.curTkIdx_ + 1) pairs) fuel p.depthOfExprs_
    (some (operandNode e0 p.curTkIdx_)) (p.advance 1)
    (by rw [infixItemsAt_length]; omega)
    (by
      intro hc
      apply hne
      have := congrArg List.length hc
      rw [infixItemsAt_length] at this
      exact List.length_eq_zero.mp this)
    (by
      intro it hit
      exact hlevel _ (infixItemsAt_mem _ _ _ hit))
    hL hat
    (by rw [infixItemsAt_length]; exact hdepth)
  simp only [parseNAryExpression, run_bind, hcast, Res.andThen_ok, if_true,
    parseNAryExpression_AtOperator, ofFuel_fuel, advance_depthOfExprs]
  exact hfault

theorem parseNAryExpression_leftChain (ext : Externals) (fuel : Nat) (p : Parser)
    (expr : Option ExpressionSyntax) (cutoff q : Nat) (e0 : SyntaxKind)
    (pairs : List (SyntaxKind × SyntaxKind)) (tail : List SyntaxKind)
    (hrest : p.rest = e0 :: (infixTokens pairs ++ tail))
    (he0 : isSingleTokenOperand e0 = true)
    (hops : ∀ x ∈ pairs, isInfixOperatorToken x.1 = true ∧ isSingleTokenOperand x.2 = true)
    (htail : endsInfixSequence (tail.head?.getD EndOfFile) = true)
    (hfuel : 2 * pairs.length + 1 ≤ fuel)
    (hlevel : ∀ x ∈ pairs, precedenceOf x.1 = q ∧ isRightAssociative x.1 = false)
    (hcut : 1 ≤ cutoff) (hcq : cutoff ≤ q)
    (hdepth : p.depthOfExprs_ + pairs.length ≤ p.MAX_DEPTH_OF_EXPRS) :
    parseNAryExpression ext (ParserTable.ofFuel ext fuel) expr cutoff p
      = Res.ok (true, some (leftNested (.operand e0 p.curTkIdx_)
          (infixItemsAt (p.curTkIdx_ + 1) pairs)).toExpression)
          (p.advance (2 * pairs.length + 1)) := by
  have hadv : 1 + 2 * (pairs.length - ([] : List InfixItem).length)
      = 2 * pairs.length + 1 := by
    simp; omega
  rw [← hadv]
  apply parseNAryExpression_infix ext fuel p expr cutoff e0 pairs tail hrest he0 hops htail
    hdepth hfuel hcut
  apply climbOuter_leftChain q _ _ _ _ _ hcq (by rw [infixItemsAt_length])
  intro it hit
  exact hlevel _ (infixItemsAt_mem _ _ _ hit)

theorem parseNAryExpression_rightChain (ext : Externals) (fuel : Nat) (p : Parser)
    (expr : Option ExpressionSyntax) (cutoff q : Nat) (e0 : SyntaxKind)
    (pairs : List (SyntaxKind × SyntaxKind)) (tail : List SyntaxKind)
    (hrest : p.rest = e0 :: (infixTokens pairs ++ tail))
    (he0 : isSingleTokenOperand e0 = true)
    (hops : ∀ x ∈ pairs, isInfixOperatorToken x.1 = true ∧ isSingleTokenOperand x.2 = true)
    (htail : endsInfixSequence (tail.head?.getD EndOfFile) = true)
    (hfuel : 2 * pairs.length + 1 ≤ fuel)
    (hlevel : ∀ x ∈ pairs, precedenceOf x.1 = q ∧ isRightAssociative x.1 = true)
    (hcut : 1 ≤ cutoff) (hcq : cutoff ≤ q)
    (hdepth : p.depthOfExprs_ < p.MAX_DEPTH_OF_EXPRS) :
    parseNAryExpression ext (ParserTable.ofFuel ext fuel) expr cutoff p
      = Res.ok (true, some (rightNested (.operand e0 p.curTkIdx_)
          (infixItemsAt (p.curTkIdx_ + 1) pairs)).toExpression)
          (p.advance (2 * pairs.length + 1)) := by
  have hL := InfixOps_infixItemsAt (p.curTkIdx_ + 1) pairs hops
  have hat : AtItems (p.advance 1) (infixItemsAt (p.curTkIdx_ + 1) pairs) tail :=
    ⟨pairs, rfl, advance_rest hrest⟩
  have hpk := (AtItems_peek hat hL htail).1
  rw [peek_of_rest, advance_rest hrest] at hpk
  have hcast := cast_singleTokenOperand ext (ParserTable.ofFuel ext fuel)
    (by rw [ofFuel_fuel]; omega) expr p e0 _ hrest he0 hpk
  have hrun := nary_rightChain ext tail htail q (infixItemsAt (p.curTkIdx_ + 1) pairs)
    fuel fuel cutoff (.operand e0 p.curTkIdx_) (p.advance 1)
    (by rw [infixItemsAt_length]; omega) (by rw [infixItemsAt_length]; omega) hcut hcq
    (by
      intro it hit
      exact hlevel _ (infixItemsAt_mem _ _ _ hit))
    hL hat (fun _ => by simpa using hdepth)
  simp only [infixItemsAt_length, advance_advance, OperatorTree.toExpression,
    advance_depthOfExprs] at hrun
  simp only [parseNAryExpression, run_bind, hcast, Res.andThen_ok, if_true,
    parseNAryExpression_AtOperator, ofFuel_fuel, advance_depthOfExprs]
  rw [hrun]
  congr 2
  omega

/-- C39: the depth check of the n-ary engine. An invocation of
`parseNAryExpression_AtOperator` runs its loop with a counter that starts at the current
value `d` of `depthOfExprs_`. An iteration that finds an operator at or above the cutoff,
with the counter at `count`, raises the fatal error exactly when `count + 1` is greater
than `MAX_DEPTH_OF_EXPRS`; otherwise it consumes the operator, parses the operand and the
re-climbs, and goes on with the counter at `count + 1` (so its `i`-th iteration raises the
error exactly when `d + i > MAX_DEPTH_OF_EXPRS`). Hence a flat chain of `k >= 1`
left-associative operators of one level is rejected when `d + k > MAX_DEPTH_OF_EXPRS` and
parsed into the left-nested tree otherwise; and a chain of right-associative operators,
where every operator is consumed by a re-climb that starts its own count from `d`, is
parsed whatever its length when `d < MAX_DEPTH_OF_EXPRS`. -/
theorem C39_depth_check_counts_operators (ext : Externals) (rec : ParserTable)
    (cutoff n count : Nat) (base : Option ExpressionSyntax) (p : Parser)
    (hop : cutoff ≤ precedenceOf (p.peek 1)) :
    parseNAryExpression_AtOperator ext rec base cutoff p
        = parseNAryExpression_AtOperator_loop ext rec cutoff rec.fuel p.depthOfExprs_ base p
    ∧ (p.MAX_DEPTH_OF_EXPRS < count + 1 →
        parseNAryExpression_AtOperator_loop ext rec cutoff (n + 1) count base p
          = Res.fault Fault.maximumDepthOfExpressions)
    ∧ (count + 1 ≤ p.MAX_DEPTH_OF_EXPRS →
        parseNAryExpression_AtOperator_loop ext rec cutoff (n + 1) count base p
          = (do
              let oprtrTkIdx ← consume
              let condExpr ←
                if p.peek 1 = QuestionToken then do
                  let c ← parseConditionalMiddle rec
                  pure (some c)
                else pure none
              let r ← parseExpressionWithPrecedenceCast ext rec none
              if r.1 then
                let i ← parseNAryExpression_AtOperator_inner rec (precedenceOf (p.peek 1))
                  rec.fuel r.2
                if i.1 then
                  parseNAryExpression_AtOperator_loop ext rec cutoff n (count + 1)
                    (some (makeNAryNode condExpr (NAryExpressionKind (p.peek 1)) base
                      oprtrTkIdx i.2))
                else pure (false, base)
              else pure (false, base)) p)
    ∧ (∀ (fuel : Nat) (s : Parser) (expr : Option ExpressionSyntax) (c q : Nat)
        (e0 : SyntaxKind) (pairs : List (SyntaxKind × SyntaxKind)) (tail : List SyntaxKind),
        s.rest = e0 :: (infixTokens pairs ++ tail) → isSingleTokenOperand e0 = true →
        (∀ x ∈ pairs, isInfixOperatorToken x.1 = true ∧ isSingleTokenOperand x.2 = true) →
        endsInfixSequence (tail.head?.getD EndOfFile) = true →
        2 * pairs.length + 1 ≤ fuel → 1 ≤ c → c ≤ q →
        ((∀ x ∈ pairs, precedenceOf x.1 = q ∧ isRightAssociative x.1 = false) →
          (pairs ≠ [] → s.MAX_DEPTH_OF_EXPRS < s.depthOfExprs_ + pairs.length →
            parseNAryExpression ext (ParserTable.ofFuel ext fuel) expr c s
              = Res.fault Fault.maximumDepthOfExpressions)
          ∧ (s.depthOfExprs_ + pairs.length ≤ s.MAX_DEPTH_OF_EXPRS →
            parseNAryExpression ext (ParserTable.ofFuel ext fuel) expr c s
              = Res.ok (true, some (leftNested (.operand e0 s.curTkIdx_)
                  (infixItemsAt (s.curTkIdx_ + 1) pairs)).toExpression)
                  (s.advance (2 * pairs.length + 1))))
        ∧ ((∀ x ∈ pairs, precedenceOf x.1 = q ∧ isRightAssociative x.1 = true) →
          s.depthOfExprs_ < s.MAX_DEPTH_OF_EXPRS →
          parseNAryExpression ext (ParserTable.ofFuel ext fuel) expr c s
            = Res.ok (true, some (rightNested (.operand e0 s.curTkIdx_)
                (infixItemsAt (s.curTkIdx_ + 1) pairs)).toExpression)
                (s.advance (2 * pairs.length + 1)))) := by
  refine ⟨rfl, fun hd => nary_loop_depth_fault ext rec cutoff n count base p hop hd,
    fun hd => ?_, ?_⟩
  · rw [parseNAryExpression_AtOperator_loop]
    simp only [ge_iff_le, hop, if_true, Nat.not_lt.mpr hd, if_false]
  · intro fuel s expr c q e0 pairs tail hrest he0 hops htail hfuel hc hcq
    refine ⟨fun hlevel => ⟨fun hne hd => ?_, fun hd => ?_⟩, fun hlevel hd => ?_⟩
    · exact parseNAryExpression_leftChain_fault ext fuel s expr c q e0 pairs tail hrest he0
        hops htail (by omega) hlevel hcq hne hd
    · exact parseNAryExpression_leftChain ext fuel s expr c q e0 pairs tail hrest he0 hops
        htail hfuel hlevel hc hcq hd
    · exact parseNAryExpression_rightChain ext fuel s expr c q e0 pairs tail hrest he0 hops
        htail hfuel hlevel hc hcq hd

/-- An instance of C39: with the maximum depth 2 and `depthOfExprs_` 0, the loop raises
the error at the third `+` of `a + a + a + a`, and parses `a + a + a`. -/
theorem C39_depth_check_counts_operators_witness :
    parseNAryExpression Externals.failing (ParserTable.ofFuel Externals.failing 7) none
        NAryPrecedence.Sequencing
        (Parser.startWithMaxDepth 2 (operatorChain PlusToken 3))
      = Res.fault Fault.maximumDepthOfExpressions
    ∧ parseNAryExpression Externals.failing (ParserTable.ofFuel Externals.failing 7) none
        NAryPrecedence.Sequencing
        (Parser.startWithMaxDepth 2 (operatorChain PlusToken 2))
      = Res.ok (true, some (leftNested (.operand IdentifierToken 0)
          [⟨PlusToken, 1, IdentifierToken, 2⟩, ⟨PlusToken, 3, IdentifierToken, 4⟩]).toExpression)
          ((Parser.startWithMaxDepth 2 (operatorChain PlusToken 2)).advance 5) :=
  ⟨((C39_depth_check_counts_operators Externals.failing
      (ParserTable.ofFuel Externals.failing 7) NAryPrecedence.Sequencing 0 0 none
      ((Parser.startWithMaxDepth 2 (operatorChain PlusToken 3)).advance 1)
      (by decide)).2.2.2 7 (Parser.startWithMaxDepth 2 (operatorChain PlusToken 3)) none
      NAryPrecedence.Sequencing NAryPrecedence.Additive IdentifierToken
      [(PlusToken, IdentifierToken), (PlusToken, IdentifierToken), (PlusToken, IdentifierToken)]
      [] rfl rfl (by decide) rfl (by decide) (by decide) (by decide)).1 (by decide)
      |>.1 (by decide) (by decide),
   ((C39_depth_check_counts_operators Externals.failing
      (ParserTable.ofFuel Externals.failing 7) NAryPrecedence.Sequencing 0 0 none
      ((Parser.startWithMaxDepth 2 (operatorChain PlusToken 2)).advance 1)
      (by decide)).2.2.2 7 (Parser.startWithMaxDepth 2 (operatorChain PlusToken 2)) none
      NAryPrecedence.Sequencing NAryPrecedence.Additive IdentifierToken
      [(PlusToken, IdentifierToken), (PlusToken, IdentifierToken)]
      [] rfl rfl (by decide) rfl (by decide) (by decide) (by decide)).1 (by decide)
      |>.2 (by decide)⟩

/-! ## The template declaration: claim C40 -/

theorem externalDeclaration_template (ext : Externals) (rec : ParserTable) (p q : Parser)
    (b : Bool) (d : Option DeclarationSyntax)
    (h : p.peek 1 = Keyword_ExtPSY__Template)
    (hin : parseDeclarationOrFunctionDefinition ext rec none (p.advance 1) = Res.ok (b, d) q) :
    parseExtPSY_TemplateDeclaration_AtFirst ext rec none p
        = Res.ok (b, some (DeclarationSyntax.ExtPSY_TemplateDeclaration (some p.curTkIdx_) d)) q
      ∧ parseExternalDeclaration ext rec p
        = Res.ok (true, some (DeclarationSyntax.ExtPSY_TemplateDeclaration
            (some p.curTkIdx_) d)) q := by
  have hcons := consume_of_peek (p := p) (by rw [h]; decide)
  have h1 : parseExtPSY_TemplateDeclaration_AtFirst ext rec none p
      = Res.ok (b, some (DeclarationSyntax.ExtPSY_TemplateDeclaration (some p.curTkIdx_) d))
          q := by
    simp only [parseExtPSY_TemplateDeclaration_AtFirst, run_bind, run_peek, Res.andThen_ok, h,
      bne_self_eq_false, Bool.false_eq_true, if_false, run_consume, hcons, hin, run_pure]
  refine ⟨h1, ?_⟩
  simp only [parseExternalDeclaration, run_bind, run_peek, Res.andThen_ok, h, h1, run_pure]

theorem translationUnit_loop_succeeded (ext : Externals) (rec : ParserTable) (fuel : Nat)
    (decls : List (Option DeclarationSyntax)) (p q : Parser) (d : Option DeclarationSyntax)
    (h1 : p.peek 1 ≠ Keyword_ExtGNU___extension__) (h2 : p.peek 1 ≠ EndOfFile)
    (hok : parseExternalDeclaration ext rec p = Res.ok (true, d) q) :
    parseTranslationUnit_loop ext rec (fuel + 1) decls p
      = parseTranslationUnit_loop ext rec fuel (decls ++ [d]) q := by
  rw [parseTranslationUnit_loop]
  simp only [run_bind, run_peek, Res.andThen_ok, hok, if_true]

/-- C40, the divergence: on `_Template`, `parseExternalDeclaration` returns true also when
the wrapped declaration fails to parse. For `_Template int x`, where
`parseDeclarationOrFunctionDefinition` fails behind the keyword (the `;` is missing, which
it reports) and `parseExtPSY_TemplateDeclaration_AtFirst` returns false,
`parseExternalDeclaration` returns true with the template declaration whose slot `decl_`
is null, and `parseTranslationUnit` appends it: the declaration list has that one
element. And in every state at `_Template`, whatever flag `b` and declaration `d` the
wrapped parse gives, the sub-parser returns `b`, `parseExternalDeclaration` returns true
with the template declaration around `d`, and the loop of `parseTranslationUnit` appends
it. -/
theorem C40_template_declaration_success_ignores_inner_flag :
    parseDeclarationOrFunctionDefinition Externals.failing
        (ParserTable.ofFuel Externals.failing 4) none
        ((Parser.start exampleTemplateTokens).advance 1)
      = Res.ok (false, none)
          (((Parser.start exampleTemplateTokens).advance 3).report
            Diagnostic.ExpectedFOLLOWofDeclarator)
    ∧ parseExtPSY_TemplateDeclaration_AtFirst Externals.failing
        (ParserTable.ofFuel Externals.failing 4) none (Parser.start exampleTemplateTokens)
      = Res.ok (false, some (DeclarationSyntax.ExtPSY_TemplateDeclaration (some 0) none))
          (((Parser.start exampleTemplateTokens).advance 3).report
            Diagnostic.ExpectedFOLLOWofDeclarator)
    ∧ parseExternalDeclaration Externals.failing (ParserTable.ofFuel Externals.failing 4)
        (Parser.start exampleTemplateTokens)
      = Res.ok (true, some (DeclarationSyntax.ExtPSY_TemplateDeclaration (some 0) none))
          (((Parser.start exampleTemplateTokens).advance 3).report
            Diagnostic.ExpectedFOLLOWofDeclarator)
    ∧ parseTranslationUnit Externals.failing (ParserTable.ofFuel Externals.failing 4)
        (Parser.start exampleTemplateTokens)
      = Res.ok [some (DeclarationSyntax.ExtPSY_TemplateDeclaration (some 0) none)]
          (((Parser.start exampleTemplateTokens).advance 3).report
            Diagnostic.ExpectedFOLLOWofDeclarator)
    ∧ (∀ (ext : Externals) (rec : ParserTable) (fuel : Nat)
        (decls : List (Option DeclarationSyntax)) (p q : Parser) (b : Bool)
        (d : Option DeclarationSyntax),
        p.peek 1 = Keyword_ExtPSY__Template →
        parseDeclarationOrFunctionDefinition ext rec none (p.advance 1) = Res.ok (b, d) q →
        parseExtPSY_TemplateDeclaration_AtFirst ext rec none p
            = Res.ok (b, some (DeclarationSyntax.ExtPSY_TemplateDeclaration
                (some p.curTkIdx_) d)) q
          ∧ parseExternalDeclaration ext rec p
            = Res.ok (true, some (DeclarationSyntax.ExtPSY_TemplateDeclaration
                (some p.curTkIdx_) d)) q
          ∧ parseTranslationUnit_loop ext rec (fuel + 1) decls p
            = parseTranslationUnit_loop ext rec fuel
                (decls ++ [some (DeclarationSyntax.ExtPSY_TemplateDeclaration
                  (some p.curTkIdx_) d)]) q) :=
  ⟨rfl, rfl, rfl, rfl, fun ext rec fuel decls p q b d h hin =>
    ⟨(externalDeclaration_template ext rec p q b d h hin).1,
      (externalDeclaration_template ext rec p q b d h hin).2,
      translationUnit_loop_succeeded ext rec fuel decls p q _ (by rw [h]; decide)
        (by rw [h]; decide) (externalDeclaration_template ext rec p q b d h hin).2⟩⟩

/-! ## The asm label among qualifiers and attributes: claim C38 -/

/-- The step of the loop of `parseTypeQualifiersAndAttributes` at `__asm__`: the label
parser is called; when it succeeds the method returns false with the list as it was, and
when it fails the node that it left is appended and the loop goes on. -/
theorem typeQualifiersAndAttributes_loop_asm (ext : Externals) (fuel : Nat)
    (specList : SpecifierList) (p : Parser) (h : p.peek 1 = Keyword_ExtGNU___asm__) :
    parseTypeQualifiersAndAttributes_loop ext (fuel + 1) specList p
      = (ext.parseExtGNU_AsmLabel_AtFirst p).andThen (fun r q =>
          if r.1 then Res.ok (false, specList) q
          else parseTypeQualifiersAndAttributes_loop ext fuel (specList ++ [r.2]) q) := by
  rw [parseTypeQualifiersAndAttributes_loop]
  simp only [run_bind, run_peek, Res.andThen_ok, h]
  cases hr : ext.parseExtGNU_AsmLabel_AtFirst p with
  | fault f => simp only [Res.andThen_fault]
  | ok r q =>
    simp only [Res.andThen_ok]
    by_cases h1 : r.1 = true
    · simp only [h1, if_true, run_pure]
    · simp only [h1, if_false]
      rfl

/-- C38: the test of the asm label in `parseTypeQualifiersAndAttributes` is the wrong
way round. On the well-formed label `__asm__ ( "x" )` the label parser of the sources
succeeds (its node holds the four token indices) and `parseTypeQualifiersAndAttributes`
returns failure with nothing appended; on the malformed label `__asm__ ;` the label
parser fails behind the report of the missing `(`, and the method appends the partly
built node and returns success. So the pointer declarator `* __asm__ ( "x" ) p` fails
to parse, without a diagnostic. In general, at `__asm__` the method fails exactly when
the label parser succeeds, and appends the node exactly when it fails. -/
theorem C38_asm_label_test_is_inverted :
    parseExtGNU_AsmLabel_AtFirst (ParserTable.ofFuel Externals.failing 3)
        (Parser.start [Keyword_ExtGNU___asm__, OpenParenToken, StringLiteralToken,
          CloseParenToken, IdentifierToken])
      = Res.ok (true, some ⟨some 0, some 1,
          some (ExpressionSyntax.StringLiteralExpression (some 2) none), some 3⟩)
          ((Parser.start [Keyword_ExtGNU___asm__, OpenParenToken, StringLiteralToken,
            CloseParenToken, IdentifierToken]).advance 4)
    ∧ parseTypeQualifiersAndAttributes (Externals.ofSourceAttributes 3)
        (ParserTable.ofFuel (Externals.ofSourceAttributes 3) 3) []
        (Parser.start [Keyword_ExtGNU___asm__, OpenParenToken, StringLiteralToken,
          CloseParenToken, IdentifierToken])
      = Res.ok (false, [])
          ((Parser.start [Keyword_ExtGNU___asm__, OpenParenToken, StringLiteralToken,
            CloseParenToken, IdentifierToken]).advance 4)
    ∧ parseExtGNU_AsmLabel_AtFirst (ParserTable.ofFuel Externals.failing 3)
        (Parser.start [Keyword_ExtGNU___asm__, SemicolonToken])
      = Res.ok (false, some ⟨some 0, none, none, none⟩)
          (((Parser.start [Keyword_ExtGNU___asm__, SemicolonToken]).advance 1).report
            (Diagnostic.ExpectedToken OpenParenToken))
    ∧ parseTypeQualifiersAndAttributes (Externals.ofSourceAttributes 3)
        (ParserTable.ofFuel (Externals.ofSourceAttributes 3) 3) []
        (Parser.start [Keyword_ExtGNU___asm__, SemicolonToken])
      = Res.ok (true, [some (SpecifierSyntax.External ExtGNU_AsmLabel ⟨0⟩)])
          (((Parser.start [Keyword_ExtGNU___asm__, SemicolonToken]).advance 1).report
            (Diagnostic.ExpectedToken OpenParenToken))
    ∧ parseDeclarator (Externals.ofSourceAttributes 4)
        (ParserTable.ofFuel (Externals.ofSourceAttributes 4) 4) none DeclarationScope.File
        DeclaratorVariety.Named
        (Parser.start [AsteriskToken, Keyword_ExtGNU___asm__, OpenParenToken,
          StringLiteralToken, CloseParenToken, IdentifierToken])
      = Res.ok (false, some (DeclaratorSyntax.PointerDeclarator [] (some 0) [] none none none))
          ((Parser.start [AsteriskToken, Keyword_ExtGNU___asm__, OpenParenToken,
            StringLiteralToken, CloseParenToken, IdentifierToken]).advance 5)
    ∧ (∀ (ext : Externals) (fuel : Nat) (specList : SpecifierList) (p : Parser),
        p.peek 1 = Keyword_ExtGNU___asm__ →
        parseTypeQualifiersAndAttributes_loop ext (fuel + 1) specList p
          = (ext.parseExtGNU_AsmLabel_AtFirst p).andThen (fun r q =>
              if r.1 then Res.ok (false, specList) q
              else parseTypeQualifiersAndAttributes_loop ext fuel (specList ++ [r.2]) q)) :=
  ⟨rfl, rfl, rfl, rfl, rfl, fun ext fuel specList p h =>
    typeQualifiersAndAttributes_loop_asm ext fuel specList p h⟩

/-! ## Qualifiers before an attribute specifier: claim C37 -/

/-- The step of the loop of `parseTypeQualifiersAndAttributes` at `__attribute__`: the
method returns what the attribute-list parser gives on the whole list. -/
theorem typeQualifiersAndAttributes_loop_attribute (ext : Externals) (fuel : Nat)
    (specList : SpecifierList) (p : Parser)
    (h : p.peek 1 = Keyword_ExtGNU___attribute__) :
    parseTypeQualifiersAndAttributes_loop ext (fuel + 1) specList p
      = ext.parseExtGNU_AttributeSpecifierList_AtFirst specList p := by
  rw [parseTypeQualifiersAndAttributes_loop]
  simp only [run_bind, run_peek, Res.andThen_ok, h]

/-- When the loop of the attribute-list parser succeeds, what it leaves does not depend
on what its parameter held. -/
theorem attributeSpecifierList_loop_overwrites (ext : Externals)
    (specList other : SpecifierList) (fuel : Nat) :
    ∀ (written : SpecifierList) (p q : Parser) (l : SpecifierList),
      parseExtGNU_AttributeSpecifierList_AtFirst_loop ext specList fuel written p
        = Res.ok (true, l) q →
      parseExtGNU_AttributeSpecifierList_AtFirst_loop ext other fuel written p
          = Res.ok (true, l) q
        ∧ written.length < l.length ∧ written <+: l := by
  induction fuel with
  | zero => intro written p q l h; simp [parseExtGNU_AttributeSpecifierList_AtFirst_loop, fail] at h
  | succ n ih =>
    intro written p q l h
    rw [parseExtGNU_AttributeSpecifierList_AtFirst_loop] at h ⊢
    simp only [run_bind] at h ⊢
    cases hr : ext.parseExtGNU_AttributeSpecifier_AtFirst p with
    | fault f => rw [hr] at h; simp [Res.andThen_fault] at h
    | ok r s =>
      rw [hr] at h
      simp only [Res.andThen_ok] at h ⊢
      by_cases h1 : r.1 = true
      · simp only [h1, if_true, run_bind, run_peek, Res.andThen_ok] at h ⊢
        by_cases h2 : s.peek 1 = Keyword_ExtGNU___attribute__
        · simp only [h2, if_true] at h ⊢
          obtain ⟨a, b, c⟩ := ih (written ++ [r.2]) s q l h
          refine ⟨a, ?_, ?_⟩
          · simp only [List.length_append, List.length_singleton] at b; omega
          · exact (List.prefix_append written [r.2]).trans c
        · simp only [h2, if_false, run_pure] at h ⊢
          simp only [Res.ok.injEq, Prod.mk.injEq, true_and] at h
          obtain ⟨hl, hq⟩ := h
          subst hl; subst hq
          refine ⟨rfl, ?_, List.prefix_append written [r.2]⟩
          simp
      · simp only [h1, if_false, run_pure] at h
        simp at h

/-- When `parseExtGNU_AttributeSpecifierList_AtFirst` succeeds, the list that it leaves
holds the attribute specifiers only, whatever its parameter held. -/
theorem attributeSpecifierList_overwrites (ext : Externals) (rec : ParserTable)
    (specList other : SpecifierList) (p q : Parser) (l : SpecifierList)
    (h : parseExtGNU_AttributeSpecifierList_AtFirst ext rec specList p = Res.ok (true, l) q) :
    parseExtGNU_AttributeSpecifierList_AtFirst ext rec other p = Res.ok (true, l) q := by
  unfold parseExtGNU_AttributeSpecifierList_AtFirst at h ⊢
  simp only [run_bind, run_peek, Res.andThen_ok] at h ⊢
  by_cases hp : p.peek 1 = Keyword_ExtGNU___attribute__
  · simp only [hp, bne_self_eq_false, Bool.false_eq_true, if_false] at h ⊢
    exact (attributeSpecifierList_loop_overwrites ext specList other rec.fuel [] p q l h).1
  · have hb : (p.peek 1 != Keyword_ExtGNU___attribute__) = true := by
      simp [bne_iff_ne, hp]
    simp only [hb, if_true, run_pure] at h
    simp at h

/-- C37: the qualifiers before an attribute specifier are lost. For `const volatile` the
list is [const, volatile]; for `const __attribute__ ( ( x ) )` the attribute specifier
parses (the parser of the sources gives the node with its token indices) and the list
that `parseTypeQualifiersAndAttributes` leaves holds the attribute specifier only, so
that the pointer declarator `* const __attribute__ ( ( x ) ) p` has a pointer without
`const`. Behind a declarator the sources hand the end of the list to the attribute-list
parser: there the asm label stays ahead of the attribute. In general, at
`__attribute__` the method returns what the attribute-list parser gives on the whole
list, and the attribute-list parser of the sources, when it succeeds, leaves the same
list whatever it was given. -/
theorem C37_qualifiers_before_attribute_are_lost :
    parseTypeQualifiersAndAttributes (Externals.ofSourceAttributes 3)
        (ParserTable.ofFuel (Externals.ofSourceAttributes 3) 3) []
        (Parser.start [Keyword_const, Keyword_volatile, IdentifierToken])
      = Res.ok (true, [some (SpecifierSyntax.TypeQualifier ConstQualifier (some 0)),
          some (SpecifierSyntax.TypeQualifier VolatileQualifier (some 1))])
          ((Parser.start [Keyword_const, Keyword_volatile, IdentifierToken]).advance 2)
    ∧ parseExtGNU_AttributeSpecifier_AtFirst Externals.failing
        (ParserTable.ofFuel Externals.failing 3) (fun _ => false)
        ((Parser.start [Keyword_const, Keyword_ExtGNU___attribute__, OpenParenToken,
          OpenParenToken, IdentifierToken, CloseParenToken, CloseParenToken,
          IdentifierToken]).advance 1)
      = Res.ok (true, some ⟨some 1, some 2, some 3, [(some ⟨some 4, none, [], none⟩, none)],
          some 5, some 6⟩)
          ((Parser.start [Keyword_const, Keyword_ExtGNU___attribute__, OpenParenToken,
            OpenParenToken, IdentifierToken, CloseParenToken, CloseParenToken,
            IdentifierToken]).advance 7)
    ∧ parseTypeQualifiersAndAttributes (Externals.ofSourceAttributes 3)
        (ParserTable.ofFuel (Externals.ofSourceAttributes 3) 3) []
        (Parser.start [Keyword_const, Keyword_ExtGNU___attribute__, OpenParenToken,
          OpenParenToken, IdentifierToken, CloseParenToken, CloseParenToken,
          IdentifierToken])
      = Res.ok (true, [some (SpecifierSyntax.External ExtGNU_AttributeSpecifier ⟨1⟩)])
          ((Parser.start [Keyword_const, Keyword_ExtGNU___attribute__, OpenParenToken,
            OpenParenToken, IdentifierToken, CloseParenToken, CloseParenToken,
            IdentifierToken]).advance 7)
    ∧ parseDeclarator (Externals.ofSourceAttributes 4)
        (ParserTable.ofFuel (Externals.ofSourceAttributes 4) 4) none DeclarationScope.File
        DeclaratorVariety.Named
        (Parser.start [AsteriskToken, Keyword_const, Keyword_ExtGNU___attribute__,
          OpenParenToken, OpenParenToken, IdentifierToken, CloseParenToken, CloseParenToken,
          IdentifierToken])
      = Res.ok (true, some (DeclaratorSyntax.PointerDeclarator [] (some 0)
          [some (SpecifierSyntax.External ExtGNU_AttributeSpecifier ⟨2⟩)]
          (some (DeclaratorSyntax.IdentifierDeclarator (some 8) [] [] none none)) none none))
          ((Parser.start [AsteriskToken, Keyword_const, Keyword_ExtGNU___attribute__,
            OpenParenToken, OpenParenToken, IdentifierToken, CloseParenToken,
            CloseParenToken, IdentifierToken]).advance 9)
    ∧ parseTrailingAsmLabelAndAttributes (Externals.ofSourceAttributes 3)
        (Parser.start [Keyword_ExtGNU___asm__, OpenParenToken, StringLiteralToken,
          CloseParenToken, Keyword_ExtGNU___attribute__, OpenParenToken, OpenParenToken,
          IdentifierToken, CloseParenToken, CloseParenToken, SemicolonToken])
      = Res.ok (true, [some (SpecifierSyntax.External ExtGNU_AsmLabel ⟨0⟩),
          some (SpecifierSyntax.External ExtGNU_AttributeSpecifier ⟨4⟩)])
          ((Parser.start [Keyword_ExtGNU___asm__, OpenParenToken, StringLiteralToken,
            CloseParenToken, Keyword_ExtGNU___attribute__, OpenParenToken, OpenParenToken,
            IdentifierToken, CloseParenToken, CloseParenToken, SemicolonToken]).advance 10)
    ∧ (∀ (ext : Externals) (fuel : Nat) (specList : SpecifierList) (p : Parser),
        p.peek 1 = Keyword_ExtGNU___attribute__ →
        parseTypeQualifiersAndAttributes_loop ext (fuel + 1) specList p
          = ext.parseExtGNU_AttributeSpecifierList_AtFirst specList p)
    ∧ (∀ (ext : Externals) (rec : ParserTable) (specList other l : SpecifierList)
        (p q : Parser),
        parseExtGNU_AttributeSpecifierList_AtFirst ext rec specList p = Res.ok (true, l) q →
        parseExtGNU_AttributeSpecifierList_AtFirst ext rec other p = Res.ok (true, l) q) :=
  ⟨rfl, rfl, rfl, rfl, rfl,
    fun ext fuel specList p h => typeQualifiersAndAttributes_loop_attribute ext fuel specList p h,
    fun ext rec specList other l p q h =>
      attributeSpecifierList_overwrites ext rec specList other p q l h⟩

/-! ## The member list of a tagged type: claim C36 -/

/-- The step of the member loop of `parseTaggedTypeSpecifier_AtFirst` at a member that
fails, when the recovery scan does not end at end-of-file: the cell of the member is
appended and the loop goes on. -/
theorem taggedTypeSpecifier_members_failed (ext : Externals)
    (parseMember : ParserM DeclResult) (fuel : Nat) (tySpec : TaggedTypeSpecifierSyntax)
    (p q q' : Parser) (memberDecl : Option DeclarationSyntax)
    (hp : p.peek 1 ≠ CloseBraceToken)
    (hm : parseMember p = Res.ok (false, memberDecl) q)
    (hi : ext.ignoreMemberDeclaration q = Res.ok () q')
    (he : q'.peek 1 ≠ EndOfFile) :
    parseTaggedTypeSpecifier_members ext parseMember (fuel + 1) tySpec p
      = parseTaggedTypeSpecifier_members ext parseMember fuel
          { tySpec with decls_ := tySpec.decls_ ++ [memberDecl] } q' := by
  rw [parseTaggedTypeSpecifier_members]
  simp only [run_bind, run_peek, Res.andThen_ok, hp, if_false, hm, Bool.false_eq_true, hi, he]

/-- C36: a member that fails to parse is appended to the member list. In
`enum { 1 , A }` the enumerator parser fails at the constant, with a null declaration;
the recovery scan stops before `}`, and the member list of the specifier is the one cell
of the null declaration. In `enum { A = , B }` the enumerator parser fails behind `=`
with the partly built member, which is appended. In general, whenever the member parser
fails and the recovery scan does not end at end-of-file, the loop goes on with the list
extended by the cell of what the member parser left. -/
theorem C36_failed_member_is_appended :
    parseEnumerator (Externals.ofSourceMembers 6)
        (ParserTable.ofFuel (Externals.ofSourceMembers 6) 6)
        ((Parser.start enumWithConstantTokens).advance 2)
      = Res.ok (false, none)
          (((Parser.start enumWithConstantTokens).advance 2).report
            Diagnostic.ExpectedFIRSTofEnumerationConstant)
    ∧ parseTaggedTypeSpecifier_AtFirst (Externals.ofSourceMembers 6)
        (ParserTable.ofFuel (Externals.ofSourceMembers 6) 6) EnumDeclaration EnumTypeSpecifier
        (parseEnumerator (Externals.ofSourceMembers 6)
          (ParserTable.ofFuel (Externals.ofSourceMembers 6) 6))
        (Parser.start enumWithConstantTokens)
      = Res.ok (true, some EnumDeclaration,
          some ⟨EnumTypeSpecifier, some 0, [], none, some 1, [none], some 5, []⟩)
          ((((Parser.start enumWithConstantTokens).advance 2).report
            Diagnostic.ExpectedFIRSTofEnumerationConstant).advance 4)
    ∧ parseTaggedTypeSpecifier_AtFirst (Externals.ofSourceMembers 6)
        (ParserTable.ofFuel (Externals.ofSourceMembers 6) 6) EnumDeclaration EnumTypeSpecifier
        (parseEnumerator (Externals.ofSourceMembers 6)
          (ParserTable.ofFuel (Externals.ofSourceMembers 6) 6))
        (Parser.start enumWithoutValueTokens)
      = Res.ok (true, some EnumDeclaration,
          some ⟨EnumTypeSpecifier, some 0, [], none, some 1,
            [some (DeclarationSyntax.EnumMemberDeclaration (some 2) [] (some 3) none none)],
            some 6, []⟩)
          ((((Parser.start enumWithoutValueTokens).advance 4).report
            Diagnostic.ExpectedFIRSTofExpression).advance 3)
    ∧ (∀ (ext : Externals) (parseMember : ParserM DeclResult) (fuel : Nat)
        (tySpec : TaggedTypeSpecifierSyntax) (p q q' : Parser)
        (memberDecl : Option DeclarationSyntax),
        p.peek 1 ≠ CloseBraceToken →
        parseMember p = Res.ok (false, memberDecl) q →
        ext.ignoreMemberDeclaration q = Res.ok () q' →
        q'.peek 1 ≠ EndOfFile →
        parseTaggedTypeSpecifier_members ext parseMember (fuel + 1) tySpec p
          = parseTaggedTypeSpecifier_members ext parseMember fuel
              { tySpec with decls_ := tySpec.decls_ ++ [memberDecl] } q') :=
  ⟨rfl, rfl, rfl, fun ext parseMember fuel tySpec p q q' memberDecl hp hm hi he =>
    taggedTypeSpecifier_members_failed ext parseMember fuel tySpec p q q' memberDecl hp hm hi he⟩

/-! ## What `parseDeclaration` keeps of the specifiers: claim C33 -/

/-- The branch of `parseDeclaration` at a `;` behind specifiers that hold an inline type
declaration: the declaration is the type declaration with the index of the `;`, and the
specifier list is in no slot of it. -/
theorem parseDeclaration_typeDeclaration_semicolon (ext : Externals)
    (parseSpecifiers : Option ExternalNode → SpecifierList → Bool → ParserM SpecifiersResult)
    (parse_AtFollowOfSpecifiers : Option DeclarationSyntax → SpecifierList → ParserM DeclResult)
    (decl : Option ExternalNode) (declScope : DeclarationScope) (p q : Parser)
    (tyDecl : ExternalNode) (specList : SpecifierList)
    (hs : parseSpecifiers decl [] (declScope != DeclarationScope.Block) p
      = Res.ok (true, some tyDecl, specList) q)
    (hq : q.peek 1 = SemicolonToken) :
    parseDeclaration ext parseSpecifiers parse_AtFollowOfSpecifiers decl declScope p
      = Res.ok (true, some (DeclarationSyntax.TypeDeclaration tyDecl (some q.curTkIdx_)))
          (q.advance 1) := by
  unfold parseDeclaration
  simp only [run_bind, hs, Res.andThen_ok, Bool.not_true, Bool.false_eq_true, if_false,
    run_peek, hq, if_true, run_consume]
  rw [consume_of_peek (by rw [hq]; decide)]
  rfl

theorem replaceTaggedTypeSpecifier_cells (typeSpec_ : Option ExternalNode)
    (tyDeclSpec : SpecifierSyntax) :
    ∀ (l l' : SpecifierList),
      replaceTaggedTypeSpecifier typeSpec_ tyDeclSpec l = Except.ok l' →
      List.Forall₂ (keptOrLifted typeSpec_ tyDeclSpec) l l' := by
  intro l
  induction l with
  | nil =>
    intro l' h
    simp only [replaceTaggedTypeSpecifier, Except.ok.injEq] at h
    subst h
    exact List.Forall₂.nil
  | cons c next ih =>
    intro l' h
    cases c with
    | none => simp [replaceTaggedTypeSpecifier] at h
    | some value =>
      rw [replaceTaggedTypeSpecifier] at h
      split at h
      · rename_i hc
        simp only [Except.ok.injEq] at h
        subst h
        simp only [Bool.and_eq_true, beq_iff_eq] at hc
        refine List.Forall₂.cons (Or.inr ⟨rfl, value, rfl, hc.1, hc.2⟩) ?_
        exact List.forall₂_same.mpr (fun x _ => Or.inl rfl)
      · cases hrest : replaceTaggedTypeSpecifier typeSpec_ tyDeclSpec next with
        | error f => rw [hrest] at h; cases h
        | ok rest =>
          rw [hrest] at h
          simp only [Except.ok.injEq] at h
          subst h
          exact List.Forall₂.cons (Or.inl rfl) (ih rest hrest)

theorem parseDeclaration_incomplete (ext : Externals)
    (parseSpecifiers : Option ExternalNode → SpecifierList → Bool → ParserM SpecifiersResult)
    (parse_AtFollowOfSpecifiers : Option DeclarationSyntax → SpecifierList → ParserM DeclResult)
    (decl : Option ExternalNode) (declScope : DeclarationScope) (p q : Parser)
    (specList : SpecifierList)
    (hs : parseSpecifiers decl [] (declScope != DeclarationScope.Block) p
      = Res.ok (true, none, specList) q)
    (hq : q.peek 1 = SemicolonToken) :
    parseDeclaration ext parseSpecifiers parse_AtFollowOfSpecifiers decl declScope p
      = Res.ok (true, some (DeclarationSyntax.IncompleteDeclaration specList
          (some q.curTkIdx_))) (q.advance 1) := by
  have hcons := consume_of_peek (p := q) (by rw [hq]; decide)
  unfold parseDeclaration
  simp only [run_bind, hs, Res.andThen_ok, Bool.not_true, Bool.false_eq_true, if_false,
    run_peek, hq, if_true, parseIncompleteDeclaration_AtFirst, bne_self_eq_false,
    run_consume, hcons, run_pure]

theorem parseDeclaration_handsOn (ext : Externals)
    (parseSpecifiers : Option ExternalNode → SpecifierList → Bool → ParserM SpecifiersResult)
    (parse_AtFollowOfSpecifiers : Option DeclarationSyntax → SpecifierList → ParserM DeclResult)
    (decl : Option ExternalNode) (declScope : DeclarationScope) (p q : Parser)
    (specList : SpecifierList)
    (hs : parseSpecifiers decl [] (declScope != DeclarationScope.Block) p
      = Res.ok (true, none, specList) q)
    (hq : q.peek 1 ≠ SemicolonToken) (hne : specList ≠ []) :
    parseDeclaration ext parseSpecifiers parse_AtFollowOfSpecifiers decl declScope p
      = parse_AtFollowOfSpecifiers none specList q := by
  unfold parseDeclaration
  have he : specList.isEmpty = false := by
    cases specList with
    | nil => exact absurd rfl hne
    | cons a l => rfl
  simp only [run_bind, hs, Res.andThen_ok, Bool.not_true, Bool.false_eq_true, if_false,
    run_peek, hq, run_pure, he]

theorem parseDeclaration_handsOn_lifted (ext : Externals)
    (parseSpecifiers : Option ExternalNode → SpecifierList → Bool → ParserM SpecifiersResult)
    (parse_AtFollowOfSpecifiers : Option DeclarationSyntax → SpecifierList → ParserM DeclResult)
    (decl : Option ExternalNode) (declScope : DeclarationScope) (p q : Parser)
    (tyDecl : ExternalNode) (specList handed : SpecifierList)
    (hs : parseSpecifiers decl [] (declScope != DeclarationScope.Block) p
      = Res.ok (true, some tyDecl, specList) q)
    (hq : q.peek 1 ≠ SemicolonToken) (hne : specList ≠ [])
    (hr : replaceTaggedTypeSpecifier (ext.typeSpecOf tyDecl)
      (SpecifierSyntax.TypeDeclarationAsSpecifier (some tyDecl)) specList
        = Except.ok handed) :
    parseDeclaration ext parseSpecifiers parse_AtFollowOfSpecifiers decl declScope p
      = parse_AtFollowOfSpecifiers none handed q := by
  unfold parseDeclaration
  have he : specList.isEmpty = false := by
    cases specList with
    | nil => exact absurd rfl hne
    | cons a l => rfl
  have he' : handed.isEmpty = false := by
    have hl := (replaceTaggedTypeSpecifier_cells _ _ _ _ hr).length_eq
    cases handed with
    | nil =>
      cases specList with
      | nil => exact absurd rfl hne
      | cons a l => cases hl
    | cons a l => rfl
  simp only [run_bind, hs, Res.andThen_ok, Bool.not_true, Bool.false_eq_true, if_false,
    run_peek, hq, run_pure, he, liftExcept, hr, he']

theorem availabilityVersion_patch (rec : ParserTable) (p : Parser)
    (h1 : p.peek 1 = FloatingConstantToken) (h2 : p.peek 2 = IntegerConstantToken) :
    parseAvailabilityVersion rec p
      = Res.ok (true, some (ExpressionSyntax.ConstantExpression FloatingConstantExpression
          (some p.curTkIdx_))) (p.advance 2) := by
  have hcons := consume_of_peek (p := p) (by rw [h1]; decide)
  have h2' : (p.advance 1).peek 1 = IntegerConstantToken := by rw [peek_advance]; exact h2
  have hcons2 := consume_of_peek (p := p.advance 1) (by rw [h2']; decide)
  unfold parseAvailabilityVersion
  simp [h1, parseConstant, parseConstant_AtFirst, isConstantToken, hcons, h2', hcons2]

theorem availabilityVersion_noPatch (rec : ParserTable) (p : Parser)
    (h1 : p.peek 1 = FloatingConstantToken) (h2 : p.peek 2 ≠ IntegerConstantToken) :
    parseAvailabilityVersion rec p
      = Res.ok (true, some (ExpressionSyntax.ConstantExpression FloatingConstantExpression
          (some p.curTkIdx_))) (p.advance 1) := by
  have hcons := consume_of_peek (p := p) (by rw [h1]; decide)
  have h2' : (p.advance 1).peek 1 ≠ IntegerConstantToken := by rw [peek_advance]; exact h2
  unfold parseAvailabilityVersion
  simp [h1, parseConstant, parseConstant_AtFirst, isConstantToken, hcons, h2']

/-- C33, as amended: what `parseDeclaration` keeps of the specifiers, and what the
version of an `availability` argument keeps. When the specifiers have been parsed with
success (leaving the type declaration `tyDecl`, or none, the list `specList` and the
state `q`): at a `;` without a type declaration the result is the incomplete declaration
that holds the whole list and the index of the `;`; at a `;` with a type declaration the
result is the type declaration with the index of the `;`, whatever the list holds, so
that the specifiers of the list other than the tagged one are held by no node; at
another token the list is handed on to `parse_AtFollowOfSpecifiers` whole, each cell
kept or, being the tagged type specifier of the type declaration, replaced by the
specifier that holds the type declaration. In the version of an `availability`
argument, the floating constant is held by the constant expression, and an integer
constant behind it, the patch component, is consumed and held by no node. -/
theorem C33_tokens_kept_by_parseDeclaration (ext : Externals)
    (parseSpecifiers : Option ExternalNode → SpecifierList → Bool → ParserM SpecifiersResult)
    (parse_AtFollowOfSpecifiers : Option DeclarationSyntax → SpecifierList →
      ParserM DeclResult)
    (decl tyDecl : Option ExternalNode) (declScope : DeclarationScope) (p q : Parser)
    (specList : SpecifierList)
    (hspecs : parseSpecifiers decl [] (declScope != DeclarationScope.Block) p
      = Res.ok (true, tyDecl, specList) q) :
    (q.peek 1 = SemicolonToken → tyDecl = none →
      parseDeclaration ext parseSpecifiers parse_AtFollowOfSpecifiers decl declScope p
        = Res.ok (true, some (DeclarationSyntax.IncompleteDeclaration specList
            (some q.curTkIdx_))) (q.advance 1))
    ∧ (q.peek 1 = SemicolonToken → ∀ typeDecl, tyDecl = some typeDecl →
      parseDeclaration ext parseSpecifiers parse_AtFollowOfSpecifiers decl declScope p
        = Res.ok (true, some (DeclarationSyntax.TypeDeclaration typeDecl
            (some q.curTkIdx_))) (q.advance 1))
    ∧ (q.peek 1 ≠ SemicolonToken → specList ≠ [] → tyDecl = none →
      parseDeclaration ext parseSpecifiers parse_AtFollowOfSpecifiers decl declScope p
        = parse_AtFollowOfSpecifiers none specList q)
    ∧ (q.peek 1 ≠ SemicolonToken → specList ≠ [] →
      ∀ (typeDecl : ExternalNode) (handed : SpecifierList), tyDecl = some typeDecl →
      replaceTaggedTypeSpecifier (ext.typeSpecOf typeDecl)
        (SpecifierSyntax.TypeDeclarationAsSpecifier (some typeDecl)) specList
          = Except.ok handed →
      parseDeclaration ext parseSpecifiers parse_AtFollowOfSpecifiers decl declScope p
          = parse_AtFollowOfSpecifiers none handed q
        ∧ List.Forall₂ (keptOrLifted (ext.typeSpecOf typeDecl)
            (SpecifierSyntax.TypeDeclarationAsSpecifier (some typeDecl))) specList handed)
    ∧ (∀ (rec : ParserTable) (u : Parser), u.peek 1 = FloatingConstantToken →
      (u.peek 2 = IntegerConstantToken →
        parseAvailabilityVersion rec u
          = Res.ok (true, some (ExpressionSyntax.ConstantExpression
              FloatingConstantExpression (some u.curTkIdx_))) (u.advance 2))
      ∧ (u.peek 2 ≠ IntegerConstantToken →
        parseAvailabilityVersion rec u
          = Res.ok (true, some (ExpressionSyntax.ConstantExpression
              FloatingConstantExpression (some u.curTkIdx_))) (u.advance 1))) := by
  refine ⟨fun hq ht => ?_, fun hq typeDecl ht => ?_, fun hq hne ht => ?_,
    fun hq hne typeDecl handed ht hr => ⟨?_, replaceTaggedTypeSpecifier_cells _ _ _ _ hr⟩,
    fun rec u h1 => ⟨availabilityVersion_patch rec u h1, availabilityVersion_noPatch rec u h1⟩⟩
  · subst ht
    exact parseDeclaration_incomplete ext parseSpecifiers parse_AtFollowOfSpecifiers decl
      declScope p q specList hspecs hq
  · subst ht
    exact parseDeclaration_typeDeclaration_semicolon ext parseSpecifiers
      parse_AtFollowOfSpecifiers decl declScope p q typeDecl specList hspecs hq
  · subst ht
    exact parseDeclaration_handsOn ext parseSpecifiers parse_AtFollowOfSpecifiers decl
      declScope p q specList hspecs hq hne
  · subst ht
    exact parseDeclaration_handsOn_lifted ext parseSpecifiers parse_AtFollowOfSpecifiers decl
      declScope p q typeDecl specList handed hspecs hq hne hr

/-- An instance of C33 as amended, with the tagged type parser of the sources: `int ;`
is the incomplete declaration that holds the specifier and the `;`;
`static struct S { int a ; } ;` is the type declaration of the struct with the index of
the last `;`; in `static struct { } x ;` the list handed on holds the storage class
specifier and, in the place of the struct specifier, the specifier that holds the type
declaration; and the version `10.12 1` is the floating constant alone, two tokens being
consumed. -/
theorem C33_tokens_kept_by_parseDeclaration_witness :
    parseDeclarationOrFunctionDefinition (Externals.ofSourceTaggedTypes 9)
        (ParserTable.ofFuel (Externals.ofSourceTaggedTypes 9) 9) none
        (Parser.start [Keyword_int, SemicolonToken])
      = Res.ok (true, some (DeclarationSyntax.IncompleteDeclaration
          [some (SpecifierSyntax.BuiltinTypeSpecifier (some 0))] (some 1)))
          ((Parser.start [Keyword_int, SemicolonToken]).advance 2)
    ∧ parseDeclarationOrFunctionDefinition (Externals.ofSourceTaggedTypes 9)
        (ParserTable.ofFuel (Externals.ofSourceTaggedTypes 9) 9) none
        (Parser.start staticStructTokens)
      = Res.ok (true, some (DeclarationSyntax.TypeDeclaration ⟨1⟩ (some 8)))
          ((Parser.start staticStructTokens).advance 9)
    ∧ (parseDeclarationOrFunctionDefinition (Externals.ofSourceTaggedTypes 9)
        (ParserTable.ofFuel (Externals.ofSourceTaggedTypes 9) 9) none
        (Parser.start staticStructVariableTokens)
      = parseDeclarationOrFunctionDefinition_AtFollowOfSpecifiers
          (Externals.ofSourceTaggedTypes 9)
          (ParserTable.ofFuel (Externals.ofSourceTaggedTypes 9) 9) none
          [some (SpecifierSyntax.StorageClass StaticStorageClass (some 0)),
            some (SpecifierSyntax.TypeDeclarationAsSpecifier (some ⟨1⟩))]
          ((Parser.start staticStructVariableTokens).advance 4)
      ∧ List.Forall₂ (keptOrLifted (some ⟨1⟩)
          (SpecifierSyntax.TypeDeclarationAsSpecifier (some ⟨1⟩)))
          [some (SpecifierSyntax.StorageClass StaticStorageClass (some 0)),
            some (SpecifierSyntax.External StructTypeSpecifier ⟨1⟩)]
          [some (SpecifierSyntax.StorageClass StaticStorageClass (some 0)),
            some (SpecifierSyntax.TypeDeclarationAsSpecifier (some ⟨1⟩))])
    ∧ parseAvailabilityVersion (ParserTable.ofFuel Externals.failing 4)
        ((Parser.start availabilityTokens).advance 9)
      = Res.ok (true, some (ExpressionSyntax.ConstantExpression FloatingConstantExpression
          (some 9))) ((Parser.start availabilityTokens).advance 11) :=
  ⟨(C33_tokens_kept_by_parseDeclaration (Externals.ofSourceTaggedTypes 9)
      (parseDeclarationSpecifiers (Externals.ofSourceTaggedTypes 9)
        (ParserTable.ofFuel (Externals.ofSourceTaggedTypes 9) 9))
      (parseDeclarationOrFunctionDefinition_AtFollowOfSpecifiers
        (Externals.ofSourceTaggedTypes 9)
        (ParserTable.ofFuel (Externals.ofSourceTaggedTypes 9) 9))
      none none DeclarationScope.File (Parser.start [Keyword_int, SemicolonToken])
      ((Parser.start [Keyword_int, SemicolonToken]).advance 1)
      [some (SpecifierSyntax.BuiltinTypeSpecifier (some 0))] rfl).1 rfl rfl,
   (C33_tokens_kept_by_parseDeclaration (Externals.ofSourceTaggedTypes 9)
      (parseDeclarationSpecifiers (Externals.ofSourceTaggedTypes 9)
        (ParserTable.ofFuel (Externals.ofSourceTaggedTypes 9) 9))
      (parseDeclarationOrFunctionDefinition_AtFollowOfSpecifiers
        (Externals.ofSourceTaggedTypes 9)
        (ParserTable.ofFuel (Externals.ofSourceTaggedTypes 9) 9))
      none (some ⟨1⟩) DeclarationScope.File (Parser.start staticStructTokens)
      ((Parser.start staticStructTokens).advance 8)
      [some (SpecifierSyntax.StorageClass StaticStorageClass (some 0)),
        some (SpecifierSyntax.External StructTypeSpecifier ⟨1⟩)] rfl).2.1 rfl ⟨1⟩ rfl,
   (C33_tokens_kept_by_parseDeclaration (Externals.ofSourceTaggedTypes 9)
      (parseDeclarationSpecifiers (Externals.ofSourceTaggedTypes 9)
        (ParserTable.ofFuel (Externals.ofSourceTaggedTypes 9) 9))
      (parseDeclarationOrFunctionDefinition_AtFollowOfSpecifiers
        (Externals.ofSourceTaggedTypes 9)
        (ParserTable.ofFuel (Externals.ofSourceTaggedTypes 9) 9))
      none (some ⟨1⟩) DeclarationScope.File (Parser.start staticStructVariableTokens)
      ((Parser.start staticStructVariableTokens).advance 4)
      [some (SpecifierSyntax.StorageClass StaticStorageClass (some 0)),
        some (SpecifierSyntax.External StructTypeSpecifier ⟨1⟩)] rfl).2.2.2.1
      (by decide) (List.cons_ne_nil _ _) ⟨1⟩
      [some (SpecifierSyntax.StorageClass StaticStorageClass (some 0)),
        some (SpecifierSyntax.TypeDeclarationAsSpecifier (some ⟨1⟩))] rfl rfl,
   ((C33_tokens_kept_by_parseDeclaration (Externals.ofSourceTaggedTypes 9)
      (parseDeclarationSpecifiers (Externals.ofSourceTaggedTypes 9)
        (ParserTable.ofFuel (Externals.ofSourceTaggedTypes 9) 9))
      (parseDeclarationOrFunctionDefinition_AtFollowOfSpecifiers
        (Externals.ofSourceTaggedTypes 9)
        (ParserTable.ofFuel (Externals.ofSourceTaggedTypes 9) 9))
      none none DeclarationScope.File (Parser.start [Keyword_int, SemicolonToken])
      ((Parser.start [Keyword_int, SemicolonToken]).advance 1)
      [some (SpecifierSyntax.BuiltinTypeSpecifier (some 0))] rfl).2.2.2.2
      (ParserTable.ofFuel Externals.failing 4)
      ((Parser.start availabilityTokens).advance 9) rfl).1 rfl⟩

/-- C33, the counterexample: a token that is consumed and held by no node of the tree,
in a translation unit parsed with success and without a diagnostic. In
`static struct S { int a ; } ;` the specifier parser gives the list of the storage class
specifier (token 0) and the struct specifier, whose node holds the tokens 1 to 7;
`parseDeclaration` then makes the declaration of the type declaration and the index of
the last `;` and leaves the list in no slot: the translation unit is the one type
declaration, and the index of `static` is in no node. In the arguments of an attribute
`availability` the integer constant behind the version (token 10) is consumed and held
by no node. -/
theorem C33_counterexample_consumed_token_in_no_node :
    parseTaggedTypeSpecifier_AtFirst (Externals.ofSourceAttributes 9)
        (ParserTable.ofFuel (Externals.ofSourceAttributes 9) 9)
        StructDeclaration StructTypeSpecifier
        (parseStructDeclaration (Externals.ofSourceAttributes 9)
          (ParserTable.ofFuel (Externals.ofSourceAttributes 9) 9))
        ((Parser.start staticStructTokens).advance 1)
      = Res.ok (true, some StructDeclaration,
          some ⟨StructTypeSpecifier, some 1, [], some 2, some 3,
            [some (DeclarationSyntax.FieldDeclaration
              [some (SpecifierSyntax.BuiltinTypeSpecifier (some 4))]
              [(some (DeclaratorSyntax.IdentifierDeclarator (some 5) [] [] none none), none)]
              (some 6))],
            some 7, []⟩)
          ((Parser.start staticStructTokens).advance 8)
    ∧ parseDeclarationSpecifiers (Externals.ofSourceTaggedTypes 9)
        (ParserTable.ofFuel (Externals.ofSourceTaggedTypes 9) 9) none [] true
        (Parser.start staticStructTokens)
      = Res.ok (true, some ⟨1⟩,
          [some (SpecifierSyntax.StorageClass StaticStorageClass (some 0)),
            some (SpecifierSyntax.External StructTypeSpecifier ⟨1⟩)])
          ((Parser.start staticStructTokens).advance 8)
    ∧ parseTranslationUnit (Externals.ofSourceTaggedTypes 9)
        (ParserTable.ofFuel (Externals.ofSourceTaggedTypes 9) 9)
        (Parser.start staticStructTokens)
      = Res.ok [some (DeclarationSyntax.TypeDeclaration ⟨1⟩ (some 8))]
          ((Parser.start staticStructTokens).advance 9)
    ∧ ((Parser.start staticStructTokens).advance 9).diagnostics = []
    ∧ parseExtGNU_AttributeSpecifier_AtFirst Externals.failing
        (ParserTable.ofFuel Externals.failing 4) (fun idx => idx == some 3)
        (Parser.start availabilityTokens)
      = Res.ok (true, some ⟨some 0, some 1, some 2,
          [(some ⟨some 3, some 4,
            [(some (ExpressionSyntax.IdentifierExpression (some 5)), some 6),
              (some (ExpressionSyntax.BinaryExpression BasicAssignmentExpression
                (some (ExpressionSyntax.IdentifierExpression (some 7))) (some 8)
                (some (ExpressionSyntax.ConstantExpression FloatingConstantExpression
                  (some 9)))), none)],
            some 11⟩, none)],
          some 12, some 13⟩)
          ((Parser.start availabilityTokens).advance 14) :=
  ⟨rfl, rfl, rfl, rfl, rfl⟩

/-! ## The subscript suffix and the scope: claim C31 -/

theorem run_checkDialect (p : Parser) : checkDialect p = Res.ok () p.afterCheckDialect := by
  unfold checkDialect Parser.afterCheckDialect
  simp only [run_bind, run_getOptions, Res.andThen_ok]
  split <;> rfl

/-- In file or block scope a subscript suffix that starts with `*`, `static` or a type
qualifier is rejected: behind the consumed `[` and `checkDialect` the diagnostic is
reported, `skipTo` is run twice, and the method returns false with the declarator as it
was given. -/
theorem directDeclaratorSuffix_rejected (ext : Externals) (rec : ParserTable)
    (decltor : Option DeclaratorSyntax) (declScope : DeclarationScope)
    (decltorVariety : DeclaratorVariety) (attrList : SpecifierList)
    (innerDecltor : Option DeclaratorSyntax) (p : Parser)
    (hopen : p.peek 1 = OpenBracketToken)
    (hstart : isAsteriskStaticOrQualifier (p.peek 2) = true)
    (hscope : declScope ≠ DeclarationScope.FunctionPrototype) :
    parseDirectDeclaratorSuffix ext rec decltor declScope decltorVariety attrList
        innerDecltor p
      = (ext.skipTo CloseBracketToken
          ((p.advance 1).afterCheckDialect.report
            (unexpectedInArrayDeclarator (p.peek 2)))).andThen (fun _ q =>
          (ext.skipTo CloseBracketToken q).andThen (fun _ q' =>
            Res.ok (false, decltor) q')) := by
  have hsc : (declScope != DeclarationScope.FunctionPrototype) = true := by
    simp [bne_iff_ne, hscope]
  have hpk : (p.advance 1).peek 1 = p.peek 2 := peek_advance p 1 1
  have hpk' : (p.advance 1).afterCheckDialect.peek 1 = p.peek 2 := by
    unfold Parser.afterCheckDialect
    split
    · exact hpk
    · exact hpk
  unfold parseDirectDeclaratorSuffix
  simp only [run_bind, run_peek, Res.andThen_ok, hopen, run_consume]
  rw [consume_of_peek (by rw [hopen]; decide)]
  simp only []
  unfold parseSubscriptSlots
  simp only [run_bind, run_peek, Res.andThen_ok, hpk]
  generalize p.peek 2 = tk at hstart hpk hpk'
  cases tk <;> first
    | (exact absurd hstart (by decide))
    | (simp only [run_bind, run_checkDialect, Res.andThen_ok, validateContext, hsc, if_true,
        run_report, unexpectedInArrayDeclarator, parseSubscriptStatic, run_pure,
        Bool.false_eq_true, if_false, reduceCtorEq]
       cases h1 : ext.skipTo CloseBracketToken
          ((p.advance 1).afterCheckDialect.report _) with
       | fault f => simp only [Res.andThen_fault]
       | ok u q =>
         simp only [Res.andThen_ok, run_pure, Bool.false_eq_true, if_false, run_bind]
         cases h2 : ext.skipTo CloseBracketToken q with
         | fault f => simp only [Res.andThen_fault]
         | ok u' q' => simp only [Res.andThen_ok, run_pure, Bool.false_eq_true, if_false])

/-- C31: a type qualifier behind `[` that an attribute specifier follows is recorded in
no node. In function-prototype scope the declarator
`a [ const __attribute__ ( ( x ) ) 1 ]` is accepted, and the subscript suffix of its array
declarator holds the attribute specifier (token 3) alone in `qualsAndAttrs1_`: the index
of `const` (token 2) is in no slot. Without the attribute, `a [ const 1 ]` has the
qualifier in `qualsAndAttrs1_`, `a [ * ]` the index of `*` in `asteriskTkIdx_`, and
`a [ static 1 ]` the index of `static` in `staticKwTkIdx_`. In file scope `a [ * ]`, and in
block scope `a [ const 1 ]`, give the diagnostic and the identifier declarator, no array
declarator. In general, in a scope other than function-prototype scope, at `[` followed
by `*`, `static` or a type qualifier, the method reports the diagnostic behind the
consumed `[`, runs `skipTo` twice, and returns false with the declarator as it was
given. -/
theorem C31_qualifier_before_attribute_is_not_recorded :
    parseDeclarator (Externals.ofSourceAttributes 4)
        (ParserTable.ofFuel (Externals.ofSourceAttributes 4) 4) none
        DeclarationScope.FunctionPrototype DeclaratorVariety.Named
        (Parser.start qualifiedAttributedArrayTokens)
      = Res.ok (true, some (DeclaratorSyntax.ArrayOrFunctionDeclarator ArrayDeclarator []
          (some (DeclaratorSyntax.IdentifierDeclarator (some 0) [] [] none none))
          (some (DeclaratorSuffixSyntax.SubscriptSuffix (some 1)
            [some (SpecifierSyntax.External ExtGNU_AttributeSpecifier ⟨3⟩)] none [] none
            (some (ExpressionSyntax.ConstantExpression IntegerConstantExpression (some 9)))
            (some 10)))
          [] none none))
          ((Parser.start qualifiedAttributedArrayTokens).advance 11)
    ∧ parseDeclarator (Externals.ofSourceAttributes 4)
        (ParserTable.ofFuel (Externals.ofSourceAttributes 4) 4) none
        DeclarationScope.FunctionPrototype DeclaratorVariety.Named
        (Parser.start [IdentifierToken, OpenBracketToken, Keyword_const,
          IntegerConstantToken, CloseBracketToken])
      = Res.ok (true, some (DeclaratorSyntax.ArrayOrFunctionDeclarator ArrayDeclarator []
          (some (DeclaratorSyntax.IdentifierDeclarator (some 0) [] [] none none))
          (some (DeclaratorSuffixSyntax.SubscriptSuffix (some 1)
            [some (SpecifierSyntax.TypeQualifier ConstQualifier (some 2))] none [] none
            (some (ExpressionSyntax.ConstantExpression IntegerConstantExpression (some 3)))
            (some 4)))
          [] none none))
          ((Parser.start [IdentifierToken, OpenBracketToken, Keyword_const,
            IntegerConstantToken, CloseBracketToken]).advance 5)
    ∧ parseDeclarator (Externals.ofSourceAttributes 4)
        (ParserTable.ofFuel (Externals.ofSourceAttributes 4) 4) none
        DeclarationScope.FunctionPrototype DeclaratorVariety.Named
        (Parser.start [IdentifierToken, OpenBracketToken, AsteriskToken, CloseBracketToken])
      = Res.ok (true, some (DeclaratorSyntax.ArrayOrFunctionDeclarator ArrayDeclarator []
          (some (DeclaratorSyntax.IdentifierDeclarator (some 0) [] [] none none))
          (some (DeclaratorSuffixSyntax.SubscriptSuffix (some 1) [] none [] (some 2) none
            (some 3)))
          [] none none))
          ((Parser.start [IdentifierToken, OpenBracketToken, AsteriskToken,
            CloseBracketToken]).advance 4)
    ∧ parseDeclarator (Externals.ofSourceAttributes 4)
        (ParserTable.ofFuel (Externals.ofSourceAttributes 4) 4) none
        DeclarationScope.FunctionPrototype DeclaratorVariety.Named
        (Parser.start [IdentifierToken, OpenBracketToken, Keyword_static,
          IntegerConstantToken, CloseBracketToken])
      = Res.ok (true, some (DeclaratorSyntax.ArrayOrFunctionDeclarator ArrayDeclarator []
          (some (DeclaratorSyntax.IdentifierDeclarator (some 0) [] [] none none))
          (some (DeclaratorSuffixSyntax.SubscriptSuffix (some 1) [] (some 2) [] none
            (some (ExpressionSyntax.ConstantExpression IntegerConstantExpression (some 3)))
            (some 4)))
          [] none none))
          ((Parser.start [IdentifierToken, OpenBracketToken, Keyword_static,
            IntegerConstantToken, CloseBracketToken]).advance 5)
    ∧ parseDeclarator (Externals.ofSourceAttributes 4)
        (ParserTable.ofFuel (Externals.ofSourceAttributes 4) 4) none
        DeclarationScope.File DeclaratorVariety.Named
        (Parser.start [IdentifierToken, OpenBracketToken, AsteriskToken, CloseBracketToken])
      = Res.ok (false, some (DeclaratorSyntax.IdentifierDeclarator (some 0) [] [] none none))
          (((Parser.start [IdentifierToken, OpenBracketToken, AsteriskToken,
            CloseBracketToken]).advance 2).report
              Diagnostic.UnexpectedPointerInArrayDeclarator)
    ∧ parseDeclarator (Externals.ofSourceAttributes 4)
        (ParserTable.ofFuel (Externals.ofSourceAttributes 4) 4) none
        DeclarationScope.Block DeclaratorVariety.Named
        (Parser.start [IdentifierToken, OpenBracketToken, Keyword_const,
          IntegerConstantToken, CloseBracketToken])
      = Res.ok (false, some (DeclaratorSyntax.IdentifierDeclarator (some 0) [] [] none none))
          (((Parser.start [IdentifierToken, OpenBracketToken, Keyword_const,
            IntegerConstantToken, CloseBracketToken]).advance 2).report
              Diagnostic.UnexpectedStaticOrTypeQualifiersInArrayDeclarator)
    ∧ (∀ (ext : Externals) (rec : ParserTable) (decltor : Option DeclaratorSyntax)
        (declScope : DeclarationScope) (decltorVariety : DeclaratorVariety)
        (attrList : SpecifierList) (innerDecltor : Option DeclaratorSyntax) (p : Parser),
        p.peek 1 = OpenBracketToken →
        isAsteriskStaticOrQualifier (p.peek 2) = true →
        declScope ≠ DeclarationScope.FunctionPrototype →
        parseDirectDeclaratorSuffix ext rec decltor declScope decltorVariety attrList
            innerDecltor p
          = (ext.skipTo CloseBracketToken
              ((p.advance 1).afterCheckDialect.report
                (unexpectedInArrayDeclarator (p.peek 2)))).andThen (fun _ q =>
              (ext.skipTo CloseBracketToken q).andThen (fun _ q' =>
                Res.ok (false, decltor) q'))) :=
  ⟨rfl, rfl, rfl, rfl, rfl, rfl,
    fun ext rec decltor declScope decltorVariety attrList innerDecltor p hopen hstart hscope =>
      directDeclaratorSuffix_rejected ext rec decltor declScope decltorVariety attrList
        innerDecltor p hopen hstart hscope⟩

/-! ## The nodes of the two alternatives: claim C34 -/

/-- What `maybeAmbiguateCastExpression` does to the store when it makes the ambiguity
node of a cast. -/
theorem ambiguate_nodes_inv (store store' : NodeStore) (expr ambiExpr : Nat)
    (o c : IndexType) (tn : Option TypeNameSyntax) (e castExpr_ binExpr_ : Option Nat)
    (hcast : store[expr]? = some (ExprCell.CastExpression o tn c e))
    (h : maybeAmbiguateCastExpression_nodes store (some expr)
      = Except.ok (store', some ambiExpr))
    (hamb : store'[ambiExpr]?
      = some (ExprCell.AmbiguousCastOrBinaryExpression castExpr_ binExpr_)) :
    ∃ prefixExpr prefixK oprtrTkIdx_ operand identTkIdx_ binExprK,
      e = some prefixExpr
        ∧ store[prefixExpr]? = some (ExprCell.PrefixUnaryExpression prefixK oprtrTkIdx_ operand)
        ∧ store' = store ++
            [ExprCell.IdentifierExpression identTkIdx_,
              ExprCell.ParenthesizedExpression o (some store.length) c,
              ExprCell.BinaryExpression binExprK (some (store.length + 1)) oprtrTkIdx_ operand,
              ExprCell.AmbiguousCastOrBinaryExpression (some expr) (some (store.length + 2))]
        ∧ ambiExpr = store.length + 3 := by
  have same : ∀ {P : Prop},
      (Except.ok (store, some expr) : Except Fault (NodeStore × Option Nat))
        = Except.ok (store', some ambiExpr) → P := by
    intro P hh
    simp only [Except.ok.injEq, Prod.mk.injEq, Option.some.injEq] at hh
    obtain ⟨h1, h2⟩ := hh
    subst h1; subst h2
    rw [hcast] at hamb
    simp at hamb
  unfold maybeAmbiguateCastExpression_nodes at h
  simp only [hcast] at h
  cases e with
  | none => simp at h
  | some prefixExpr =>
    simp only at h
    cases hp : store[prefixExpr]? with
    | none => rw [hp] at h; simp at h
    | some cell =>
      rw [hp] at h
      cases cell with
      | PrefixUnaryExpression prefixK oprtrTkIdx_ operand =>
        simp only at h
        split at h
        · exact same h
        · cases tn with
          | none => simp at h
          | some t =>
            obtain ⟨specs_, decltor_⟩ := t
            simp only at h
            cases specs_ with
            | nil => exact same h
            | cons v next =>
              cases v with
              | none => simp at h
              | some value =>
                simp only at h
                split at h
                · exact same h
                · cases value with
                  | TypedefName identTkIdx_ =>
                    simp only [Except.ok.injEq, Prod.mk.injEq, Option.some.injEq] at h
                    obtain ⟨h1, h2⟩ := h
                    exact ⟨prefixExpr, prefixK, oprtrTkIdx_, operand, identTkIdx_, _, rfl, hp,
                      h1.symm, h2.symm⟩
                  | _ => simp at h
      | _ => simp at h

/-- In a closed store that is extended, what is reachable from a node of the store is a
node of the store. -/
theorem reaches_within (store extra : NodeStore) (hclosed : store.Closed) (a x : Nat)
    (h : Reaches (store ++ extra) a x) (ha : a < store.length) : x < store.length := by
  induction h with
  | refl a => exact ha
  | step hcell hb _ ih =>
    rw [List.getElem?_append_left ha] at hcell
    exact ih (hclosed _ (List.getElem?_mem hcell) _ hb)

theorem getElem?_append_at (store extra : NodeStore) (k : Nat) :
    (store ++ extra)[store.length + k]? = extra[k]? := by
  rw [List.getElem?_append_right (Nat.le_add_right _ _)]
  simp

theorem getElem?_lt {store : NodeStore} {a : Nat} {cell : ExprCell}
    (h : store[a]? = some cell) : a < store.length := by
  by_contra hn
  rw [List.getElem?_eq_none (Nat.le_of_not_lt hn)] at h
  simp at h

/-- What is reachable from the binary expression that `maybeAmbiguateCastExpression`
makes: the three nodes made for it, and what is reachable from the operand. -/
theorem reaches_binary (store : NodeStore) (identTkIdx_ o c oprtrTkIdx_ : IndexType)
    (binExprK : SyntaxKind) (operand : Option Nat) (last : ExprCell) (x : Nat)
    (h : Reaches (store ++
        [ExprCell.IdentifierExpression identTkIdx_,
          ExprCell.ParenthesizedExpression o (some store.length) c,
          ExprCell.BinaryExpression binExprK (some (store.length + 1)) oprtrTkIdx_ operand,
          last]) (store.length + 2) x) :
    store.length ≤ x ∨ ∃ a, operand = some a ∧ Reaches (store ++
        [ExprCell.IdentifierExpression identTkIdx_,
          ExprCell.ParenthesizedExpression o (some store.length) c,
          ExprCell.BinaryExpression binExprK (some (store.length + 1)) oprtrTkIdx_ operand,
          last]) a x := by
  cases h with
  | refl => left; omega
  | step hcell hb hr =>
    rw [getElem?_append_at] at hcell
    simp only [List.getElem?_cons_succ, List.getElem?_cons_zero, Option.some.injEq] at hcell
    subst hcell
    simp only [ExprCell.children, Option.toList, List.mem_append, List.mem_singleton] at hb
    rcases hb with hb | hb
    · subst hb
      cases hr with
      | refl => left; omega
      | step hcell hb hr =>
        rw [getElem?_append_at] at hcell
        simp only [List.getElem?_cons_succ, List.getElem?_cons_zero, Option.some.injEq] at hcell
        subst hcell
        simp only [ExprCell.children, Option.toList, List.mem_singleton] at hb
        subst hb
        cases hr with
        | refl => left; omega
        | step hcell hb hr =>
          rw [show store.length = store.length + 0 from rfl, getElem?_append_at] at hcell
          simp only [List.getElem?_cons_zero, Option.some.injEq] at hcell
          subst hcell
          simp [ExprCell.children] at hb
    · cases operand with
      | none => simp at hb
      | some a =>
        simp only [List.mem_singleton] at hb
        subst hb
        exact Or.inr ⟨_, rfl, hr⟩

/-- C34, amended: the two alternatives of the ambiguity node share the operand and
nothing else. When `maybeAmbiguateCastExpression` makes the ambiguity node of a cast in a
closed store, the slot of the cast alternative holds the cast, whose operand is a prefix
expression; the slot of the binary alternative holds a binary expression whose slot
`rightExpr_` holds what the slot `expr_` of the prefix expression holds, the same node;
and a node is reachable from both alternatives exactly when it is reachable from that
operand. -/
theorem C34_alternatives_share_the_operand (store store' : NodeStore) (expr ambiExpr : Nat)
    (o c : IndexType) (tn : Option TypeNameSyntax) (e castExpr_ binExpr_ : Option Nat)
    (hclosed : store.Closed)
    (hcast : store[expr]? = some (ExprCell.CastExpression o tn c e))
    (h : maybeAmbiguateCastExpression_nodes store (some expr)
      = Except.ok (store', some ambiExpr))
    (hamb : store'[ambiExpr]?
      = some (ExprCell.AmbiguousCastOrBinaryExpression castExpr_ binExpr_)) :
    ∃ prefixExpr prefixK oprtrTkIdx_ operand binExpr binExprK leftExpr_,
      castExpr_ = some expr ∧ binExpr_ = some binExpr
        ∧ store'[expr]? = some (ExprCell.CastExpression o tn c (some prefixExpr))
        ∧ store'[prefixExpr]?
            = some (ExprCell.PrefixUnaryExpression prefixK oprtrTkIdx_ operand)
        ∧ store'[binExpr]?
            = some (ExprCell.BinaryExpression binExprK leftExpr_ oprtrTkIdx_ operand)
        ∧ ∀ x, (Reaches store' expr x ∧ Reaches store' binExpr x)
            ↔ ∃ a, operand = some a ∧ Reaches store' a x := by
  obtain ⟨prefixExpr, prefixK, oprtrTkIdx_, operand, identTkIdx_, binExprK, he, hprefix,
    hstore, hidx⟩ := ambiguate_nodes_inv store store' expr ambiExpr o c tn e castExpr_
      binExpr_ hcast h hamb
  subst he
  have hlt := getElem?_lt hcast
  have hplt := getElem?_lt hprefix
  have hcast' : store'[expr]? = some (ExprCell.CastExpression o tn c (some prefixExpr)) := by
    rw [hstore, List.getElem?_append_left hlt]; exact hcast
  have hprefix' : store'[prefixExpr]?
      = some (ExprCell.PrefixUnaryExpression prefixK oprtrTkIdx_ operand) := by
    rw [hstore, List.getElem?_append_left hplt]; exact hprefix
  have hbin : store'[store.length + 2]?
      = some (ExprCell.BinaryExpression binExprK (some (store.length + 1)) oprtrTkIdx_
          operand) := by
    rw [hstore, getElem?_append_at]; rfl
  have hambi : store'[ambiExpr]?
      = some (ExprCell.AmbiguousCastOrBinaryExpression (some expr)
          (some (store.length + 2))) := by
    rw [hidx, hstore, getElem?_append_at]; rfl
  rw [hambi] at hamb
  simp only [Option.some.injEq, ExprCell.AmbiguousCastOrBinaryExpression.injEq] at hamb
  refine ⟨prefixExpr, prefixK, oprtrTkIdx_, operand, store.length + 2, binExprK,
    some (store.length + 1), hamb.1.symm, hamb.2.symm, hcast', hprefix', hbin, ?_⟩
  intro x
  constructor
  · rintro ⟨h1, h2⟩
    rw [hstore] at h1 h2
    have hx := reaches_within store _ hclosed expr x h1 hlt
    rcases reaches_binary store identTkIdx_ o c oprtrTkIdx_ binExprK operand _ x h2 with
      hge | ⟨a, ha, hr⟩
    · omega
    · exact ⟨a, ha, by rw [hstore]; exact hr⟩
  · rintro ⟨a, ha, hr⟩
    subst ha
    refine ⟨?_, ?_⟩
    · refine Reaches.step hcast' ?_ (Reaches.step hprefix' ?_ hr)
      · simp [ExprCell.children]
      · simp [ExprCell.children]
    · refine Reaches.step hbin ?_ hr
      simp [ExprCell.children]

theorem castExampleStore_closed : castExampleStore.Closed := by
  intro cell hcell b hb
  simp only [castExampleStore, List.mem_cons, List.mem_singleton, List.not_mem_nil,
    or_false] at hcell
  rcases hcell with h | h | h <;> subst h <;>
    simp [ExprCell.children] at hb <;> subst hb <;> decide

/-- C34 at `( T ) * y`: the method makes the ambiguity node at address 6, and the
operand `y` (address 0) is the one node reachable from both alternatives. -/
theorem C34_alternatives_share_the_operand_witness :
    castExampleStore.Closed
      ∧ maybeAmbiguateCastExpression_nodes castExampleStore (some 2)
        = Except.ok (ambiguityExampleStore, some 6)
      ∧ ∃ prefixExpr prefixK oprtrTkIdx_ operand binExpr binExprK leftExpr_,
        some 2 = some 2 ∧ some 5 = some binExpr
          ∧ ambiguityExampleStore[2]?
              = some (ExprCell.CastExpression (some 0)
                  (some (TypeNameSyntax.mk [some (SpecifierSyntax.TypedefName (some 1))]
                    (some (DeclaratorSyntax.AbstractDeclarator []))))
                  (some 2) (some prefixExpr))
          ∧ ambiguityExampleStore[prefixExpr]?
              = some (ExprCell.PrefixUnaryExpression prefixK oprtrTkIdx_ operand)
          ∧ ambiguityExampleStore[binExpr]?
              = some (ExprCell.BinaryExpression binExprK leftExpr_ oprtrTkIdx_ operand)
          ∧ ∀ x, (Reaches ambiguityExampleStore 2 x ∧ Reaches ambiguityExampleStore binExpr x)
              ↔ ∃ a, operand = some a ∧ Reaches ambiguityExampleStore a x :=
  ⟨castExampleStore_closed, rfl,
    C34_alternatives_share_the_operand castExampleStore ambiguityExampleStore 2 6
      (some 0)
      (some 2)
      (some (TypeNameSyntax.mk [some (SpecifierSyntax.TypedefName (some 1))]
        (some (DeclaratorSyntax.AbstractDeclarator []))))
      (some 1) (some 2) (some 5) castExampleStore_closed rfl rfl rfl⟩

/-- C34, the counterexample: in `( T ) * y` the node of the operand `y` is reachable from
both alternatives of the ambiguity node. The method leaves the ambiguity node at address
6 with the cast (address 2) and the binary expression (address 5) in its slots; the slot
`expr_` of the prefix expression `* y` (address 1) and the slot `rightExpr_` of the
binary expression hold the same address 0, so that the node at 0 is reachable from the
cast alternative and from the binary alternative. Read as trees, the store before and
behind the method holds what the method gives on expressions. -/
theorem C34_counterexample_shared_operand :
    maybeAmbiguateCastExpression_nodes castExampleStore (some 2)
        = Except.ok (ambiguityExampleStore, some 6)
    ∧ ambiguityExampleStore[6]?
        = some (ExprCell.AmbiguousCastOrBinaryExpression (some 2) (some 5))
    ∧ ambiguityExampleStore[1]?
        = some (ExprCell.PrefixUnaryExpression PointerIndirectionExpression (some 3) (some 0))
    ∧ ambiguityExampleStore[5]?
        = some (ExprCell.BinaryExpression MultiplyExpression (some 4) (some 3) (some 0))
    ∧ Reaches ambiguityExampleStore 2 0
    ∧ Reaches ambiguityExampleStore 5 0
    ∧ maybeAmbiguateCastExpression (expressionAt castExampleStore 4 (some 2))
        = Except.ok (expressionAt ambiguityExampleStore 4 (some 6)) :=
  ⟨rfl, rfl, rfl, rfl,
    @Reaches.step ambiguityExampleStore 2 1 0
      (ExprCell.CastExpression (some 0)
        (some (TypeNameSyntax.mk [some (SpecifierSyntax.TypedefName (some 1))]
          (some (DeclaratorSyntax.AbstractDeclarator []))))
        (some 2) (some 1)) rfl (by simp [ExprCell.children])
      (@Reaches.step ambiguityExampleStore 1 0 0
        (ExprCell.PrefixUnaryExpression PointerIndirectionExpression (some 3) (some 0)) rfl
        (by simp [ExprCell.children]) (Reaches.refl 0)),
    @Reaches.step ambiguityExampleStore 5 0 0
      (ExprCell.BinaryExpression MultiplyExpression (some 4) (some 3) (some 0)) rfl
      (by simp [ExprCell.children]) (Reaches.refl 0),
    rfl⟩

end PsycheC
